import Mathlib

/-!
# Graph-pattern compiler (`src/backend/parser/parse_graph.c`)

A shallow embedding of the MATCH / CREATE pattern compiler of the parser:
pattern preprocessing (`collectNodeInfo`, `makeComponents`), the chain compiler
(`transformComponents`, `transformMatchNode`, `transformMatchRel`), the
relationship-uniqueness quals (`addQualUniqueEdges`) and the CREATE relationship
check (`transformCreateRel`).

Conventions of the embedding

* A `char *` that may be `NULL` is an `Option String`; `getCypherName` of a
  variable / label is the corresponding field (`varname`, `pathname`, `label`).
* `ereport(ERROR, ...)` is `Except.error` with one constructor per message.
* The mutable `ParseState` is passed explicitly; functions that update it
  return the new state.
* A pointer to a range-table entry is its 1-based position in `p_rtable`
  (what `RTERangeTablePosn` returns); a pointer to a target entry is its
  0-based position in the target list.
* The catalog and the enclosing name space are external; they are the
  fields of `Env`.
-/

set_option autoImplicit false

namespace ParseGraph

/-! ## Parse tree of a pattern -/

/-- The direction of a relationship, `CYPHER_REL_DIR_*`. -/
inductive CypherRelDir where
  | NONE
  | LEFT
  | RIGHT
  deriving DecidableEq, Repr, Inhabited

/-- The kind of a `BoolExpr`. -/
inductive BoolExprType where
  | AND_EXPR
  | OR_EXPR
  | NOT_EXPR
  deriving DecidableEq, Repr, Inhabited

/-- A raw (untransformed) expression of the parse tree. User expressions such as
property maps are kept abstract by `other`. -/
inductive RawNode where
  | ColumnRef (fields : List String)
  | A_Const (ival : Int)
  | FuncCall (funcname : String) (args : List RawNode)
  | A_Expr (name : String) (lexpr rexpr : RawNode)
  | TypeCast (arg : RawNode) (typeName : String)
  | A_ArrayExpr (elements : List RawNode)
  /-- the node `BoolExpr` built by `makeBoolExpr` -/
  | BoolExpr (boolop : BoolExprType) (args : List RawNode)
  /-- the node `NullTest` with `nulltesttype = IS_NULL` -/
  | NullTest (arg : RawNode)
  | other (tag : Nat)
  deriving Repr, Inhabited

/-- The node `CypherNode`: `(variable:label {prop_map})`. -/
structure CypherNode where
  /-- the name `getCypherName(cnode->variable)`, `NULL` for an anonymous node -/
  varname : Option String
  label : Option String
  prop_map : Option RawNode
  deriving Repr, Inhabited

/-- The bounds `A_Indices` of a quantified relationship. -/
structure A_Indices where
  lidx : Option Int
  uidx : Option Int
  deriving Repr, Inhabited

/-- The node `CypherRel`: `-[variable:types*varlen {prop_map}]-`. -/
structure CypherRel where
  direction : CypherRelDir
  /-- the name `getCypherName(crel->variable)` -/
  varname : Option String
  types : List String
  varlen : Option A_Indices
  prop_map : Option RawNode
  deriving Repr, Inhabited

/-- An element of `CypherPath.chain`: the list holds `CypherNode`s and
`CypherRel`s, told apart by their node tag (`IsA`). -/
inductive ChainElem where
  | node (cnode : CypherNode)
  | rel (crel : CypherRel)
  deriving Repr, Inhabited

/-- The node `CypherPath`. -/
structure CypherPath where
  /-- the name `getCypherName(p->variable)` -/
  pathname : Option String
  chain : List ChainElem
  deriving Repr, Inhabited

/-! ## Errors -/

/-- The errors raised by `ereport(ERROR, ...)` / `elog(ERROR, ...)` in the modelled
functions, one constructor per message. -/
inductive ParseError where
  /-- message `label conflict on node "%s"` -/
  | label_conflict (varname : String)
  /-- message `duplicate variable "%s"` -/
  | duplicate_variable (varname : String)
  /-- message `multiple types for relationship not supported` -/
  | multiple_types_not_supported
  /-- message `variable "%s" specified more than once` -/
  | specified_more_than_once (aliasname : String)
  /-- message `column "%s" not found (internal error)` -/
  | column_not_found (colname : String)
  /-- message `relation "%s" does not exist`, raised by the catalog lookup of
  `addRangeTableEntry` -/
  | relation_does_not_exist (relname : String)
  /-- message `only directed relationships are allowed in CREATE` -/
  | only_directed_in_create
  /-- message `only one relationship type is allowed for CREATE` -/
  | only_one_type_in_create
  /-- message `variable length relationship is not allowed for CREATE` -/
  | varlen_in_create
  /-- message `column "%s" does not exist`, raised by the analysis of a generated
  subquery -/
  | undefined_column (colname : String)
  /-- message `type %s is not composite`, raised by `lookup_rowtype_tupdesc_copy` -/
  | type_not_composite
  /-- the property map does not compile (raised inside `transformPropMap`) -/
  | prop_map_failed
  /-- message `variable type mismatch` -/
  | variable_type_mismatch
  /-- message `node or relationship is expected` -/
  | node_or_relationship_expected
  /-- a chain that does not alternate nodes and relationships, or a `NULL`
  dereference: undefined behaviour in C -/
  | undefined_behaviour
  deriving DecidableEq, Repr

/-! ## Preprocessing: `collectNodeInfo` -/

/-- The record `NodeInfo`. -/
structure NodeInfo where
  /-- variable assigned to the node -/
  varname : String
  /-- final label of the vertex -/
  labname : Option String
  /-- has property constraints? -/
  prop_constr : Bool
  deriving DecidableEq, Repr, Inhabited

/-- The function `findNodeInfo`: the first record of the list whose `varname` is
`varname`. -/
def findNodeInfo (p_node_info_list : List NodeInfo) (varname : String) : Option NodeInfo :=
  match p_node_info_list with
  | [] => none
  | ni :: rest => if ni.varname = varname then some ni else findNodeInfo rest varname

/-- Writing through the pointer returned by `findNodeInfo`: the first record
named `varname` is replaced by `ni`. -/
def storeNodeInfo (p_node_info_list : List NodeInfo) (varname : String) (ni : NodeInfo) :
    List NodeInfo :=
  match p_node_info_list with
  | [] => []
  | x :: rest =>
    if x.varname = varname then ni :: rest else x :: storeNodeInfo rest varname ni

/-- The function `addNodeInfo`, on the node-info list of the parse state. -/
def addNodeInfo (p_node_info_list : List NodeInfo) (cnode : CypherNode) :
    Except ParseError (List NodeInfo) :=
  match cnode.varname with
  | none => .ok p_node_info_list
  | some varname =>
    match findNodeInfo p_node_info_list varname with
    | none =>
      .ok (p_node_info_list ++
        [{ varname := varname, labname := cnode.label, prop_constr := cnode.prop_map.isSome }])
    | some ni =>
      match ni.labname with
      | none =>
        .ok (storeNodeInfo p_node_info_list varname
          { ni with labname := cnode.label,
                    prop_constr := ni.prop_constr || cnode.prop_map.isSome })
      | some nilab =>
        match cnode.label with
        | some labname =>
          if nilab ≠ labname then .error (.label_conflict varname)
          else
            .ok (storeNodeInfo p_node_info_list varname
              { ni with prop_constr := ni.prop_constr || cnode.prop_map.isSome })
        | none =>
          .ok (storeNodeInfo p_node_info_list varname
            { ni with prop_constr := ni.prop_constr || cnode.prop_map.isSome })

/-- The inner loop of `collectNodeInfo`: `foreach(le, p->chain)`. -/
def collectNodeInfoChain (p_node_info_list : List NodeInfo) (chain : List ChainElem) :
    Except ParseError (List NodeInfo) :=
  match chain with
  | [] => .ok p_node_info_list
  | .node cnode :: rest =>
    match addNodeInfo p_node_info_list cnode with
    | .error e => .error e
    | .ok l => collectNodeInfoChain l rest
  | .rel _ :: rest => collectNodeInfoChain p_node_info_list rest

/-- The function `collectNodeInfo`: `foreach(lp, pattern)`. -/
def collectNodeInfo (p_node_info_list : List NodeInfo) (pattern : List CypherPath) :
    Except ParseError (List NodeInfo) :=
  match pattern with
  | [] => .ok p_node_info_list
  | p :: rest =>
    match collectNodeInfoChain p_node_info_list p.chain with
    | .error e => .error e
    | .ok l => collectNodeInfo l rest

/-- The nodes of a chain, in chain order. -/
def chainNodes (chain : List ChainElem) : List CypherNode :=
  match chain with
  | [] => []
  | .node cnode :: rest => cnode :: chainNodes rest
  | .rel _ :: rest => chainNodes rest

/-- The node occurrences of a pattern, in source order. -/
def patternNodes (pattern : List CypherPath) : List CypherNode :=
  match pattern with
  | [] => []
  | p :: rest => chainNodes p.chain ++ patternNodes rest

/-- The effect of `addNodeInfo` on a list of node occurrences, one after the other
(what the two loops of `collectNodeInfo` amount to on `patternNodes`). -/
def addNodeInfoList (p_node_info_list : List NodeInfo) (nodes : List CypherNode) :
    Except ParseError (List NodeInfo) :=
  match nodes with
  | [] => .ok p_node_info_list
  | cnode :: rest =>
    match addNodeInfo p_node_info_list cnode with
    | .error e => .error e
    | .ok l => addNodeInfoList l rest

/-- Two occurrences of one variable carry two different labels. -/
def LabelConflict (nodes : List CypherNode) : Prop :=
  ∃ n1 ∈ nodes, ∃ n2 ∈ nodes, ∃ v L1 L2, n1.varname = some v ∧ n2.varname = some v ∧
    n1.label = some L1 ∧ n2.label = some L2 ∧ L1 ≠ L2

/-- What `collectNodeInfo` has established about the variable `v` once the
occurrences `nodes` are processed: `ni` is the record of `v`. -/
structure NodeInfoFor (nodes : List CypherNode) (v : String) (ni : NodeInfo) : Prop where
  name_eq : ni.varname = v
  label_iff : ∀ L, ni.labname = some L ↔
    ∃ n ∈ nodes, n.varname = some v ∧ n.label = some L
  prop_iff : ni.prop_constr = true ↔
    ∃ n ∈ nodes, n.varname = some v ∧ n.prop_map.isSome = true

/-- The invariant of the loops of `collectNodeInfo`. -/
structure NodeInfoInv (l : List NodeInfo) (ns : List CypherNode) : Prop where
  nodup : (l.map (fun x => x.varname)).Nodup
  found : ∀ v, (∃ n ∈ ns, n.varname = some v) → ∃ ni, findNodeInfo l v = some ni
  only : ∀ v ni, findNodeInfo l v = some ni → ∃ n ∈ ns, n.varname = some v
  sound : ∀ v ni, findNodeInfo l v = some ni → NodeInfoFor ns v ni
  agree : ¬ LabelConflict ns

/-! ## Sample patterns -/

/-- The pattern `(a:person)-[]->(b), (a {..})<-[]-(c:city)`. -/
def samplePattern : List CypherPath :=
  [ { pathname := none,
      chain := [.node { varname := some "a", label := some "person", prop_map := none },
                .rel { direction := .RIGHT, varname := none, types := [], varlen := none,
                       prop_map := none },
                .node { varname := some "b", label := none, prop_map := none }] },
    { pathname := none,
      chain := [.node { varname := some "a", label := none, prop_map := some (.other 0) },
                .rel { direction := .LEFT, varname := none, types := [], varlen := none,
                       prop_map := none },
                .node { varname := some "c", label := some "city", prop_map := none }] } ]

/-- The node-info list `collectNodeInfo` builds for `samplePattern`. -/
def sampleNodeInfo : List NodeInfo :=
  [ { varname := "a", labname := some "person", prop_constr := true },
    { varname := "b", labname := none, prop_constr := false },
    { varname := "c", labname := some "city", prop_constr := false } ]

/-! ## Preprocessing: `makeComponents` -/

/-- The inner loop of `arePathsConnected`: is `varname1` the variable of a node of
`chain2`? Relationships and anonymous nodes are skipped. -/
def arePathsConnectedInner (varname1 : String) (chain2 : List ChainElem) : Bool :=
  match chain2 with
  | [] => false
  | .rel _ :: rest => arePathsConnectedInner varname1 rest
  | .node cnode2 :: rest =>
    match cnode2.varname with
    | none => arePathsConnectedInner varname1 rest
    | some varname2 =>
      if varname1 = varname2 then true else arePathsConnectedInner varname1 rest

/-- The outer loop of `arePathsConnected`, over the chain of `path1`. -/
def arePathsConnectedOuter (chain1 chain2 : List ChainElem) : Bool :=
  match chain1 with
  | [] => false
  | .rel _ :: rest => arePathsConnectedOuter rest chain2
  | .node cnode1 :: rest =>
    match cnode1.varname with
    | none => arePathsConnectedOuter rest chain2
    | some varname1 =>
      if arePathsConnectedInner varname1 chain2 then true
      else arePathsConnectedOuter rest chain2

/-- The function `arePathsConnected`. -/
def arePathsConnected (path1 path2 : CypherPath) : Bool :=
  arePathsConnectedOuter path1.chain path2.chain

/-- The function `isPathConnectedTo`. A `CypherPath *` is a handle of type `α`, read
through `deref`; a component is a list of handles. -/
def isPathConnectedTo {α : Type} (deref : α → CypherPath) (path : α) (component : List α) :
    Bool :=
  match component with
  | [] => false
  | p :: rest =>
    if arePathsConnected (deref p) (deref path) then true
    else isPathConnectedTo deref path rest

/-- The first loop of `makeComponents` ("find the first connected component"): the
components before the first one connected to `p`, that component `repr`, and the
components after it; `none` when no component is connected to `p`. -/
def findFirstConnected {α : Type} (deref : α → CypherPath) (p : α)
    (components : List (List α)) : Option (List (List α) × List α × List (List α)) :=
  match components with
  | [] => none
  | c :: rest =>
    if isPathConnectedTo deref p c then some ([], c, rest)
    else
      match findFirstConnected deref p rest with
      | none => none
      | some (before, repr, after) => some (c :: before, repr, after)

/-- The second loop of `makeComponents` ("find other connected components and merge
them to `repr`"), over the cells after `repr`: a connected component is concatenated
to `repr` (`list_concat`) and its cell deleted, the others are kept in place. -/
def mergeConnected {α : Type} (deref : α → CypherPath) (p : α) (repr : List α)
    (after : List (List α)) : List α × List (List α) :=
  match after with
  | [] => (repr, [])
  | c :: rest =>
    if isPathConnectedTo deref p c then mergeConnected deref p (repr ++ c) rest
    else
      let r := mergeConnected deref p repr rest
      (r.1, c :: r.2)

/-- The body of the loop of `makeComponents` for one path `p`. -/
def makeComponentsStep {α : Type} (deref : α → CypherPath) (components : List (List α))
    (p : α) : List (List α) :=
  match findFirstConnected deref p components with
  | none => components ++ [[p]]
  | some (before, repr, after) =>
    let r := mergeConnected deref p repr after
    before ++ [r.1 ++ [p]] ++ r.2

/-- The loop of `makeComponents`, from the components built so far. -/
def makeComponentsFrom {α : Type} (deref : α → CypherPath) (components : List (List α))
    (pattern : List α) : List (List α) :=
  match pattern with
  | [] => components
  | p :: rest => makeComponentsFrom deref (makeComponentsStep deref components p) rest

/-- The function `makeComponents`. The final `Assert(components != NIL)` is not an
error of a production build and is not modelled. -/
def makeComponents {α : Type} (deref : α → CypherPath) (pattern : List α) : List (List α) :=
  makeComponentsFrom deref [] pattern

/-- Two paths share a named node variable. -/
def SharesVariable (path1 path2 : CypherPath) : Prop :=
  ∃ v, (∃ n ∈ chainNodes path1.chain, n.varname = some v) ∧
    (∃ n ∈ chainNodes path2.chain, n.varname = some v)

/-- Two paths of the pattern are linked: a sequence of paths of the pattern leads from
one to the other, each consecutive pair sharing a named node variable. -/
def Linked {α : Type} (deref : α → CypherPath) (pattern : List α) (p q : α) : Prop :=
  Relation.ReflTransGen
    (fun a b => a ∈ pattern ∧ b ∈ pattern ∧ SharesVariable (deref a) (deref b)) p q

/-- The position in the pattern of the earliest path of a component. -/
def earliest {α : Type} [DecidableEq α] (pattern : List α) (component : List α) : Nat :=
  (component.map (fun p => pattern.indexOf p)).foldr min pattern.length

/-- The pattern `(a)-[]->(b), (), (c), (b)-[]->(c)`, its paths named by their position. -/
def samplePaths : Nat → CypherPath
  | 0 => { pathname := none,
           chain := [.node { varname := some "a", label := none, prop_map := none },
                     .rel { direction := .RIGHT, varname := none, types := [], varlen := none,
                            prop_map := none },
                     .node { varname := some "b", label := none, prop_map := none }] }
  | 1 => { pathname := none,
           chain := [.node { varname := none, label := none, prop_map := none }] }
  | 2 => { pathname := none,
           chain := [.node { varname := some "c", label := none, prop_map := none }] }
  | _ => { pathname := none,
           chain := [.node { varname := some "b", label := none, prop_map := none },
                     .rel { direction := .RIGHT, varname := none, types := [], varlen := none,
                            prop_map := none },
                     .node { varname := some "c", label := none, prop_map := none }] }

/-- Invariant of the loop of `makeComponents`, partition part: after the paths `done`
the components are non-empty and hold the paths `done`, each as often as `done` does. -/
structure PartitionInv {α : Type} (done : List α) (components : List (List α)) : Prop where
  nonempty : ∀ c ∈ components, c ≠ []
  perm : components.flatten.Perm done

/-- Invariant of the loop of `makeComponents`, connectivity part: the members of a
component are linked, and a component holds every processed path that shares a variable
with one of its members. -/
structure LinkInv {α : Type} (deref : α → CypherPath) (done : List α)
    (components : List (List α)) : Prop where
  linked : ∀ c ∈ components, ∀ a ∈ c, ∀ b ∈ c, Linked deref done a b
  closed : ∀ c ∈ components, ∀ a ∈ c, ∀ b ∈ done,
    SharesVariable (deref a) (deref b) → b ∈ c

/-! ## Transformed expressions, target list, range table, parse state -/

/-- The type identifiers the compiler tests or assigns. -/
inductive Oid where
  | VERTEXOID
  | EDGEOID
  | GRAPHPATHOID
  | GRAPHIDOID
  | JSONBOID
  | VERTEXARRAYOID
  | EDGEARRAYOID
  | GRAPHIDARRAYOID
  | BOOLOID
  | INT4OID
  | other (oid : Nat)
  deriving DecidableEq, Repr, Inhabited

/-- The node `Var`: a reference to column `varattno` of range-table entry `varno`,
`varlevelsup` query levels up. -/
structure Var where
  varno : Nat
  varattno : Nat
  vartype : Oid
  varlevelsup : Nat
  deriving DecidableEq, Repr, Inhabited

/-- The transformed expression nodes built by the compiler. -/
inductive Expr where
  | Var (var : Var)
  /-- the node `Const`; `makeNullConst` gives `constisnull = true` -/
  | Const (consttype : Oid) (constisnull : Bool)
  /-- the node `RowExpr` built by `makeTypedRowExpr` -/
  | RowExpr (args : List Expr) (row_typeid : Oid)
  /-- the node `ArrayExpr` built by `makeArrayExpr` -/
  | ArrayExpr (array_typeid element_typeid : Oid) (elements : List Expr)
  /-- the result of `make_op(pstate, opname, larg, rarg)` -/
  | OpExpr (opname : String) (larg rarg : Expr)
  | BoolExpr (boolop : BoolExprType) (args : List Expr)
  /-- the node `NullTest` with `nulltesttype = IS_NULL` -/
  | NullTest (arg : Expr)
  /-- the result of `ParseFuncOrColumn` for the function `funcname` -/
  | FuncExpr (funcname : String) (args : List Expr) (funcresulttype : Oid)
  /-- the node `FieldSelect` built by `getExprField` -/
  | FieldSelect (arg : Expr) (fieldnum : Nat) (resulttype : Oid)
  /-- the node `Aggref`; `args` are the expressions of the target entries `agg->args` -/
  | Aggref (agglevelsup : Nat) (aggdirectargs : List Expr) (args : List Expr) (aggtype : Oid)
  /-- the node `SubLink`; its `Query` is given by the expressions `query_tree_mutator`
  visits in it (a subquery of its range table is a further `SubLink` among them) -/
  | SubLink (testexpr : Option Expr) (subselect : List Expr) (resulttype : Oid)
  deriving Repr, Inhabited

/-- The function `exprType`. -/
def exprType : Expr → Oid
  | .Var var => var.vartype
  | .Const consttype _ => consttype
  | .RowExpr _ row_typeid => row_typeid
  | .ArrayExpr array_typeid _ _ => array_typeid
  | .OpExpr _ _ _ => .BOOLOID
  | .BoolExpr _ _ => .BOOLOID
  | .NullTest _ => .BOOLOID
  | .FuncExpr _ _ funcresulttype => funcresulttype
  | .FieldSelect _ _ resulttype => resulttype
  | .Aggref _ _ _ aggtype => aggtype
  | .SubLink _ _ resulttype => resulttype

/-- The node `TargetEntry`. -/
structure TargetEntry where
  expr : Expr
  resno : Nat
  resname : String
  resjunk : Bool
  deriving Repr, Inhabited

/-- The function `makeTargetEntry`. -/
def makeTargetEntry (expr : Expr) (resno : Nat) (resname : String) (resjunk : Bool) :
    TargetEntry :=
  { expr := expr, resno := resno, resname := resname, resjunk := resjunk }

/-- The kind of a range-table entry. -/
inductive RTEKind where
  | RTE_RELATION
  | RTE_SUBQUERY
  | RTE_JOIN
  deriving DecidableEq, Repr, Inhabited

/-- The node `RangeTblEntry`, reduced to what the compiler reads: its kind, the alias
`eref->aliasname`, the columns `eref->colnames` with their types and, for a relation
(`relid`), the name of the relation of the graph it scans. -/
structure RangeTblEntry where
  rtekind : RTEKind
  aliasname : String
  cols : List (String × Oid)
  relname : Option String := none
  deriving Repr, Inhabited

/-- The join type of a `JoinExpr`, as far as the compiler builds them. -/
inductive JoinType where
  | JOIN_INNER
  | JOIN_LEFT
  deriving DecidableEq, Repr, Inhabited

/-- The node `JoinExpr`: `larg` and `rarg` are given by the range-table index of the
join-tree item (`RangeTblRef` or `JoinExpr`) they point to. -/
structure JoinExpr where
  jointype : JoinType
  larg : Nat
  rarg : Nat
  quals : Option Expr
  aliasname : String
  rtindex : Nat
  deriving Repr, Inhabited

/-- The record `ElemQual`. -/
structure ElemQual where
  varno : Nat
  varattno : Nat
  prop_constr : RawNode
  deriving Repr, Inhabited

/-- The record `FutureVertex`. -/
structure FutureVertex where
  varno : Nat
  varattno : Nat
  labname : String
  nullable : Bool
  expr : Option Expr
  deriving Repr, Inhabited

/-- The value `InvalidAttrNumber`. -/
def InvalidAttrNumber : Nat := 0

/-- The fields of `ParseState` the compiler uses, and the static counter `seq` of
`genUniqueName`. A range-table entry is referred to by its position in `p_rtable`,
counted from 1; an item of `p_joinlist` (a `RangeTblRef` or a `JoinExpr`) is given by
its `rtindex`, the `JoinExpr` of a join entry being the element of `p_joinexprs` at that
index. -/
structure ParseState where
  p_rtable : List RangeTblEntry
  p_joinlist : List Nat
  p_joinexprs : List (Option JoinExpr) := []
  p_resolved_qual : Option Expr := none
  p_namespace : List Nat
  p_next_resno : Nat
  p_node_info_list : List NodeInfo
  p_elem_quals : List ElemQual
  p_future_vertices : List FutureVertex
  p_is_optional_match : Bool
  p_last_edge : Option Nat
  p_vlr_initial_vid : Option RawNode
  p_vlr_initial_rte : Option Nat
  seq : Nat
  deriving Repr, Inhabited

/-- What the compiler asks of its environment: the names of the wildcard labels
(`AG_VERTEX`, `AG_EDGE` of `ag_const.h`, which is not among the sources), the catalog
(`catalog relname` is the column list of the relation `relname` of the graph, `none`
when there is no such relation), the visible columns of the enclosing name space
(`colNameToVar`), the future vertices of the enclosing parse states
(`parentFutureVertices k` for `k` levels up, `k ≥ 1`) and the expression compiler behind
`transformPropMap` (`transformExpr`, the `jsonb` type check and `resolve_future_vertex`),
which fails or returns the compiled property map and the parse state it leaves;
`graph_path` is the schema name returned by `get_graph_path()`. -/
structure Env where
  AG_VERTEX : String
  AG_EDGE : String
  graph_path : String
  catalog : String → Option (List (String × Oid))
  colNameToVar : String → Option Var
  parentFutureVertices : Nat → List FutureVertex
  transformPropMap : ParseState → RawNode → Except ParseError (Expr × ParseState)

/-- The column name `AG_ELEM_LOCAL_ID`; the header `ag_const.h` is not among the
sources, the names are those spelled out by the comment of `genEdgeUnion`
(`SELECT tableoid, ctid, id, start, "end", properties`). -/
def AG_ELEM_LOCAL_ID : String := "id"

/-- The field name `AG_ELEM_ID` of a vertex or edge value (`id(vertex)` in the comment
of `genSelectLeftVLR`). -/
def AG_ELEM_ID : String := "id"

/-- The column name `AG_START_ID`. -/
def AG_START_ID : String := "start"

/-- The column name `AG_END_ID`. -/
def AG_END_ID : String := "end"

/-- The column name `AG_ELEM_PROP_MAP`. -/
def AG_ELEM_PROP_MAP : String := "properties"

/-- The macro `EDGE_UNION_START_ID`. -/
def EDGE_UNION_START_ID : String := "_start"

/-- The macro `EDGE_UNION_END_ID`. -/
def EDGE_UNION_END_ID : String := "_end"

/-- The macro `VLR_COLNAME_START`. -/
def VLR_COLNAME_START : String := "start"

/-- The macro `VLR_COLNAME_END`. -/
def VLR_COLNAME_END : String := "end"

/-- The macro `VLR_COLNAME_LEVEL`. -/
def VLR_COLNAME_LEVEL : String := "level"

/-- The macro `VLR_COLNAME_PATH`. -/
def VLR_COLNAME_PATH : String := "path"

/-! ## Common helpers -/

/-- The function `findTarget`: the first non-junk entry named `resname`, with its
position in the list (counted from `idx`). -/
def findTargetFrom (targetList : List TargetEntry) (resname : String) (idx : Nat) :
    Option (Nat × TargetEntry) :=
  match targetList with
  | [] => none
  | te :: rest =>
    if te.resjunk then findTargetFrom rest resname (idx + 1)
    else if te.resname = resname then some (idx, te)
    else findTargetFrom rest resname (idx + 1)

/-- The function `findTarget`; a `NULL` name finds nothing. The result is the entry and
its position in the target list, which stands for the pointer to it. -/
def findTarget (targetList : List TargetEntry) (resname : Option String) :
    Option (Nat × TargetEntry) :=
  match resname with
  | none => none
  | some name => findTargetFrom targetList name 0

/-- The range-table entry at position `rtindex` (counted from 1). -/
def getRTE (pstate : ParseState) (rtindex : Nat) : Option RangeTblEntry :=
  if rtindex = 0 then none else pstate.p_rtable[rtindex - 1]?

/-- The loop of `getColumnVar` over `rte->eref->colnames`, `attrno` being the number
of the first column of `cols`. -/
def getColumnVarFrom (cols : List (String × Oid)) (colname : String) (rtindex attrno : Nat) :
    Except ParseError Var :=
  match cols with
  | [] => .error (.column_not_found colname)
  | (tmp, typ) :: rest =>
    if tmp = colname then
      .ok { varno := rtindex, varattno := attrno, vartype := typ, varlevelsup := 0 }
    else getColumnVarFrom rest colname rtindex (attrno + 1)

/-- The function `getColumnVar` for the range-table entry at position `rtindex`. -/
def getColumnVar (pstate : ParseState) (rtindex : Nat) (colname : String) :
    Except ParseError Var :=
  match getRTE pstate rtindex with
  | none => .error .undefined_behaviour
  | some rte => getColumnVarFrom rte.cols colname rtindex 1

/-- Modelled from the spec: the composite types of the graph are defined by the catalog,
which is not among the sources; a vertex value consists of (identifier, property
payload), an edge value of (identifier, start, end, property payload). The function gives
the attributes `lookup_rowtype_tupdesc_copy` finds for a type, `none` for a type that is
not one of the two. -/
def rowTypeAttrs : Oid → Option (List (String × Oid))
  | .VERTEXOID => some [("id", .GRAPHIDOID), ("properties", .JSONBOID)]
  | .EDGEOID => some [("id", .GRAPHIDOID), ("start", .GRAPHIDOID), ("end", .GRAPHIDOID),
      ("properties", .JSONBOID)]
  | _ => none

/-- The loop of `getExprField` over the attributes, `idx` counted from 0. -/
def findAttr (attrs : List (String × Oid)) (fname : String) (idx : Nat) : Option (Nat × Oid) :=
  match attrs with
  | [] => none
  | (attname, atttypid) :: rest =>
    if attname = fname then some (idx, atttypid) else findAttr rest fname (idx + 1)

/-- The function `getExprField`. -/
def getExprField (expr : Expr) (fname : String) : Except ParseError Expr :=
  match rowTypeAttrs (exprType expr) with
  | none => .error .type_not_composite
  | some attrs =>
    match findAttr attrs fname 0 with
    | none => .error .undefined_behaviour
    | some (idx, atttypid) => .ok (.FieldSelect expr (idx + 1) atttypid)

/-- The function `makeTypedRowExpr`. -/
def makeTypedRowExpr (args : List Expr) (typoid : Oid) : Expr :=
  .RowExpr args typoid

/-- The function `makeArrayExpr`. -/
def makeArrayExpr (typarray typoid : Oid) (elems : List Expr) : Expr :=
  .ArrayExpr typarray typoid elems

/-- The function `qualAndExpr`; `NULL` is `none`. -/
def qualAndExpr (qual : Option Expr) (expr : Option Expr) : Option Expr :=
  match qual, expr with
  | none, expr => expr
  | some q, none => some q
  | some (.BoolExpr .AND_EXPR args), some e => some (.BoolExpr .AND_EXPR (args ++ [e]))
  | some q, some e => some (.BoolExpr .AND_EXPR [q, e])

/-- The function `genUniqueName`: the text `<%010u>` of the 32-bit counter `seq`, which
is then incremented. -/
def genUniqueName (pstate : ParseState) : String × ParseState :=
  let digits := toString pstate.seq
  ("<" ++ String.mk (List.replicate (10 - digits.length) '0') ++ digits ++ ">",
    { pstate with seq := (pstate.seq + 1) % 2 ^ 32 })

/-- The function `makeAliasOptUnique`; the result is the alias name. -/
def makeAliasOptUnique (pstate : ParseState) (aliasname : Option String) :
    String × ParseState :=
  match aliasname with
  | none => genUniqueName pstate
  | some name => (name, pstate)

/-- The function `findRTEfromNamespace`, on the name-space items still to visit; the
result is the position of the range-table entry. -/
def findRTEfromNamespaceIn (pstate : ParseState) (items : List Nat) (refname : String) :
    Option Nat :=
  match items with
  | [] => none
  | rtindex :: rest =>
    match getRTE pstate rtindex with
    | none => findRTEfromNamespaceIn pstate rest refname
    | some rte =>
      if rte.aliasname = refname then some rtindex
      else findRTEfromNamespaceIn pstate rest refname

/-- The function `findRTEfromNamespace`. -/
def findRTEfromNamespace (pstate : ParseState) (refname : Option String) : Option Nat :=
  match refname with
  | none => none
  | some name => findRTEfromNamespaceIn pstate pstate.p_namespace name

/-- The function `addRTEtoJoinlist` for the entry at position `rtindex`; the entries the
compiler adds carry an alias, so that any entry of the same name in the name space is a
conflict. The visibility flags of the name-space item are not modelled. -/
def addRTEtoJoinlist (pstate : ParseState) (rtindex : Nat) : Except ParseError ParseState :=
  match getRTE pstate rtindex with
  | none => .error .undefined_behaviour
  | some rte =>
    match findRTEfromNamespace pstate (some rte.aliasname) with
    | some _ => .error (.specified_more_than_once rte.aliasname)
    | none =>
      .ok { pstate with p_joinlist := pstate.p_joinlist ++ [rtindex],
                        p_namespace := pstate.p_namespace ++ [rtindex] }

/-- The function `addRangeTableEntry` for the relation `relname` of the graph: the
catalog lookup fails when there is no such relation; the new entry is appended to the
range table and its position returned. -/
def addRangeTableEntry (env : Env) (pstate : ParseState) (relname : String)
    (aliasname : String) : Except ParseError (Nat × ParseState) :=
  match env.catalog relname with
  | none => .error (.relation_does_not_exist relname)
  | some cols =>
    .ok (pstate.p_rtable.length + 1,
      { pstate with p_rtable := pstate.p_rtable ++
          [{ rtekind := .RTE_RELATION, aliasname := aliasname, cols := cols,
             relname := some relname }] })

/-- The function `addRangeTableEntryForSubquery`, given the output columns of the
analysed subquery. -/
def addRangeTableEntryForSubquery (pstate : ParseState) (cols : List (String × Oid))
    (aliasname : String) : Nat × ParseState :=
  (pstate.p_rtable.length + 1,
    { pstate with p_rtable := pstate.p_rtable ++
        [{ rtekind := .RTE_SUBQUERY, aliasname := aliasname, cols := cols }] })

/-- The function `addElemQual`. -/
def addElemQual (pstate : ParseState) (varattno : Nat) (prop_constr : Option RawNode) :
    ParseState :=
  match prop_constr with
  | none => pstate
  | some pc =>
    { pstate with p_elem_quals := pstate.p_elem_quals ++
        [{ varno := InvalidAttrNumber, varattno := varattno, prop_constr := pc }] }

/-- The function `addFutureVertex`. -/
def addFutureVertex (pstate : ParseState) (varattno : Nat) (labname : String) : ParseState :=
  { pstate with p_future_vertices := pstate.p_future_vertices ++
      [{ varno := InvalidAttrNumber, varattno := varattno, labname := labname,
         nullable := pstate.p_is_optional_match, expr := none }] }

/-- The loop of `findFutureVertex`. -/
def findFutureVertexIn (future_vertices : List FutureVertex) (varno varattno : Nat) :
    Option FutureVertex :=
  match future_vertices with
  | [] => none
  | fv :: rest =>
    if fv.varno = varno ∧ fv.varattno = varattno then some fv
    else findFutureVertexIn rest varno varattno

/-- The function `findFutureVertex`: the search runs in the parse state `sublevels_up`
levels up. -/
def findFutureVertex (env : Env) (pstate : ParseState) (varno varattno sublevels_up : Nat) :
    Option FutureVertex :=
  if sublevels_up = 0 then findFutureVertexIn pstate.p_future_vertices varno varattno
  else findFutureVertexIn (env.parentFutureVertices sublevels_up) varno varattno

/-- The function `makeVertexExpr`. -/
def makeVertexExpr (pstate : ParseState) (rtindex : Nat) : Except ParseError Expr := do
  let id ← getColumnVar pstate rtindex AG_ELEM_LOCAL_ID
  let prop_map ← getColumnVar pstate rtindex AG_ELEM_PROP_MAP
  return makeTypedRowExpr [.Var id, .Var prop_map] .VERTEXOID

/-- The function `makeEdgeExpr`. -/
def makeEdgeExpr (pstate : ParseState) (rtindex : Nat) : Except ParseError Expr := do
  let id ← getColumnVar pstate rtindex AG_ELEM_LOCAL_ID
  let start ← getColumnVar pstate rtindex AG_START_ID
  let endv ← getColumnVar pstate rtindex AG_END_ID
  let prop_map ← getColumnVar pstate rtindex AG_ELEM_PROP_MAP
  return makeTypedRowExpr [.Var id, .Var start, .Var endv, .Var prop_map] .EDGEOID

/-! ## MATCH: nodes and relationships -/

/-- The value returned by `transformMatchNode` as a `Node *`: `NULL` (a placeholder for
relationships), a range-table entry, or a target entry of the target list, given by its
position in the list. -/
inductive VertexRef where
  | null
  | rte (rtindex : Nat)
  | te (idx : Nat)
  deriving DecidableEq, Repr, Inhabited

/-- The function `isZeroLengthVLR` for a relationship that is not `NULL`; the lower
bound is read without a `NULL` test. -/
def isZeroLengthVLR (crel : CypherRel) : Except ParseError Bool :=
  match crel.varlen with
  | none => .ok false
  | some indices =>
    match indices.lidx with
    | none => .error .undefined_behaviour
    | some ival => .ok (decide (ival = 0))

/-- The function `getCypherRelType`. -/
def getCypherRelType (env : Env) (crel : CypherRel) : Except ParseError String :=
  match crel.types with
  | [] => .ok env.AG_EDGE
  | [typname] => .ok typname
  | _ :: _ :: _ => .error .multiple_types_not_supported

/-- The function `getEdgeColname`. -/
def getEdgeColname (crel : CypherRel) (prev : Bool) : String :=
  if prev then
    if crel.direction = .NONE then EDGE_UNION_END_ID
    else if crel.direction = .LEFT then AG_START_ID
    else AG_END_ID
  else
    if crel.direction = .NONE then EDGE_UNION_START_ID
    else if crel.direction = .LEFT then AG_END_ID
    else AG_START_ID

/-- The test `IsA(te->expr, RowExpr) && IsA(lsecond(row->args), Const)` of
`isFutureVertexExpr` on the expression of a target entry. -/
def isFutureVertexRow (expr : Expr) : Bool :=
  match expr with
  | .RowExpr (_ :: .Const _ _ :: _) _ => true
  | _ => false

/-- The function `isFutureVertexExpr`, for a vertex that is not `NULL`. -/
def isFutureVertexExpr (targetList : List TargetEntry) (vertex : VertexRef) : Bool :=
  match vertex with
  | .te idx =>
    match targetList[idx]? with
    | some te => isFutureVertexRow te.expr
    | none => false
  | _ => false

/-- The assignment `row->args = list_make2(vid, lsecond(row->args))` of
`setFutureVertexExprId` on the expression of the target entry. -/
def setRowId (expr : Expr) (vid : Expr) : Expr :=
  match expr with
  | .RowExpr (_ :: second :: _) row_typeid => .RowExpr [vid, second] row_typeid
  | e => e

/-- The function `setFutureVertexExprId`: the row expression of the target entry at
position `idx` is updated in place. -/
def setFutureVertexExprId (pstate : ParseState) (targetList : List TargetEntry) (idx : Nat)
    (crel : CypherRel) (edge : Nat) (prev : Bool) : Except ParseError (List TargetEntry) := do
  let vid ← getColumnVar pstate edge (getEdgeColname crel prev)
  match targetList[idx]? with
  | none => .error .undefined_behaviour
  | some te => return targetList.set idx { te with expr := setRowId te.expr (.Var vid) }

/-- The function `make_op` for the operators the compiler uses. -/
def make_op (opname : String) (ltree rtree : Expr) : Expr :=
  .OpExpr opname ltree rtree

/-- The function `addQualNodeIn`. -/
def addQualNodeIn (pstate : ParseState) (targetList : List TargetEntry) (qual : Option Expr)
    (vertex : VertexRef) (crel : CypherRel) (edge : Nat) (prev : Bool) :
    Except ParseError (Option Expr × List TargetEntry) :=
  match vertex with
  | .null => .ok (qual, targetList)
  | .te idx =>
    if isFutureVertexExpr targetList (.te idx) then do
      let tl ← setFutureVertexExprId pstate targetList idx crel edge prev
      return (qual, tl)
    else if crel.varlen.isSome ∧ ¬ prev then .ok (qual, targetList)
    else
      match targetList[idx]? with
      | none => .error .undefined_behaviour
      | some te => do
        let id ← getExprField te.expr AG_ELEM_ID
        let vid ← getColumnVar pstate edge (getEdgeColname crel prev)
        return (qualAndExpr qual (some (make_op "=" id (.Var vid))), targetList)
  | .rte rtindex =>
    if crel.varlen.isSome ∧ ¬ prev then .ok (qual, targetList)
    else do
      let id ← getColumnVar pstate rtindex AG_ELEM_LOCAL_ID
      let vid ← getColumnVar pstate edge (getEdgeColname crel prev)
      return (qualAndExpr qual (some (make_op "=" (.Var id) (.Var vid))), targetList)

/-- The function `addQualRelPath`. -/
def addQualRelPath (pstate : ParseState) (qual : Option Expr) (prev_crel : CypherRel)
    (prev_edge : Nat) (crel : CypherRel) (edge : Nat) : Except ParseError (Option Expr) := do
  let prev_vid ← getColumnVar pstate prev_edge (getEdgeColname prev_crel true)
  let vid ← getColumnVar pstate edge (getEdgeColname crel false)
  return qualAndExpr qual (some (make_op "=" (.Var prev_vid) (.Var vid)))

/-- The function `setInitialVidForVLR`. -/
def setInitialVidForVLR (pstate : ParseState) (targetList : List TargetEntry)
    (crel : CypherRel) (vertex : VertexRef) (prev : Option (CypherRel × Nat)) :
    Except ParseError ParseState :=
  if crel.varlen.isNone then .ok pstate
  else if vertex = .null ∨ isFutureVertexExpr targetList vertex then
    match prev with
    | none => .ok { pstate with p_vlr_initial_vid := none, p_vlr_initial_rte := none }
    | some (prev_crel, prev_edge) =>
      match getRTE pstate prev_edge with
      | none => .error .undefined_behaviour
      | some rte =>
        .ok { pstate with
          p_vlr_initial_vid := some (.ColumnRef [rte.aliasname, getEdgeColname prev_crel true]),
          p_vlr_initial_rte := some prev_edge }
  else
    match vertex with
    | .rte rtindex =>
      match getRTE pstate rtindex with
      | none => .error .undefined_behaviour
      | some rte =>
        .ok { pstate with
          p_vlr_initial_vid := some (.ColumnRef [rte.aliasname, AG_ELEM_LOCAL_ID]),
          p_vlr_initial_rte := some rtindex }
    | .te idx =>
      match targetList[idx]? with
      | none => .error .undefined_behaviour
      | some te =>
        .ok { pstate with
          p_vlr_initial_vid := some (.FuncCall AG_ELEM_ID [.ColumnRef [te.resname]]),
          p_vlr_initial_rte := none }
    | .null => .error .undefined_behaviour

/-- The first case of `transformMatchNode`: a target entry named like the node is
already in the target list, at position `idx`. -/
def transformMatchNodeFound (pstate : ParseState) (cnode : CypherNode)
    (targetList : List TargetEntry) (idx : Nat) (te : TargetEntry) :
    Except ParseError (VertexRef × ParseState × List TargetEntry) :=
  if exprType te.expr ≠ .VERTEXOID then
    .error (.duplicate_variable (cnode.varname.getD ""))
  else
    let pstate := addElemQual pstate te.resno cnode.prop_map
    match findRTEfromNamespace pstate cnode.varname with
    | none => .ok (.te idx, pstate, targetList)
    | some rtindex => .ok (.rte rtindex, pstate, targetList)

/-- The second case of `transformMatchNode`: the variable `varname` of the node is the
visible column `col` (the pattern is within an OPTIONAL MATCH or a sub-SELECT). -/
def transformMatchNodeCol (env : Env) (pstate : ParseState) (cnode : CypherNode)
    (targetList : List TargetEntry) (varname : String) (col : Var) :
    Except ParseError (VertexRef × ParseState × List TargetEntry) :=
  if cnode.label.isSome ∨ col.vartype ≠ .VERTEXOID then
    .error (.duplicate_variable varname)
  else
    let te := makeTargetEntry (.Var col) pstate.p_next_resno varname false
    let pstate := { pstate with p_next_resno := pstate.p_next_resno + 1 }
    let pstate := addElemQual pstate te.resno cnode.prop_map
    let targetList := targetList ++ [te]
    let pstate :=
      match findFutureVertex env pstate col.varno col.varattno col.varlevelsup with
      | some fv => addFutureVertex pstate te.resno fv.labname
      | none => pstate
    .ok (.te (targetList.length - 1), pstate, targetList)

/-- The label and the property-constraint flag `transformMatchNode` works with: those
of the node itself when it is anonymous, those of its `NodeInfo` otherwise
(`Assert(ni != NULL)`), the label defaulting to `AG_VERTEX`. -/
def matchNodeLabel (env : Env) (pstate : ParseState) (cnode : CypherNode) :
    Except ParseError (String × Bool) :=
  match cnode.varname with
  | none => .ok (cnode.label.getD env.AG_VERTEX, cnode.prop_map.isSome)
  | some varname =>
    match findNodeInfo pstate.p_node_info_list varname with
    | none => .error .undefined_behaviour
    | some ni => .ok (ni.labname.getD env.AG_VERTEX, ni.prop_constr)

/-- The third case of `transformMatchNode`: the node gets a range-table entry (a scan
of the relation of its label). -/
def transformMatchNodeScan (env : Env) (pstate : ParseState) (cnode : CypherNode)
    (targetList : List TargetEntry) (labname : String) (prop_constr : Bool) :
    Except ParseError (VertexRef × ParseState × List TargetEntry) := do
  let al := makeAliasOptUnique pstate cnode.varname
  let r ← addRangeTableEntry env al.2 labname al.1
  let pstate ← addRTEtoJoinlist r.2 r.1
  if cnode.varname.isSome ∨ prop_constr then do
    let vertex ← makeVertexExpr pstate r.1
    let te := makeTargetEntry vertex pstate.p_next_resno al.1 false
    let pstate := { pstate with p_next_resno := pstate.p_next_resno + 1 }
    let pstate := addElemQual pstate te.resno cnode.prop_map
    return (.rte r.1, pstate, targetList ++ [te])
  else
    return (.rte r.1, pstate, targetList)

/-- The last case of `transformMatchNode`: the node named `varname` becomes a future
vertex, a row of two `NULL` constants in the target list. -/
def transformMatchNodeFuture (pstate : ParseState) (targetList : List TargetEntry)
    (varname : String) (labname : String) : VertexRef × ParseState × List TargetEntry :=
  let vertex := makeTypedRowExpr [.Const .GRAPHIDOID true, .Const .JSONBOID true] .VERTEXOID
  let te := makeTargetEntry vertex pstate.p_next_resno varname false
  let pstate := { pstate with p_next_resno := pstate.p_next_resno + 1 }
  let targetList := targetList ++ [te]
  let pstate := addFutureVertex pstate te.resno labname
  (.te (targetList.length - 1), pstate, targetList)

/-- The function `transformMatchNode`. -/
def transformMatchNode (env : Env) (pstate : ParseState) (cnode : CypherNode) (force : Bool)
    (targetList : List TargetEntry) :
    Except ParseError (VertexRef × ParseState × List TargetEntry) :=
  match findTarget targetList cnode.varname with
  | some (idx, te) => transformMatchNodeFound pstate cnode targetList idx te
  | none =>
    match cnode.varname.bind
        (fun varname => (env.colNameToVar varname).map (fun col => (varname, col))) with
    | some (varname, col) => transformMatchNodeCol env pstate cnode targetList varname col
    | none =>
      match matchNodeLabel env pstate cnode with
      | .error e => .error e
      | .ok (labname, prop_constr) =>
        if labname ≠ env.AG_VERTEX ∨ prop_constr ∨ force then
          transformMatchNodeScan env pstate cnode targetList labname prop_constr
        else
          match cnode.varname with
          | none => .ok (.null, pstate, targetList)
          | some varname => .ok (transformMatchNodeFuture pstate targetList varname labname)

/-- The type of the column `colname` of a relation, as the analysis of a generated
subquery over the relation finds it. -/
def columnType (cols : List (String × Oid)) (colname : String) : Except ParseError Oid :=
  match cols with
  | [] => .error (.undefined_column colname)
  | (name, typ) :: rest => if name = colname then .ok typ else columnType rest colname

/-- The output columns of the subquery built by `genEdgeUnion` over a relation with the
columns `relcols`: `tableoid, ctid, id, start, "end", properties, _start, _end`. The
system columns `tableoid` and `ctid` exist in every relation. -/
def edgeUnionCols (relcols : List (String × Oid)) : Except ParseError (List (String × Oid)) := do
  let id ← columnType relcols AG_ELEM_LOCAL_ID
  let start ← columnType relcols AG_START_ID
  let endt ← columnType relcols AG_END_ID
  let prop_map ← columnType relcols AG_ELEM_PROP_MAP
  return [("tableoid", .other 26), ("ctid", .other 27), (AG_ELEM_LOCAL_ID, id),
    (AG_START_ID, start), (AG_END_ID, endt), (AG_ELEM_PROP_MAP, prop_map),
    (EDGE_UNION_START_ID, start), (EDGE_UNION_END_ID, endt)]

/-- The function `addEdgeUnion`: the subquery of `genEdgeUnion` is analysed
(`parse_sub_analyze`, which looks the relation up) and added to the range table. -/
def addEdgeUnion (env : Env) (pstate : ParseState) (edge_label : String) (aliasname : String) :
    Except ParseError (Nat × ParseState) :=
  match env.catalog edge_label with
  | none => .error (.relation_does_not_exist edge_label)
  | some relcols => do
    let cols ← edgeUnionCols relcols
    return addRangeTableEntryForSubquery pstate cols aliasname

/-- The range-table entry of a fixed-length relationship in `transformMatchSR`: the
union of both readings of the relation for an undirected relationship, the relation
itself otherwise. -/
def addEdgeRTE (env : Env) (pstate : ParseState) (crel : CypherRel) (typname : String)
    (aliasname : String) : Except ParseError (Nat × ParseState) :=
  if crel.direction = .NONE then addEdgeUnion env pstate typname aliasname
  else addRangeTableEntry env pstate typname aliasname

/-- The function `transformMatchSR`. -/
def transformMatchSR (env : Env) (pstate : ParseState) (crel : CypherRel)
    (targetList : List TargetEntry) :
    Except ParseError (Nat × ParseState × List TargetEntry) := do
  let typname ← getCypherRelType env crel
  let al := makeAliasOptUnique pstate crel.varname
  let r ← addEdgeRTE env al.2 crel typname al.1
  let pstate ← addRTEtoJoinlist r.2 r.1
  if crel.varname.isSome ∨ crel.prop_map.isSome then do
    let edge ← makeEdgeExpr pstate r.1
    let te := makeTargetEntry edge pstate.p_next_resno al.1 false
    let pstate := { pstate with p_next_resno := pstate.p_next_resno + 1 }
    let pstate := addElemQual pstate te.resno crel.prop_map
    return (r.1, pstate, targetList ++ [te])
  else
    return (r.1, pstate, targetList)

/-- The output columns of the statement built by `genSelectWithVLR`: the end column,
the start column when the relationship has a previous relationship in its path
(`p_last_edge != NULL`), and the path column when the relationship has a variable; the
two endpoint columns are named after the direction. -/
def genSelectWithVLRCols (pstate : ParseState) (crel : CypherRel) : List (String × Oid) :=
  let startname := if crel.direction = .NONE then EDGE_UNION_START_ID else AG_START_ID
  let endname := if crel.direction = .NONE then EDGE_UNION_END_ID else AG_END_ID
  [(endname, Oid.GRAPHIDOID)]
    ++ (if pstate.p_last_edge.isSome then [(startname, Oid.GRAPHIDOID)] else [])
    ++ (if crel.varname.isSome then [(VLR_COLNAME_PATH, Oid.GRAPHIDARRAYOID)] else [])

/-- The function `transformMatchVLR`, as far as the parse state and the target list go:
the relationship type is read by `genSelectLeftVLR` (unless the relationship is
zero-length) and by `genSelectRightVLR`, the lower bound by `isZeroLengthVLR` and
`genSelectWithVLR`; the generated statement is analysed by `parse_sub_analyze`, which
looks the relation of the type up, and becomes a subquery entry of the range table with
the columns of `genSelectWithVLR`. -/
def transformMatchVLR (env : Env) (pstate : ParseState) (crel : CypherRel)
    (targetList : List TargetEntry) :
    Except ParseError (Nat × ParseState × List TargetEntry) := do
  let _ ← isZeroLengthVLR crel
  let typname ← getCypherRelType env crel
  let al := makeAliasOptUnique pstate crel.varname
  match env.catalog typname with
  | none => .error (.relation_does_not_exist typname)
  | some _ =>
    let r := addRangeTableEntryForSubquery al.2 (genSelectWithVLRCols al.2 crel) al.1
    let pstate ← addRTEtoJoinlist r.2 r.1
    match crel.varname with
    | some varname =>
      let var ← getColumnVar pstate r.1 VLR_COLNAME_PATH
      let te := makeTargetEntry (.Var var) pstate.p_next_resno varname false
      let pstate := { pstate with p_next_resno := pstate.p_next_resno + 1 }
      return (r.1, pstate, targetList ++ [te])
    | none => return (r.1, pstate, targetList)

/-- The function `transformMatchRel`. -/
def transformMatchRel (env : Env) (pstate : ParseState) (crel : CypherRel)
    (targetList : List TargetEntry) :
    Except ParseError (Nat × ParseState × List TargetEntry) :=
  match findTarget targetList crel.varname with
  | some _ => .error (.duplicate_variable (crel.varname.getD ""))
  | none =>
    match crel.varname.bind (fun varname => (env.colNameToVar varname).map (fun _ => varname)) with
    | some varname => .error (.duplicate_variable varname)
    | none =>
      if crel.varlen.isNone then transformMatchSR env pstate crel targetList
      else transformMatchVLR env pstate crel targetList

/-! ## MATCH: relationship uniqueness -/

/-- The inner loop `for_each_cell(le2, lnext(le1))` of `addQualUniqueEdges`. -/
def addQualNeq (qual : Option Expr) (eid1 : Expr) (rest : List Expr) : Option Expr :=
  match rest with
  | [] => qual
  | eid2 :: more => addQualNeq (qualAndExpr qual (some (make_op "<>" eid1 eid2))) eid1 more

/-- The inner loop `foreach(lea1, ueidarrs)` of `addQualUniqueEdges`:
`array_position(eidarr, eid1) IS NULL` for every array. -/
def addQualArrPos (qual : Option Expr) (eid1 : Expr) (ueidarrs : List Expr) : Option Expr :=
  match ueidarrs with
  | [] => qual
  | eidarr :: more =>
    addQualArrPos
      (qualAndExpr qual (some (.NullTest (.FuncExpr "array_position" [eidarr, eid1] .INT4OID))))
      eid1 more

/-- The first loop `foreach(le1, ueids)` of `addQualUniqueEdges`. -/
def addQualEids (qual : Option Expr) (ueids : List Expr) (ueidarrs : List Expr) : Option Expr :=
  match ueids with
  | [] => qual
  | eid1 :: rest =>
    addQualEids (addQualArrPos (addQualNeq qual eid1 rest) eid1 ueidarrs) rest ueidarrs

/-- The inner loop `for_each_cell(lea2, lnext(lea1))` of `addQualUniqueEdges`:
`NOT arrayoverlap(eidarr1, eidarr2)`. -/
def addQualOverlap (qual : Option Expr) (eidarr1 : Expr) (rest : List Expr) : Option Expr :=
  match rest with
  | [] => qual
  | eidarr2 :: more =>
    addQualOverlap
      (qualAndExpr qual
        (some (.BoolExpr .NOT_EXPR [.FuncExpr "arrayoverlap" [eidarr1, eidarr2] .BOOLOID])))
      eidarr1 more

/-- The second loop `foreach(lea1, ueidarrs)` of `addQualUniqueEdges`. -/
def addQualArrs (qual : Option Expr) (ueidarrs : List Expr) : Option Expr :=
  match ueidarrs with
  | [] => qual
  | eidarr1 :: rest => addQualArrs (addQualOverlap qual eidarr1 rest) rest

/-- The function `addQualUniqueEdges`. -/
def addQualUniqueEdges (qual : Option Expr) (ueids : List Expr) (ueidarrs : List Expr) :
    Option Expr :=
  addQualArrs (addQualEids qual ueids ueidarrs) ueidarrs

/-- The function `list_append_unique` on the list of edge identifiers; the elements are
`Var` nodes, compared by `equal`. -/
def list_append_unique (ueids : List Var) (eid : Var) : List Var :=
  if eid ∈ ueids then ueids else ueids ++ [eid]

/-! ## MATCH: `transformComponents` -/

/-- The function `makePathVertexExpr`. -/
def makePathVertexExpr (pstate : ParseState) (targetList : List TargetEntry)
    (obj : VertexRef) : Except ParseError Expr :=
  match obj with
  | .rte rtindex => makeVertexExpr pstate rtindex
  | .te idx =>
    match targetList[idx]? with
    | some te => .ok te.expr
    | none => .error .undefined_behaviour
  | .null => .error .undefined_behaviour

/-- The function `makeGraphpath`. -/
def makeGraphpath (vertices edges : List Expr) : Expr :=
  makeTypedRowExpr
    [makeArrayExpr .VERTEXARRAYOID .VERTEXOID vertices,
     makeArrayExpr .EDGEARRAYOID .EDGEOID edges] .GRAPHPATHOID

/-- The variables of `transformComponents` that live across the iterations of its loops:
the parse state, the target list, the qual, the edge identifiers `ueids` of the current
component, and the vertex and edge values `pvs`, `pes` of the current path. -/
structure CompState where
  pstate : ParseState
  targetList : List TargetEntry
  qual : Option Expr
  ueids : List Var
  pvs : List Expr
  pes : List Expr
  deriving Repr, Inhabited

/-- The part "uniqueness" of an iteration of the `for (;;)` loop of
`transformComponents`: the identifier of a fixed-length relationship is appended to
`ueids`, a quantified relationship leaves `ueids` as it is. -/
def collectUeid (s : CompState) (crel : CypherRel) (edge : Nat) :
    Except ParseError (List Var) :=
  if crel.varlen.isNone then
    match getColumnVar s.pstate edge AG_ELEM_LOCAL_ID with
    | .error e => .error e
    | .ok eid => .ok (list_append_unique s.ueids eid)
  else .ok s.ueids

/-- The part `if (out)` of an iteration of the `for (;;)` loop of `transformComponents`:
the vertex and edge values of a named path. -/
def collectPathValues (out : Bool) (s : CompState) (vertex : VertexRef) (edge : Nat) :
    Except ParseError (List Expr × List Expr) :=
  if out then do
    let pv ← makePathVertexExpr s.pstate s.targetList vertex
    let pe ← makeEdgeExpr s.pstate edge
    return (s.pvs ++ [pv], s.pes ++ [pe])
  else .ok (s.pvs, s.pes)

/-- The end of an iteration of the `for (;;)` loop of `transformComponents`, once the
relationship `crel` is transformed into `edge`: the part "uniqueness", the values of a
named path, and `p_last_edge`. -/
def transformEdgeTail (out : Bool) (s : CompState) (vertex : VertexRef) (crel : CypherRel)
    (edge : Nat) : Except ParseError CompState := do
  let ueids ← collectUeid s crel edge
  let pv ← collectPathValues out s vertex edge
  return { s with ueids := ueids, pvs := pv.1, pes := pv.2,
                  pstate := { s.pstate with p_last_edge := some edge } }

/-- The `for (;;)` loop of `transformComponents` from the second node of the chain on
(`prev_crel != NULL`); the result holds the last vertex of the path. A chain that does
not alternate nodes and relationships is undefined behaviour. -/
def transformChainRest (env : Env) (out : Bool) (s : CompState) (prev_crel : CypherRel)
    (prev_edge : Nat) (chain : List ChainElem) : Except ParseError (CompState × VertexRef) :=
  match chain with
  | [.node cnode] => do
    let n ← transformMatchNode env s.pstate cnode out s.targetList
    let q ← addQualNodeIn n.2.1 n.2.2 s.qual n.1 prev_crel prev_edge true
    return ({ s with pstate := n.2.1, targetList := q.2, qual := q.1 }, n.1)
  | .node cnode :: .rel crel :: rest => do
    let n ← transformMatchNode env s.pstate cnode out s.targetList
    let q ← addQualNodeIn n.2.1 n.2.2 s.qual n.1 prev_crel prev_edge true
    let pstate ← setInitialVidForVLR n.2.1 q.2 crel n.1 (some (prev_crel, prev_edge))
    let e ← transformMatchRel env pstate crel q.2
    let qual ← addQualRelPath e.2.1 q.1 prev_crel prev_edge crel e.1
    let s ← transformEdgeTail out
      { s with pstate := e.2.1, targetList := e.2.2, qual := qual } n.1 crel e.1
    transformChainRest env out s crel e.1 rest
  | _ => .error .undefined_behaviour

/-- The `for (;;)` loop of `transformComponents` for one path, from its first node
(`prev_crel == NULL`). -/
def transformChain (env : Env) (out : Bool) (s : CompState) (chain : List ChainElem) :
    Except ParseError (CompState × VertexRef) :=
  match chain with
  | [.node cnode] => do
    let n ← transformMatchNode env s.pstate cnode true s.targetList
    return ({ s with pstate := n.2.1, targetList := n.2.2 }, n.1)
  | .node cnode :: .rel crel :: rest => do
    let zero ← isZeroLengthVLR crel
    let n ← transformMatchNode env s.pstate cnode (zero || out) s.targetList
    let pstate ← setInitialVidForVLR n.2.1 n.2.2 crel n.1 none
    let e ← transformMatchRel env pstate crel n.2.2
    let q ← addQualNodeIn e.2.1 e.2.2 s.qual n.1 crel e.1 false
    let s ← transformEdgeTail out
      { s with pstate := e.2.1, targetList := q.2, qual := q.1 } n.1 crel e.1
    transformChainRest env out s crel e.1 rest
  | _ => .error .undefined_behaviour

/-- The end of the body of the loop `foreach(lp, c)`: for a named path the path value
is built and appended to the target list. -/
def transformPathEnd (s : CompState) (vertex : VertexRef) (pathname : Option String) :
    Except ParseError CompState :=
  match pathname with
  | some name =>
    match makePathVertexExpr s.pstate s.targetList vertex with
    | .error e => .error e
    | .ok pv =>
      .ok { s with
        pstate := { s.pstate with p_next_resno := s.pstate.p_next_resno + 1 },
        targetList := s.targetList ++
          [makeTargetEntry (makeGraphpath (s.pvs ++ [pv]) s.pes) s.pstate.p_next_resno name
            false] }
  | none => .ok s

/-- The body of the loop `foreach(lp, c)` of `transformComponents`: one path. -/
def transformPath (env : Env) (s : CompState) (p : CypherPath) : Except ParseError CompState :=
  let out := p.pathname.isSome
  match findTarget s.targetList p.pathname with
  | some _ => .error (.duplicate_variable (p.pathname.getD ""))
  | none =>
    match p.pathname.bind (fun pathname => (env.colNameToVar pathname).map (fun _ => pathname)) with
    | some pathname => .error (.duplicate_variable pathname)
    | none =>
      match transformChain env out
          { s with pstate := { s.pstate with p_last_edge := none }, pvs := [], pes := [] }
          p.chain with
      | .error e => .error e
      | .ok (s, vertex) => transformPathEnd s vertex p.pathname

/-- The loop `foreach(lp, c)` of `transformComponents` over the paths of one
component. -/
def transformPaths (env : Env) (s : CompState) (c : List CypherPath) :
    Except ParseError CompState :=
  match c with
  | [] => .ok s
  | p :: rest =>
    match transformPath env s p with
    | .error e => .error e
    | .ok s2 => transformPaths env s2 rest

/-- The body of the loop `foreach(lc, components)` of `transformComponents`: the edge
identifiers start from `NIL`, the paths of the component are transformed, and
`addQualUniqueEdges` is called with the identifiers and `NIL` for the path arrays. -/
def transformComponent (env : Env) (s : CompState) (c : List CypherPath) :
    Except ParseError CompState :=
  match transformPaths env { s with ueids := [] } c with
  | .error e => .error e
  | .ok s2 =>
    .ok { s2 with qual := addQualUniqueEdges s2.qual (s2.ueids.map Expr.Var) [] }

/-- The loop `foreach(lc, components)` of `transformComponents`. -/
def transformComponentsLoop (env : Env) (s : CompState) (components : List (List CypherPath)) :
    Except ParseError CompState :=
  match components with
  | [] => .ok s
  | c :: rest =>
    match transformComponent env s c with
    | .error e => .error e
    | .ok s2 => transformComponentsLoop env s2 rest

/-- The function `transformComponents`: the result is the qual, with the parse state
and the target list as they are left. -/
def transformComponents (env : Env) (pstate : ParseState)
    (components : List (List CypherPath)) (targetList : List TargetEntry) :
    Except ParseError (Option Expr × ParseState × List TargetEntry) :=
  match transformComponentsLoop env
      { pstate := pstate, targetList := targetList, qual := none, ueids := [],
        pvs := [], pes := [] } components with
  | .error e => .error e
  | .ok s => .ok (s.qual, s.pstate, s.targetList)

/-- The top-level conjuncts of a qual built by `qualAndExpr`. -/
def conjuncts (qual : Option Expr) : List Expr :=
  match qual with
  | none => []
  | some (.BoolExpr .AND_EXPR args) => args
  | some e => [e]

/-! ## A sample environment -/

/-- The columns of a vertex label relation. -/
def vertexCols : List (String × Oid) :=
  [("id", .GRAPHIDOID), ("properties", .JSONBOID)]

/-- The columns of an edge label relation. -/
def edgeCols : List (String × Oid) :=
  [("id", .GRAPHIDOID), ("start", .GRAPHIDOID), ("end", .GRAPHIDOID),
   ("properties", .JSONBOID)]

/-- A graph with the vertex labels `ag_vertex`, `person` and the edge labels `ag_edge`,
`knows`, compiled at top level (no visible column, no enclosing parse state). -/
def sampleEnv : Env :=
  { AG_VERTEX := "ag_vertex"
    AG_EDGE := "ag_edge"
    graph_path := "g"
    catalog := fun relname =>
      if relname = "ag_vertex" ∨ relname = "person" then some vertexCols
      else if relname = "ag_edge" ∨ relname = "knows" then some edgeCols
      else none
    colNameToVar := fun _ => none
    parentFutureVertices := fun _ => []
    transformPropMap := fun pstate _ => .ok (.Const .JSONBOID false, pstate) }

/-- The parse state at the start of a first MATCH clause. -/
def emptyParseState : ParseState :=
  { p_rtable := [], p_joinlist := [], p_namespace := [], p_next_resno := 1,
    p_node_info_list := [], p_elem_quals := [], p_future_vertices := [],
    p_is_optional_match := false, p_last_edge := none, p_vlr_initial_vid := none,
    p_vlr_initial_rte := none, seq := 0 }

/-- A node `(varname)` without label and property map. -/
def plainNode (varname : Option String) : ChainElem :=
  .node { varname := varname, label := none, prop_map := none }

/-- A fixed-length relationship `-[]->` without variable, type and property map. -/
def plainRel : ChainElem :=
  .rel { direction := .RIGHT, varname := none, types := [], varlen := none, prop_map := none }

/-- A quantified relationship `-[*lidx..uidx]->` without variable and type. -/
def varlenRel (lidx : Int) (uidx : Option Int) : ChainElem :=
  .rel { direction := .RIGHT, varname := none, types := [],
         varlen := some { lidx := some lidx, uidx := uidx }, prop_map := none }

/-- The component `(a)-[]->(b)-[]->(c), (c)-[]->(d)`: three fixed-length
relationships. -/
def sampleComponent : List CypherPath :=
  [ { pathname := none,
      chain := [plainNode (some "a"), plainRel, plainNode (some "b"), plainRel,
                plainNode (some "c")] },
    { pathname := none,
      chain := [plainNode (some "c"), plainRel, plainNode (some "d")] } ]

/-- The component `(a)-[]->(b)-[*1..2]->(c)-[*1..2]->(d)`: one fixed-length and two
quantified relationships. -/
def sampleVarlenComponent : List CypherPath :=
  [ { pathname := none,
      chain := [plainNode (some "a"), plainRel, plainNode (some "b"),
                varlenRel 1 (some 2), plainNode (some "c"), varlenRel 1 (some 2),
                plainNode (some "d")] } ]

/-- The parse state after `collectNodeInfo` on a pattern, from `emptyParseState`. -/
def parseStateFor (pattern : List CypherPath) : ParseState :=
  match collectNodeInfo [] pattern with
  | .ok l => { emptyParseState with p_node_info_list := l }
  | .error _ => emptyParseState

/-- The parse state with one range-table entry, the scan `e` of the edge label `knows`. -/
def sampleEdgeState : ParseState :=
  { emptyParseState with
    p_rtable := [{ rtekind := .RTE_RELATION, aliasname := "e", cols := edgeCols,
                   relname := some "knows" }] }

/-- The row of two `NULL` constants that stands for a future vertex in the target
list. -/
def futureVertexRow : Expr :=
  makeTypedRowExpr [.Const .GRAPHIDOID true, .Const .JSONBOID true] .VERTEXOID

/-- The target list holding the future vertex `a`. -/
def sampleFutureTargetList : List TargetEntry :=
  [makeTargetEntry futureVertexRow 1 "a" false]

/-! ## Specification notions for the relationship-uniqueness quals -/

/-- The relationships of a chain, in chain order. -/
def chainRels (chain : List ChainElem) : List CypherRel :=
  match chain with
  | [] => []
  | .rel crel :: rest => crel :: chainRels rest
  | .node _ :: rest => chainRels rest

/-- The number of fixed-length relationships of a chain. -/
def fixedRelCount (chain : List ChainElem) : Nat :=
  ((chainRels chain).filter (fun crel => crel.varlen.isNone)).length

/-- The number of fixed-length relationships of the paths of a component. -/
def fixedRelCountPaths (c : List CypherPath) : Nat :=
  (c.map (fun p => fixedRelCount p.chain)).sum

/-- The inequality predicates `id_a <> id_b` for the pairs of a list of identifiers, the
first identifier of a pair being the earlier one in the list. -/
def neqPairs (ueids : List Var) : List Expr :=
  match ueids with
  | [] => []
  | eid1 :: rest =>
    rest.map (fun eid2 => Expr.OpExpr "<>" (.Var eid1) (.Var eid2)) ++ neqPairs rest

/-- The predicates `addQualUniqueEdges` adds for the identifiers `ueids` and the path
arrays `ueidarrs`: for every identifier the inequalities with the later identifiers and
`array_position(arr, id) IS NULL` for every array, then `NOT arrayoverlap(arr1, arr2)`
for every pair of arrays. -/
def uniqueQualsEids (ueids : List Expr) (ueidarrs : List Expr) : List Expr :=
  match ueids with
  | [] => []
  | eid1 :: rest =>
    rest.map (fun eid2 => Expr.OpExpr "<>" eid1 eid2)
      ++ ueidarrs.map (fun arr =>
          Expr.NullTest (.FuncExpr "array_position" [arr, eid1] .INT4OID))
      ++ uniqueQualsEids rest ueidarrs

/-- The predicates `NOT arrayoverlap(arr1, arr2)` for the pairs of a list of path
arrays. -/
def uniqueQualsArrs (ueidarrs : List Expr) : List Expr :=
  match ueidarrs with
  | [] => []
  | arr1 :: rest =>
    rest.map (fun arr2 =>
        Expr.BoolExpr .NOT_EXPR [.FuncExpr "arrayoverlap" [arr1, arr2] .BOOLOID])
      ++ uniqueQualsArrs rest

/-- The states of `transformComponents` after the paths of each component, just before
`addQualUniqueEdges` is called for the component: `(m.ueids, NIL)` are the lists handed
to `addQualUniqueEdges` for the component. -/
def componentRuns (env : Env) (s : CompState) (components : List (List CypherPath)) :
    Except ParseError (List CompState) :=
  match components with
  | [] => .ok []
  | c :: rest =>
    match transformPaths env { s with ueids := [] } c with
    | .error e => .error e
    | .ok m =>
      match componentRuns env
          { m with qual := addQualUniqueEdges m.qual (m.ueids.map Expr.Var) [] } rest with
      | .error e => .error e
      | .ok ms => .ok (m :: ms)

/-- The state of `transformComponents` on entry. -/
def initCompState (pstate : ParseState) (targetList : List TargetEntry) : CompState :=
  { pstate := pstate, targetList := targetList, qual := none, ueids := [], pvs := [],
    pes := [] }

/-- An equality predicate `l = r` built by `make_op`. -/
def IsEqOp (e : Expr) : Prop := ∃ l r, e = Expr.OpExpr "=" l r

/-- The range table of `b` is that of `a` with entries appended: the positions of the
entries of `a` still denote the same entries. -/
def Extends (a b : ParseState) : Prop :=
  ∃ more, b.p_rtable = a.p_rtable ++ more

/-- What a run of the chain compiler from the state `s` to the state `s2` does to the
range table, the edge identifiers and the qual: entries are appended to the range table,
`k` identifiers are appended to `ueids`, each the column `id` of a range-table entry
added during the run, in the order of the entries, and equality predicates are appended
to the qual. -/
structure Grows (s s2 : CompState) (k : Nat) : Prop where
  ext : Extends s.pstate s2.pstate
  len_le : s.pstate.p_rtable.length ≤ s2.pstate.p_rtable.length
  ueids : ∃ newids, s2.ueids = s.ueids ++ newids ∧ newids.length = k ∧
    newids.Pairwise (fun a b => a.varno < b.varno) ∧
    ∀ v ∈ newids, s.pstate.p_rtable.length < v.varno ∧
      v.varno ≤ s2.pstate.p_rtable.length ∧
      getColumnVar s2.pstate v.varno AG_ELEM_LOCAL_ID = .ok v
  qual : ∃ eqs, conjuncts s2.qual = conjuncts s.qual ++ eqs ∧ ∀ e ∈ eqs, IsEqOp e

/-- The identifiers collected so far are columns of entries of the range table. -/
def Bounded (s : CompState) : Prop :=
  ∀ v ∈ s.ueids, v.varno ≤ s.pstate.p_rtable.length

/-- Is the expression an inequality predicate `l <> r`? -/
def isNeqOp (e : Expr) : Bool :=
  match e with
  | .OpExpr opname _ _ => decide (opname = "<>")
  | _ => false

/-- The run of the loop `foreach(lc, components)` from the state `s` to the state `s2`,
`ms` being the states after the paths of each component: for every component the
identifiers start from `NIL` and grow by the fixed-length relationships of the component,
and `addQualUniqueEdges` is applied to the result. -/
inductive Runs : CompState → List (List CypherPath) → List CompState → CompState → Prop where
  | nil (s : CompState) : Runs s [] [] s
  | cons (s m s2 : CompState) (c : List CypherPath) (cs : List (List CypherPath))
      (ms : List CompState)
      (hgrow : Grows { s with ueids := [] } m (fixedRelCountPaths c))
      (hrest : Runs { m with qual := addQualUniqueEdges m.qual (m.ueids.map Expr.Var) [] }
        cs ms s2) :
      Runs s (c :: cs) (m :: ms) s2

/-- The result of `transformComponents` on the sample component
`(a)-[]->(b)-[]->(c), (c)-[]->(d)`. -/
def sampleResult : Option Expr × ParseState × List TargetEntry :=
  match transformComponents sampleEnv (parseStateFor sampleComponent) [sampleComponent] [] with
  | .ok r => r
  | .error _ => (none, emptyParseState, [])

/-- The result of `transformComponents` on the sample component
`(a)-[]->(b)-[*1..2]->(c)-[*1..2]->(d)`. -/
def sampleVarlenResult : Option Expr × ParseState × List TargetEntry :=
  match transformComponents sampleEnv (parseStateFor sampleVarlenComponent)
      [sampleVarlenComponent] [] with
  | .ok r => r
  | .error _ => (none, emptyParseState, [])

/-- The components of the pattern `(a)-[]->(b)-[]->(c), (x)-[]->(y)`: two paths without a
common variable. -/
def twoComponents : List (List CypherPath) :=
  [ [ { pathname := none,
        chain := [plainNode (some "a"), plainRel, plainNode (some "b"), plainRel,
                  plainNode (some "c")] } ],
    [ { pathname := none,
        chain := [plainNode (some "x"), plainRel, plainNode (some "y")] } ] ]

/-- The result of `transformComponents` on `twoComponents`. -/
def twoComponentsResult : Option Expr × ParseState × List TargetEntry :=
  match transformComponents sampleEnv (parseStateFor twoComponents.flatten) twoComponents [] with
  | .ok r => r
  | .error _ => (none, emptyParseState, [])

/-! ## CREATE: relationships -/

/-- The direction of a `GraphEdge`, `GRAPH_EDGE_DIR_*`. -/
inductive GraphEdgeDir where
  | GRAPH_EDGE_DIR_NONE
  | GRAPH_EDGE_DIR_LEFT
  | GRAPH_EDGE_DIR_RIGHT
  deriving DecidableEq, Repr, Inhabited

/-- The node `GraphEdge`. -/
structure GraphEdge where
  direction : GraphEdgeDir
  /-- the field `variable`, `NULL` when the relationship has no variable -/
  varname : Option String
  label : String
  prop_map : Option Expr
  deriving Repr, Inhabited

/-- The function `transformCreateRel`. -/
def transformCreateRel (env : Env) (pstate : ParseState) (crel : CypherRel)
    (targetList : List TargetEntry) :
    Except ParseError (GraphEdge × ParseState × List TargetEntry) :=
  if crel.direction = .NONE then .error .only_directed_in_create
  else
    match crel.types with
    | [typname] =>
      if crel.varlen.isSome then .error .varlen_in_create
      else
        match findTarget targetList crel.varname with
        | some _ => .error (.duplicate_variable (crel.varname.getD ""))
        | none =>
          let st : ParseState × List TargetEntry :=
            match crel.varname with
            | some varname =>
              ({ pstate with p_next_resno := pstate.p_next_resno + 1 },
                targetList ++
                  [makeTargetEntry (.Const .EDGEOID true) pstate.p_next_resno varname false])
            | none => (pstate, targetList)
          let direction :=
            if crel.direction = .LEFT then GraphEdgeDir.GRAPH_EDGE_DIR_LEFT
            else GraphEdgeDir.GRAPH_EDGE_DIR_RIGHT
          match crel.prop_map with
          | some pm =>
            match env.transformPropMap st.1 pm with
            | .error e => .error e
            | .ok (prop_map, pstate2) =>
              .ok ({ direction := direction, varname := crel.varname, label := typname,
                     prop_map := some prop_map }, pstate2, st.2)
          | none =>
            .ok ({ direction := direction, varname := crel.varname, label := typname,
                   prop_map := none }, st.1, st.2)
    | _ => .error .only_one_type_in_create

/-- The computation never raises the error `duplicate variable`. -/
def NotDup {α : Type} (x : Except ParseError α) : Prop :=
  ∀ v, x ≠ .error (.duplicate_variable v)

/-- A target list holding the vertex `a` of an earlier clause. -/
def sampleTargetList : List TargetEntry :=
  [ { expr := .Var { varno := 1, varattno := 1, vartype := .VERTEXOID, varlevelsup := 0 },
      resno := 1, resname := "a", resjunk := false } ]

/-- The relationship `-[a:knows]->`. -/
def sampleNamedRel : CypherRel :=
  { direction := .RIGHT, varname := some "a", types := ["knows"], varlen := none,
    prop_map := none }

/-- The relationship `-[r:knows]->`. -/
def sampleCreateRel : CypherRel :=
  { direction := .RIGHT, varname := some "r", types := ["knows"], varlen := none,
    prop_map := none }

/-! ## Specification notions for the node materialization policy -/

/-- A node without variable, label and property map: purely structural. -/
def isPlainNode (cnode : CypherNode) : Bool :=
  cnode.varname.isNone && cnode.label.isNone && cnode.prop_map.isNone

/-- The relationship is quantified with the lower bound 0. -/
def hasZeroMin (crel : CypherRel) : Bool :=
  match crel.varlen with
  | none => false
  | some indices =>
    match indices.lidx with
    | none => false
    | some ival => decide (ival = 0)

/-- The number of nodes of a chain that the caller is said to force: the single node of a
one-element chain; the first node of a longer chain when its first relationship is
quantified with the lower bound 0; every node when the path is named. -/
def forcedNodeCount (named : Bool) (chain : List ChainElem) : Nat :=
  match chain with
  | [.node _] => 1
  | .node _ :: .rel crel :: rest =>
    (if named ∨ hasZeroMin crel then 1 else 0)
      + (if named then (chainNodes rest).length else 0)
  | _ => 0

/-- The path `p = (a)-[]->(b)`. -/
def sampleNamedPath : CypherPath :=
  { pathname := some "p", chain := [plainNode (some "a"), plainRel, plainNode (some "b")] }

/-- The path `(a)-[*0..1]->(b)`. -/
def sampleZeroPath : CypherPath :=
  { pathname := none,
    chain := [plainNode (some "a"), varlenRel 0 (some 1), plainNode (some "b")] }

/-- The path `(a)-[]->(b)`. -/
def sampleUnnamedPath : CypherPath :=
  { pathname := none, chain := [plainNode (some "a"), plainRel, plainNode (some "b")] }

/-- The node `(a)`. -/
def sampleNodeA : CypherNode :=
  { varname := some "a", label := none, prop_map := none }

/-- The result of `transformComponents` on the pattern `p = (a)-[]->(b)`. -/
def namedPathResult : Option Expr × ParseState × List TargetEntry :=
  match transformComponents sampleEnv (parseStateFor [sampleNamedPath]) [[sampleNamedPath]]
      [] with
  | .ok r => r
  | .error _ => (none, emptyParseState, [])

/-- The result of `transformComponents` on the pattern `(a)-[*0..1]->(b)`. -/
def zeroPathResult : Option Expr × ParseState × List TargetEntry :=
  match transformComponents sampleEnv (parseStateFor [sampleZeroPath]) [[sampleZeroPath]]
      [] with
  | .ok r => r
  | .error _ => (none, emptyParseState, [])

/-! ## Future vertices across clauses -/

/-- The function `removeResolvedFutureVertices`: the cells whose vertex is resolved
(`fv->expr != NULL`) are deleted. -/
def removeResolvedFutureVertices (future_vertices : List FutureVertex) : List FutureVertex :=
  match future_vertices with
  | [] => []
  | fv :: rest =>
    if fv.expr.isNone then fv :: removeResolvedFutureVertices rest
    else removeResolvedFutureVertices rest

/-- The loop `foreach(lt, rte->subquery->targetList)` of `adjustFutureVertices` for one
future vertex, from the entries still to visit: the vertex as the loop leaves it, and the
flag `found`. The loop goes on after a match, comparing the later entries with the fields
of the vertex as just rewritten. -/
def adjustFutureVertexIn (targetList : List TargetEntry) (rtindex : Nat) (fv : FutureVertex)
    (found : Bool) : FutureVertex × Bool :=
  match targetList with
  | [] => (fv, found)
  | te :: rest =>
    if exprType te.expr ≠ .VERTEXOID then adjustFutureVertexIn rest rtindex fv found
    else
      match te.expr with
      | .Var var =>
        if var.varno = fv.varno ∧ var.varattno = fv.varattno ∧ var.varlevelsup = 0 then
          adjustFutureVertexIn rest rtindex { fv with varno := rtindex, varattno := te.resno }
            true
        else adjustFutureVertexIn rest rtindex fv found
      | _ => adjustFutureVertexIn rest rtindex fv found

/-- The loop of `adjustFutureVertices` over the future vertices: the list as the local
variable `future_vertices` holds it at the end. -/
def adjustFutureVerticesLoop (future_vertices : List FutureVertex)
    (targetList : List TargetEntry) (rtindex : Nat) : List FutureVertex :=
  match future_vertices with
  | [] => []
  | fv :: rest =>
    if fv.varno = InvalidAttrNumber then
      { fv with varno := rtindex } :: adjustFutureVerticesLoop rest targetList rtindex
    else
      let r := adjustFutureVertexIn targetList rtindex fv false
      if r.2 then r.1 :: adjustFutureVerticesLoop rest targetList rtindex
      else adjustFutureVerticesLoop rest targetList rtindex

/-- The function `adjustFutureVertices`, given the target list of the subquery of `rte`:
the list of the caller after the call. The function returns nothing and updates the list
in place; when every cell of a list is deleted, `list_delete_cell` frees the list itself
and the pointer of the caller is left dangling, which is undefined behaviour. -/
def adjustFutureVertices (future_vertices : List FutureVertex)
    (targetList : List TargetEntry) (rtindex : Nat) : Except ParseError (List FutureVertex) :=
  let r := adjustFutureVerticesLoop future_vertices targetList rtindex
  if r.isEmpty ∧ ¬ future_vertices.isEmpty then .error .undefined_behaviour else .ok r

/-- The function `adjustElemQuals`. -/
def adjustElemQuals (elem_quals : List ElemQual) (rtindex : Nat) : List ElemQual :=
  elem_quals.map (fun eq => { eq with varno := rtindex })

/-- What `transformStmt` leaves of the clause it transforms in the child parse state: the
target list of the query and the pending lists of the child parse state. -/
structure ClauseResult where
  targetList : List TargetEntry
  p_elem_quals : List ElemQual
  p_future_vertices : List FutureVertex
  deriving Repr, Inhabited

/-- The output columns of a query: its target entries that are not junk. -/
def queryCols (targetList : List TargetEntry) : List (String × Oid) :=
  (targetList.filter (fun te => !te.resjunk)).map (fun te => (te.resname, exprType te.expr))

/-- The function `transformClauseImpl` after `transformStmt` has transformed the clause
into `child`: the query becomes a subquery entry of the range table, the pending
property constraints and the unresolved future vertices of the child are carried over. -/
def transformClauseImpl (pstate : ParseState) (child : ClauseResult) (aliasname : String) :
    Except ParseError (Nat × ParseState) := do
  let pstate := { pstate with p_elem_quals := child.p_elem_quals }
  let r := addRangeTableEntryForSubquery pstate (queryCols child.targetList) aliasname
  let pstate := { r.2 with p_elem_quals := adjustElemQuals r.2.p_elem_quals r.1 }
  let future_vertices := removeResolvedFutureVertices child.p_future_vertices
  let future_vertices ← adjustFutureVertices future_vertices child.targetList r.1
  return (r.1,
    { pstate with p_future_vertices := pstate.p_future_vertices ++ future_vertices })

/-- The macro `CYPHER_SUBQUERY_ALIAS`. -/
def CYPHER_SUBQUERY_ALIAS : String := "_"

/-- The vertex column `varattno` of the range-table entry `varno`. -/
def vertexColumn (varno varattno : Nat) : Var :=
  { varno := varno, varattno := varattno, vartype := .VERTEXOID, varlevelsup := 0 }

/-- What the clause `WITH b, a` leaves after `MATCH (a)-[]->(b)`, whose two future vertices
`a` and `b` are the columns 1 and 2 of the subquery 1: the two columns are exported in
swapped order, and both vertices are still unresolved. -/
def swappedClause : ClauseResult :=
  { targetList :=
      [makeTargetEntry (.Var (vertexColumn 1 2)) 1 "b" false,
       makeTargetEntry (.Var (vertexColumn 1 1)) 2 "a" false]
    p_elem_quals := []
    p_future_vertices :=
      [{ varno := 1, varattno := 1, labname := "ag_vertex", nullable := false, expr := none },
       { varno := 1, varattno := 2, labname := "ag_vertex", nullable := false, expr := none }] }

/-! ## Resolving future vertices -/

/-- The macro `FVR_DONT_RESOLVE`. -/
def FVR_DONT_RESOLVE : Nat := 1

/-- The macro `FVR_IGNORE_NULLABLE`. -/
def FVR_IGNORE_NULLABLE : Nat := 2

/-- The macro `FVR_PRESERVE_VAR_REF`. -/
def FVR_PRESERVE_VAR_REF : Nat := 4

/-- The function `make_parsestate`: a fresh parse state below `parentParseState`; the
static counter of `genUniqueName` is shared. -/
def make_parsestate (parentParseState : ParseState) : ParseState :=
  { p_rtable := [], p_joinlist := [], p_namespace := [], p_next_resno := 1,
    p_node_info_list := [], p_elem_quals := [], p_future_vertices := [],
    p_is_optional_match := false, p_last_edge := none, p_vlr_initial_vid := none,
    p_vlr_initial_rte := none, seq := parentParseState.seq }

/-- The function `makeVertexRTE`: the query `SELECT (id, properties)::vertex AS varname
FROM labname AS varname` is built in a child parse state and becomes a subquery entry
named `varname` of the range table of `parentParseState`. -/
def makeVertexRTE (env : Env) (parentParseState : ParseState) (varname labname : String) :
    Except ParseError (Nat × ParseState) := do
  let pstate := make_parsestate parentParseState
  let r ← addRangeTableEntry env pstate labname varname
  let pstate ← addRTEtoJoinlist r.2 r.1
  let vertex ← makeVertexExpr pstate r.1
  let te := makeTargetEntry vertex pstate.p_next_resno varname false
  return addRangeTableEntryForSubquery parentParseState (queryCols [te]) varname

/-- The columns of a range-table entry as `expandRTE` gives them: the names and the
`Var` nodes, `attrno` being the number of the first column of `cols`. -/
def expandCols (cols : List (String × Oid)) (rtindex attrno : Nat) : List (String × Var) :=
  match cols with
  | [] => []
  | (name, typ) :: rest =>
    (name, { varno := rtindex, varattno := attrno, vartype := typ, varlevelsup := 0 })
      :: expandCols rest rtindex (attrno + 1)

/-- The function `expandRTE` for the entry at position `rtindex`. -/
def expandRTE (rte : RangeTblEntry) (rtindex : Nat) : List (String × Var) :=
  expandCols rte.cols rtindex 1

/-- The inner loop `forboth(lname, *res_colnames, lvar, *res_colvars)` of
`makeJoinResCols`: the variable of the first column named `r_colname`. -/
def findResCol (res_cols : List (String × Var)) (r_colname : String) : Option Var :=
  match res_cols with
  | [] => none
  | (colname, var) :: rest =>
    if r_colname = colname then some var else findResCol rest r_colname

/-- The loop `forboth(r_lname, r_colnames, r_lvar, r_colvars)` of `makeJoinResCols`;
`cols` are the lists `colnames` and `colvars` collected so far. -/
def makeJoinResColsLoop (res_cols : List (String × Var)) (r_cols : List (String × Var))
    (cols : List (String × Var)) : Except ParseError (List (String × Var)) :=
  match r_cols with
  | [] => .ok cols
  | (r_colname, r_var) :: rest =>
    match findResCol res_cols r_colname with
    | none => makeJoinResColsLoop res_cols rest (cols ++ [(r_colname, r_var)])
    | some var =>
      if var.vartype ≠ r_var.vartype then .error .variable_type_mismatch
      else if var.vartype ≠ .VERTEXOID ∧ var.vartype ≠ .EDGEOID then
        .error .node_or_relationship_expected
      else makeJoinResColsLoop res_cols rest cols

/-- The function `makeJoinResCols`, on the expanded columns of the two entries; the lists
`*res_colnames` and `*res_colvars` are one list of pairs. -/
def makeJoinResCols (res_cols l_cols r_cols : List (String × Var)) :
    Except ParseError (List (String × Var)) := do
  let res_cols := res_cols ++ l_cols
  let cols ← makeJoinResColsLoop res_cols r_cols []
  return res_cols ++ cols

/-- The function `incrementalJoinRTEs` for the entries at the positions `l_rtindex` and
`r_rtindex`: the join-tree item of the left entry is replaced by a `JoinExpr` of it with
the right entry, which gets a join entry of the range table; the right entry and the
join entry are added to the name space. -/
def incrementalJoinRTEs (pstate : ParseState) (jointype : JoinType) (l_rtindex r_rtindex : Nat)
    (qual : Option Expr) (aliasname : String) : Except ParseError (Nat × ParseState) :=
  if l_rtindex ∉ pstate.p_joinlist then .error .undefined_behaviour
  else
    match getRTE pstate l_rtindex, getRTE pstate r_rtindex with
    | some l_rte, some r_rte => do
      let res ← makeJoinResCols [] (expandRTE l_rte l_rtindex) (expandRTE r_rte r_rtindex)
      let rtindex := pstate.p_rtable.length + 1
      let j : JoinExpr :=
        { jointype := jointype, larg := l_rtindex, rarg := r_rtindex, quals := qual,
          aliasname := aliasname, rtindex := rtindex }
      return (rtindex,
        { pstate with
          p_rtable := pstate.p_rtable ++
            [{ rtekind := .RTE_JOIN, aliasname := aliasname,
               cols := res.map (fun c => (c.1, c.2.vartype)) }]
          p_joinexprs := pstate.p_joinexprs
            ++ List.replicate (rtindex - 1 - pstate.p_joinexprs.length) none ++ [some j]
          p_joinlist := pstate.p_joinlist.erase l_rtindex ++ [rtindex]
          p_namespace := pstate.p_namespace ++ [r_rtindex, rtindex] })
    | _, _ => .error .undefined_behaviour

/-- The variable `make_var` builds for the column `varattno` of the entry at position
`rtindex`, with the name of the column; the target entry `get_tle_by_resno` finds in the
subquery of the entry is the one of that column. -/
def make_var (pstate : ParseState) (rtindex varattno : Nat) : Except ParseError (String × Var) :=
  match getRTE pstate rtindex with
  | none => .error .undefined_behaviour
  | some rte =>
    if varattno = 0 then .error .undefined_behaviour
    else
      match rte.cols[varattno - 1]? with
      | none => .error .undefined_behaviour
      | some (name, typ) =>
        .ok (name, { varno := rtindex, varattno := varattno, vartype := typ, varlevelsup := 0 })

/-- The last part of `resolveFutureVertex`: the scan `rte` of the vertex is put into the
join tree, as a plain item with the qual added to `p_resolved_qual` when
`ignore_nullable` is set, joined to the last item of the join list otherwise (a left join
for a nullable future vertex, an inner join for the others). -/
def joinResolvedVertex (pstate : ParseState) (nullable : Bool) (rte : Nat) (qual : Expr)
    (ignore_nullable : Bool) : Except ParseError ParseState :=
  if ignore_nullable then do
    let pstate ← addRTEtoJoinlist pstate rte
    return { pstate with p_resolved_qual := qualAndExpr pstate.p_resolved_qual (some qual) }
  else
    let jointype := if nullable then JoinType.JOIN_LEFT else JoinType.JOIN_INNER
    match pstate.p_joinlist.getLast? with
    | none => .error .undefined_behaviour
    | some l_rtindex =>
      match incrementalJoinRTEs pstate jointype l_rtindex rte (some qual)
          CYPHER_SUBQUERY_ALIAS with
      | .error e => .error e
      | .ok r => .ok r.2

/-- The function `resolveFutureVertex` for the future vertex at position `idx` of
`p_future_vertices`. The call `ParseFuncOrColumn(id, vertex)` on the vertex value is the
projection of its column `id`, the `FieldSelect` that `getExprField` builds. -/
def resolveFutureVertex (env : Env) (pstate : ParseState) (idx : Nat) (ignore_nullable : Bool) :
    Except ParseError ParseState :=
  match pstate.p_future_vertices[idx]? with
  | none => .error .undefined_behaviour
  | some fv => do
    let fv_var ← make_var pstate fv.varno fv.varattno
    let fv_id ← getExprField (.Var fv_var.2) AG_ELEM_ID
    let r ← makeVertexRTE env pstate fv_var.1 fv.labname
    let vertex ← getColumnVar r.2 r.1 fv_var.1
    let id ← getExprField (.Var vertex) AG_ELEM_ID
    let qual := make_op "=" fv_id id
    let pstate ← joinResolvedVertex r.2 fv.nullable r.1 qual ignore_nullable
    return { pstate with
      p_future_vertices := pstate.p_future_vertices.set idx { fv with expr := some (.Var vertex) } }

/-- The loop of `findFutureVertex` with the position of the future vertex it finds, which
stands for the pointer to it; `idx` is the position of the first element. -/
def findFutureVertexPos (future_vertices : List FutureVertex) (varno varattno idx : Nat) :
    Option (Nat × FutureVertex) :=
  match future_vertices with
  | [] => none
  | fv :: rest =>
    if fv.varno = varno ∧ fv.varattno = varattno then some (idx, fv)
    else findFutureVertexPos rest varno varattno (idx + 1)

/-- The end of the case `IsA(node, Var)` of `resolve_future_vertex_mutator`: the copy of
the resolved vertex that replaces the variable. -/
def copyResolvedVar (flags sublevels_up : Nat) (fv : FutureVertex) :
    Except ParseError Expr :=
  match fv.expr with
  | some (.Var newvar) =>
    let newvar :=
      if flags &&& FVR_PRESERVE_VAR_REF ≠ 0 then
        { newvar with varno := fv.varno, varattno := fv.varattno }
      else newvar
    .ok (.Var { newvar with varlevelsup := sublevels_up })
  | _ => .error .undefined_behaviour

/-- The case `IsA(node, Var)` of `resolve_future_vertex_mutator`. -/
def resolveVar (env : Env) (flags sublevels_up : Nat) (pstate : ParseState) (var : Var) :
    Except ParseError (Expr × ParseState) :=
  if var.varlevelsup ≠ sublevels_up then .ok (.Var var, pstate)
  else if var.vartype ≠ .VERTEXOID then .ok (.Var var, pstate)
  else
    match findFutureVertexPos pstate.p_future_vertices var.varno var.varattno 0 with
    | none => .ok (.Var var, pstate)
    | some (idx, fv) =>
      if fv.expr.isNone then
        if flags &&& FVR_DONT_RESOLVE ≠ 0 then .ok (.Var var, pstate)
        else
          match resolveFutureVertex env pstate idx
              (decide (flags &&& FVR_IGNORE_NULLABLE ≠ 0)) with
          | .error e => .error e
          | .ok pstate =>
            match pstate.p_future_vertices[idx]? with
            | none => .error .undefined_behaviour
            | some fv =>
              match copyResolvedVar flags sublevels_up fv with
              | .error e => .error e
              | .ok newvar => .ok (newvar, pstate)
      else
        match copyResolvedVar flags sublevels_up fv with
        | .error e => .error e
        | .ok newvar => .ok (newvar, pstate)

/-- The test of the case `IsA(node, FieldSelect)` of `resolve_future_vertex_mutator`: the
field 1 (the identifier) of a vertex variable of the current level. -/
def isVertexIdSelect (sublevels_up : Nat) (arg : Expr) (fieldnum : Nat) : Bool :=
  match arg with
  | .Var var =>
    decide (var.varlevelsup = sublevels_up ∧ var.vartype = .VERTEXOID ∧ fieldnum = 1)
  | _ => false

/-- Whether the node is a `Var`. -/
def isVar (node : Expr) : Bool :=
  match node with
  | .Var _ => true
  | _ => false

mutual
/-- The function `resolve_future_vertex_mutator`; the nodes without a case of their own
are walked by `expression_tree_mutator`, the `Query` of a `SubLink` one level deeper by
`query_tree_mutator`. -/
def resolve_future_vertex_mutator (env : Env) (flags sublevels_up : Nat) (pstate : ParseState)
    (node : Expr) : Except ParseError (Expr × ParseState) :=
  match node with
  | .Aggref agglevelsup aggdirectargs args aggtype =>
    if agglevelsup = sublevels_up then
      match resolve_future_vertex_list env flags sublevels_up pstate aggdirectargs with
      | .error e => .error e
      | .ok d =>
        match resolve_future_vertex_aggargs env flags sublevels_up d.2 args with
        | .error e => .error e
        | .ok a => .ok (.Aggref agglevelsup d.1 a.1 aggtype, a.2)
    else if agglevelsup > sublevels_up then .ok (.Aggref agglevelsup aggdirectargs args aggtype, pstate)
    else
      match resolve_future_vertex_list env flags sublevels_up pstate aggdirectargs with
      | .error e => .error e
      | .ok d =>
        match resolve_future_vertex_list env flags sublevels_up d.2 args with
        | .error e => .error e
        | .ok a => .ok (.Aggref agglevelsup d.1 a.1 aggtype, a.2)
  | .FieldSelect arg fieldnum resulttype =>
    if isVertexIdSelect sublevels_up arg fieldnum then
      .ok (.FieldSelect arg fieldnum resulttype, pstate)
    else
      match resolve_future_vertex_mutator env flags sublevels_up pstate arg with
      | .error e => .error e
      | .ok a => .ok (.FieldSelect a.1 fieldnum resulttype, a.2)
  | .Var var => resolveVar env flags sublevels_up pstate var
  | .SubLink testexpr subselect resulttype =>
    match resolve_future_vertex_opt env flags sublevels_up pstate testexpr with
    | .error e => .error e
    | .ok t =>
      match resolve_future_vertex_list env flags (sublevels_up + 1) t.2 subselect with
      | .error e => .error e
      | .ok q => .ok (.SubLink t.1 q.1 resulttype, q.2)
  | .Const consttype constisnull => .ok (.Const consttype constisnull, pstate)
  | .RowExpr args row_typeid =>
    match resolve_future_vertex_list env flags sublevels_up pstate args with
    | .error e => .error e
    | .ok a => .ok (.RowExpr a.1 row_typeid, a.2)
  | .ArrayExpr array_typeid element_typeid elements =>
    match resolve_future_vertex_list env flags sublevels_up pstate elements with
    | .error e => .error e
    | .ok a => .ok (.ArrayExpr array_typeid element_typeid a.1, a.2)
  | .OpExpr opname larg rarg =>
    match resolve_future_vertex_mutator env flags sublevels_up pstate larg with
    | .error e => .error e
    | .ok l =>
      match resolve_future_vertex_mutator env flags sublevels_up l.2 rarg with
      | .error e => .error e
      | .ok r => .ok (.OpExpr opname l.1 r.1, r.2)
  | .BoolExpr boolop args =>
    match resolve_future_vertex_list env flags sublevels_up pstate args with
    | .error e => .error e
    | .ok a => .ok (.BoolExpr boolop a.1, a.2)
  | .NullTest arg =>
    match resolve_future_vertex_mutator env flags sublevels_up pstate arg with
    | .error e => .error e
    | .ok a => .ok (.NullTest a.1, a.2)
  | .FuncExpr funcname args funcresulttype =>
    match resolve_future_vertex_list env flags sublevels_up pstate args with
    | .error e => .error e
    | .ok a => .ok (.FuncExpr funcname a.1 funcresulttype, a.2)
/-- The mutator on the elements of a list, in order. -/
def resolve_future_vertex_list (env : Env) (flags sublevels_up : Nat) (pstate : ParseState)
    (nodes : List Expr) : Except ParseError (List Expr × ParseState) :=
  match nodes with
  | [] => .ok ([], pstate)
  | node :: rest =>
    match resolve_future_vertex_mutator env flags sublevels_up pstate node with
    | .error e => .error e
    | .ok a =>
      match resolve_future_vertex_list env flags sublevels_up a.2 rest with
      | .error e => .error e
      | .ok b => .ok (a.1 :: b.1, b.2)
/-- The loop `foreach(la, agg->args)` of the mutator for an aggregate of the current
level: an argument that is a plain `Var` is left as it is. -/
def resolve_future_vertex_aggargs (env : Env) (flags sublevels_up : Nat) (pstate : ParseState)
    (args : List Expr) : Except ParseError (List Expr × ParseState) :=
  match args with
  | [] => .ok ([], pstate)
  | arg :: rest =>
    if isVar arg then
      match resolve_future_vertex_aggargs env flags sublevels_up pstate rest with
      | .error e => .error e
      | .ok b => .ok (arg :: b.1, b.2)
    else
      match resolve_future_vertex_mutator env flags sublevels_up pstate arg with
      | .error e => .error e
      | .ok a =>
        match resolve_future_vertex_aggargs env flags sublevels_up a.2 rest with
        | .error e => .error e
        | .ok b => .ok (a.1 :: b.1, b.2)
/-- The mutator on a node that may be `NULL`. -/
def resolve_future_vertex_opt (env : Env) (flags sublevels_up : Nat) (pstate : ParseState)
    (node : Option Expr) : Except ParseError (Option Expr × ParseState) :=
  match node with
  | none => .ok (none, pstate)
  | some e =>
    match resolve_future_vertex_mutator env flags sublevels_up pstate e with
    | .error e => .error e
    | .ok a => .ok (some a.1, a.2)
end

/-- The function `resolve_future_vertex`. -/
def resolve_future_vertex (env : Env) (pstate : ParseState) (node : Expr) (flags : Nat) :
    Except ParseError (Expr × ParseState) :=
  resolve_future_vertex_mutator env flags 0 pstate node

/-- A sequence of calls of `resolve_future_vertex` in one parse state, one for each
expression, in order. -/
def resolve_future_vertex_all (env : Env) (pstate : ParseState) (nodes : List Expr)
    (flags : Nat) : Except ParseError (List Expr × ParseState) :=
  match nodes with
  | [] => .ok ([], pstate)
  | node :: rest =>
    match resolve_future_vertex env pstate node flags with
    | .error e => .error e
    | .ok a =>
      match resolve_future_vertex_all env a.2 rest flags with
      | .error e => .error e
      | .ok b => .ok (a.1 :: b.1, b.2)

/-- The variable for the only column of the vertex scan that `resolveFutureVertex` adds
to the range table of `pstate`. -/
def resolvedVertexVar (pstate : ParseState) : Var :=
  { varno := pstate.p_rtable.length + 1, varattno := 1, vartype := .VERTEXOID,
    varlevelsup := 0 }

/-- What the clause `MATCH (a)-[]->(b)` leaves: the rows of the two future vertices `a`
and `b` in the target list, the second one nullable. -/
def sampleClause : ClauseResult :=
  { targetList :=
      [makeTargetEntry futureVertexRow 1 "a" false, makeTargetEntry futureVertexRow 2 "b" false]
    p_elem_quals := []
    p_future_vertices :=
      [{ varno := InvalidAttrNumber, varattno := 1, labname := "ag_vertex", nullable := false,
         expr := none },
       { varno := InvalidAttrNumber, varattno := 2, labname := "ag_vertex", nullable := true,
         expr := none }] }

/-- The parse state of the clause that follows `sampleClause`, once `transformClause` has
wrapped it as the subquery 1. -/
def sampleScopeState : ParseState :=
  match (transformClauseImpl emptyParseState sampleClause CYPHER_SUBQUERY_ALIAS).bind
      (fun r => addRTEtoJoinlist r.2 r.1) with
  | .ok pstate => pstate
  | .error _ => emptyParseState

/-- The parse state `sampleScopeState` after `resolveFutureVertex` for the vertex `a`. -/
def resolvedScopeState : ParseState :=
  match resolveFutureVertex sampleEnv sampleScopeState 0 false with
  | .ok pstate => pstate
  | .error _ => emptyParseState

/-! ## Specification notions for shared node variables -/

/-- The value of an identifier expression under an assignment of the columns. -/
def evalId (assignment : Var → Int) : Expr → Option Int
  | .Var v => some (assignment v)
  | _ => none

/-- The truth of a predicate `l = r` or `l <> r` between identifier columns under an
assignment of the columns. -/
def holdsUnder (assignment : Var → Int) : Expr → Bool
  | .OpExpr opname l r =>
    match evalId assignment l, evalId assignment r with
    | some x, some y =>
      if opname = "=" then decide (x = y)
      else if opname = "<>" then decide (x ≠ y)
      else false
    | _, _ => false
  | _ => false

/-- Every conjunct of the qual holds under the assignment. -/
def satisfiedBy (assignment : Var → Int) (qual : Option Expr) : Bool :=
  (conjuncts qual).all (holdsUnder assignment)

/-- The pattern `(a)-[]->(b)-[]->(a)`: the variable `a` at both ends of one path. -/
def sampleCyclePattern : List CypherPath :=
  [ { pathname := none,
      chain := [plainNode (some "a"), plainRel, plainNode (some "b"), plainRel,
                plainNode (some "a")] } ]

/-- The pattern `(a)-[]->(b), (b)-[]->(c)`: the variable `b` in two paths. -/
def sampleSharedPattern : List CypherPath :=
  [ { pathname := none, chain := [plainNode (some "a"), plainRel, plainNode (some "b")] },
    { pathname := none, chain := [plainNode (some "b"), plainRel, plainNode (some "c")] } ]

/-- The result of `transformComponents` on `sampleCyclePattern`. -/
def cycleResult : Option Expr × ParseState × List TargetEntry :=
  match transformComponents sampleEnv (parseStateFor sampleCyclePattern)
      (makeComponents id sampleCyclePattern) [] with
  | .ok r => r
  | .error _ => (none, emptyParseState, [])

/-- The result of `transformComponents` on `sampleSharedPattern`. -/
def sharedResult : Option Expr × ParseState × List TargetEntry :=
  match transformComponents sampleEnv (parseStateFor sampleSharedPattern)
      (makeComponents id sampleSharedPattern) [] with
  | .ok r => r
  | .error _ => (none, emptyParseState, [])

/-- The column `varattno` of the range-table entry `varno`, of type `graphid`. -/
def idColumn (varno varattno : Nat) : Var :=
  { varno := varno, varattno := varattno, vartype := .GRAPHIDOID, varlevelsup := 0 }

/-- Two relationship rows `1 -[10]-> 2` and `2 -[11]-> 3` for the scans 1 and 2 (columns
`id`, `start`, `end`): a path of two relationships that does not return to its start. -/
def openPathAssignment (v : Var) : Int :=
  if v.varno = 1 then (if v.varattno = 1 then 10 else if v.varattno = 2 then 1 else 2)
  else (if v.varattno = 1 then 11 else if v.varattno = 2 then 2 else 3)

/-- Two relationship rows `1 -[10]-> 2` and `5 -[11]-> 6` for the scans 1 and 2: two
relationships that do not meet. -/
def apartAssignment (v : Var) : Int :=
  if v.varno = 1 then (if v.varattno = 1 then 10 else if v.varattno = 2 then 1 else 2)
  else (if v.varattno = 1 then 11 else if v.varattno = 2 then 5 else 6)

/-! ## Specification notions for the resolution of future vertices -/

mutual
/-- The `Var` nodes of the query level `sublevels_up` levels up that a walk over the
expression reaches: every `Var` of that level except the argument of a selection of
field 1 (the identifier) of a vertex variable of that level, the plain `Var` arguments of
an aggregate of that level, and whatever lies inside an aggregate of an upper level. -/
def reachedVars (sublevels_up : Nat) (node : Expr) : List Var :=
  match node with
  | .Aggref agglevelsup aggdirectargs args _ =>
    if agglevelsup = sublevels_up then
      reachedVarsList sublevels_up aggdirectargs ++ reachedVarsAggargs sublevels_up args
    else if agglevelsup > sublevels_up then []
    else reachedVarsList sublevels_up aggdirectargs ++ reachedVarsList sublevels_up args
  | .FieldSelect arg fieldnum _ =>
    if isVertexIdSelect sublevels_up arg fieldnum then [] else reachedVars sublevels_up arg
  | .Var var => if var.varlevelsup = sublevels_up then [var] else []
  | .SubLink testexpr subselect _ =>
    reachedVarsOpt sublevels_up testexpr ++ reachedVarsList (sublevels_up + 1) subselect
  | .Const _ _ => []
  | .RowExpr args _ => reachedVarsList sublevels_up args
  | .ArrayExpr _ _ elements => reachedVarsList sublevels_up elements
  | .OpExpr _ larg rarg => reachedVars sublevels_up larg ++ reachedVars sublevels_up rarg
  | .BoolExpr _ args => reachedVarsList sublevels_up args
  | .NullTest arg => reachedVars sublevels_up arg
  | .FuncExpr _ args _ => reachedVarsList sublevels_up args
/-- The reached `Var` nodes of a list of expressions. -/
def reachedVarsList (sublevels_up : Nat) (nodes : List Expr) : List Var :=
  match nodes with
  | [] => []
  | node :: rest => reachedVars sublevels_up node ++ reachedVarsList sublevels_up rest
/-- The reached `Var` nodes of the arguments of an aggregate of the current level. -/
def reachedVarsAggargs (sublevels_up : Nat) (args : List Expr) : List Var :=
  match args with
  | [] => []
  | arg :: rest =>
    if isVar arg then reachedVarsAggargs sublevels_up rest
    else reachedVars sublevels_up arg ++ reachedVarsAggargs sublevels_up rest
/-- The reached `Var` nodes of an expression that may be `NULL`. -/
def reachedVarsOpt (sublevels_up : Nat) (node : Option Expr) : List Var :=
  match node with
  | none => []
  | some e => reachedVars sublevels_up e
end

/-- The replacement of a reached variable: a vertex variable that has a memoized
resolved variable becomes a copy of it at the level of the reference. -/
def substVar (memo : Var → Option Var) (sublevels_up : Nat) (var : Var) : Expr :=
  if var.varlevelsup = sublevels_up ∧ var.vartype = .VERTEXOID then
    match memo var with
    | some m => .Var { m with varlevelsup := sublevels_up }
    | none => .Var var
  else .Var var

mutual
/-- The expression with every reached vertex variable replaced by a copy of the
memoized resolved variable `memo` gives for it. -/
def substFutureRefs (memo : Var → Option Var) (sublevels_up : Nat) (node : Expr) : Expr :=
  match node with
  | .Aggref agglevelsup aggdirectargs args aggtype =>
    if agglevelsup = sublevels_up then
      .Aggref agglevelsup (substFutureRefsList memo sublevels_up aggdirectargs)
        (substFutureRefsAggargs memo sublevels_up args) aggtype
    else if agglevelsup > sublevels_up then .Aggref agglevelsup aggdirectargs args aggtype
    else
      .Aggref agglevelsup (substFutureRefsList memo sublevels_up aggdirectargs)
        (substFutureRefsList memo sublevels_up args) aggtype
  | .FieldSelect arg fieldnum resulttype =>
    if isVertexIdSelect sublevels_up arg fieldnum then .FieldSelect arg fieldnum resulttype
    else .FieldSelect (substFutureRefs memo sublevels_up arg) fieldnum resulttype
  | .Var var => substVar memo sublevels_up var
  | .SubLink testexpr subselect resulttype =>
    .SubLink (substFutureRefsOpt memo sublevels_up testexpr)
      (substFutureRefsList memo (sublevels_up + 1) subselect) resulttype
  | .Const consttype constisnull => .Const consttype constisnull
  | .RowExpr args row_typeid => .RowExpr (substFutureRefsList memo sublevels_up args) row_typeid
  | .ArrayExpr array_typeid element_typeid elements =>
    .ArrayExpr array_typeid element_typeid (substFutureRefsList memo sublevels_up elements)
  | .OpExpr opname larg rarg =>
    .OpExpr opname (substFutureRefs memo sublevels_up larg)
      (substFutureRefs memo sublevels_up rarg)
  | .BoolExpr boolop args => .BoolExpr boolop (substFutureRefsList memo sublevels_up args)
  | .NullTest arg => .NullTest (substFutureRefs memo sublevels_up arg)
  | .FuncExpr funcname args funcresulttype =>
    .FuncExpr funcname (substFutureRefsList memo sublevels_up args) funcresulttype
/-- The replacement in a list of expressions. -/
def substFutureRefsList (memo : Var → Option Var) (sublevels_up : Nat) (nodes : List Expr) :
    List Expr :=
  match nodes with
  | [] => []
  | node :: rest =>
    substFutureRefs memo sublevels_up node :: substFutureRefsList memo sublevels_up rest
/-- The replacement in the arguments of an aggregate of the current level. -/
def substFutureRefsAggargs (memo : Var → Option Var) (sublevels_up : Nat) (args : List Expr) :
    List Expr :=
  match args with
  | [] => []
  | arg :: rest =>
    if isVar arg then arg :: substFutureRefsAggargs memo sublevels_up rest
    else substFutureRefs memo sublevels_up arg :: substFutureRefsAggargs memo sublevels_up rest
/-- The replacement in an expression that may be `NULL`. -/
def substFutureRefsOpt (memo : Var → Option Var) (sublevels_up : Nat) (node : Option Expr) :
    Option Expr :=
  match node with
  | none => none
  | some e => some (substFutureRefs memo sublevels_up e)
end

/-- The memoized resolved variable of the future vertex that `findFutureVertex` finds for
a variable in the parse state, if it is resolved. -/
def memoOf (pstate : ParseState) (var : Var) : Option Var :=
  match findFutureVertexIn pstate.p_future_vertices var.varno var.varattno with
  | some fv =>
    match fv.expr with
    | some (.Var m) => some m
    | _ => none
  | none => none

/-- The number of future vertices of the parse state that are not resolved. -/
def unresolvedCount (pstate : ParseState) : Nat :=
  pstate.p_future_vertices.countP (fun fv => fv.expr.isNone)

/-- The number of subquery entries of the range table. -/
def subqueryCount (pstate : ParseState) : Nat :=
  pstate.p_rtable.countP (fun rte => decide (rte.rtekind = .RTE_SUBQUERY))

/-- The references to the column `(varno, varattno)` among the vertex variables of the
current level reached in a sequence of expressions. -/
def reachedRefs (nodes : List Expr) (varno varattno : Nat) : List Var :=
  ((nodes.map (reachedVars 0)).flatten).filter
    (fun v => decide (v.vartype = .VERTEXOID ∧ v.varno = varno ∧ v.varattno = varattno))

/-- What a run of the resolution keeps of a future vertex: its column, and its resolved
expression once it has one. -/
def KeepsVertex (fv fv2 : FutureVertex) : Prop :=
  fv2.varno = fv.varno ∧ fv2.varattno = fv.varattno ∧ (fv.expr.isSome = true → fv2 = fv)

/-- The parse state `s2` is `s` after some resolutions: the range table is extended and
every future vertex keeps its column and, once resolved, its resolved expression. -/
structure Resolves (s s2 : ParseState) : Prop where
  rtable : ∃ rtes, s2.p_rtable = s.p_rtable ++ rtes
  vertices : List.Forall₂ KeepsVertex s.p_future_vertices s2.p_future_vertices

/-- What a run of the resolution with flags 0 from the parse state `s` to `s2` over
expressions whose reached variables are `vars` establishes: the state is `s` after some
resolutions; each resolution accounts for two entries of the range table, one of them a
subquery (the vertex scan); every reached vertex variable that is a future vertex is
resolved at the end; only future vertices that a reached variable refers to are resolved
on the way; and the resolved expression of each of them is the variable of a vertex scan
added on the way. -/
structure RunOk (s : ParseState) (vars : List Var) (s2 : ParseState) : Prop where
  res : Resolves s s2
  count : s2.p_rtable.length + 2 * unresolvedCount s2 =
    s.p_rtable.length + 2 * unresolvedCount s
  scans : subqueryCount s2 + unresolvedCount s2 = subqueryCount s + unresolvedCount s
  resolved : ∀ v ∈ vars, v.vartype = .VERTEXOID →
    (findFutureVertexIn s.p_future_vertices v.varno v.varattno).isSome = true →
    (memoOf s2 v).isSome = true
  only : ∀ i fv fv2, s.p_future_vertices[i]? = some fv → s2.p_future_vertices[i]? = some fv2 →
    fv.expr = none → fv2.expr.isSome = true →
    ∃ v ∈ vars, v.vartype = .VERTEXOID ∧
      ∃ x, findFutureVertexPos s.p_future_vertices v.varno v.varattno 0 = some (i, x)
  scan : ∀ (i : Nat) (fv fv2 : FutureVertex), s.p_future_vertices[i]? = some fv →
    s2.p_future_vertices[i]? = some fv2 → fv.expr = none → fv2.expr.isSome = true →
    ∃ (m : Var) (name : String), fv2.expr = some (.Var m) ∧ s.p_rtable.length < m.varno ∧
      m.varattno = 1 ∧
      m.vartype = .VERTEXOID ∧ m.varlevelsup = 0 ∧
      getRTE s2 m.varno =
        some { rtekind := .RTE_SUBQUERY, aliasname := name, cols := [(name, .VERTEXOID)] }

mutual
/-- Every `Var` node of the query level `sublevels_up` levels up in an expression. -/
def levelVars (sublevels_up : Nat) (node : Expr) : List Var :=
  match node with
  | .Aggref _ aggdirectargs args _ =>
    levelVarsList sublevels_up aggdirectargs ++ levelVarsList sublevels_up args
  | .FieldSelect arg _ _ => levelVars sublevels_up arg
  | .Var var => if var.varlevelsup = sublevels_up then [var] else []
  | .SubLink testexpr subselect _ =>
    levelVarsOpt sublevels_up testexpr ++ levelVarsList (sublevels_up + 1) subselect
  | .Const _ _ => []
  | .RowExpr args _ => levelVarsList sublevels_up args
  | .ArrayExpr _ _ elements => levelVarsList sublevels_up elements
  | .OpExpr _ larg rarg => levelVars sublevels_up larg ++ levelVars sublevels_up rarg
  | .BoolExpr _ args => levelVarsList sublevels_up args
  | .NullTest arg => levelVars sublevels_up arg
  | .FuncExpr _ args _ => levelVarsList sublevels_up args
/-- Every `Var` node of the level in a list of expressions. -/
def levelVarsList (sublevels_up : Nat) (nodes : List Expr) : List Var :=
  match nodes with
  | [] => []
  | node :: rest => levelVars sublevels_up node ++ levelVarsList sublevels_up rest
/-- Every `Var` node of the level in an expression that may be `NULL`. -/
def levelVarsOpt (sublevels_up : Nat) (node : Option Expr) : List Var :=
  match node with
  | none => []
  | some e => levelVars sublevels_up e
end

/-- The expressions `id(a)` and `count(a)` on the column 1 of the subquery 1. -/
def sampleIdExprs : List Expr :=
  [.FieldSelect (.Var (vertexColumn 1 1)) 1 .GRAPHIDOID,
   .Aggref 0 [] [.Var (vertexColumn 1 1)] (.other 20)]

/-- The expressions `a.properties`, `a`, `id(a)` on the column 1 of the subquery 1. -/
def samplePropExprs : List Expr :=
  [.FieldSelect (.Var (vertexColumn 1 1)) 2 .JSONBOID, .Var (vertexColumn 1 1),
   .FieldSelect (.Var (vertexColumn 1 1)) 1 .GRAPHIDOID]

/-- The result of `resolve_future_vertex` with flags 0 on `samplePropExprs`. -/
def samplePropResult : List Expr × ParseState :=
  match resolve_future_vertex_all sampleEnv sampleScopeState samplePropExprs 0 with
  | .ok r => r
  | .error _ => ([], emptyParseState)

/-! ## Quantified relationships: the generated statement -/

/-- The alias `CYPHER_VLR_WITH_ALIAS` of the recursive source. -/
def CYPHER_VLR_WITH_ALIAS : String := "_vlr"

/-- The alias `CYPHER_VLR_EDGE_ALIAS` of the relationship relation in the recursive
branch. -/
def CYPHER_VLR_EDGE_ALIAS : String := "_e"

/-- The node `ResTarget`. -/
structure ResTarget where
  name : Option String
  val : RawNode
  deriving Repr, Inhabited

/-- The field `op` of a `SelectStmt`. -/
inductive SetOperation where
  | SETOP_NONE
  | SETOP_UNION
  deriving DecidableEq, Repr, Inhabited

/-- The field `inhOpt` of a `RangeVar`. -/
inductive InhOption where
  | INH_NO
  | INH_YES
  | INH_DEFAULT
  deriving DecidableEq, Repr, Inhabited

mutual
/-- An item of a FROM clause: the node `RangeVar` (`alias` is kept by its name) or the
node `RangeSubselect`. -/
inductive FromItem where
  | RangeVar (schemaname : Option String) (relname : String) (inhOpt : InhOption)
      (aliasname : Option String)
  | RangeSubselect (subquery : SelectStmt) (aliasname : Option String)
/-- The node `SelectStmt`, with the fields the generators set; `makeNode` leaves every
field empty (`SelectStmt.mk [] [] [] none [] none .SETOP_NONE false none none`). -/
inductive SelectStmt where
  | mk (distinctClause : List RawNode) (targetList : List ResTarget)
      (fromClause : List FromItem) (whereClause : Option RawNode)
      (valuesLists : List (List (Option RawNode))) (withClause : Option WithClause)
      (op : SetOperation) (all : Bool) (larg rarg : Option SelectStmt)
/-- The node `WithClause`. -/
inductive WithClause where
  | mk (ctes : List CommonTableExpr) (recursive : Bool)
/-- The node `CommonTableExpr`. -/
inductive CommonTableExpr where
  | mk (ctename : String) (aliascolnames : List String) (ctequery : SelectStmt)
      (maxdepth : Int)
end

/-- The field `distinctClause`. -/
def SelectStmt.distinctClause : SelectStmt → List RawNode
  | .mk d _ _ _ _ _ _ _ _ _ => d

/-- The field `targetList`. -/
def SelectStmt.targetList : SelectStmt → List ResTarget
  | .mk _ t _ _ _ _ _ _ _ _ => t

/-- The field `fromClause`. -/
def SelectStmt.fromClause : SelectStmt → List FromItem
  | .mk _ _ f _ _ _ _ _ _ _ => f

/-- The field `whereClause`. -/
def SelectStmt.whereClause : SelectStmt → Option RawNode
  | .mk _ _ _ w _ _ _ _ _ _ => w

/-- The field `valuesLists`. -/
def SelectStmt.valuesLists : SelectStmt → List (List (Option RawNode))
  | .mk _ _ _ _ v _ _ _ _ _ => v

/-- The field `withClause`. -/
def SelectStmt.withClause : SelectStmt → Option WithClause
  | .mk _ _ _ _ _ w _ _ _ _ => w

/-- The field `op`. -/
def SelectStmt.op : SelectStmt → SetOperation
  | .mk _ _ _ _ _ _ o _ _ _ => o

/-- The field `all`. -/
def SelectStmt.all : SelectStmt → Bool
  | .mk _ _ _ _ _ _ _ a _ _ => a

/-- The field `larg`. -/
def SelectStmt.larg : SelectStmt → Option SelectStmt
  | .mk _ _ _ _ _ _ _ _ l _ => l

/-- The field `rarg`. -/
def SelectStmt.rarg : SelectStmt → Option SelectStmt
  | .mk _ _ _ _ _ _ _ _ _ r => r

/-- The field `ctes`. -/
def WithClause.ctes : WithClause → List CommonTableExpr
  | .mk c _ => c

/-- The field `recursive`. -/
def WithClause.recursive : WithClause → Bool
  | .mk _ r => r

/-- The field `ctename`. -/
def CommonTableExpr.ctename : CommonTableExpr → String
  | .mk n _ _ _ => n

/-- The field `aliascolnames`. -/
def CommonTableExpr.aliascolnames : CommonTableExpr → List String
  | .mk _ a _ _ => a

/-- The field `ctequery`. -/
def CommonTableExpr.ctequery : CommonTableExpr → SelectStmt
  | .mk _ _ q _ => q

/-- The field `maxdepth`. -/
def CommonTableExpr.maxdepth : CommonTableExpr → Int
  | .mk _ _ _ m => m

/-- The function `makeResTarget`. -/
def makeResTarget (val : RawNode) (name : Option String) : ResTarget :=
  { name := name, val := val }

/-- The function `makeSimpleResTarget`. -/
def makeSimpleResTarget (field : String) (name : Option String) : ResTarget :=
  makeResTarget (.ColumnRef [field]) name

/-- The function `makeFieldsResTarget`. -/
def makeFieldsResTarget (fields : List String) (name : Option String) : ResTarget :=
  makeResTarget (.ColumnRef fields) name

/-- The function `makeIntConst`. -/
def makeIntConst (val : Int) : RawNode :=
  .A_Const val

/-- The function `genEdgeUnionVLR`: the `RangeSubselect` it returns has no alias yet. -/
def genEdgeUnionVLR (env : Env) (edge_label : String) : FromItem :=
  let tableoid := makeSimpleResTarget "tableoid" none
  let ctid := makeSimpleResTarget "ctid" none
  let id := makeSimpleResTarget AG_ELEM_LOCAL_ID none
  let prop_map := makeSimpleResTarget AG_ELEM_PROP_MAP none
  let r := FromItem.RangeVar (some env.graph_path) edge_label .INH_YES none
  let lsel := SelectStmt.mk []
    [tableoid, ctid, id, prop_map, makeSimpleResTarget AG_START_ID none,
     makeSimpleResTarget AG_END_ID none]
    [r] none [] none .SETOP_NONE false none none
  let rsel := SelectStmt.mk []
    [tableoid, ctid, id, prop_map, makeSimpleResTarget AG_END_ID (some AG_START_ID),
     makeSimpleResTarget AG_START_ID (some AG_END_ID)]
    [r] none [] none .SETOP_NONE false none none
  let u := SelectStmt.mk [] [] [] none [] none .SETOP_UNION true (some lsel) (some rsel)
  .RangeSubselect u none

/-- The assignment `sub->alias = makeAliasNoDup(aliasname, NIL)` (on a `RangeSubselect`)
or `r->alias = makeAliasNoDup(aliasname, NIL)` (on a `RangeVar`). -/
def FromItem.setAlias (item : FromItem) (aliasname : String) : FromItem :=
  match item with
  | .RangeVar schemaname relname inhOpt _ => .RangeVar schemaname relname inhOpt (some aliasname)
  | .RangeSubselect subquery _ => .RangeSubselect subquery (some aliasname)

/-- The condition `properties @> crel->prop_map` appended to `where_args` when the
relationship has a property map (`genSelectLeftVLR`, `genSelectRightVLR`). -/
def vlrPropCond (crel : CypherRel) : List RawNode :=
  match crel.prop_map with
  | some prop_map => [.A_Expr "@>" (.ColumnRef [AG_ELEM_PROP_MAP]) prop_map]
  | none => []

/-- The function `genSelectLeftVLR`: the base branch of the recursive source. -/
def genSelectLeftVLR (env : Env) (pstate : ParseState) (crel : CypherRel) :
    Except ParseError SelectStmt :=
  let vid := pstate.p_vlr_initial_vid
  let start_out := pstate.p_last_edge.isSome
  match isZeroLengthVLR crel with
  | .error e => .error e
  | .ok true =>
    let values := [vid, some (makeIntConst 0)]
      ++ (if start_out then [vid] else [])
      ++ [some (.TypeCast (.A_ArrayExpr []) "_graphid")]
    .ok (.mk [] [] [] none [values] none .SETOP_NONE false none none)
  | .ok false =>
    match getCypherRelType env crel with
    | .error e => .error e
    | .ok typname =>
      let end_col := makeSimpleResTarget AG_END_ID none
      let level := makeResTarget (makeIntConst 1) none
      let edge :=
        if crel.direction = .NONE then
          (genEdgeUnionVLR env typname).setAlias CYPHER_VLR_EDGE_ALIAS
        else FromItem.RangeVar (some env.graph_path) typname .INH_YES none
      let vidcond :=
        match vid with
        | some v =>
          [RawNode.A_Expr "="
            (.ColumnRef [if crel.direction = .LEFT then AG_END_ID else AG_START_ID]) v]
        | none => []
      let where_args := vidcond ++ vlrPropCond crel
      let targetList := [end_col, level]
        ++ (if start_out then [makeSimpleResTarget AG_START_ID none] else [])
        ++ [makeResTarget (.A_ArrayExpr [.ColumnRef [AG_ELEM_LOCAL_ID]]) none]
      .ok (.mk [] targetList [edge] (some (.BoolExpr .AND_EXPR where_args)) [] none
        .SETOP_NONE false none none)

/-- The function `genSelectRightVLR`: the recursive branch of the recursive source. -/
def genSelectRightVLR (env : Env) (pstate : ParseState) (crel : CypherRel) :
    Except ParseError SelectStmt :=
  match getCypherRelType env crel with
  | .error e => .error e
  | .ok typname =>
    let start :=
      if crel.direction = .LEFT then
        makeFieldsResTarget [CYPHER_VLR_EDGE_ALIAS, AG_START_ID] none
      else makeFieldsResTarget [CYPHER_VLR_WITH_ALIAS, VLR_COLNAME_START] none
    let end_col :=
      if crel.direction = .LEFT then
        makeFieldsResTarget [CYPHER_VLR_WITH_ALIAS, VLR_COLNAME_END] none
      else makeFieldsResTarget [CYPHER_VLR_EDGE_ALIAS, AG_END_ID] none
    let levelexpr := RawNode.A_Expr "+" (.ColumnRef [VLR_COLNAME_LEVEL]) (makeIntConst 1)
    let level := makeResTarget levelexpr none
    let vlr := FromItem.RangeVar none CYPHER_VLR_WITH_ALIAS .INH_DEFAULT none
    let edge :=
      if crel.direction = .NONE then
        (genEdgeUnionVLR env typname).setAlias CYPHER_VLR_EDGE_ALIAS
      else FromItem.RangeVar (some env.graph_path) typname .INH_YES (some CYPHER_VLR_EDGE_ALIAS)
    let prev :=
      if crel.direction = .LEFT then RawNode.ColumnRef [CYPHER_VLR_WITH_ALIAS, VLR_COLNAME_START]
      else RawNode.ColumnRef [CYPHER_VLR_WITH_ALIAS, VLR_COLNAME_END]
    let next :=
      if crel.direction = .LEFT then RawNode.ColumnRef [CYPHER_VLR_EDGE_ALIAS, AG_END_ID]
      else RawNode.ColumnRef [CYPHER_VLR_EDGE_ALIAS, AG_START_ID]
    let joincond := RawNode.A_Expr "=" prev next
    let pathref := RawNode.ColumnRef [VLR_COLNAME_PATH]
    let id := RawNode.ColumnRef [AG_ELEM_LOCAL_ID]
    let dupcond := RawNode.NullTest (.FuncCall "array_position" [pathref, id])
    let where_args := [joincond, dupcond] ++ vlrPropCond crel
    let targetList := [end_col, level]
      ++ (if pstate.p_last_edge.isSome then [start] else [])
      ++ [makeResTarget (.FuncCall "array_append" [pathref, id]) none]
    .ok (.mk [.ColumnRef [VLR_COLNAME_END]] targetList [vlr, edge]
      (some (.BoolExpr .AND_EXPR where_args)) [] none .SETOP_NONE false none none)

/-- The function `genSelectWithVLR`: the projection that wraps the recursive source. The
lower bound is read without a `NULL` test. -/
def genSelectWithVLR (pstate : ParseState) (crel : CypherRel) (withClause : WithClause) :
    Except ParseError SelectStmt :=
  match crel.varlen with
  | none => .error .undefined_behaviour
  | some indices =>
    match indices.lidx with
    | none => .error .undefined_behaviour
    | some ival =>
      let start :=
        if crel.direction = .NONE then
          makeSimpleResTarget VLR_COLNAME_START (some EDGE_UNION_START_ID)
        else makeSimpleResTarget VLR_COLNAME_START (some AG_START_ID)
      let end_col :=
        if crel.direction = .NONE then
          makeSimpleResTarget VLR_COLNAME_END (some EDGE_UNION_END_ID)
        else makeSimpleResTarget VLR_COLNAME_END (some AG_END_ID)
      let vlr := FromItem.RangeVar none CYPHER_VLR_WITH_ALIAS .INH_DEFAULT none
      let targetList := [end_col]
        ++ (if pstate.p_last_edge.isSome then [start] else [])
        ++ (if crel.varname.isSome then [makeSimpleResTarget VLR_COLNAME_PATH none] else [])
      let whereClause :=
        if ival > 1 then
          some (RawNode.A_Expr ">=" (.ColumnRef [VLR_COLNAME_LEVEL]) (.A_Const ival))
        else none
      .ok (.mk [] targetList [vlr] whereClause [] (some withClause) .SETOP_NONE false none none)

/-- The value of the signed 32-bit integer that holds the low 32 bits of `x`. -/
def wrap32 (x : Int) : Int :=
  (x + 2 ^ 31) % 2 ^ 32 - 2 ^ 31

/-- The field `maxdepth` as `transformMatchVLR` leaves it: the default 0 of `makeNode`
without an upper bound, `uidx - base + 1` otherwise, stored in an `int`. -/
def vlrMaxDepth (indices : A_Indices) : Int :=
  match indices.uidx with
  | none => 0
  | some uidx =>
    let base : Int := if indices.lidx = none ∨ indices.lidx ≠ some 0 then 1 else 0
    wrap32 (uidx - base + 1)

/-- The column list `cte->aliascolnames` of the recursive source in `transformMatchVLR`. -/
def vlrAliasColnames (pstate : ParseState) : List String :=
  [VLR_COLNAME_END, VLR_COLNAME_LEVEL]
    ++ (if pstate.p_last_edge.isSome then [VLR_COLNAME_START] else [])
    ++ [VLR_COLNAME_PATH]

/-- The common table expression `cte` built by `transformMatchVLR`: the recursive source
`_vlr`, the `UNION ALL` of the base branch and the recursive branch. The bounds are read
without a `NULL` test. -/
def transformMatchVLRCte (env : Env) (pstate : ParseState) (crel : CypherRel) :
    Except ParseError CommonTableExpr :=
  match genSelectLeftVLR env pstate crel with
  | .error e => .error e
  | .ok larg =>
    match genSelectRightVLR env pstate crel with
    | .error e => .error e
    | .ok rarg =>
      let u := SelectStmt.mk [] [] [] none [] none .SETOP_UNION true (some larg) (some rarg)
      match crel.varlen with
      | none => .error .undefined_behaviour
      | some indices =>
        .ok (.mk CYPHER_VLR_WITH_ALIAS (vlrAliasColnames pstate) u (vlrMaxDepth indices))

/-- The statement `vlr` that `transformMatchVLR` hands to `transformVLRtoRTE`. -/
def transformMatchVLRStmt (env : Env) (pstate : ParseState) (crel : CypherRel) :
    Except ParseError SelectStmt :=
  match transformMatchVLRCte env pstate crel with
  | .error e => .error e
  | .ok cte => genSelectWithVLR pstate crel (.mk [cte] true)


/-! ## Quantified relationships: reading the generated statement

The executor is not part of the sources. The definitions of this section give the
generated statement the meaning the specification describes: a recursive source is the
union of its levels, the base branch being the first level and each further level the
recursive branch read over the level before it, for at most `maxdepth` levels. -/

/-- Modelled from the spec: a value of the executor (`NULL`, an integer or a graph
identifier, a truth value, an array of graph identifiers, any other value). -/
inductive Value where
  | null
  | int (i : Int)
  | bool (b : Bool)
  | arr (xs : List Int)
  | other (tag : Nat)
  deriving DecidableEq, Repr, Inhabited

/-- Modelled from the spec: a column of a row in scope, with the name of the FROM item
it comes from. -/
structure Col where
  qual : Option String
  name : String
  val : Value
  deriving DecidableEq, Repr, Inhabited

/-- Modelled from the spec: a relation, its column names and its rows. -/
structure Rel where
  cols : List String
  rows : List (List Value)
  deriving Repr, Inhabited

/-- Modelled from the spec: a row of a relationship relation. -/
structure EdgeRow where
  tableoid : Nat
  ctid : Nat
  id : Int
  start : Int
  end_id : Int
  properties : Nat
  deriving DecidableEq, Repr, Inhabited

/-- Modelled from the spec: what the executor reads. `edges schemaname relname` are the
rows a scan of the relationship relation returns, `func` the functions other than the
array functions, `other` the values of the expressions kept abstract, `contains` the
operator `@>`, `order` the order in which `DISTINCT ON` meets the rows (it keeps the
first row of each group), `cutoff` the number of levels after which a recursion without
`maxdepth` is cut. -/
structure Db where
  edges : Option String → String → List EdgeRow
  func : String → List Value → Value
  other : Nat → Value
  contains : Value → Value → Bool
  order : List (List Value × List Value) → List (List Value × List Value)
  cutoff : Nat

/-- Modelled from the spec: the value of a column reference in a row; an unknown column
reads as `NULL`. -/
def lookupCol (row : List Col) (fields : List String) : Value :=
  match fields with
  | [c] => ((row.find? (fun col => col.name == c)).map (fun col => col.val)).getD .null
  | [q, c] =>
    ((row.find? (fun col => col.qual == some q && col.name == c)).map
      (fun col => col.val)).getD .null
  | _ => .null

/-- Modelled from the spec: the binary operators. -/
def applyOp (db : Db) (name : String) (l r : Value) : Value :=
  if name = "@>" then .bool (db.contains l r)
  else
    match l, r with
    | .null, _ => .null
    | _, .null => .null
    | .int a, .int b =>
      if name = "+" then .int (a + b)
      else if name = "=" then .bool (decide (a = b))
      else if name = ">=" then .bool (decide (a ≥ b))
      else .null
    | a, b => if name = "=" then .bool (decide (a = b)) else .null

/-- Modelled from the spec: the position of an identifier in an array, from 1. -/
def arrayPosition (xs : List Int) (i : Int) : Value :=
  if i ∈ xs then .int (xs.indexOf i + 1) else .null

/-- Modelled from the spec: the functions `array_append` and `array_position`; the
others are those of the database. -/
def applyFunc (db : Db) (funcname : String) (args : List Value) : Value :=
  if funcname = "array_append" then
    match args with
    | [.arr xs, .int i] => .arr (xs ++ [i])
    | _ => .null
  else if funcname = "array_position" then
    match args with
    | [.arr xs, .int i] => arrayPosition xs i
    | _ => .null
  else db.func funcname args

/-- Modelled from the spec: the array of the identifiers given. -/
def makeArray (elements : List Value) : Value :=
  if elements.all (fun v => match v with | .int _ => true | _ => false) then
    .arr (elements.filterMap (fun v => match v with | .int i => some i | _ => none))
  else .null

/-- Modelled from the spec: `AND` in three-valued logic. -/
def and3 (a b : Value) : Value :=
  if a = .bool false ∨ b = .bool false then .bool false
  else if a = .bool true ∧ b = .bool true then .bool true
  else .null

/-- Modelled from the spec: `OR` in three-valued logic. -/
def or3 (a b : Value) : Value :=
  if a = .bool true ∨ b = .bool true then .bool true
  else if a = .bool false ∧ b = .bool false then .bool false
  else .null

/-- Modelled from the spec: `NOT` in three-valued logic. -/
def not3 (a : Value) : Value :=
  match a with
  | .bool b => .bool (!b)
  | _ => .null

/-- Modelled from the spec: a Boolean expression over the values of its arguments. -/
def applyBool (boolop : BoolExprType) (args : List Value) : Value :=
  match boolop with
  | .AND_EXPR => args.foldr and3 (.bool true)
  | .OR_EXPR => args.foldr or3 (.bool false)
  | .NOT_EXPR =>
    match args with
    | [a] => not3 a
    | _ => .null

mutual
/-- Modelled from the spec: the value of a raw expression in a row. -/
def evalRaw (db : Db) (row : List Col) : RawNode → Value
  | .ColumnRef fields => lookupCol row fields
  | .A_Const ival => .int ival
  | .FuncCall funcname args => applyFunc db funcname (evalRawList db row args)
  | .A_Expr name lexpr rexpr => applyOp db name (evalRaw db row lexpr) (evalRaw db row rexpr)
  | .TypeCast arg _ => evalRaw db row arg
  | .A_ArrayExpr elements => makeArray (evalRawList db row elements)
  | .BoolExpr boolop args => applyBool boolop (evalRawList db row args)
  | .NullTest arg => .bool (decide (evalRaw db row arg = .null))
  | .other tag => db.other tag
/-- Modelled from the spec: the values of raw expressions in a row. -/
def evalRawList (db : Db) (row : List Col) : List RawNode → List Value
  | [] => []
  | node :: rest => evalRaw db row node :: evalRawList db row rest
end

/-- Modelled from the spec: the name of an output column without a name of its own. -/
def figureColname (val : RawNode) : String :=
  match val with
  | .ColumnRef fields => fields.getLast?.getD "?column?"
  | .FuncCall funcname _ => funcname
  | .A_ArrayExpr _ => "array"
  | .TypeCast _ typeName => typeName
  | _ => "?column?"

/-- Modelled from the spec: the names `column1`, `column2`, ... of a `VALUES` list. -/
def valuesNames (n : Nat) : List String :=
  (List.range n).map (fun i => "column" ++ toString (i + 1))

mutual
/-- Modelled from the spec: the names of the output columns of a statement. -/
def selectNames : SelectStmt → List String
  | .mk _ targetList _ _ valuesLists _ op _ larg _ =>
    match op with
    | .SETOP_UNION => selectNamesOpt larg
    | .SETOP_NONE =>
      match valuesLists with
      | values :: _ => valuesNames values.length
      | [] => targetList.map (fun t => t.name.getD (figureColname t.val))
/-- Modelled from the spec: the names of the output columns of a branch. -/
def selectNamesOpt : Option SelectStmt → List String
  | none => []
  | some stmt => selectNames stmt
end

/-- Modelled from the spec: the columns of a row of the FROM item named `q`. -/
def qualify (q : String) (cols : List String) (row : List Value) : List Col :=
  (cols.zip row).map (fun p => { qual := some q, name := p.1, val := p.2 })

/-- Modelled from the spec: the columns of a row of a relationship relation, the system
columns `tableoid` and `ctid` included. -/
def edgeRowCols (q : String) (e : EdgeRow) : List Col :=
  [{ qual := some q, name := "tableoid", val := .other e.tableoid },
   { qual := some q, name := "ctid", val := .other e.ctid },
   { qual := some q, name := AG_ELEM_LOCAL_ID, val := .int e.id },
   { qual := some q, name := AG_ELEM_PROP_MAP, val := .other e.properties },
   { qual := some q, name := AG_START_ID, val := .int e.start },
   { qual := some q, name := AG_END_ID, val := .int e.end_id }]

/-- Modelled from the spec: the rows of two FROM items side by side. -/
def crossRows (a b : List (List Col)) : List (List Col) :=
  (a.map (fun x => b.map (fun y => x ++ y))).flatten

/-- Modelled from the spec: the first row of each group of equal keys. -/
def firstPerKey (seen : List (List Value)) :
    List (List Value × List Value) → List (List Value)
  | [] => []
  | (key, row) :: rest =>
    if key ∈ seen then firstPerKey seen rest else row :: firstPerKey (key :: seen) rest

/-- Modelled from the spec: the row in which the expressions of `DISTINCT ON` are read,
the output columns first. -/
def outputCols (targetList : List ResTarget) (out : List Value) : List Col :=
  (targetList.zip out).map
    (fun p => { qual := none, name := p.1.name.getD (figureColname p.1.val), val := p.2 })

/-- Modelled from the spec: the output rows of a plain `SELECT` from the rows its FROM
and WHERE clauses leave. -/
def projectRows (db : Db) (outer : List Col) (distinctClause : List RawNode)
    (targetList : List ResTarget) (src : List (List Col)) : List (List Value) :=
  let out := src.map (fun row => (row, targetList.map (fun t => evalRaw db (row ++ outer) t.val)))
  match distinctClause with
  | [] => out.map (fun p => p.2)
  | _ :: _ =>
    firstPerKey [] (db.order (out.map (fun p =>
      (evalRawList db (outputCols targetList p.2 ++ p.1 ++ outer) distinctClause, p.2))))

/-- Modelled from the spec: whether a row passes a WHERE clause. -/
def whereHolds (db : Db) (row : List Col) (whereClause : Option RawNode) : Bool :=
  match whereClause with
  | none => true
  | some cond => decide (evalRaw db row cond = .bool true)

/-- Modelled from the spec: the rows of a recursive source, level by level: `w` is the
current level, `step` reads the recursive branch over a level. -/
def recursiveUnion (step : List (List Value) → List (List Value)) :
    Nat → List (List Value) → List (List Value)
  | 0, _ => []
  | n + 1, w => w ++ recursiveUnion step n (step w)

/-- Modelled from the spec: the number of levels of a recursive source. -/
def levelCount (db : Db) (maxdepth : Int) : Nat :=
  if 0 < maxdepth then maxdepth.toNat else db.cutoff

/-- Modelled from the spec: the relation of a name in scope. -/
def findRel (ctes : List (String × Rel)) (name : String) : Option Rel :=
  (ctes.find? (fun p => p.1 == name)).map (fun p => p.2)

mutual
/-- Modelled from the spec: the output rows of a statement; `outer` is the row of the
enclosing query, `ctes` are the named sources in scope. -/
def evalSelect (db : Db) (outer : List Col) (ctes : List (String × Rel)) :
    SelectStmt → List (List Value)
  | .mk distinctClause targetList fromClause whereClause valuesLists withClause op all
      larg rarg =>
    match op with
    | .SETOP_UNION =>
      let rows := evalSelectOpt db outer ctes larg ++ evalSelectOpt db outer ctes rarg
      if all then rows else rows.eraseDups
    | .SETOP_NONE =>
      match valuesLists with
      | _ :: _ =>
        valuesLists.map (fun values => values.map (fun v =>
          match v with
          | none => Value.null
          | some e => evalRaw db outer e))
      | [] =>
        projectRows db outer distinctClause targetList
          ((evalFromList db outer (evalWith db outer ctes withClause) fromClause).filter
            (fun row => whereHolds db (row ++ outer) whereClause))
/-- Modelled from the spec: the output rows of a branch of a set operation. -/
def evalSelectOpt (db : Db) (outer : List Col) (ctes : List (String × Rel)) :
    Option SelectStmt → List (List Value)
  | none => []
  | some stmt => evalSelect db outer ctes stmt
/-- Modelled from the spec: the rows of a FROM item. -/
def evalFrom (db : Db) (outer : List Col) (ctes : List (String × Rel)) :
    FromItem → List (List Col)
  | .RangeVar schemaname relname _ aliasname =>
    match (if schemaname.isNone then findRel ctes relname else none) with
    | some rel => rel.rows.map (qualify (aliasname.getD relname) rel.cols)
    | none => (db.edges schemaname relname).map (edgeRowCols (aliasname.getD relname))
  | .RangeSubselect subquery aliasname =>
    (evalSelect db outer ctes subquery).map
      (qualify (aliasname.getD "") (selectNames subquery))
/-- Modelled from the spec: the rows of a FROM clause. -/
def evalFromList (db : Db) (outer : List Col) (ctes : List (String × Rel)) :
    List FromItem → List (List Col)
  | [] => [[]]
  | item :: rest => crossRows (evalFrom db outer ctes item) (evalFromList db outer ctes rest)
/-- Modelled from the spec: the named sources in scope under a WITH clause. -/
def evalWith (db : Db) (outer : List Col) (ctes : List (String × Rel)) :
    Option WithClause → List (String × Rel)
  | none => ctes
  | some (.mk ctelist recursive) => evalCtes db outer ctes recursive ctelist
/-- Modelled from the spec: the named sources in scope after a list of common table
expressions. -/
def evalCtes (db : Db) (outer : List Col) (ctes : List (String × Rel)) (recursive : Bool) :
    List CommonTableExpr → List (String × Rel)
  | [] => ctes
  | cte :: rest =>
    evalCtes db outer (evalCte db outer ctes recursive cte :: ctes) recursive rest
/-- Modelled from the spec: the relation of a common table expression. Under
`WITH RECURSIVE` a `UNION` is read as a recursive source: its left branch is the first
level, its right branch is read over the level before, for `levelCount` levels. -/
def evalCte (db : Db) (outer : List Col) (ctes : List (String × Rel)) (recursive : Bool) :
    CommonTableExpr → String × Rel
  | .mk ctename aliascolnames ctequery maxdepth =>
    let cols := if aliascolnames = [] then selectNames ctequery else aliascolnames
    let plain := evalSelect db outer ctes ctequery
    match ctequery with
    | .mk _ _ _ _ _ _ op _ larg rarg =>
      match recursive, op, larg, rarg with
      | true, .SETOP_UNION, some l, some r =>
        (ctename,
          { cols := cols,
            rows := recursiveUnion
              (fun level =>
                evalSelect db outer ((ctename, { cols := cols, rows := level }) :: ctes) r)
              (levelCount db maxdepth) (evalSelect db outer ctes l) })
      | _, _, _, _ => (ctename, { cols := cols, rows := plain })
end


/-- Modelled from the spec: the rows that the FROM and WHERE clauses of a plain `SELECT`
leave, before the projection. -/
def sourceRows (db : Db) (outer : List Col) (ctes : List (String × Rel)) :
    SelectStmt → List (List Col)
  | .mk _ _ fromClause whereClause _ withClause _ _ _ _ =>
    (evalFromList db outer (evalWith db outer ctes withClause) fromClause).filter
      (fun row => whereHolds db (row ++ outer) whereClause)

/-- Modelled from the spec: the output row of a plain `SELECT` for a row of its source. -/
def projectRow (db : Db) (outer : List Col) (stmt : SelectStmt) (row : List Col) :
    List Value :=
  stmt.targetList.map (fun t => evalRaw db (row ++ outer) t.val)

/-- A relationship relation `knows` with the relationships 101: 1 → 2, 102: 2 → 3,
103: 3 → 1 and 104: 1 → 3. -/
def sampleDb : Db :=
  { edges := fun _ relname =>
      if relname = "knows" then
        [{ tableoid := 1, ctid := 1, id := 101, start := 1, end_id := 2, properties := 0 },
         { tableoid := 1, ctid := 2, id := 102, start := 2, end_id := 3, properties := 0 },
         { tableoid := 1, ctid := 3, id := 103, start := 3, end_id := 1, properties := 0 },
         { tableoid := 1, ctid := 4, id := 104, start := 1, end_id := 3, properties := 0 }]
      else []
    func := fun _ _ => .null
    other := fun _ => .null
    contains := fun _ _ => true
    order := fun rows => rows
    cutoff := 0 }

/-- The relationship `-[r:knows*lo..hi]->`. -/
def sampleVLR (lo hi : Int) : CypherRel :=
  { direction := .RIGHT, varname := some "r", types := ["knows"],
    varlen := some { lidx := some lo, uidx := some hi }, prop_map := none }

/-- A parse state in which the initial vertex of a quantified relationship is the vertex
1 and the relationship has a previous relationship in its path. -/
def sampleVLRState : ParseState :=
  { emptyParseState with p_vlr_initial_vid := some (.A_Const 1), p_last_edge := some 1 }

/-- The statement generated for `-[r:knows*1..3]->` in `sampleVLRState`. -/
def sampleVLRStmt : SelectStmt :=
  match transformMatchVLRStmt sampleEnv sampleVLRState (sampleVLR 1 3) with
  | .ok stmt => stmt
  | .error _ => .mk [] [] [] none [] none .SETOP_NONE false none none

/-- The recursive source generated for `-[r:knows*0..0]->` in `sampleVLRState`. -/
def sampleZeroCte : CommonTableExpr :=
  match transformMatchVLRCte sampleEnv sampleVLRState (sampleVLR 0 0) with
  | .ok cte => cte
  | .error _ => .mk "" [] (.mk [] [] [] none [] none .SETOP_NONE false none none) 0

/-- The statement generated for `-[r:knows*0..0]->` in `sampleVLRState`. -/
def sampleZeroStmt : SelectStmt :=
  match transformMatchVLRStmt sampleEnv sampleVLRState (sampleVLR 0 0) with
  | .ok stmt => stmt
  | .error _ => .mk [] [] [] none [] none .SETOP_NONE false none none

/-- A row of the recursive source at the level `n`: the columns `end`, `level`, `start`
(when it is emitted) and `path`, the path being an array of `n` identifiers without a
duplicate. -/
def LevelRow (start_out : Bool) (n : Nat) (r : List Value) : Prop :=
  ∃ (e s : Value) (xs : List Int), xs.length = n ∧ xs.Nodup ∧
    r = [e, .int n] ++ (if start_out then [s] else []) ++ [.arr xs]

/-- The expression the specification gives a column of the base row of a quantified
relationship with the lower bound 0: the identifier of the initial vertex for the end
and the start, the level 0, an empty array of graph identifiers for the path. -/
def zeroLengthColumnSpec (vid : Option RawNode) (colname : String) : Option RawNode :=
  if colname = VLR_COLNAME_END ∨ colname = VLR_COLNAME_START then vid
  else if colname = VLR_COLNAME_LEVEL then some (.A_Const 0)
  else some (.TypeCast (.A_ArrayExpr []) "_graphid")

/-- Modelled from the spec: the value of an entry of a `VALUES` list. -/
def evalValuesEntry (db : Db) (outer : List Col) (v : Option RawNode) : Value :=
  match v with
  | none => .null
  | some e => evalRaw db outer e

/-! ## Quantified relationships: bounds and columns -/

/-- The expression of the second column (`level`) of a branch of the recursive source:
the second entry of the `VALUES` row when the branch is one, the second target
otherwise. -/
def levelColumn (stmt : SelectStmt) : Option RawNode :=
  match stmt.valuesLists with
  | row :: _ => (row[1]?).join
  | [] => (stmt.targetList[1]?).map (fun t => t.val)

/-- The level of the base branch as the specification gives it: 0 when the lower bound
is 0, 1 otherwise. -/
def baseLevelSpec (lo : Int) : Int :=
  if lo = 0 then 0 else 1

/-- The relationship `-[r:knows*lo..]->`, without upper bound. -/
def sampleOpenVLR (lo : Int) : CypherRel :=
  { direction := .RIGHT, varname := some "r", types := ["knows"],
    varlen := some { lidx := some lo, uidx := none }, prop_map := none }

/-- The recursive source `cte` of `transformMatchVLR` for a relationship in
`sampleVLRState`. -/
def sampleCte (crel : CypherRel) : CommonTableExpr :=
  match transformMatchVLRCte sampleEnv sampleVLRState crel with
  | .ok cte => cte
  | .error _ => .mk "" [] (.mk [] [] [] none [] none .SETOP_NONE false none none) 0

/-- The database `sampleDb` read by an executor that cuts an unbounded recursion after two
levels. -/
def sampleCutDb : Db :=
  { sampleDb with cutoff := 2 }

/-- The statement `transformMatchVLR` generates for a relationship in `sampleVLRState`. -/
def sampleStmt (crel : CypherRel) : SelectStmt :=
  match transformMatchVLRStmt sampleEnv sampleVLRState crel with
  | .ok stmt => stmt
  | .error _ => .mk [] [] [] none [] none .SETOP_NONE false none none

/-- A relationship relation `knows` with the relationships 201: 1 → 2, 202: 1 → 3,
203: 2 → 4 and 204: 3 → 4: two sequences of two relationships lead from 1 to 4. -/
def diamondDb : Db :=
  { sampleDb with
    edges := fun _ relname =>
      if relname = "knows" then
        [{ tableoid := 1, ctid := 1, id := 201, start := 1, end_id := 2, properties := 0 },
         { tableoid := 1, ctid := 2, id := 202, start := 1, end_id := 3, properties := 0 },
         { tableoid := 1, ctid := 3, id := 203, start := 2, end_id := 4, properties := 0 },
         { tableoid := 1, ctid := 4, id := 204, start := 3, end_id := 4, properties := 0 }]
      else [] }

/-- A statement without its `DISTINCT ON` clause. -/
def withoutDistinct : SelectStmt → SelectStmt
  | .mk _ t f w v wc op a l r => .mk [] t f w v wc op a l r

/-- The recursive source of a relationship in `sampleVLRState`, its recursive branch
taken without the `DISTINCT ON` clause. -/
def sampleCteAllRows (crel : CypherRel) : CommonTableExpr :=
  match sampleCte crel with
  | .mk ctename cols (.mk d t f w v wc op a l r) maxdepth =>
    .mk ctename cols (.mk d t f w v wc op a l (r.map withoutDistinct)) maxdepth

/-- The path `(a)-[*1..2]->(b)`: a quantified relationship that is the first relationship
of its path, from a node that becomes a future vertex. -/
def sampleFirstVLRPath : CypherPath :=
  { pathname := none,
    chain := [plainNode (some "a"), varlenRel 1 (some 2), plainNode (some "b")] }

/-- The path `(a:person)<-[*1..2]-(b)`: a quantified relationship of direction left that
is the first relationship of its path. -/
def sampleLeftVLRPath : CypherPath :=
  { pathname := none,
    chain := [.node { varname := some "a", label := some "person", prop_map := none },
              .rel { direction := .LEFT, varname := none, types := [],
                     varlen := some { lidx := some 1, uidx := some 2 }, prop_map := none },
              plainNode (some "b")] }

/-- The relationship `<-[*1..2]-` of `sampleLeftVLRPath`. -/
def sampleLeftVLR : CypherRel :=
  { direction := .LEFT, varname := none, types := [],
    varlen := some { lidx := some 1, uidx := some 2 }, prop_map := none }

/-- The parse state in which `transformMatchVLR` is called for the relationship of
`sampleLeftVLRPath`: the node `a` is scanned, there is no previous relationship. -/
def sampleLeftVLRState : ParseState :=
  { emptyParseState with
    p_vlr_initial_vid := some (.ColumnRef ["a", AG_ELEM_LOCAL_ID]), p_last_edge := none }

/-- The names under which a statement outputs its columns. -/
def targetNames (stmt : SelectStmt) : List String :=
  stmt.targetList.map (fun t => t.name.getD (figureColname t.val))

/-! ## Patterns that use a future vertex again -/

/-- The pattern `(a)-[]->(b), p = (b)-[]->(c)`: the named path starts at the variable `b`
that the first path leaves as a future vertex. -/
def sampleReusePattern : List CypherPath :=
  [ { pathname := none, chain := [plainNode (some "a"), plainRel, plainNode (some "b")] },
    { pathname := some "p", chain := [plainNode (some "b"), plainRel, plainNode (some "c")] } ]

/-- The vertex elements of a path value built by `makeGraphpath`. -/
def pathVertices (graphpath : Expr) : List Expr :=
  match graphpath with
  | .RowExpr (.ArrayExpr _ _ vertices :: _) _ => vertices
  | _ => []

/-- The path value that `transformComponents` leaves in the target list under the name
`pathname`, collected from the pattern by `collectNodeInfo` and `makeComponents`. -/
def pathValueOf (pattern : List CypherPath) (pathname : String) : Option Expr :=
  match transformComponents sampleEnv (parseStateFor pattern) (makeComponents id pattern) [] with
  | .ok r => (findTarget r.2.2 (some pathname)).map (fun t => t.2.expr)
  | .error _ => none

/-- The pattern `(x)-[]->(a), (a)-[*0..1]->(b)`: the path with the zero-length
relationship starts at the variable `a` that the first path leaves as a future vertex. -/
def sampleZeroReusePattern : List CypherPath :=
  [ { pathname := none, chain := [plainNode (some "x"), plainRel, plainNode (some "a")] },
    { pathname := none,
      chain := [plainNode (some "a"), varlenRel 0 (some 1), plainNode (some "b")] } ]

/-- The relationship `-[*0..1]->` of `sampleZeroReusePattern`. -/
def sampleZeroRel : CypherRel :=
  { direction := .RIGHT, varname := none, types := [],
    varlen := some { lidx := some 0, uidx := some 1 }, prop_map := none }

/-- The state of `transformComponents` on `sampleZeroReusePattern` when its second path
starts: the first path is transformed, `p_last_edge` is reset. -/
def zeroReuseStart : CompState :=
  match transformPath sampleEnv (initCompState (parseStateFor sampleZeroReusePattern) [])
      { pathname := none, chain := [plainNode (some "x"), plainRel, plainNode (some "a")] } with
  | .ok s => { s with pstate := { s.pstate with p_last_edge := none }, pvs := [], pes := [] }
  | .error _ => initCompState emptyParseState []

/-- The first node of the second path of `sampleZeroReusePattern` as `transformMatchNode`
returns it, called with `force` set because the relationship is zero-length. -/
def zeroReuseNode : VertexRef × ParseState × List TargetEntry :=
  match transformMatchNode sampleEnv zeroReuseStart.pstate sampleNodeA true
      zeroReuseStart.targetList with
  | .ok n => n
  | .error _ => (.null, emptyParseState, [])

/-- The parse state in which `transformMatchRel` is called for the zero-length
relationship of `sampleZeroReusePattern`, as `setInitialVidForVLR` leaves it. -/
def zeroReuseState : ParseState :=
  match setInitialVidForVLR zeroReuseNode.2.1 zeroReuseNode.2.2 sampleZeroRel zeroReuseNode.1
      none with
  | .ok pstate => pstate
  | .error _ => emptyParseState

/-! ## Field selections on a future vertex -/

/-- The selection `id(a)` of the identifier (field 1) of the vertex column 1 of the
subquery 1. -/
def sampleIdSelect : Expr :=
  .FieldSelect (.Var (vertexColumn 1 1)) 1 .GRAPHIDOID

/-- The selection `a.properties` (field 2) of the vertex column 1 of the subquery 1. -/
def samplePropSelect : Expr :=
  .FieldSelect (.Var (vertexColumn 1 1)) 2 .JSONBOID

/-- The result of `resolve_future_vertex` with flags 0 on `samplePropSelect` in
`sampleScopeState`. -/
def samplePropSelectResult : Expr × ParseState :=
  match resolve_future_vertex sampleEnv sampleScopeState samplePropSelect 0 with
  | .ok r => r
  | .error _ => (.Const .BOOLOID true, emptyParseState)

/-! ## Property constraints: `transformElemQuals` -/

/-- The loop `foreach(le, pstate->p_elem_quals)` of `transformElemQuals`: for each pending
property constraint the variable of its column is built by `make_var` on the entry
`GetRTEByRangeTablePosn(pstate, eq->varno, 0)`, its property payload is selected by
`getExprField`, the constraint is compiled by `transformPropMap`, and the predicate
`@>` of the two is added to the qual by `qualAndExpr`. The expression compiler works on
the parse state and does not register property constraints in it, the loop runs over the
list as it is on entry. -/
def transformElemQualsLoop (env : Env) (pstate : ParseState) (qual : Option Expr)
    (elem_quals : List ElemQual) : Except ParseError (Option Expr × ParseState) :=
  match elem_quals with
  | [] => .ok (qual, pstate)
  | elem :: rest =>
    match make_var pstate elem.varno elem.varattno with
    | .error e => .error e
    | .ok (_, var) =>
      match getExprField (.Var var) AG_ELEM_PROP_MAP with
      | .error e => .error e
      | .ok prop_map =>
        match env.transformPropMap pstate elem.prop_constr with
        | .error e => .error e
        | .ok (prop_constr, pstate) =>
          transformElemQualsLoop env pstate
            (qualAndExpr qual (some (make_op "@>" prop_map prop_constr))) rest

/-- The function `transformElemQuals`: the result is the qual, with the parse state as it
is left (`p_elem_quals = NIL`). -/
def transformElemQuals (env : Env) (pstate : ParseState) (qual : Option Expr) :
    Except ParseError (Option Expr × ParseState) :=
  match transformElemQualsLoop env pstate qual pstate.p_elem_quals with
  | .error e => .error e
  | .ok (qual, pstate) => .ok (qual, { pstate with p_elem_quals := [] })

/-- The expression `e` is the containment predicate `properties(column) @> constraint`
of the pending property constraint `elem`: its left side selects the property payload
(field 2 of a vertex, field 4 of an edge) of the column `(elem.varno, elem.varattno)` of
the current query level, its right side is what `transformPropMap` makes of the
constraint of `elem`. -/
def IsContainmentOf (env : Env) (elem : ElemQual) (e : Expr) : Prop :=
  ∃ var fieldnum constr,
    e = Expr.OpExpr "@>" (.FieldSelect (.Var var) fieldnum .JSONBOID) constr ∧
    var.varno = elem.varno ∧ var.varattno = elem.varattno ∧ var.varlevelsup = 0 ∧
    ((var.vartype = .VERTEXOID ∧ fieldnum = 2) ∨ (var.vartype = .EDGEOID ∧ fieldnum = 4)) ∧
    ∃ s s2, env.transformPropMap s elem.prop_constr = .ok (constr, s2)

/-- Does the element of a chain carry a property map that is checked by a pending
property constraint: a node with a property map, or a fixed-length relationship with a
property map. -/
def carriesPropMap (elem : ChainElem) : Bool :=
  match elem with
  | .node cnode => cnode.prop_map.isSome
  | .rel crel => crel.varlen.isNone && crel.prop_map.isSome

/-- The number of node and fixed-length relationship occurrences of a pattern that carry
a property map. -/
def propMapOccurrences (pattern : List CypherPath) : Nat :=
  (pattern.map (fun p => p.chain.countP carriesPropMap)).sum

/-- The property maps of the node and fixed-length relationship occurrences of a chain,
in chain order. -/
def chainPropMaps (chain : List ChainElem) : List RawNode :=
  match chain with
  | [] => []
  | .node cnode :: rest => cnode.prop_map.toList ++ chainPropMaps rest
  | .rel crel :: rest =>
    (if crel.varlen.isNone then crel.prop_map.toList else []) ++ chainPropMaps rest

/-- The property maps of the paths of a component, in the order of the paths. -/
def pathsPropMaps (c : List CypherPath) : List RawNode :=
  match c with
  | [] => []
  | p :: rest => chainPropMaps p.chain ++ pathsPropMaps rest

/-- The property maps of a list of components, in the order in which
`transformComponents` goes through them. -/
def componentsPropMaps (components : List (List CypherPath)) : List RawNode :=
  match components with
  | [] => []
  | c :: rest => pathsPropMaps c ++ componentsPropMaps rest

/-- What a run of the pattern compiler from the parse state `a` to the parse state `b`
does to the pending property constraints: the node information is left as it is, and one
`ElemQual` per property map of `pms` is appended, in that order, each with
`varno = InvalidAttrNumber`. -/
def Registered (a b : ParseState) (pms : List RawNode) : Prop :=
  b.p_node_info_list = a.p_node_info_list ∧
  ∃ added, b.p_elem_quals = a.p_elem_quals ++ added ∧
    added.map (fun elem => elem.prop_constr) = pms ∧
    ∀ elem ∈ added, elem.varno = InvalidAttrNumber

/-- The node information holds the property flag of every named node of the chains that
carries a property map, as `collectNodeInfo` leaves it. -/
def PropFlagsSet (l : List NodeInfo) (nodes : List CypherNode) : Prop :=
  ∀ cnode ∈ nodes, ∀ v, cnode.varname = some v → cnode.prop_map.isSome = true →
    ∀ ni, findNodeInfo l v = some ni → ni.prop_constr = true

/-- A graph like `sampleEnv` whose expression compiler turns the property map
`other tag` into the call `jsonb_in` of the constant `tag` and fails on everything
else. -/
def propEnv : Env :=
  { sampleEnv with
    transformPropMap := fun pstate pm =>
      match pm with
      | .other tag => .ok (.FuncExpr "jsonb_in" [.Const (.other tag) false] .JSONBOID, pstate)
      | _ => .error .prop_map_failed }

/-- The pattern `(a:person {1})-[r:knows {2}]->(b), (b:person)-[*1..2 {3}]->(a {4})`, the
property maps given by their tags. -/
def samplePropPattern : List CypherPath :=
  [ { pathname := none,
      chain := [.node { varname := some "a", label := some "person", prop_map := some (.other 1) },
                .rel { direction := .RIGHT, varname := some "r", types := ["knows"],
                       varlen := none, prop_map := some (.other 2) },
                plainNode (some "b")] },
    { pathname := none,
      chain := [.node { varname := some "b", label := some "person", prop_map := none },
                .rel { direction := .RIGHT, varname := none, types := [],
                       varlen := some { lidx := some 1, uidx := some 2 },
                       prop_map := some (.other 3) },
                .node { varname := some "a", label := none, prop_map := some (.other 4) }] } ]

/-- The result of `transformComponents` on `samplePropPattern`: the inner pass of
`transformCypherMatchClause`. -/
def samplePropInner : Option Expr × ParseState × List TargetEntry :=
  match transformComponents propEnv (parseStateFor samplePropPattern)
      (makeComponents id samplePropPattern) [] with
  | .ok r => r
  | .error _ => (none, emptyParseState, [])

/-- The parse state of the outer pass of `transformCypherMatchClause` for
`samplePropPattern`, as `transformClauseImpl` leaves it. -/
def samplePropOuterState : ParseState :=
  match transformClauseImpl emptyParseState
      { targetList := samplePropInner.2.2, p_elem_quals := samplePropInner.2.1.p_elem_quals,
        p_future_vertices := samplePropInner.2.1.p_future_vertices }
      CYPHER_SUBQUERY_ALIAS with
  | .ok r => r.2
  | .error _ => emptyParseState

/-- The result of `transformElemQuals` in `samplePropOuterState`, without a WHERE
clause. -/
def sampleElemQualsResult : Option Expr × ParseState :=
  match transformElemQuals propEnv samplePropOuterState none with
  | .ok r => r
  | .error _ => (none, emptyParseState)

/-! ## Endpoint columns of a relationship -/

/-- What a successful call `addQualNodeIn(pstate, qual, vertex, crel, edge, prev)` with
the result `r` (the qual and the target list it leaves) has done for a fixed-length
relationship: nothing for the null placeholder; for a range-table vertex the predicate
`id = column` is appended to the qual, the column being `getEdgeColname(crel, prev)` of
the scan `edge`; for a target entry that is a future vertex the column becomes the
identifier of its row, and for any other target entry the predicate `id = column` is
appended to the qual. -/
def EquatesEndpoint (pstate : ParseState) (targetList : List TargetEntry)
    (qual : Option Expr) (vertex : VertexRef) (crel : CypherRel) (edge : Nat) (prev : Bool)
    (r : Option Expr × List TargetEntry) : Prop :=
  match vertex with
  | .null => r = (qual, targetList)
  | .rte rtindex =>
    ∃ id vid, getColumnVar pstate rtindex AG_ELEM_LOCAL_ID = .ok id ∧
      getColumnVar pstate edge (getEdgeColname crel prev) = .ok vid ∧
      r.2 = targetList ∧
      conjuncts r.1 = conjuncts qual ++ [.OpExpr "=" (.Var id) (.Var vid)]
  | .te idx =>
    ∃ te vid, targetList[idx]? = some te ∧
      getColumnVar pstate edge (getEdgeColname crel prev) = .ok vid ∧
      if isFutureVertexRow te.expr then
        r.1 = qual ∧
        r.2 = targetList.set idx { te with expr := setRowId te.expr (.Var vid) } ∧
        ∃ first second rest typ, te.expr = .RowExpr (first :: second :: rest) typ ∧
          setRowId te.expr (.Var vid) = .RowExpr [.Var vid, second] typ
      else
        ∃ id, getExprField te.expr AG_ELEM_ID = .ok id ∧ r.2 = targetList ∧
          conjuncts r.1 = conjuncts qual ++ [.OpExpr "=" id (.Var vid)]

/-- The node `(v)` without label and property map. -/
def endpointNode (v : String) : CypherNode :=
  { varname := some v, label := none, prop_map := none }

/-- The fixed-length relationship `e` of type `knows` with the given direction. -/
def sampleEndpointRel (direction : CypherRelDir) : CypherRel :=
  { direction := direction, varname := some "e", types := ["knows"], varlen := none,
    prop_map := none }

/-- The chain `(a)-[e:knows]->(b)` when `direction` is right, `(a)<-[e:knows]-(b)` when
it is left, `(a)-[e:knows]-(b)` when it is none. -/
def sampleEndpointChain (direction : CypherRelDir) : List ChainElem :=
  [.node (endpointNode "a"), .rel (sampleEndpointRel direction), .node (endpointNode "b")]

/-- The state of `transformComponents` at the start of `sampleEndpointChain`: the parse
state of a first MATCH clause with the node information of the chain. -/
def sampleEndpointStart (direction : CypherRelDir) : CompState :=
  initCompState
    (parseStateFor [{ pathname := none, chain := sampleEndpointChain direction }]) []

/-- The result of `transformChain` on `sampleEndpointChain`. -/
def sampleEndpointResult (direction : CypherRelDir) : CompState × VertexRef :=
  match transformChain sampleEnv false (sampleEndpointStart direction)
      (sampleEndpointChain direction) with
  | .ok r => r
  | .error _ => (initCompState emptyParseState [], .null)

/-- The column `varattno` of the scan `varno` of an edge, an identifier. -/
def edgeIdColumn (varno varattno : Nat) : Expr :=
  .Var { varno := varno, varattno := varattno, vartype := .GRAPHIDOID, varlevelsup := 0 }

/-- The row of a future vertex whose identifier is the column `varattno` of the scan
`varno`. -/
def futureVertexWithId (varno varattno : Nat) : Expr :=
  .RowExpr [edgeIdColumn varno varattno, .Const .JSONBOID true] .VERTEXOID

/-- The expression of the target entry named `resname`, if any. -/
def targetExpr (targetList : List TargetEntry) (resname : String) : Option Expr :=
  (targetList.find? (fun te => te.resname = resname)).map (fun te => te.expr)

/-- The chain `(a:person)-[e:knows]->(b:person)-[f:knows]->(c:person)`. -/
def sampleLabelledChain : List ChainElem :=
  [.node { varname := some "a", label := some "person", prop_map := none },
   .rel { direction := .RIGHT, varname := some "e", types := ["knows"], varlen := none,
          prop_map := none },
   .node { varname := some "b", label := some "person", prop_map := none },
   .rel { direction := .RIGHT, varname := some "f", types := ["knows"], varlen := none,
          prop_map := none },
   .node { varname := some "c", label := some "person", prop_map := none }]

/-- The result of `transformChain` on `sampleLabelledChain`. -/
def sampleLabelledResult : CompState × VertexRef :=
  match transformChain sampleEnv false
      (initCompState (parseStateFor [{ pathname := none, chain := sampleLabelledChain }]) [])
      sampleLabelledChain with
  | .ok r => r
  | .error _ => (initCompState emptyParseState [], .null)

/-! ## Theorems: `collectNodeInfo` -/

theorem collectNodeInfoChain_eq (l : List NodeInfo) (chain : List ChainElem) :
    collectNodeInfoChain l chain = addNodeInfoList l (chainNodes chain) := by
  induction chain generalizing l with
  | nil => rfl
  | cons e rest ih =>
    cases e with
    | node cnode =>
      simp only [collectNodeInfoChain, chainNodes, addNodeInfoList]
      cases addNodeInfo l cnode with
      | error e => rfl
      | ok l2 => exact ih l2
    | rel crel =>
      simp only [collectNodeInfoChain, chainNodes]
      exact ih l

theorem addNodeInfoList_append (l : List NodeInfo) (ns ms : List CypherNode) :
    addNodeInfoList l (ns ++ ms) =
      match addNodeInfoList l ns with
      | .error e => .error e
      | .ok l2 => addNodeInfoList l2 ms := by
  induction ns generalizing l with
  | nil => rfl
  | cons n rest ih =>
    simp only [List.cons_append, addNodeInfoList]
    cases addNodeInfo l n with
    | error e => rfl
    | ok l2 => exact ih l2

theorem collectNodeInfo_eq (l : List NodeInfo) (pattern : List CypherPath) :
    collectNodeInfo l pattern = addNodeInfoList l (patternNodes pattern) := by
  induction pattern generalizing l with
  | nil => rfl
  | cons p rest ih =>
    simp only [collectNodeInfo, patternNodes, addNodeInfoList_append, collectNodeInfoChain_eq]
    cases addNodeInfoList l (chainNodes p.chain) with
    | error e => rfl
    | ok l2 => exact ih l2

theorem addNodeInfoList_snoc (l : List NodeInfo) (ns : List CypherNode) (n : CypherNode) :
    addNodeInfoList l (ns ++ [n]) =
      match addNodeInfoList l ns with
      | .error e => .error e
      | .ok l2 => addNodeInfo l2 n := by
  rw [addNodeInfoList_append]
  cases addNodeInfoList l ns with
  | error e => rfl
  | ok l2 =>
    simp only [addNodeInfoList]
    cases addNodeInfo l2 n <;> rfl

theorem findNodeInfo_none_iff (l : List NodeInfo) (v : String) :
    findNodeInfo l v = none ↔ ∀ ni ∈ l, ni.varname ≠ v := by
  induction l with
  | nil => simp [findNodeInfo]
  | cons x rest ih =>
    simp only [findNodeInfo, List.mem_cons, forall_eq_or_imp]
    by_cases h : x.varname = v
    · simp [h]
    · simp [h, ih]

theorem findNodeInfo_some (l : List NodeInfo) (v : String) (ni : NodeInfo)
    (h : findNodeInfo l v = some ni) : ni ∈ l ∧ ni.varname = v := by
  induction l with
  | nil => simp [findNodeInfo] at h
  | cons x rest ih =>
    simp only [findNodeInfo] at h
    by_cases hx : x.varname = v
    · simp only [hx, if_true, Option.some.injEq] at h
      subst h
      exact ⟨List.mem_cons_self _ _, hx⟩
    · simp only [hx, if_false] at h
      exact ⟨List.mem_cons_of_mem _ (ih h).1, (ih h).2⟩

theorem findNodeInfo_append (l : List NodeInfo) (x : NodeInfo) (w : String) :
    findNodeInfo (l ++ [x]) w =
      match findNodeInfo l w with
      | some ni => some ni
      | none => if x.varname = w then some x else none := by
  induction l with
  | nil => simp [findNodeInfo]
  | cons y rest ih =>
    simp only [List.cons_append, findNodeInfo]
    by_cases hy : y.varname = w
    · simp [hy]
    · simp [hy, ih]

theorem findNodeInfo_store (l : List NodeInfo) (v w : String) (ni2 : NodeInfo)
    (hname : ni2.varname = v) :
    findNodeInfo (storeNodeInfo l v ni2) w =
      if w = v then (findNodeInfo l v).map (fun _ => ni2) else findNodeInfo l w := by
  induction l with
  | nil => simp [storeNodeInfo, findNodeInfo]
  | cons y rest ih =>
    simp only [storeNodeInfo]
    by_cases hy : y.varname = v
    · simp only [hy, if_true, findNodeInfo, hname]
      by_cases hw : w = v
      · simp [hw]
      · have hw2 : ¬ v = w := fun h => hw h.symm
        simp [hw, hw2]
    · simp only [hy, if_false, findNodeInfo]
      by_cases hw : w = v
      · subst hw
        simp only [hy, if_false, if_true] at ih ⊢
        exact ih
      · simp only [hw, if_false] at ih ⊢
        rw [ih]

theorem storeNodeInfo_names (l : List NodeInfo) (v : String) (ni2 : NodeInfo)
    (hname : ni2.varname = v) :
    (storeNodeInfo l v ni2).map (fun x => x.varname) = l.map (fun x => x.varname) := by
  induction l with
  | nil => rfl
  | cons y rest ih =>
    simp only [storeNodeInfo]
    by_cases hy : y.varname = v
    · simp [hy, hname]
    · simp [hy, ih]

theorem labelConflict_snoc (ns : List CypherNode) (n : CypherNode) :
    LabelConflict (ns ++ [n]) ↔
      LabelConflict ns ∨
      ∃ n1 ∈ ns, ∃ v L1 L2, n1.varname = some v ∧ n.varname = some v ∧
        n1.label = some L1 ∧ n.label = some L2 ∧ L1 ≠ L2 := by
  constructor
  · rintro ⟨n1, h1, n2, h2, v, L1, L2, hv1, hv2, hl1, hl2, hne⟩
    rw [List.mem_append, List.mem_singleton] at h1 h2
    rcases h1 with h1 | h1 <;> rcases h2 with h2 | h2
    · exact Or.inl ⟨n1, h1, n2, h2, v, L1, L2, hv1, hv2, hl1, hl2, hne⟩
    · subst h2
      exact Or.inr ⟨n1, h1, v, L1, L2, hv1, hv2, hl1, hl2, hne⟩
    · subst h1
      exact Or.inr ⟨n2, h2, v, L2, L1, hv2, hv1, hl2, hl1, fun h => hne h.symm⟩
    · subst h1; subst h2
      rw [hl1] at hl2
      exact absurd (Option.some.inj hl2) hne
  · rintro (⟨n1, h1, n2, h2, v, L1, L2, hv1, hv2, hl1, hl2, hne⟩ |
      ⟨n1, h1, v, L1, L2, hv1, hv2, hl1, hl2, hne⟩)
    · exact ⟨n1, List.mem_append_left _ h1, n2, List.mem_append_left _ h2,
        v, L1, L2, hv1, hv2, hl1, hl2, hne⟩
    · exact ⟨n1, List.mem_append_left _ h1, n, List.mem_append_right _ (List.mem_singleton_self n),
        v, L1, L2, hv1, hv2, hl1, hl2, hne⟩

theorem addNodeInfo_anonymous (l : List NodeInfo) (n : CypherNode) (h : n.varname = none) :
    addNodeInfo l n = .ok l := by
  simp [addNodeInfo, h]

theorem addNodeInfo_new (l : List NodeInfo) (n : CypherNode) (v : String)
    (hv : n.varname = some v) (hf : findNodeInfo l v = none) :
    addNodeInfo l n = .ok (l ++
      [{ varname := v, labname := n.label, prop_constr := n.prop_map.isSome }]) := by
  simp [addNodeInfo, hv, hf]

theorem addNodeInfo_found (l : List NodeInfo) (n : CypherNode) (v : String) (ni : NodeInfo)
    (hv : n.varname = some v) (hf : findNodeInfo l v = some ni) :
    (∃ L1 L2, ni.labname = some L1 ∧ n.label = some L2 ∧ L1 ≠ L2 ∧
        addNodeInfo l n = .error (.label_conflict v)) ∨
    (∃ ni2, addNodeInfo l n = .ok (storeNodeInfo l v ni2) ∧ ni2.varname = ni.varname ∧
        (∀ L, ni2.labname = some L ↔ (ni.labname = some L ∨ n.label = some L)) ∧
        (ni2.prop_constr = true ↔ (ni.prop_constr = true ∨ n.prop_map.isSome = true)) ∧
        ¬ (∃ L1 L2, ni.labname = some L1 ∧ n.label = some L2 ∧ L1 ≠ L2)) := by
  cases hnl : ni.labname with
  | none =>
    right
    refine ⟨{ ni with labname := n.label,
                      prop_constr := ni.prop_constr || n.prop_map.isSome }, ?_, rfl, ?_, ?_, ?_⟩
    · simp [addNodeInfo, hv, hf, hnl]
    · intro L; simp
    · simp
    · rintro ⟨L1, L2, h1, _⟩; cases h1
  | some nilab =>
    cases hlab : n.label with
    | none =>
      right
      refine ⟨{ ni with prop_constr := ni.prop_constr || n.prop_map.isSome }, ?_, rfl, ?_, ?_, ?_⟩
      · simp [addNodeInfo, hv, hf, hnl, hlab]
      · intro L; simp [hnl]
      · simp
      · rintro ⟨L1, L2, _, h2, _⟩; cases h2
    | some lab =>
      by_cases hne : nilab = lab
      · right
        refine ⟨{ ni with prop_constr := ni.prop_constr || n.prop_map.isSome }, ?_, rfl, ?_, ?_, ?_⟩
        · simp [addNodeInfo, hv, hf, hnl, hlab, hne]
        · intro L; simp [hnl, hne]
        · simp
        · rintro ⟨L1, L2, h1, h2, h3⟩
          cases h1; cases h2
          exact h3 hne
      · left
        exact ⟨nilab, lab, rfl, rfl, hne, by simp [addNodeInfo, hv, hf, hnl, hlab, hne]⟩

theorem nodeInfoFor_snoc_other (ns : List CypherNode) (n : CypherNode) (w : String)
    (ni : NodeInfo) (hn : n.varname ≠ some w) (h : NodeInfoFor ns w ni) :
    NodeInfoFor (ns ++ [n]) w ni := by
  refine ⟨h.name_eq, ?_, ?_⟩
  · intro L
    rw [h.label_iff]
    constructor
    · rintro ⟨x, hx, h1, h2⟩
      exact ⟨x, List.mem_append_left _ hx, h1, h2⟩
    · rintro ⟨x, hx, h1, h2⟩
      rw [List.mem_append, List.mem_singleton] at hx
      rcases hx with hx | hx
      · exact ⟨x, hx, h1, h2⟩
      · subst hx; exact absurd h1 hn
  · rw [h.prop_iff]
    constructor
    · rintro ⟨x, hx, h1, h2⟩
      exact ⟨x, List.mem_append_left _ hx, h1, h2⟩
    · rintro ⟨x, hx, h1, h2⟩
      rw [List.mem_append, List.mem_singleton] at hx
      rcases hx with hx | hx
      · exact ⟨x, hx, h1, h2⟩
      · subst hx; exact absurd h1 hn

theorem nodeInfoInv_nil : NodeInfoInv [] [] := by
  refine ⟨List.nodup_nil, ?_, ?_, ?_, ?_⟩
  · rintro v ⟨n, hn, _⟩; cases hn
  · intro v ni h; simp [findNodeInfo] at h
  · intro v ni h; simp [findNodeInfo] at h
  · rintro ⟨n1, h1, _⟩; cases h1

theorem nodeInfoInv_anonymous (l : List NodeInfo) (ns : List CypherNode) (n : CypherNode)
    (hn : n.varname = none) (hinv : NodeInfoInv l ns) : NodeInfoInv l (ns ++ [n]) := by
  have hne : ∀ w, n.varname ≠ some w := by intro w; rw [hn]; exact fun h => by cases h
  refine ⟨hinv.nodup, ?_, ?_, ?_, ?_⟩
  · rintro v ⟨x, hx, hxv⟩
    rw [List.mem_append, List.mem_singleton] at hx
    rcases hx with hx | hx
    · exact hinv.found v ⟨x, hx, hxv⟩
    · subst hx; exact absurd hxv (hne v)
  · intro v ni h
    obtain ⟨x, hx, hxv⟩ := hinv.only v ni h
    exact ⟨x, List.mem_append_left _ hx, hxv⟩
  · intro v ni h
    exact nodeInfoFor_snoc_other ns n v ni (hne v) (hinv.sound v ni h)
  · rw [labelConflict_snoc]
    rintro (h | ⟨n1, _, v, L1, L2, _, hv2, _⟩)
    · exact hinv.agree h
    · exact hne v hv2

theorem nodeInfoInv_new (l : List NodeInfo) (ns : List CypherNode) (n : CypherNode)
    (v : String) (hv : n.varname = some v) (hf : findNodeInfo l v = none)
    (hinv : NodeInfoInv l ns) :
    NodeInfoInv
      (l ++ [{ varname := v, labname := n.label, prop_constr := n.prop_map.isSome }])
      (ns ++ [n]) := by
  have hfresh : ∀ x ∈ ns, x.varname ≠ some v := by
    intro x hx hxv
    obtain ⟨ni, hni⟩ := hinv.found v ⟨x, hx, hxv⟩
    rw [hf] at hni; cases hni
  refine ⟨?_, ?_, ?_, ?_, ?_⟩
  · rw [List.map_append, List.map_singleton]
    refine List.Nodup.append hinv.nodup (List.nodup_singleton _) ?_
    intro a ha hb
    rw [List.mem_singleton] at hb
    subst hb
    obtain ⟨x, hx, hxa⟩ := List.mem_map.mp ha
    exact (findNodeInfo_none_iff l _).mp hf x hx hxa
  · rintro w ⟨x, hx, hxw⟩
    rw [findNodeInfo_append]
    rw [List.mem_append, List.mem_singleton] at hx
    rcases hx with hx | hx
    · obtain ⟨ni, hni⟩ := hinv.found w ⟨x, hx, hxw⟩
      exact ⟨ni, by rw [hni]⟩
    · subst hx
      rw [hv] at hxw
      cases hxw
      rw [hf]
      simp
  · intro w ni h
    rw [findNodeInfo_append] at h
    cases hw : findNodeInfo l w with
    | some x =>
      obtain ⟨y, hy, hyw⟩ := hinv.only w x hw
      exact ⟨y, List.mem_append_left _ hy, hyw⟩
    | none =>
      rw [hw] at h
      by_cases hvw : v = w
      · subst hvw
        exact ⟨n, List.mem_append_right _ (List.mem_singleton_self n), hv⟩
      · simp [hvw] at h
  · intro w ni h
    rw [findNodeInfo_append] at h
    cases hw : findNodeInfo l w with
    | some x =>
      rw [hw] at h
      have hx : x = ni := Option.some.inj h
      rw [hx] at hw
      have hwv : w ≠ v := by
        intro e; subst e; rw [hf] at hw; cases hw
      refine nodeInfoFor_snoc_other ns n w ni ?_ (hinv.sound w ni hw)
      rw [hv]
      exact fun e => hwv (Option.some.inj e).symm
    | none =>
      rw [hw] at h
      by_cases hvw : v = w
      · subst hvw
        simp only [if_true, Option.some.injEq] at h
        subst h
        refine ⟨rfl, ?_, ?_⟩
        · intro L
          constructor
          · intro hL
            exact ⟨n, List.mem_append_right _ (List.mem_singleton_self n), hv, hL⟩
          · rintro ⟨x, hx, hxv, hxl⟩
            rw [List.mem_append, List.mem_singleton] at hx
            rcases hx with hx | hx
            · exact absurd hxv (hfresh x hx)
            · subst hx; exact hxl
        · constructor
          · intro hP
            exact ⟨n, List.mem_append_right _ (List.mem_singleton_self n), hv, hP⟩
          · rintro ⟨x, hx, hxv, hxl⟩
            rw [List.mem_append, List.mem_singleton] at hx
            rcases hx with hx | hx
            · exact absurd hxv (hfresh x hx)
            · subst hx; exact hxl
      · simp [hvw] at h
  · rw [labelConflict_snoc]
    rintro (h | ⟨n1, h1, w, L1, L2, hv1, hv2, _⟩)
    · exact hinv.agree h
    · rw [hv] at hv2
      cases hv2
      exact hfresh n1 h1 hv1

theorem nodeInfoInv_store (l : List NodeInfo) (ns : List CypherNode) (n : CypherNode)
    (v : String) (ni ni2 : NodeInfo) (hv : n.varname = some v)
    (hf : findNodeInfo l v = some ni) (hname : ni2.varname = ni.varname)
    (hlab : ∀ L, ni2.labname = some L ↔ (ni.labname = some L ∨ n.label = some L))
    (hprop : ni2.prop_constr = true ↔ (ni.prop_constr = true ∨ n.prop_map.isSome = true))
    (hok : ¬ (∃ L1 L2, ni.labname = some L1 ∧ n.label = some L2 ∧ L1 ≠ L2))
    (hinv : NodeInfoInv l ns) :
    NodeInfoInv (storeNodeInfo l v ni2) (ns ++ [n]) := by
  have hniv : ni.varname = v := (findNodeInfo_some l v ni hf).2
  have hname2 : ni2.varname = v := hname.trans hniv
  have hnif : NodeInfoFor ns v ni := hinv.sound v ni hf
  have hfind : ∀ w, findNodeInfo (storeNodeInfo l v ni2) w =
      if w = v then some ni2 else findNodeInfo l w := by
    intro w
    rw [findNodeInfo_store l v w ni2 hname2, hf]
    rfl
  refine ⟨?_, ?_, ?_, ?_, ?_⟩
  · rw [storeNodeInfo_names l v ni2 hname2]
    exact hinv.nodup
  · rintro w ⟨x, hx, hxw⟩
    rw [hfind]
    by_cases hwv : w = v
    · simp [hwv]
    · simp only [hwv, if_false]
      rw [List.mem_append, List.mem_singleton] at hx
      rcases hx with hx | hx
      · exact hinv.found w ⟨x, hx, hxw⟩
      · subst hx
        rw [hv] at hxw
        exact absurd (Option.some.inj hxw).symm hwv
  · intro w x h
    rw [hfind] at h
    by_cases hwv : w = v
    · subst hwv
      exact ⟨n, List.mem_append_right _ (List.mem_singleton_self n), hv⟩
    · simp only [hwv, if_false] at h
      obtain ⟨y, hy, hyw⟩ := hinv.only w x h
      exact ⟨y, List.mem_append_left _ hy, hyw⟩
  · intro w x h
    rw [hfind] at h
    by_cases hwv : w = v
    · subst hwv
      simp only [if_true, Option.some.injEq] at h
      subst h
      refine ⟨hname2, ?_, ?_⟩
      · intro L
        rw [hlab, hnif.label_iff]
        constructor
        · rintro (⟨y, hy, h1, h2⟩ | h)
          · exact ⟨y, List.mem_append_left _ hy, h1, h2⟩
          · exact ⟨n, List.mem_append_right _ (List.mem_singleton_self n), hv, h⟩
        · rintro ⟨y, hy, h1, h2⟩
          rw [List.mem_append, List.mem_singleton] at hy
          rcases hy with hy | hy
          · exact Or.inl ⟨y, hy, h1, h2⟩
          · subst hy; exact Or.inr h2
      · rw [hprop, hnif.prop_iff]
        constructor
        · rintro (⟨y, hy, h1, h2⟩ | h)
          · exact ⟨y, List.mem_append_left _ hy, h1, h2⟩
          · exact ⟨n, List.mem_append_right _ (List.mem_singleton_self n), hv, h⟩
        · rintro ⟨y, hy, h1, h2⟩
          rw [List.mem_append, List.mem_singleton] at hy
          rcases hy with hy | hy
          · exact Or.inl ⟨y, hy, h1, h2⟩
          · subst hy; exact Or.inr h2
    · simp only [hwv, if_false] at h
      refine nodeInfoFor_snoc_other ns n w x ?_ (hinv.sound w x h)
      rw [hv]
      exact fun e => hwv (Option.some.inj e).symm
  · rw [labelConflict_snoc]
    rintro (h | ⟨n1, h1, w, L1, L2, hv1, hv2, hl1, hl2, hne⟩)
    · exact hinv.agree h
    · rw [hv] at hv2
      have hwv : v = w := Option.some.inj hv2
      subst hwv
      exact hok ⟨L1, L2, (hnif.label_iff L1).mpr ⟨n1, h1, hv1, hl1⟩, hl2, hne⟩

/-- One step of `collectNodeInfo`: either the invariant is kept, or the label conflict
error is raised and the occurrences seen so far do contain a conflict. -/
theorem addNodeInfo_step (l : List NodeInfo) (ns : List CypherNode) (n : CypherNode)
    (hinv : NodeInfoInv l ns) :
    (∃ l2, addNodeInfo l n = .ok l2 ∧ NodeInfoInv l2 (ns ++ [n])) ∨
    (∃ v, addNodeInfo l n = .error (.label_conflict v) ∧ LabelConflict (ns ++ [n])) := by
  cases hv : n.varname with
  | none =>
    exact Or.inl ⟨l, addNodeInfo_anonymous l n hv, nodeInfoInv_anonymous l ns n hv hinv⟩
  | some v =>
    cases hf : findNodeInfo l v with
    | none =>
      exact Or.inl ⟨_, addNodeInfo_new l n v hv hf, nodeInfoInv_new l ns n v hv hf hinv⟩
    | some ni =>
      rcases addNodeInfo_found l n v ni hv hf with
        ⟨L1, L2, h1, h2, hne, herr⟩ | ⟨ni2, hrun, hname, hlab, hprop, hok⟩
      · right
        refine ⟨v, herr, ?_⟩
        rw [labelConflict_snoc]
        right
        obtain ⟨n1, hn1, hv1, hl1⟩ := ((hinv.sound v ni hf).label_iff L1).mp h1
        exact ⟨n1, hn1, v, L1, L2, hv1, hv, hl1, h2, hne⟩
      · exact Or.inl ⟨_, hrun,
          nodeInfoInv_store l ns n v ni ni2 hv hf hname hlab hprop hok hinv⟩

theorem labelConflict_mono (ns ms : List CypherNode) (h : LabelConflict ns) :
    LabelConflict (ns ++ ms) := by
  obtain ⟨n1, h1, n2, h2, rest⟩ := h
  exact ⟨n1, List.mem_append_left _ h1, n2, List.mem_append_left _ h2, rest⟩

/-- The run of `addNodeInfo` over a list of occurrences, from the empty list: it either
ends with the invariant, or raises the label conflict error on a real conflict. -/
theorem addNodeInfoList_run (ns : List CypherNode) :
    (∃ l, addNodeInfoList [] ns = .ok l ∧ NodeInfoInv l ns) ∨
    (∃ v, addNodeInfoList [] ns = .error (.label_conflict v) ∧ LabelConflict ns) := by
  induction ns using List.reverseRecOn with
  | nil => exact Or.inl ⟨[], rfl, nodeInfoInv_nil⟩
  | append_singleton ns n ih =>
    rw [addNodeInfoList_snoc]
    rcases ih with ⟨l, hl, hinv⟩ | ⟨v, hv, hc⟩
    · rw [hl]
      exact addNodeInfo_step l ns n hinv
    · rw [hv]
      exact Or.inr ⟨v, rfl, labelConflict_mono ns [n] hc⟩

theorem labelConflict_perm (ns ms : List CypherNode) (hp : ns.Perm ms)
    (h : LabelConflict ns) : LabelConflict ms := by
  obtain ⟨n1, h1, n2, h2, rest⟩ := h
  exact ⟨n1, hp.mem_iff.mp h1, n2, hp.mem_iff.mp h2, rest⟩

theorem nodeInfoFor_unique (ns ms : List CypherNode) (hp : ns.Perm ms) (v : String)
    (a b : NodeInfo) (ha : NodeInfoFor ns v a) (hb : NodeInfoFor ms v b) : a = b := by
  have hname : a.varname = b.varname := ha.name_eq.trans hb.name_eq.symm
  have hlab : a.labname = b.labname := by
    apply Option.ext
    intro L
    rw [Option.mem_def, Option.mem_def, ha.label_iff, hb.label_iff]
    constructor
    · rintro ⟨x, hx, h⟩; exact ⟨x, hp.mem_iff.mp hx, h⟩
    · rintro ⟨x, hx, h⟩; exact ⟨x, hp.mem_iff.mpr hx, h⟩
  have hprop : a.prop_constr = b.prop_constr := by
    apply Bool.eq_iff_iff.mpr
    rw [ha.prop_iff, hb.prop_iff]
    constructor
    · rintro ⟨x, hx, h⟩; exact ⟨x, hp.mem_iff.mp hx, h⟩
    · rintro ⟨x, hx, h⟩; exact ⟨x, hp.mem_iff.mpr hx, h⟩
  cases a; cases b
  simp only [NodeInfo.mk.injEq]
  exact ⟨hname, hlab, hprop⟩

theorem filter_eq_singleton_of_find (l : List NodeInfo) (v : String) (ni : NodeInfo)
    (hnd : (l.map (fun x => x.varname)).Nodup) (hf : findNodeInfo l v = some ni) :
    l.filter (fun x => decide (x.varname = v)) = [ni] := by
  induction l with
  | nil => simp [findNodeInfo] at hf
  | cons y rest ih =>
    rw [List.map_cons, List.nodup_cons] at hnd
    simp only [findNodeInfo] at hf
    by_cases hy : y.varname = v
    · simp only [hy, if_true, Option.some.injEq] at hf
      subst hf
      have hrest : rest.filter (fun x => decide (x.varname = v)) = [] := by
        rw [List.filter_eq_nil_iff]
        intro x hx
        simp only [decide_eq_true_eq]
        intro hxv
        exact hnd.1 (List.mem_map.mpr ⟨x, hx, hxv.trans hy.symm⟩)
      simp [List.filter_cons, hy, hrest]
    · simp only [hy, if_false] at hf
      simp [List.filter_cons, hy, ih hnd.2 hf]

/-- C1: when `collectNodeInfo`, started from the empty node-info list, completes, the
list holds exactly one record for every variable `v` carried by some node; the label
of the record is `L` exactly when some occurrence of `v` carries `L`, it is absent
exactly when no occurrence carries a label, its property-constraint flag is true exactly
when some occurrence carries a property map, and every pattern with the same node
occurrences in another order completes with the same record. -/
theorem collectNodeInfo_unified_record (pattern : List CypherPath) (l : List NodeInfo)
    (v : String) (hrun : collectNodeInfo [] pattern = .ok l)
    (hv : ∃ n ∈ patternNodes pattern, n.varname = some v) :
    ∃ ni, l.filter (fun x => decide (x.varname = v)) = [ni] ∧
      (∀ L, ni.labname = some L ↔
        ∃ n ∈ patternNodes pattern, n.varname = some v ∧ n.label = some L) ∧
      (ni.labname = none ↔
        ∀ n ∈ patternNodes pattern, n.varname = some v → n.label = none) ∧
      (ni.prop_constr = true ↔
        ∃ n ∈ patternNodes pattern, n.varname = some v ∧ n.prop_map.isSome = true) ∧
      (∀ pattern2, (patternNodes pattern2).Perm (patternNodes pattern) →
        ∃ l2, collectNodeInfo [] pattern2 = .ok l2 ∧
          l2.filter (fun x => decide (x.varname = v)) = [ni]) := by
  rw [collectNodeInfo_eq] at hrun
  rcases addNodeInfoList_run (patternNodes pattern) with ⟨l1, hl1, hinv⟩ | ⟨w, hw, _⟩
  · rw [hrun] at hl1
    have hll : l = l1 := by injection hl1
    subst hll
    obtain ⟨ni, hni⟩ := hinv.found v hv
    have hfor := hinv.sound v ni hni
    refine ⟨ni, filter_eq_singleton_of_find l v ni hinv.nodup hni, hfor.label_iff, ?_,
      hfor.prop_iff, ?_⟩
    · constructor
      · intro hnone n hn hnv
        cases hlab : n.label with
        | none => rfl
        | some L =>
          have := (hfor.label_iff L).mpr ⟨n, hn, hnv, hlab⟩
          rw [hnone] at this
          cases this
      · intro hall
        cases hlab : ni.labname with
        | none => rfl
        | some L =>
          obtain ⟨n, hn, hnv, hnl⟩ := (hfor.label_iff L).mp hlab
          rw [hall n hn hnv] at hnl
          cases hnl
    · intro pattern2 hperm
      rcases addNodeInfoList_run (patternNodes pattern2) with ⟨l2, hl2, hinv2⟩ | ⟨w, _, hc⟩
      · obtain ⟨x, hx, hxv⟩ := hv
        obtain ⟨ni2, hni2⟩ := hinv2.found v ⟨x, hperm.mem_iff.mpr hx, hxv⟩
        have heq : ni2 = ni :=
          nodeInfoFor_unique _ _ hperm v ni2 ni (hinv2.sound v ni2 hni2) hfor
        subst heq
        exact ⟨l2, by rw [collectNodeInfo_eq, hl2],
          filter_eq_singleton_of_find l2 v ni2 hinv2.nodup hni2⟩
      · exact absurd (labelConflict_perm _ _ hperm hc) hinv.agree
  · rw [hrun] at hw
    cases hw

/-- Witness of C1 on `(a:person)-[]->(b), (a {..})<-[]-(c:city)` for the variable `a`. -/
theorem collectNodeInfo_unified_record_witness :
    collectNodeInfo [] samplePattern = .ok sampleNodeInfo ∧
    (∃ n ∈ patternNodes samplePattern, n.varname = some "a") ∧
    ∃ ni, sampleNodeInfo.filter (fun x => decide (x.varname = "a")) = [ni] ∧
      (∀ L, ni.labname = some L ↔
        ∃ n ∈ patternNodes samplePattern, n.varname = some "a" ∧ n.label = some L) ∧
      (ni.labname = none ↔
        ∀ n ∈ patternNodes samplePattern, n.varname = some "a" → n.label = none) ∧
      (ni.prop_constr = true ↔
        ∃ n ∈ patternNodes samplePattern, n.varname = some "a" ∧ n.prop_map.isSome = true) ∧
      (∀ pattern2, (patternNodes pattern2).Perm (patternNodes samplePattern) →
        ∃ l2, collectNodeInfo [] pattern2 = .ok l2 ∧
          l2.filter (fun x => decide (x.varname = "a")) = [ni]) :=
  ⟨rfl, ⟨_, List.mem_cons_self _ _, rfl⟩,
    collectNodeInfo_unified_record samplePattern sampleNodeInfo "a" rfl
      ⟨_, List.mem_cons_self _ _, rfl⟩⟩

/-- C2: `collectNodeInfo`, started from the empty node-info list, raises the error
`label conflict on node` if and only if two node occurrences of the pattern have the
same variable name and two present, different labels; it raises no other error, so
that unlabelled occurrences and anonymous nodes never make it fail. -/
theorem collectNodeInfo_label_conflict_iff (pattern : List CypherPath) :
    ((∃ v, collectNodeInfo [] pattern = .error (.label_conflict v)) ↔
      ∃ n1 ∈ patternNodes pattern, ∃ n2 ∈ patternNodes pattern, ∃ v L1 L2,
        n1.varname = some v ∧ n2.varname = some v ∧
        n1.label = some L1 ∧ n2.label = some L2 ∧ L1 ≠ L2) ∧
    (∀ e, collectNodeInfo [] pattern = .error e → ∃ v, e = .label_conflict v) := by
  rw [collectNodeInfo_eq]
  rcases addNodeInfoList_run (patternNodes pattern) with ⟨l, hl, hinv⟩ | ⟨w, hw, hc⟩
  · rw [hl]
    refine ⟨⟨?_, ?_⟩, ?_⟩
    · rintro ⟨v, h⟩; cases h
    · intro h; exact absurd h hinv.agree
    · intro e h; cases h
  · rw [hw]
    refine ⟨⟨fun _ => hc, fun _ => ⟨w, rfl⟩⟩, ?_⟩
    intro e h
    injection h with h
    exact ⟨w, h.symm⟩


/-! ## Theorems: `makeComponents` -/

theorem arePathsConnectedInner_iff (v : String) (chain2 : List ChainElem) :
    arePathsConnectedInner v chain2 = true ↔ ∃ n ∈ chainNodes chain2, n.varname = some v := by
  induction chain2 with
  | nil => simp [arePathsConnectedInner, chainNodes]
  | cons e rest ih =>
    cases e with
    | rel crel => simpa [arePathsConnectedInner, chainNodes] using ih
    | node cnode =>
      simp only [arePathsConnectedInner, chainNodes, List.mem_cons, exists_eq_or_imp]
      cases hv : cnode.varname with
      | none => simpa using ih
      | some w =>
        by_cases hvw : v = w
        · simp [hvw]
        · have hwv : ¬ w = v := fun h => hvw h.symm
          simpa [hvw, hwv] using ih

theorem arePathsConnectedOuter_iff (chain1 chain2 : List ChainElem) :
    arePathsConnectedOuter chain1 chain2 = true ↔
      ∃ v, (∃ n ∈ chainNodes chain1, n.varname = some v) ∧
        (∃ n ∈ chainNodes chain2, n.varname = some v) := by
  induction chain1 with
  | nil => simp [arePathsConnectedOuter, chainNodes]
  | cons e rest ih =>
    cases e with
    | rel crel => simpa [arePathsConnectedOuter, chainNodes] using ih
    | node cnode =>
      simp only [arePathsConnectedOuter, chainNodes, List.mem_cons, exists_eq_or_imp]
      cases hv : cnode.varname with
      | none => simpa using ih
      | some w =>
        cases hin : arePathsConnectedInner w chain2 with
        | true =>
          simp only [hin, if_true, true_iff]
          exact ⟨w, Or.inl rfl, (arePathsConnectedInner_iff w chain2).mp hin⟩
        | false =>
          simp only [hin, Bool.false_eq_true, if_false]
          rw [ih]
          constructor
          · rintro ⟨v, h1, h2⟩
            exact ⟨v, Or.inr h1, h2⟩
          · rintro ⟨v, h1 | h1, h2⟩
            · have hwv : w = v := Option.some.inj h1
              subst hwv
              rw [(arePathsConnectedInner_iff w chain2).mpr h2] at hin
              cases hin
            · exact ⟨v, h1, h2⟩

theorem arePathsConnected_iff (path1 path2 : CypherPath) :
    arePathsConnected path1 path2 = true ↔ SharesVariable path1 path2 :=
  arePathsConnectedOuter_iff path1.chain path2.chain

theorem sharesVariable_symm (path1 path2 : CypherPath) (h : SharesVariable path1 path2) :
    SharesVariable path2 path1 := by
  obtain ⟨v, h1, h2⟩ := h
  exact ⟨v, h2, h1⟩

theorem isPathConnectedTo_iff {α : Type} (deref : α → CypherPath) (path : α)
    (component : List α) :
    isPathConnectedTo deref path component = true ↔
      ∃ x ∈ component, SharesVariable (deref x) (deref path) := by
  induction component with
  | nil => simp [isPathConnectedTo]
  | cons p rest ih =>
    simp only [isPathConnectedTo, List.mem_cons, exists_eq_or_imp, ← arePathsConnected_iff]
    cases h : arePathsConnected (deref p) (deref path) with
    | true => simp
    | false =>
      simp only [Bool.false_eq_true, if_false, false_or]
      rw [ih]
      simp only [← arePathsConnected_iff]

theorem findFirstConnected_none {α : Type} (deref : α → CypherPath) (p : α)
    (components : List (List α)) (h : findFirstConnected deref p components = none) :
    components.filter (fun c => isPathConnectedTo deref p c) = [] := by
  induction components with
  | nil => rfl
  | cons c rest ih =>
    simp only [findFirstConnected] at h
    by_cases hc : isPathConnectedTo deref p c = true
    · simp [hc] at h
    · simp only [hc, if_false, Bool.false_eq_true] at h
      cases hr : findFirstConnected deref p rest with
      | none => simp [List.filter_cons, hc, ih hr]
      | some r => rw [hr] at h; cases h

theorem findFirstConnected_some {α : Type} (deref : α → CypherPath) (p : α)
    (components before after : List (List α)) (repr : List α)
    (h : findFirstConnected deref p components = some (before, repr, after)) :
    components = before ++ repr :: after ∧
      before.filter (fun c => isPathConnectedTo deref p c) = [] ∧
      before.filter (fun c => !isPathConnectedTo deref p c) = before ∧
      isPathConnectedTo deref p repr = true := by
  induction components generalizing before with
  | nil => simp [findFirstConnected] at h
  | cons c rest ih =>
    simp only [findFirstConnected] at h
    by_cases hc : isPathConnectedTo deref p c = true
    · simp only [hc, if_true, Option.some.injEq, Prod.mk.injEq] at h
      obtain ⟨h1, h2, h3⟩ := h
      subst h1 h2 h3
      exact ⟨rfl, rfl, rfl, hc⟩
    · simp only [hc, if_false, Bool.false_eq_true] at h
      cases hr : findFirstConnected deref p rest with
      | none => rw [hr] at h; cases h
      | some r =>
        obtain ⟨b, r2, a⟩ := r
        rw [hr] at h
        simp only [Option.some.injEq, Prod.mk.injEq] at h
        obtain ⟨h1, h2, h3⟩ := h
        subst h1 h2 h3
        obtain ⟨e1, e2, e3, e4⟩ := ih b hr
        refine ⟨by rw [e1]; rfl, ?_, ?_, e4⟩
        · simp [List.filter_cons, hc, e2]
        · simp [List.filter_cons, hc, e3]

theorem mergeConnected_eq {α : Type} (deref : α → CypherPath) (p : α) (repr : List α)
    (after : List (List α)) :
    mergeConnected deref p repr after =
      (repr ++ (after.filter (fun c => isPathConnectedTo deref p c)).flatten,
        after.filter (fun c => !isPathConnectedTo deref p c)) := by
  induction after generalizing repr with
  | nil => simp [mergeConnected]
  | cons c rest ih =>
    simp only [mergeConnected]
    by_cases hc : isPathConnectedTo deref p c = true
    · simp [hc, ih, List.filter_cons, List.append_assoc]
    · simp [hc, ih, List.filter_cons]

/-- The effect of one iteration of `makeComponents`: the components not connected to
`p` stay where they are, and the connected ones are replaced, at the place of the first
of them (at the end when there is none), by their concatenation followed by `p`. -/
theorem makeComponentsStep_eq {α : Type} (deref : α → CypherPath) (components : List (List α))
    (p : α) :
    ∃ before after : List (List α),
      components.filter (fun c => !isPathConnectedTo deref p c) = before ++ after ∧
      makeComponentsStep deref components p =
        before ++ [(components.filter (fun c => isPathConnectedTo deref p c)).flatten ++ [p]]
          ++ after ∧
      (∀ repr ∈ components, isPathConnectedTo deref p repr = true →
        ∃ repr0 after0, components = before ++ repr0 :: after0 ∧
          isPathConnectedTo deref p repr0 = true ∧
          after = after0.filter (fun c => !isPathConnectedTo deref p c)) := by
  cases h : findFirstConnected deref p components with
  | none =>
    have hnil := findFirstConnected_none deref p components h
    have hall : components.filter (fun c => !isPathConnectedTo deref p c) = components := by
      rw [List.filter_eq_self]
      intro c hc
      have := (List.filter_eq_nil_iff.mp hnil) c hc
      simpa using this
    refine ⟨components, [], by simp [hall], ?_, ?_⟩
    · simp [makeComponentsStep, h, hnil]
    · intro repr hr hconn
      exact absurd hconn ((List.filter_eq_nil_iff.mp hnil) repr hr)
  | some r =>
    obtain ⟨before, repr, after⟩ := r
    obtain ⟨e1, e2, e3, e4⟩ := findFirstConnected_some deref p components before after repr h
    refine ⟨before, after.filter (fun c => !isPathConnectedTo deref p c), ?_, ?_, ?_⟩
    · rw [e1, List.filter_append, e3]
      simp [List.filter_cons, e4]
    · simp only [makeComponentsStep, h, mergeConnected_eq]
      rw [e1, List.filter_append, e2]
      simp [List.filter_cons, e4, List.append_assoc]
    · intro _ _ _
      exact ⟨repr, after, e1, e4, rfl⟩

theorem perm_rearrange {α : Type} [DecidableEq α] (B C A : List α) (p : α) :
    (B ++ (C ++ [p]) ++ A).Perm ((C ++ (B ++ A)) ++ [p]) := by
  rw [List.perm_iff_count]
  intro a
  simp only [List.count_append]
  omega

theorem mem_makeComponentsStep {α : Type} (deref : α → CypherPath)
    (components : List (List α)) (p : α) (c : List α) :
    c ∈ makeComponentsStep deref components p ↔
      (c ∈ components ∧ isPathConnectedTo deref p c = false) ∨
      c = (components.filter (fun c => isPathConnectedTo deref p c)).flatten ++ [p] := by
  obtain ⟨before, after, hsplit, hstep, _⟩ := makeComponentsStep_eq deref components p
  rw [hstep]
  have hmem : c ∈ before ++ after ↔ (c ∈ components ∧ isPathConnectedTo deref p c = false) := by
    rw [← hsplit, List.mem_filter]
    simp
  rw [List.mem_append, List.mem_append, List.mem_singleton]
  rw [List.mem_append] at hmem
  constructor
  · rintro ((h | h) | h)
    · exact Or.inl (hmem.mp (Or.inl h))
    · exact Or.inr h
    · exact Or.inl (hmem.mp (Or.inr h))
  · rintro (h | h)
    · rcases hmem.mpr h with h | h
      · exact Or.inl (Or.inl h)
      · exact Or.inr h
    · exact Or.inl (Or.inr h)

theorem partitionInv_step {α : Type} [DecidableEq α] (deref : α → CypherPath)
    (done : List α) (components : List (List α)) (p : α)
    (hinv : PartitionInv done components) :
    PartitionInv (done ++ [p]) (makeComponentsStep deref components p) := by
  constructor
  · intro c hc
    rcases (mem_makeComponentsStep deref components p c).mp hc with ⟨h, _⟩ | h
    · exact hinv.nonempty c h
    · rw [h]; simp
  · obtain ⟨before, after, hsplit, hstep, _⟩ := makeComponentsStep_eq deref components p
    rw [hstep]
    simp only [List.flatten_append, List.flatten_cons, List.flatten_nil, List.append_nil]
    refine (perm_rearrange before.flatten _ after.flatten p).trans ?_
    refine List.Perm.append_right [p] ?_
    rw [← List.flatten_append, ← hsplit, ← List.flatten_append]
    exact ((List.filter_append_perm _ components).flatten).trans hinv.perm

theorem sharesVariable_symmetric {α : Type} (deref : α → CypherPath) (pattern : List α) :
    Symmetric (fun a b => a ∈ pattern ∧ b ∈ pattern ∧ SharesVariable (deref a) (deref b)) := by
  rintro a b ⟨ha, hb, hs⟩
  exact ⟨hb, ha, sharesVariable_symm _ _ hs⟩

theorem linked_symm {α : Type} (deref : α → CypherPath) (pattern : List α) (a b : α)
    (h : Linked deref pattern a b) : Linked deref pattern b a :=
  Relation.ReflTransGen.symmetric (sharesVariable_symmetric deref pattern) h

theorem linked_trans {α : Type} (deref : α → CypherPath) (pattern : List α) (a b c : α)
    (h1 : Linked deref pattern a b) (h2 : Linked deref pattern b c) :
    Linked deref pattern a c :=
  Relation.ReflTransGen.trans h1 h2

theorem linked_mono {α : Type} (deref : α → CypherPath) (done more : List α) (a b : α)
    (h : Linked deref done a b) : Linked deref (done ++ more) a b := by
  refine Relation.ReflTransGen.mono ?_ h
  rintro x y ⟨hx, hy, hs⟩
  exact ⟨List.mem_append_left _ hx, List.mem_append_left _ hy, hs⟩

theorem mem_of_partitionInv {α : Type} (done : List α) (components : List (List α))
    (hinv : PartitionInv done components) (c : List α) (hc : c ∈ components) (a : α)
    (ha : a ∈ c) : a ∈ done :=
  hinv.perm.mem_iff.mp (List.mem_flatten.mpr ⟨c, hc, ha⟩)

theorem linkInv_step {α : Type} [DecidableEq α] (deref : α → CypherPath)
    (done : List α) (components : List (List α)) (p : α)
    (hpart : PartitionInv done components) (hinv : LinkInv deref done components) :
    LinkInv deref (done ++ [p]) (makeComponentsStep deref components p) := by
  have hp : p ∈ done ++ [p] := List.mem_append_right _ (List.mem_singleton_self p)
  -- every member of a connected component is linked to `p`
  have hlink : ∀ c ∈ components, isPathConnectedTo deref p c = true → ∀ a ∈ c,
      Linked deref (done ++ [p]) a p := by
    intro c hc hconn a ha
    obtain ⟨x, hx, hxs⟩ := (isPathConnectedTo_iff deref p c).mp hconn
    have h1 : Linked deref (done ++ [p]) a x := linked_mono deref done [p] a x
      (hinv.linked c hc a ha x hx)
    have hxd : x ∈ done ++ [p] :=
      List.mem_append_left _ (mem_of_partitionInv done components hpart c hc x hx)
    exact Relation.ReflTransGen.tail h1 ⟨hxd, hp, hxs⟩
  have hmerged : ∀ a, a ∈ (components.filter (fun c => isPathConnectedTo deref p c)).flatten
      ++ [p] → a = p ∨ ∃ c ∈ components, isPathConnectedTo deref p c = true ∧ a ∈ c := by
    intro a ha
    rw [List.mem_append, List.mem_singleton, List.mem_flatten] at ha
    rcases ha with ⟨c, hc, hac⟩ | ha
    · rw [List.mem_filter] at hc
      exact Or.inr ⟨c, hc.1, hc.2, hac⟩
    · exact Or.inl ha
  have hlinkp : ∀ a, a ∈ (components.filter (fun c => isPathConnectedTo deref p c)).flatten
      ++ [p] → Linked deref (done ++ [p]) a p := by
    intro a ha
    rcases hmerged a ha with h | ⟨c, hc, hconn, hac⟩
    · rw [h]; exact Relation.ReflTransGen.refl
    · exact hlink c hc hconn a hac
  constructor
  · intro c hc a ha b hb
    rcases (mem_makeComponentsStep deref components p c).mp hc with ⟨h, _⟩ | h
    · exact linked_mono deref done [p] a b (hinv.linked c h a ha b hb)
    · rw [h] at ha hb
      exact linked_trans deref _ a p b (hlinkp a ha)
        (linked_symm deref _ b p (hlinkp b hb))
  · intro c hc a ha b hb hs
    rw [List.mem_append, List.mem_singleton] at hb
    rcases (mem_makeComponentsStep deref components p c).mp hc with ⟨h, hnc⟩ | h
    · rcases hb with hb | hb
      · exact hinv.closed c h a ha b hb hs
      · subst hb
        have : isPathConnectedTo deref b c = true :=
          (isPathConnectedTo_iff deref b c).mpr ⟨a, ha, hs⟩
        rw [this] at hnc
        cases hnc
    · rw [h] at ha ⊢
      rw [List.mem_append, List.mem_singleton, List.mem_flatten]
      rcases hb with hb | hb
      · left
        rcases hmerged a ha with hap | ⟨c2, hc2, hconn, hac⟩
        · subst hap
          obtain ⟨cb, hcb, hbcb⟩ := List.mem_flatten.mp (hpart.perm.mem_iff.mpr hb)
          have hconn : isPathConnectedTo deref a cb = true :=
            (isPathConnectedTo_iff deref a cb).mpr ⟨b, hbcb, sharesVariable_symm _ _ hs⟩
          exact ⟨cb, List.mem_filter.mpr ⟨hcb, hconn⟩, hbcb⟩
        · exact ⟨c2, List.mem_filter.mpr ⟨hc2, hconn⟩, hinv.closed c2 hc2 a hac b hb hs⟩
      · exact Or.inr hb

theorem makeComponentsStep_cases {α : Type} (deref : α → CypherPath)
    (components : List (List α)) (p : α) :
    ((∀ c ∈ components, isPathConnectedTo deref p c = false) ∧
      makeComponentsStep deref components p = components ++ [[p]]) ∨
    (∃ before repr after, components = before ++ repr :: after ∧
      (∀ c ∈ before, isPathConnectedTo deref p c = false) ∧
      isPathConnectedTo deref p repr = true ∧
      makeComponentsStep deref components p =
        before ++ [repr ++ (after.filter (fun c => isPathConnectedTo deref p c)).flatten ++ [p]]
          ++ after.filter (fun c => !isPathConnectedTo deref p c)) := by
  cases h : findFirstConnected deref p components with
  | none =>
    left
    have hnil := findFirstConnected_none deref p components h
    refine ⟨?_, by simp [makeComponentsStep, h]⟩
    intro c hc
    have := (List.filter_eq_nil_iff.mp hnil) c hc
    simpa using this
  | some r =>
    right
    obtain ⟨before, repr, after⟩ := r
    obtain ⟨e1, e2, _, e4⟩ := findFirstConnected_some deref p components before after repr h
    refine ⟨before, repr, after, e1, ?_, e4, by simp [makeComponentsStep, h, mergeConnected_eq]⟩
    intro c hc
    have := (List.filter_eq_nil_iff.mp e2) c hc
    simpa using this

theorem foldr_min_le (L : Nat) (xs : List Nat) : xs.foldr min L ≤ L := by
  induction xs with
  | nil => exact Nat.le_refl L
  | cons x rest ih => exact Nat.le_trans (Nat.min_le_right _ _) ih

theorem foldr_min_le_of_mem (L : Nat) (xs : List Nat) (x : Nat) (hx : x ∈ xs) :
    xs.foldr min L ≤ x := by
  induction xs with
  | nil => cases hx
  | cons y rest ih =>
    rw [List.mem_cons] at hx
    rcases hx with hx | hx
    · subst hx; exact Nat.min_le_left _ _
    · exact Nat.le_trans (Nat.min_le_right _ _) (ih hx)

theorem le_foldr_min (L : Nat) (xs : List Nat) (b : Nat) (hL : b ≤ L)
    (hxs : ∀ x ∈ xs, b ≤ x) : b ≤ xs.foldr min L := by
  induction xs with
  | nil => exact hL
  | cons y rest ih =>
    simp only [List.foldr_cons]
    exact Nat.le_min.mpr ⟨hxs y (List.mem_cons_self _ _),
      ih (fun x hx => hxs x (List.mem_cons_of_mem _ hx))⟩

theorem earliest_le_length {α : Type} [DecidableEq α] (pattern c : List α) :
    earliest pattern c ≤ pattern.length :=
  foldr_min_le _ _

theorem earliest_le_of_mem {α : Type} [DecidableEq α] (pattern c : List α) (x : α)
    (hx : x ∈ c) : earliest pattern c ≤ pattern.indexOf x :=
  foldr_min_le_of_mem _ _ _ (List.mem_map.mpr ⟨x, hx, rfl⟩)

theorem le_earliest {α : Type} [DecidableEq α] (pattern c : List α) (b : Nat)
    (hL : b ≤ pattern.length) (hc : ∀ x ∈ c, b ≤ pattern.indexOf x) :
    b ≤ earliest pattern c := by
  refine le_foldr_min _ _ b hL ?_
  intro y hy
  obtain ⟨x, hx, hxy⟩ := List.mem_map.mp hy
  rw [← hxy]
  exact hc x hx

theorem earliest_mono {α : Type} [DecidableEq α] (pattern c d : List α)
    (h : ∀ x ∈ d, x ∈ c) : earliest pattern c ≤ earliest pattern d :=
  le_earliest pattern d _ (earliest_le_length pattern c)
    (fun x hx => earliest_le_of_mem pattern c x (h x hx))

theorem indexOf_done {α : Type} [DecidableEq α] (done rest : List α) (x : α)
    (hx : x ∈ done) : (done ++ rest).indexOf x < done.length := by
  rw [List.indexOf_append_of_mem hx]
  exact List.indexOf_lt_length.mpr hx

theorem indexOf_next {α : Type} [DecidableEq α] (done rest : List α) (p : α)
    (hnd : (done ++ p :: rest).Nodup) : (done ++ p :: rest).indexOf p = done.length := by
  have hp : p ∉ done := by
    intro h
    have := (List.nodup_append.mp hnd).2.2
    exact this h (List.mem_cons_self _ _)
  rw [List.indexOf_append_of_not_mem hp, List.indexOf_cons_self]
  rfl

theorem earliest_lt_of_done {α : Type} [DecidableEq α] (done rest : List α)
    (components : List (List α)) (hpart : PartitionInv done components)
    (c : List α) (hc : c ∈ components) :
    earliest (done ++ rest) c < done.length := by
  cases hcc : c with
  | nil => exact absurd hcc (hpart.nonempty c hc)
  | cons x t =>
    have hx : x ∈ c := by rw [hcc]; exact List.mem_cons_self _ _
    have hxd : x ∈ done := mem_of_partitionInv done components hpart c hc x hx
    rw [← hcc]
    exact Nat.lt_of_le_of_lt (earliest_le_of_mem _ c x hx) (indexOf_done done rest x hxd)

/-- One iteration of `makeComponents` keeps the components ordered by their earliest
path. -/
theorem order_step {α : Type} [DecidableEq α] (deref : α → CypherPath)
    (done rest : List α) (components : List (List α)) (p : α)
    (hnd : (done ++ p :: rest).Nodup) (hpart : PartitionInv done components)
    (hord : components.Pairwise
      (fun A B => earliest (done ++ p :: rest) A < earliest (done ++ p :: rest) B)) :
    (makeComponentsStep deref components p).Pairwise
      (fun A B => earliest (done ++ p :: rest) A < earliest (done ++ p :: rest) B) := by
  have hlt := earliest_lt_of_done done (p :: rest) components hpart
  have hpidx := indexOf_next done rest p hnd
  rcases makeComponentsStep_cases deref components p with
    ⟨_, hstep⟩ | ⟨before, repr, after, hsplit, _, _, hstep⟩
  · rw [hstep, List.pairwise_append]
    refine ⟨hord, List.pairwise_singleton _ _, ?_⟩
    intro A hA B hB
    rw [List.mem_singleton] at hB
    subst hB
    refine Nat.lt_of_lt_of_le (hlt A hA) ?_
    refine le_earliest _ _ _ ?_ ?_
    · simp
    · intro x hx
      rw [List.mem_singleton] at hx
      subst hx
      exact Nat.le_of_eq hpidx.symm
  · rw [hstep]
    rw [hsplit] at hord
    have hreprmem : repr ∈ components := by rw [hsplit]; simp
    obtain ⟨hb, hra, hcross⟩ := List.pairwise_append.mp hord
    obtain ⟨hrafter, hafter⟩ := List.pairwise_cons.mp hra
    -- the merged component has the earliest path of `repr`
    have heq : earliest (done ++ p :: rest)
        (repr ++ (after.filter (fun c => isPathConnectedTo deref p c)).flatten ++ [p]) =
        earliest (done ++ p :: rest) repr := by
      apply Nat.le_antisymm
      · exact earliest_mono _ _ _ (fun x hx => by simp [hx])
      · refine le_earliest _ _ _ (earliest_le_length _ _) ?_
        intro x hx
        rw [List.mem_append, List.mem_append, List.mem_singleton, List.mem_flatten] at hx
        rcases hx with (hx | ⟨c, hc, hxc⟩) | hx
        · exact earliest_le_of_mem _ _ x hx
        · have hca : c ∈ after := (List.mem_filter.mp hc).1
          exact Nat.le_trans (Nat.le_of_lt (hrafter c hca)) (earliest_le_of_mem _ c x hxc)
        · subst hx
          rw [hpidx]
          exact Nat.le_of_lt (hlt repr hreprmem)
    have hfilt : (after.filter (fun c => !isPathConnectedTo deref p c)).Pairwise
        (fun A B => earliest (done ++ p :: rest) A < earliest (done ++ p :: rest) B) :=
      List.Pairwise.sublist (List.filter_sublist _) hafter
    rw [List.append_assoc, List.pairwise_append]
    refine ⟨hb, ?_, ?_⟩
    · rw [List.singleton_append, List.pairwise_cons]
      refine ⟨?_, hfilt⟩
      intro c hc
      rw [heq]
      exact hrafter c (List.mem_filter.mp hc).1
    · intro A hA B hB
      rw [List.singleton_append, List.mem_cons] at hB
      rcases hB with hB | hB
      · rw [hB, heq]
        exact hcross A hA repr (List.mem_cons_self _ _)
      · exact hcross A hA B (List.mem_cons_of_mem _ (List.mem_filter.mp hB).1)

/-- Induction over the loop of `makeComponents`. -/
theorem makeComponentsFrom_induction {α : Type} (deref : α → CypherPath) (pattern : List α)
    (P : List α → List (List α) → Prop)
    (hstep : ∀ done components p rest, done ++ p :: rest = pattern → P done components →
      P (done ++ [p]) (makeComponentsStep deref components p)) :
    ∀ todo done components, done ++ todo = pattern → P done components →
      P pattern (makeComponentsFrom deref components todo) := by
  intro todo
  induction todo with
  | nil =>
    intro done components hd hP
    rw [List.append_nil] at hd
    subst hd
    exact hP
  | cons p rest ih =>
    intro done components hd hP
    simp only [makeComponentsFrom]
    refine ih (done ++ [p]) _ ?_ (hstep done components p rest hd hP)
    rw [List.append_assoc]
    exact hd

theorem partitionInv_nil {α : Type} : PartitionInv ([] : List α) [] :=
  ⟨fun c hc => (by cases hc), List.Perm.refl _⟩

theorem makeComponents_partitionInv {α : Type} [DecidableEq α] (deref : α → CypherPath)
    (pattern : List α) : PartitionInv pattern (makeComponents deref pattern) := by
  refine makeComponentsFrom_induction deref pattern (fun d c => PartitionInv d c) ?_
    pattern [] [] rfl ?_
  · intro done components p rest _ h
    exact partitionInv_step deref done components p h
  · exact partitionInv_nil

theorem makeComponents_linkInv {α : Type} [DecidableEq α] (deref : α → CypherPath)
    (pattern : List α) : LinkInv deref pattern (makeComponents deref pattern) := by
  have h := makeComponentsFrom_induction deref pattern
    (fun d c => PartitionInv d c ∧ LinkInv deref d c) ?_ pattern [] [] rfl ?_
  · exact h.2
  · intro done components p rest _ h
    exact ⟨partitionInv_step deref done components p h.1,
      linkInv_step deref done components p h.1 h.2⟩
  · refine ⟨partitionInv_nil, ?_, ?_⟩
    · intro c hc; cases hc
    · intro c hc; cases hc

theorem makeComponents_ordered {α : Type} [DecidableEq α] (deref : α → CypherPath)
    (pattern : List α) (hnd : pattern.Nodup) :
    (makeComponents deref pattern).Pairwise
      (fun A B => earliest pattern A < earliest pattern B) := by
  have h := makeComponentsFrom_induction deref pattern
    (fun d c => PartitionInv d c ∧
      c.Pairwise (fun A B => earliest pattern A < earliest pattern B)) ?_ pattern [] [] rfl ?_
  · exact h.2
  · intro done components p rest hd h
    refine ⟨partitionInv_step deref done components p h.1, ?_⟩
    subst hd
    exact order_step deref done rest components p hnd h.1 h.2
  · exact ⟨partitionInv_nil, List.Pairwise.nil⟩

/-- C3: two paths of the pattern are placed by `makeComponents` in the same component
if and only if a sequence of paths of the pattern links them, each consecutive pair
sharing a named node variable; and a path whose nodes are all anonymous is a component
on its own (its component holds no other path). -/
theorem makeComponents_same_component_iff {α : Type} [DecidableEq α]
    (deref : α → CypherPath) (pattern : List α) (p q : α) (hp : p ∈ pattern) :
    ((∃ c ∈ makeComponents deref pattern, p ∈ c ∧ q ∈ c) ↔ Linked deref pattern p q) ∧
    ((∀ n ∈ chainNodes (deref p).chain, n.varname = none) →
      (∀ c ∈ makeComponents deref pattern, p ∈ c → ∀ x ∈ c, x = p) ∧
      (pattern.Nodup → [p] ∈ makeComponents deref pattern)) := by
  have hpart := makeComponents_partitionInv deref pattern
  have hlink := makeComponents_linkInv deref pattern
  have hclosed : ∀ c ∈ makeComponents deref pattern, p ∈ c → ∀ x,
      Linked deref pattern p x → x ∈ c := by
    intro c hc hpc x hx
    induction hx with
    | refl => exact hpc
    | tail _ hstep ih => exact hlink.closed c hc _ ih _ hstep.2.1 hstep.2.2
  refine ⟨⟨?_, ?_⟩, ?_⟩
  · rintro ⟨c, hc, hpc, hqc⟩
    exact hlink.linked c hc p hpc q hqc
  · intro h
    obtain ⟨c, hc, hpc⟩ := List.mem_flatten.mp (hpart.perm.mem_iff.mpr hp)
    exact ⟨c, hc, hpc, hclosed c hc hpc q h⟩
  · intro hanon
    have halone : ∀ c ∈ makeComponents deref pattern, p ∈ c → ∀ x ∈ c, x = p := by
      intro c hc hpc x hxc
      rcases Relation.ReflTransGen.cases_head (hlink.linked c hc p hpc x hxc) with h | h
      · exact h.symm
      · obtain ⟨b, ⟨_, _, v, ⟨n, hn, hnv⟩, _⟩, _⟩ := h
        rw [hanon n hn] at hnv
        cases hnv
    refine ⟨halone, ?_⟩
    intro hnd
    obtain ⟨c, hc, hpc⟩ := List.mem_flatten.mp (hpart.perm.mem_iff.mpr hp)
    have hcnd : c.Nodup :=
      List.Nodup.sublist (List.sublist_flatten_of_mem hc) (hpart.perm.nodup_iff.mpr hnd)
    have hrep : c = List.replicate c.length p :=
      List.eq_replicate_iff.mpr ⟨rfl, halone c hc hpc⟩
    have hlen : c.length ≤ 1 := by
      rw [hrep] at hcnd
      exact List.nodup_replicate.mp hcnd
    have hpos : 0 < c.length := List.length_pos_of_mem hpc
    have hone : c.length = 1 := by omega
    rw [hone] at hrep
    rw [hrep] at hc
    exact hc

/-- Witness of C3 on `(a)-[]->(b), (), (c), (b)-[]->(c)`: the first and the third
path. -/
theorem makeComponents_same_component_iff_witness :
    0 ∈ [0, 1, 2, 3] ∧
    ((∃ c ∈ makeComponents samplePaths [0, 1, 2, 3], 0 ∈ c ∧ 2 ∈ c) ↔
      Linked samplePaths [0, 1, 2, 3] 0 2) ∧
    ((∀ n ∈ chainNodes (samplePaths 0).chain, n.varname = none) →
      (∀ c ∈ makeComponents samplePaths [0, 1, 2, 3], 0 ∈ c → ∀ x ∈ c, x = 0) ∧
      ([0, 1, 2, 3].Nodup → [0] ∈ makeComponents samplePaths [0, 1, 2, 3])) :=
  ⟨by decide, makeComponents_same_component_iff samplePaths [0, 1, 2, 3] 0 2 (by decide)⟩

/-- C4: the components returned by `makeComponents` form a partition of the paths of
the pattern: every component is non-empty, and the components together hold exactly the
paths of the pattern, each path as often as the pattern holds it (once, the pattern
holding every path once), so that no path is lost, duplicated or added. -/
theorem makeComponents_partition {α : Type} [DecidableEq α]
    (deref : α → CypherPath) (pattern : List α) :
    (∀ c ∈ makeComponents deref pattern, c ≠ []) ∧
    (makeComponents deref pattern).flatten.Perm pattern ∧
    (∀ p, ((makeComponents deref pattern).map (fun c => c.count p)).sum = pattern.count p) ∧
    ((makeComponents deref pattern).flatten.Nodup ↔ pattern.Nodup) := by
  have hpart := makeComponents_partitionInv deref pattern
  refine ⟨hpart.nonempty, hpart.perm, ?_, hpart.perm.nodup_iff⟩
  intro p
  rw [← List.count_flatten]
  exact hpart.perm.count_eq p

/-- C5: `makeComponents` returns the components in discovery order: one component
precedes another in the result if and only if its earliest path precedes, in the
pattern, the earliest path of the other. -/
theorem makeComponents_discovery_order {α : Type} [DecidableEq α]
    (deref : α → CypherPath) (pattern : List α) (hnd : pattern.Nodup) (i j : Nat)
    (hi : i < (makeComponents deref pattern).length)
    (hj : j < (makeComponents deref pattern).length) :
    i < j ↔
      earliest pattern ((makeComponents deref pattern).get ⟨i, hi⟩) <
        earliest pattern ((makeComponents deref pattern).get ⟨j, hj⟩) := by
  have hord := List.pairwise_iff_get.mp (makeComponents_ordered deref pattern hnd)
  constructor
  · intro hij
    exact hord ⟨i, hi⟩ ⟨j, hj⟩ hij
  · intro hlt
    rcases Nat.lt_trichotomy i j with h | h | h
    · exact h
    · subst h
      exact absurd hlt (Nat.lt_irrefl _)
    · exact absurd hlt (Nat.lt_asymm (hord ⟨j, hj⟩ ⟨i, hi⟩ h))

/-- Witness of C5 on `(c), (), (a)-[]->(b), (b)-[]->(c)`, where the last path merges the
first and the third component: the merged component still precedes the second one. -/
theorem makeComponents_discovery_order_witness :
    [2, 1, 0, 3].Nodup ∧
    makeComponents samplePaths [2, 1, 0, 3] = [[2, 0, 3], [1]] ∧
    ∃ (hi : 0 < (makeComponents samplePaths [2, 1, 0, 3]).length)
      (hj : 1 < (makeComponents samplePaths [2, 1, 0, 3]).length),
      (0 < 1 ↔
        earliest [2, 1, 0, 3] ((makeComponents samplePaths [2, 1, 0, 3]).get ⟨0, hi⟩) <
          earliest [2, 1, 0, 3] ((makeComponents samplePaths [2, 1, 0, 3]).get ⟨1, hj⟩)) :=
  ⟨by decide, by decide, by decide, by decide,
    makeComponents_discovery_order samplePaths [2, 1, 0, 3] (by decide) 0 1
      (by decide) (by decide)⟩


/-! ## Theorems: relationship uniqueness in `transformComponents` -/

theorem bind_eq_ok {ε α β : Type} (x : Except ε α) (f : α → Except ε β) (b : β) :
    (x >>= f) = .ok b ↔ ∃ a, x = .ok a ∧ f a = .ok b := by
  cases x with
  | error e => simp [bind, Except.bind]
  | ok a => simp [bind, Except.bind]

theorem conjuncts_qualAndExpr (q : Option Expr) (e : Expr)
    (he : ∀ args, e ≠ .BoolExpr .AND_EXPR args) :
    conjuncts (qualAndExpr q (some e)) = conjuncts q ++ [e] := by
  cases q with
  | none =>
    cases e with
    | BoolExpr boolop args =>
      cases boolop with
      | AND_EXPR => exact absurd rfl (he args)
      | OR_EXPR => rfl
      | NOT_EXPR => rfl
    | _ => rfl
  | some q =>
    cases q with
    | BoolExpr boolop args =>
      cases boolop <;> rfl
    | _ => rfl

theorem conjuncts_qualAndExpr_op (q : Option Expr) (opname : String) (l r : Expr) :
    conjuncts (qualAndExpr q (some (make_op opname l r))) =
      conjuncts q ++ [Expr.OpExpr opname l r] :=
  conjuncts_qualAndExpr q _ (fun _ h => by cases h)

theorem getColumnVarFrom_varno (cols : List (String × Oid)) (colname : String)
    (rtindex attrno : Nat) (v : Var)
    (h : getColumnVarFrom cols colname rtindex attrno = .ok v) : v.varno = rtindex := by
  induction cols generalizing attrno with
  | nil => simp [getColumnVarFrom] at h
  | cons c rest ih =>
    obtain ⟨tmp, typ⟩ := c
    simp only [getColumnVarFrom] at h
    by_cases hc : tmp = colname
    · simp only [hc, if_true, Except.ok.injEq] at h
      rw [← h]
    · simp only [hc, if_false] at h
      exact ih _ h

theorem getColumnVar_varno (pstate : ParseState) (rtindex : Nat) (colname : String) (v : Var)
    (h : getColumnVar pstate rtindex colname = .ok v) : v.varno = rtindex := by
  unfold getColumnVar at h
  cases hr : getRTE pstate rtindex with
  | none => rw [hr] at h; cases h
  | some rte =>
    rw [hr] at h
    exact getColumnVarFrom_varno _ _ _ _ _ h

theorem addElemQual_rtable (pstate : ParseState) (varattno : Nat) (pc : Option RawNode) :
    (addElemQual pstate varattno pc).p_rtable = pstate.p_rtable := by
  cases pc <;> rfl

theorem addFutureVertex_rtable (pstate : ParseState) (varattno : Nat) (labname : String) :
    (addFutureVertex pstate varattno labname).p_rtable = pstate.p_rtable := rfl

theorem makeAliasOptUnique_rtable (pstate : ParseState) (aliasname : Option String) :
    (makeAliasOptUnique pstate aliasname).2.p_rtable = pstate.p_rtable := by
  cases aliasname <;> rfl

theorem addRangeTableEntry_len (env : Env) (pstate : ParseState) (relname aliasname : String)
    (r : Nat × ParseState)
    (h : addRangeTableEntry env pstate relname aliasname = .ok r) :
    r.1 = r.2.p_rtable.length ∧ r.2.p_rtable.length = pstate.p_rtable.length + 1 := by
  unfold addRangeTableEntry at h
  cases hc : env.catalog relname with
  | none => rw [hc] at h; cases h
  | some cols =>
    rw [hc] at h
    simp only [Except.ok.injEq] at h
    subst h
    simp

theorem addRangeTableEntryForSubquery_len (pstate : ParseState) (cols : List (String × Oid))
    (aliasname : String) :
    (addRangeTableEntryForSubquery pstate cols aliasname).1 =
        (addRangeTableEntryForSubquery pstate cols aliasname).2.p_rtable.length ∧
      (addRangeTableEntryForSubquery pstate cols aliasname).2.p_rtable.length =
        pstate.p_rtable.length + 1 := by
  simp [addRangeTableEntryForSubquery]

theorem addEdgeUnion_len (env : Env) (pstate : ParseState) (edge_label aliasname : String)
    (r : Nat × ParseState)
    (h : addEdgeUnion env pstate edge_label aliasname = .ok r) :
    r.1 = r.2.p_rtable.length ∧ r.2.p_rtable.length = pstate.p_rtable.length + 1 := by
  unfold addEdgeUnion at h
  cases hc : env.catalog edge_label with
  | none => rw [hc] at h; cases h
  | some relcols =>
    rw [hc] at h
    obtain ⟨cols, _, h2⟩ := (bind_eq_ok _ _ _).mp h
    simp only [pure, Except.pure, Except.ok.injEq] at h2
    subst h2
    exact addRangeTableEntryForSubquery_len pstate cols aliasname

theorem addRTEtoJoinlist_rtable (pstate : ParseState) (rtindex : Nat) (ps2 : ParseState)
    (h : addRTEtoJoinlist pstate rtindex = .ok ps2) : ps2.p_rtable = pstate.p_rtable := by
  unfold addRTEtoJoinlist at h
  split at h
  · cases h
  · split at h
    · cases h
    · simp only [Except.ok.injEq] at h
      subst h
      rfl

theorem transformMatchNodeFound_rtable (pstate : ParseState) (cnode : CypherNode)
    (targetList : List TargetEntry) (idx : Nat) (te : TargetEntry)
    (r : VertexRef × ParseState × List TargetEntry)
    (h : transformMatchNodeFound pstate cnode targetList idx te = .ok r) :
    r.2.1.p_rtable = pstate.p_rtable := by
  unfold transformMatchNodeFound at h
  split at h
  · cases h
  · simp only at h
    split at h <;>
    · simp only [Except.ok.injEq] at h
      subst h
      exact addElemQual_rtable _ _ _

theorem transformMatchNodeCol_rtable (env : Env) (pstate : ParseState) (cnode : CypherNode)
    (targetList : List TargetEntry) (varname : String) (col : Var)
    (r : VertexRef × ParseState × List TargetEntry)
    (h : transformMatchNodeCol env pstate cnode targetList varname col = .ok r) :
    r.2.1.p_rtable = pstate.p_rtable := by
  unfold transformMatchNodeCol at h
  split at h
  · cases h
  · simp only [Except.ok.injEq] at h
    subst h
    simp only
    split
    · rw [addFutureVertex_rtable, addElemQual_rtable]
    · rw [addElemQual_rtable]

theorem transformMatchNodeScan_len (env : Env) (pstate : ParseState) (cnode : CypherNode)
    (targetList : List TargetEntry) (labname : String) (prop_constr : Bool)
    (r : VertexRef × ParseState × List TargetEntry)
    (h : transformMatchNodeScan env pstate cnode targetList labname prop_constr = .ok r) :
    r.2.1.p_rtable.length = pstate.p_rtable.length + 1 := by
  unfold transformMatchNodeScan at h
  simp only at h
  obtain ⟨r1, h1, h⟩ := (bind_eq_ok _ _ _).mp h
  obtain ⟨ps1, h2, h⟩ := (bind_eq_ok _ _ _).mp h
  have hlen := (addRangeTableEntry_len _ _ _ _ _ h1).2
  rw [makeAliasOptUnique_rtable] at hlen
  have hps1 := addRTEtoJoinlist_rtable _ _ _ h2
  split at h
  · obtain ⟨vertex, _, h⟩ := (bind_eq_ok _ _ _).mp h
    simp only [pure, Except.pure, Except.ok.injEq] at h
    subst h
    simp only
    rw [addElemQual_rtable]
    simp only
    rw [hps1, hlen]
  · simp only [pure, Except.pure, Except.ok.injEq] at h
    subst h
    simp only
    rw [hps1, hlen]

theorem transformMatchNode_len (env : Env) (pstate : ParseState) (cnode : CypherNode)
    (force : Bool) (targetList : List TargetEntry)
    (r : VertexRef × ParseState × List TargetEntry)
    (h : transformMatchNode env pstate cnode force targetList = .ok r) :
    pstate.p_rtable.length ≤ r.2.1.p_rtable.length := by
  unfold transformMatchNode at h
  split at h
  · rw [transformMatchNodeFound_rtable _ _ _ _ _ _ h]
  · split at h
    · rw [transformMatchNodeCol_rtable _ _ _ _ _ _ _ h]
    · split at h
      · cases h
      · split at h
        · rw [transformMatchNodeScan_len _ _ _ _ _ _ _ h]
          exact Nat.le_succ _
        · split at h <;>
          · simp only [Except.ok.injEq] at h
            subst h
            exact Nat.le_refl _

theorem transformMatchSR_len (env : Env) (pstate : ParseState) (crel : CypherRel)
    (targetList : List TargetEntry) (r : Nat × ParseState × List TargetEntry)
    (h : transformMatchSR env pstate crel targetList = .ok r) :
    r.1 = r.2.1.p_rtable.length ∧ r.2.1.p_rtable.length = pstate.p_rtable.length + 1 := by
  unfold transformMatchSR at h
  obtain ⟨typname, _, h⟩ := (bind_eq_ok _ _ _).mp h
  simp only at h
  obtain ⟨r1, h1, h⟩ := (bind_eq_ok _ _ _).mp h
  obtain ⟨ps1, h2, h⟩ := (bind_eq_ok _ _ _).mp h
  have hlen : r1.1 = r1.2.p_rtable.length ∧
      r1.2.p_rtable.length = pstate.p_rtable.length + 1 := by
    unfold addEdgeRTE at h1
    split at h1
    · have := addEdgeUnion_len _ _ _ _ _ h1
      rw [makeAliasOptUnique_rtable] at this
      exact this
    · have := addRangeTableEntry_len _ _ _ _ _ h1
      rw [makeAliasOptUnique_rtable] at this
      exact this
  have hps1 := addRTEtoJoinlist_rtable _ _ _ h2
  split at h
  · obtain ⟨edge, _, h⟩ := (bind_eq_ok _ _ _).mp h
    simp only [pure, Except.pure, Except.ok.injEq] at h
    subst h
    simp only
    rw [addElemQual_rtable]
    simp only
    rw [hps1]
    exact hlen
  · simp only [pure, Except.pure, Except.ok.injEq] at h
    subst h
    simp only
    rw [hps1]
    exact hlen

theorem transformMatchVLR_len (env : Env) (pstate : ParseState) (crel : CypherRel)
    (targetList : List TargetEntry) (r : Nat × ParseState × List TargetEntry)
    (h : transformMatchVLR env pstate crel targetList = .ok r) :
    r.1 = r.2.1.p_rtable.length ∧ r.2.1.p_rtable.length = pstate.p_rtable.length + 1 := by
  unfold transformMatchVLR at h
  obtain ⟨zero, _, h⟩ := (bind_eq_ok _ _ _).mp h
  obtain ⟨typname, _, h⟩ := (bind_eq_ok _ _ _).mp h
  simp only at h
  split at h
  · cases h
  · obtain ⟨ps1, h2, h⟩ := (bind_eq_ok _ _ _).mp h
    have hlen := addRangeTableEntryForSubquery_len (makeAliasOptUnique pstate crel.varname).2
      (genSelectWithVLRCols (makeAliasOptUnique pstate crel.varname).2 crel)
      (makeAliasOptUnique pstate crel.varname).1
    rw [makeAliasOptUnique_rtable] at hlen
    have hps1 := addRTEtoJoinlist_rtable _ _ _ h2
    split at h
    · obtain ⟨var, _, h⟩ := (bind_eq_ok _ _ _).mp h
      simp only [pure, Except.pure, Except.ok.injEq] at h
      subst h
      simp only
      rw [hps1]
      exact hlen
    · simp only [pure, Except.pure, Except.ok.injEq] at h
      subst h
      simp only
      rw [hps1]
      exact hlen

theorem transformMatchRel_len (env : Env) (pstate : ParseState) (crel : CypherRel)
    (targetList : List TargetEntry) (r : Nat × ParseState × List TargetEntry)
    (h : transformMatchRel env pstate crel targetList = .ok r) :
    r.1 = r.2.1.p_rtable.length ∧ r.2.1.p_rtable.length = pstate.p_rtable.length + 1 := by
  unfold transformMatchRel at h
  split at h
  · cases h
  · split at h
    · cases h
    · split at h
      · exact transformMatchSR_len _ _ _ _ _ h
      · exact transformMatchVLR_len _ _ _ _ _ h

theorem setInitialVidForVLR_rtable (pstate : ParseState) (targetList : List TargetEntry)
    (crel : CypherRel) (vertex : VertexRef) (prev : Option (CypherRel × Nat))
    (ps2 : ParseState)
    (h : setInitialVidForVLR pstate targetList crel vertex prev = .ok ps2) :
    ps2.p_rtable = pstate.p_rtable := by
  unfold setInitialVidForVLR at h
  split at h
  · simp only [Except.ok.injEq] at h
    subst h; rfl
  · split at h
    · split at h
      · simp only [Except.ok.injEq] at h
        subst h; rfl
      · split at h
        · cases h
        · simp only [Except.ok.injEq] at h
          subst h; rfl
    · split at h
      · split at h
        · cases h
        · simp only [Except.ok.injEq] at h
          subst h; rfl
      · split at h
        · cases h
        · simp only [Except.ok.injEq] at h
          subst h; rfl
      · cases h

/-- The qual `q2` is `q` with equality predicates appended. -/
theorem addQualNodeIn_conjuncts (pstate : ParseState) (targetList : List TargetEntry)
    (qual : Option Expr) (vertex : VertexRef) (crel : CypherRel) (edge : Nat) (prev : Bool)
    (r : Option Expr × List TargetEntry)
    (h : addQualNodeIn pstate targetList qual vertex crel edge prev = .ok r) :
    ∃ eqs, conjuncts r.1 = conjuncts qual ++ eqs ∧ ∀ e ∈ eqs, IsEqOp e := by
  have hsame : ∀ q : Option Expr, ∃ eqs, conjuncts q = conjuncts q ++ eqs ∧
      ∀ e ∈ eqs, IsEqOp e := fun q => ⟨[], by simp, fun e he => by cases he⟩
  have hone : ∀ (q : Option Expr) (l r : Expr), ∃ eqs,
      conjuncts (qualAndExpr q (some (make_op "=" l r))) = conjuncts q ++ eqs ∧
      ∀ e ∈ eqs, IsEqOp e := by
    intro q l r
    refine ⟨[Expr.OpExpr "=" l r], conjuncts_qualAndExpr_op q "=" l r, ?_⟩
    intro e he
    rw [List.mem_singleton] at he
    exact ⟨l, r, he⟩
  unfold addQualNodeIn at h
  split at h
  · simp only [Except.ok.injEq] at h
    subst h
    exact hsame qual
  · split at h
    · obtain ⟨tl, _, h⟩ := (bind_eq_ok _ _ _).mp h
      simp only [pure, Except.pure, Except.ok.injEq] at h
      subst h
      exact hsame qual
    · split at h
      · simp only [Except.ok.injEq] at h
        subst h
        exact hsame qual
      · split at h
        · cases h
        · obtain ⟨id, _, h⟩ := (bind_eq_ok _ _ _).mp h
          obtain ⟨vid, _, h⟩ := (bind_eq_ok _ _ _).mp h
          simp only [pure, Except.pure, Except.ok.injEq] at h
          subst h
          exact hone qual _ _
  · split at h
    · simp only [Except.ok.injEq] at h
      subst h
      exact hsame qual
    · obtain ⟨id, _, h⟩ := (bind_eq_ok _ _ _).mp h
      obtain ⟨vid, _, h⟩ := (bind_eq_ok _ _ _).mp h
      simp only [pure, Except.pure, Except.ok.injEq] at h
      subst h
      exact hone qual _ _

theorem addQualRelPath_conjuncts (pstate : ParseState) (qual : Option Expr)
    (prev_crel : CypherRel) (prev_edge : Nat) (crel : CypherRel) (edge : Nat)
    (q2 : Option Expr)
    (h : addQualRelPath pstate qual prev_crel prev_edge crel edge = .ok q2) :
    ∃ eqs, conjuncts q2 = conjuncts qual ++ eqs ∧ ∀ e ∈ eqs, IsEqOp e := by
  unfold addQualRelPath at h
  obtain ⟨prev_vid, _, h⟩ := (bind_eq_ok _ _ _).mp h
  obtain ⟨vid, _, h⟩ := (bind_eq_ok _ _ _).mp h
  simp only [pure, Except.pure, Except.ok.injEq] at h
  subst h
  refine ⟨[Expr.OpExpr "=" (.Var prev_vid) (.Var vid)], conjuncts_qualAndExpr_op _ _ _ _, ?_⟩
  intro e he
  rw [List.mem_singleton] at he
  exact ⟨_, _, he⟩

theorem extends_refl (a : ParseState) : Extends a a := ⟨[], by simp⟩

theorem extends_of_eq {a b : ParseState} (h : b.p_rtable = a.p_rtable) : Extends a b :=
  ⟨[], by simp [h]⟩

theorem extends_trans {a b c : ParseState} (h1 : Extends a b) (h2 : Extends b c) :
    Extends a c := by
  obtain ⟨m1, e1⟩ := h1
  obtain ⟨m2, e2⟩ := h2
  exact ⟨m1 ++ m2, by rw [e2, e1, List.append_assoc]⟩

theorem extends_congr {a a2 b b2 : ParseState} (h : Extends a b)
    (ha : a2.p_rtable = a.p_rtable) (hb : b2.p_rtable = b.p_rtable) : Extends a2 b2 := by
  obtain ⟨m, e⟩ := h
  exact ⟨m, by rw [ha, hb, e]⟩

theorem extends_len_le {a b : ParseState} (h : Extends a b) :
    a.p_rtable.length ≤ b.p_rtable.length := by
  obtain ⟨m, e⟩ := h
  rw [e, List.length_append]
  exact Nat.le_add_right _ _

theorem getRTE_stable {a b : ParseState} (h : Extends a b) (rtindex : Nat)
    (rte : RangeTblEntry) (hr : getRTE a rtindex = some rte) : getRTE b rtindex = some rte := by
  obtain ⟨m, e⟩ := h
  unfold getRTE at hr ⊢
  split at hr
  · cases hr
  · rename_i h0
    simp only [h0, if_false]
    have hi : rtindex - 1 < a.p_rtable.length := by
      by_contra hc
      rw [List.getElem?_eq_none (Nat.le_of_not_lt hc)] at hr
      cases hr
    rw [e, List.getElem?_append_left hi]
    exact hr

/-- A column reference stays what it is when entries are appended to the range table. -/
theorem getColumnVar_stable {a b : ParseState} (h : Extends a b) (rtindex : Nat)
    (colname : String) (v : Var) (hv : getColumnVar a rtindex colname = .ok v) :
    getColumnVar b rtindex colname = .ok v := by
  unfold getColumnVar at hv ⊢
  cases hr : getRTE a rtindex with
  | none => rw [hr] at hv; cases hv
  | some rte =>
    rw [hr] at hv
    rw [getRTE_stable h rtindex rte hr]
    exact hv

theorem addRangeTableEntry_ext (env : Env) (pstate : ParseState) (relname aliasname : String)
    (r : Nat × ParseState)
    (h : addRangeTableEntry env pstate relname aliasname = .ok r) : Extends pstate r.2 := by
  unfold addRangeTableEntry at h
  cases hc : env.catalog relname with
  | none => rw [hc] at h; cases h
  | some cols =>
    rw [hc] at h
    simp only [Except.ok.injEq] at h
    subst h
    exact ⟨_, rfl⟩

theorem addEdgeUnion_ext (env : Env) (pstate : ParseState) (edge_label aliasname : String)
    (r : Nat × ParseState)
    (h : addEdgeUnion env pstate edge_label aliasname = .ok r) : Extends pstate r.2 := by
  unfold addEdgeUnion at h
  cases hc : env.catalog edge_label with
  | none => rw [hc] at h; cases h
  | some relcols =>
    rw [hc] at h
    obtain ⟨cols, _, h2⟩ := (bind_eq_ok _ _ _).mp h
    simp only [pure, Except.pure, Except.ok.injEq] at h2
    subst h2
    exact ⟨_, rfl⟩

theorem transformMatchNodeScan_ext (env : Env) (pstate : ParseState) (cnode : CypherNode)
    (targetList : List TargetEntry) (labname : String) (prop_constr : Bool)
    (r : VertexRef × ParseState × List TargetEntry)
    (h : transformMatchNodeScan env pstate cnode targetList labname prop_constr = .ok r) :
    Extends pstate r.2.1 := by
  unfold transformMatchNodeScan at h
  simp only at h
  obtain ⟨r1, h1, h⟩ := (bind_eq_ok _ _ _).mp h
  obtain ⟨ps1, h2, h⟩ := (bind_eq_ok _ _ _).mp h
  have hext : Extends pstate r1.2 :=
    extends_congr (addRangeTableEntry_ext _ _ _ _ _ h1) (makeAliasOptUnique_rtable _ _).symm rfl
  have hps1 := addRTEtoJoinlist_rtable _ _ _ h2
  split at h
  · obtain ⟨vertex, _, h⟩ := (bind_eq_ok _ _ _).mp h
    simp only [pure, Except.pure, Except.ok.injEq] at h
    subst h
    refine extends_congr hext rfl ?_
    simp only
    rw [addElemQual_rtable]
    exact hps1
  · simp only [pure, Except.pure, Except.ok.injEq] at h
    subst h
    exact extends_congr hext rfl hps1

theorem transformMatchNode_ext (env : Env) (pstate : ParseState) (cnode : CypherNode)
    (force : Bool) (targetList : List TargetEntry)
    (r : VertexRef × ParseState × List TargetEntry)
    (h : transformMatchNode env pstate cnode force targetList = .ok r) :
    Extends pstate r.2.1 := by
  unfold transformMatchNode at h
  split at h
  · exact extends_of_eq (transformMatchNodeFound_rtable _ _ _ _ _ _ h)
  · split at h
    · exact extends_of_eq (transformMatchNodeCol_rtable _ _ _ _ _ _ _ h)
    · split at h
      · cases h
      · split at h
        · exact transformMatchNodeScan_ext _ _ _ _ _ _ _ h
        · split at h <;>
          · simp only [Except.ok.injEq] at h
            subst h
            exact extends_of_eq rfl

theorem transformMatchSR_ext (env : Env) (pstate : ParseState) (crel : CypherRel)
    (targetList : List TargetEntry) (r : Nat × ParseState × List TargetEntry)
    (h : transformMatchSR env pstate crel targetList = .ok r) : Extends pstate r.2.1 := by
  unfold transformMatchSR at h
  obtain ⟨typname, _, h⟩ := (bind_eq_ok _ _ _).mp h
  simp only at h
  obtain ⟨r1, h1, h⟩ := (bind_eq_ok _ _ _).mp h
  obtain ⟨ps1, h2, h⟩ := (bind_eq_ok _ _ _).mp h
  have hext : Extends pstate r1.2 := by
    unfold addEdgeRTE at h1
    split at h1
    · exact extends_congr (addEdgeUnion_ext _ _ _ _ _ h1) (makeAliasOptUnique_rtable _ _).symm rfl
    · exact extends_congr (addRangeTableEntry_ext _ _ _ _ _ h1) (makeAliasOptUnique_rtable _ _).symm rfl
  have hps1 := addRTEtoJoinlist_rtable _ _ _ h2
  split at h
  · obtain ⟨edge, _, h⟩ := (bind_eq_ok _ _ _).mp h
    simp only [pure, Except.pure, Except.ok.injEq] at h
    subst h
    refine extends_congr hext rfl ?_
    simp only
    rw [addElemQual_rtable]
    exact hps1
  · simp only [pure, Except.pure, Except.ok.injEq] at h
    subst h
    exact extends_congr hext rfl hps1

theorem transformMatchVLR_ext (env : Env) (pstate : ParseState) (crel : CypherRel)
    (targetList : List TargetEntry) (r : Nat × ParseState × List TargetEntry)
    (h : transformMatchVLR env pstate crel targetList = .ok r) : Extends pstate r.2.1 := by
  unfold transformMatchVLR at h
  obtain ⟨zero, _, h⟩ := (bind_eq_ok _ _ _).mp h
  obtain ⟨typname, _, h⟩ := (bind_eq_ok _ _ _).mp h
  simp only at h
  split at h
  · cases h
  · obtain ⟨ps1, h2, h⟩ := (bind_eq_ok _ _ _).mp h
    have h0 : Extends (makeAliasOptUnique pstate crel.varname).2
        (addRangeTableEntryForSubquery
          (makeAliasOptUnique pstate crel.varname).2
          (genSelectWithVLRCols (makeAliasOptUnique pstate crel.varname).2 crel)
          (makeAliasOptUnique pstate crel.varname).1).2 := ⟨_, rfl⟩
    have hext := extends_congr h0 (makeAliasOptUnique_rtable pstate crel.varname).symm rfl
    have hps1 := addRTEtoJoinlist_rtable _ _ _ h2
    split at h
    · obtain ⟨var, _, h⟩ := (bind_eq_ok _ _ _).mp h
      simp only [pure, Except.pure, Except.ok.injEq] at h
      subst h
      exact extends_congr hext rfl hps1
    · simp only [pure, Except.pure, Except.ok.injEq] at h
      subst h
      exact extends_congr hext rfl hps1

theorem transformMatchRel_ext (env : Env) (pstate : ParseState) (crel : CypherRel)
    (targetList : List TargetEntry) (r : Nat × ParseState × List TargetEntry)
    (h : transformMatchRel env pstate crel targetList = .ok r) : Extends pstate r.2.1 := by
  unfold transformMatchRel at h
  split at h
  · cases h
  · split at h
    · cases h
    · split at h
      · exact transformMatchSR_ext _ _ _ _ _ h
      · exact transformMatchVLR_ext _ _ _ _ _ h


theorem grows_trans {a b c : CompState} {k j : Nat} (h1 : Grows a b k) (h2 : Grows b c j) :
    Grows a c (k + j) := by
  obtain ⟨n1, hn1, hl1, hp1, hr1⟩ := h1.ueids
  obtain ⟨n2, hn2, hl2, hp2, hr2⟩ := h2.ueids
  obtain ⟨e1, he1, ha1⟩ := h1.qual
  obtain ⟨e2, he2, ha2⟩ := h2.qual
  refine ⟨extends_trans h1.ext h2.ext, Nat.le_trans h1.len_le h2.len_le,
    ⟨n1 ++ n2, ?_, ?_, ?_, ?_⟩, ⟨e1 ++ e2, ?_, ?_⟩⟩
  · rw [hn2, hn1, List.append_assoc]
  · rw [List.length_append, hl1, hl2]
  · rw [List.pairwise_append]
    refine ⟨hp1, hp2, ?_⟩
    intro x hx y hy
    exact Nat.lt_of_le_of_lt (hr1 x hx).2.1 (hr2 y hy).1
  · intro v hv
    rw [List.mem_append] at hv
    rcases hv with hv | hv
    · exact ⟨(hr1 v hv).1, Nat.le_trans (hr1 v hv).2.1 h2.len_le,
        getColumnVar_stable h2.ext _ _ _ (hr1 v hv).2.2⟩
    · exact ⟨Nat.lt_of_le_of_lt h1.len_le (hr2 v hv).1, (hr2 v hv).2⟩
  · rw [he2, he1, List.append_assoc]
  · intro e he
    rw [List.mem_append] at he
    rcases he with he | he
    · exact ha1 e he
    · exact ha2 e he

theorem grows_bounded {a b : CompState} {k : Nat} (h : Grows a b k) (ha : Bounded a) :
    Bounded b := by
  obtain ⟨n1, hn1, _, _, hr1⟩ := h.ueids
  intro v hv
  rw [hn1, List.mem_append] at hv
  rcases hv with hv | hv
  · exact Nat.le_trans (ha v hv) h.len_le
  · exact (hr1 v hv).2.1

theorem grows_refl (a : CompState) : Grows a a 0 :=
  ⟨extends_refl _, Nat.le_refl _, ⟨[], by simp⟩, ⟨[], by simp, fun e he => by cases he⟩⟩

/-- A run that leaves `ueids` alone, does not shrink the range table and appends
equality predicates. -/
theorem grows_of_same {a b : CompState} (hext : Extends a.pstate b.pstate)
    (hu : b.ueids = a.ueids)
    (hq : ∃ eqs, conjuncts b.qual = conjuncts a.qual ++ eqs ∧ ∀ e ∈ eqs, IsEqOp e) :
    Grows a b 0 :=
  ⟨hext, extends_len_le hext, ⟨[], by simp [hu]⟩, hq⟩

theorem list_append_unique_fresh (ueids : List Var) (eid : Var)
    (h : ∀ v ∈ ueids, v.varno < eid.varno) : list_append_unique ueids eid = ueids ++ [eid] := by
  unfold list_append_unique
  have : eid ∉ ueids := fun hmem => Nat.lt_irrefl _ (h eid hmem)
  simp [this]

/-- The end of an iteration: the identifier of a fixed-length relationship, which is a
column of the newest range-table entry, is appended to `ueids`. -/
theorem transformEdgeTail_spec (out : Bool) (s s2 : CompState) (vertex : VertexRef)
    (crel : CypherRel) (edge : Nat)
    (hfresh : ∀ v ∈ s.ueids, v.varno < edge)
    (h : transformEdgeTail out s vertex crel edge = .ok s2) :
    s2.pstate.p_rtable = s.pstate.p_rtable ∧ s2.qual = s.qual ∧
    ∃ newids, s2.ueids = s.ueids ++ newids ∧
      newids.length = (if crel.varlen.isNone then 1 else 0) ∧
      ∀ v ∈ newids, v.varno = edge ∧
        getColumnVar s.pstate edge AG_ELEM_LOCAL_ID = .ok v := by
  unfold transformEdgeTail at h
  obtain ⟨ueids, h1, h⟩ := (bind_eq_ok _ _ _).mp h
  obtain ⟨pv, _, h⟩ := (bind_eq_ok _ _ _).mp h
  simp only [pure, Except.pure, Except.ok.injEq] at h
  subst h
  refine ⟨rfl, rfl, ?_⟩
  simp only
  unfold collectUeid at h1
  split at h1
  · rename_i hfix
    split at h1
    · cases h1
    · rename_i eid heid
      simp only [Except.ok.injEq] at h1
      have hvar : eid.varno = edge := getColumnVar_varno _ _ _ _ heid
      refine ⟨[eid], ?_, by simp [hfix], ?_⟩
      · rw [← h1]
        exact list_append_unique_fresh _ _ (fun v hv => by rw [hvar]; exact hfresh v hv)
      · intro v hv
        rw [List.mem_singleton] at hv
        rw [hv]
        exact ⟨hvar, heid⟩
  · rename_i hfix
    simp only [Except.ok.injEq] at h1
    exact ⟨[], by simp [h1], by simp [hfix], fun v hv => by cases hv⟩

theorem fixedRelCount_node (cnode : CypherNode) (rest : List ChainElem) :
    fixedRelCount (.node cnode :: rest) = fixedRelCount rest := rfl

theorem fixedRelCount_rel (crel : CypherRel) (rest : List ChainElem) :
    fixedRelCount (.rel crel :: rest) =
      (if crel.varlen.isNone then 1 else 0) + fixedRelCount rest := by
  unfold fixedRelCount
  simp only [chainRels, List.filter_cons]
  split <;> simp [Nat.add_comm]

/-- The step "relationship transformed, identifier collected" of the loop, from a state
`s` to the state `s2` after `transformEdgeTail`. -/
theorem grows_edge_step (out : Bool) (s s1 s2 : CompState) (vertex : VertexRef)
    (crel : CypherRel) (edge : Nat) (hb : Bounded s)
    (hext : Extends s.pstate s1.pstate)
    (hedge : edge = s1.pstate.p_rtable.length)
    (hlen : s.pstate.p_rtable.length < s1.pstate.p_rtable.length)
    (hu : s1.ueids = s.ueids)
    (hq : ∃ eqs, conjuncts s1.qual = conjuncts s.qual ++ eqs ∧ ∀ e ∈ eqs, IsEqOp e)
    (h : transformEdgeTail out s1 vertex crel edge = .ok s2) :
    Grows s s2 (if crel.varlen.isNone then 1 else 0) := by
  have hfresh : ∀ v ∈ s1.ueids, v.varno < edge := by
    intro v hv
    rw [hu] at hv
    rw [hedge]
    exact Nat.lt_of_le_of_lt (hb v hv) hlen
  obtain ⟨hrt, hqual, newids, hnew, hcount, hvar⟩ :=
    transformEdgeTail_spec out s1 s2 vertex crel edge hfresh h
  have hsame : s2.pstate.p_rtable = s1.pstate.p_rtable := hrt
  refine ⟨extends_congr hext rfl hsame, ?_, ⟨newids, ?_, hcount, ?_, ?_⟩, ?_⟩
  · rw [hrt]; exact Nat.le_of_lt hlen
  · rw [hnew, hu]
  · have hle : newids.length ≤ 1 := by rw [hcount]; split <;> simp
    match newids, hle with
    | [], _ => exact List.Pairwise.nil
    | [x], _ => exact List.pairwise_singleton _ _
  · intro v hv
    refine ⟨?_, ?_, ?_⟩
    · rw [(hvar v hv).1, hedge]; exact hlen
    · rw [(hvar v hv).1, hrt, hedge]
    · rw [(hvar v hv).1]
      exact getColumnVar_stable (extends_of_eq hsame) _ _ _ (hvar v hv).2
  · rw [hqual]; exact hq

theorem transformChainRest_grows (env : Env) (out : Bool) :
    ∀ (n : Nat) (chain : List ChainElem), chain.length ≤ n →
      ∀ (s : CompState) (prev_crel : CypherRel) (prev_edge : Nat) (r : CompState × VertexRef),
      Bounded s → transformChainRest env out s prev_crel prev_edge chain = .ok r →
      Grows s r.1 (fixedRelCount chain) := by
  intro n
  induction n with
  | zero =>
    intro chain hlen s prev_crel prev_edge r _ h
    match chain, hlen with
    | [], _ => simp [transformChainRest] at h
  | succ n ih =>
    intro chain hlen s prev_crel prev_edge r hb h
    match chain, hlen with
    | [], _ => simp [transformChainRest] at h
    | .rel _ :: _, _ => simp [transformChainRest] at h
    | [.node cnode], _ =>
      simp only [transformChainRest] at h
      obtain ⟨nd, h1, h⟩ := (bind_eq_ok _ _ _).mp h
      obtain ⟨q, h2, h⟩ := (bind_eq_ok _ _ _).mp h
      simp only [pure, Except.pure, Except.ok.injEq] at h
      subst h
      exact grows_of_same (transformMatchNode_ext _ _ _ _ _ _ h1) rfl
        (addQualNodeIn_conjuncts _ _ _ _ _ _ _ _ h2)
    | .node _ :: .node _ :: _, _ => simp [transformChainRest] at h
    | .node cnode :: .rel crel :: rest, hlen =>
      simp only [transformChainRest] at h
      obtain ⟨nd, h1, h⟩ := (bind_eq_ok _ _ _).mp h
      obtain ⟨q, h2, h⟩ := (bind_eq_ok _ _ _).mp h
      obtain ⟨ps, h3, h⟩ := (bind_eq_ok _ _ _).mp h
      obtain ⟨e, h4, h⟩ := (bind_eq_ok _ _ _).mp h
      obtain ⟨qual, h5, h⟩ := (bind_eq_ok _ _ _).mp h
      obtain ⟨s2, h6, h⟩ := (bind_eq_ok _ _ _).mp h
      have hl1 := transformMatchNode_len _ _ _ _ _ _ h1
      have hl3 := setInitialVidForVLR_rtable _ _ _ _ _ _ h3
      have hl4 := transformMatchRel_len _ _ _ _ _ h4
      rw [hl3] at hl4
      obtain ⟨eqs1, hq1, ha1⟩ := addQualNodeIn_conjuncts _ _ _ _ _ _ _ _ h2
      obtain ⟨eqs2, hq2, ha2⟩ := addQualRelPath_conjuncts _ _ _ _ _ _ _ h5
      have hstep : Grows s s2 (if crel.varlen.isNone then 1 else 0) := by
        refine grows_edge_step out s
          { s with pstate := e.2.1, targetList := e.2.2, qual := qual } s2 nd.1 crel e.1 hb
          ?_ hl4.1 ?_ rfl ?_ h6
        · exact extends_trans (transformMatchNode_ext _ _ _ _ _ _ h1)
            (extends_trans (extends_of_eq hl3) (transformMatchRel_ext _ _ _ _ _ h4))
        · simp only
          rw [hl4.2]
          exact Nat.lt_succ_of_le hl1
        · refine ⟨eqs1 ++ eqs2, ?_, ?_⟩
          · simp only
            rw [hq2, hq1, List.append_assoc]
          · intro x hx
            rw [List.mem_append] at hx
            rcases hx with hx | hx
            · exact ha1 x hx
            · exact ha2 x hx
      have hrest := ih rest (by simp only [List.length_cons] at hlen; omega) s2 crel e.1 r
        (grows_bounded hstep hb) h
      rw [fixedRelCount_node, fixedRelCount_rel]
      exact grows_trans hstep hrest

theorem transformChain_grows (env : Env) (out : Bool) (chain : List ChainElem)
    (s : CompState) (r : CompState × VertexRef) (hb : Bounded s)
    (h : transformChain env out s chain = .ok r) :
    Grows s r.1 (fixedRelCount chain) := by
  match chain with
  | [] => simp [transformChain] at h
  | .rel _ :: _ => simp [transformChain] at h
  | [.node cnode] =>
    simp only [transformChain] at h
    obtain ⟨nd, h1, h⟩ := (bind_eq_ok _ _ _).mp h
    simp only [pure, Except.pure, Except.ok.injEq] at h
    subst h
    exact grows_of_same (transformMatchNode_ext _ _ _ _ _ _ h1) rfl
      ⟨[], by simp, fun e he => by cases he⟩
  | .node _ :: .node _ :: _ => simp [transformChain] at h
  | .node cnode :: .rel crel :: rest =>
    simp only [transformChain] at h
    obtain ⟨zero, _, h⟩ := (bind_eq_ok _ _ _).mp h
    obtain ⟨nd, h1, h⟩ := (bind_eq_ok _ _ _).mp h
    obtain ⟨ps, h3, h⟩ := (bind_eq_ok _ _ _).mp h
    obtain ⟨e, h4, h⟩ := (bind_eq_ok _ _ _).mp h
    obtain ⟨q, h2, h⟩ := (bind_eq_ok _ _ _).mp h
    obtain ⟨s2, h6, h⟩ := (bind_eq_ok _ _ _).mp h
    have hl1 := transformMatchNode_len _ _ _ _ _ _ h1
    have hl3 := setInitialVidForVLR_rtable _ _ _ _ _ _ h3
    have hl4 := transformMatchRel_len _ _ _ _ _ h4
    rw [hl3] at hl4
    have hstep : Grows s s2 (if crel.varlen.isNone then 1 else 0) := by
      refine grows_edge_step out s
        { s with pstate := e.2.1, targetList := q.2, qual := q.1 } s2 nd.1 crel e.1 hb
        ?_ hl4.1 ?_ rfl ?_ h6
      · exact extends_trans (transformMatchNode_ext _ _ _ _ _ _ h1)
          (extends_trans (extends_of_eq hl3) (transformMatchRel_ext _ _ _ _ _ h4))
      · simp only
        rw [hl4.2]
        exact Nat.lt_succ_of_le hl1
      · exact addQualNodeIn_conjuncts _ _ _ _ _ _ _ _ h2
    have hrest := transformChainRest_grows env out rest.length rest (Nat.le_refl _) s2 crel e.1 r
      (grows_bounded hstep hb) h
    rw [fixedRelCount_node, fixedRelCount_rel]
    exact grows_trans hstep hrest

theorem grows_congr {a a2 b b2 : CompState} {k : Nat} (h : Grows a b k)
    (ha1 : a2.pstate.p_rtable = a.pstate.p_rtable) (ha2 : a2.ueids = a.ueids)
    (ha3 : a2.qual = a.qual)
    (hb1 : b2.pstate.p_rtable = b.pstate.p_rtable) (hb2 : b2.ueids = b.ueids)
    (hb3 : b2.qual = b.qual) : Grows a2 b2 k := by
  obtain ⟨hext, hlen, hu, hq⟩ := h
  refine ⟨extends_congr hext ha1 hb1, ?_, ?_, ?_⟩
  · rw [ha1, hb1]; exact hlen
  · obtain ⟨newids, h1, h2, h3, h4⟩ := hu
    refine ⟨newids, by rw [ha2, hb2]; exact h1, h2, h3, ?_⟩
    intro v hv
    obtain ⟨c1, c2, c3⟩ := h4 v hv
    refine ⟨by rw [ha1]; exact c1, by rw [hb1]; exact c2, ?_⟩
    exact getColumnVar_stable (extends_of_eq hb1) _ _ _ c3
  · rw [ha3, hb3]; exact hq

theorem transformPathEnd_same (s s2 : CompState) (vertex : VertexRef)
    (pathname : Option String) (h : transformPathEnd s vertex pathname = .ok s2) :
    s2.pstate.p_rtable = s.pstate.p_rtable ∧ s2.ueids = s.ueids ∧ s2.qual = s.qual := by
  unfold transformPathEnd at h
  split at h
  · split at h
    · cases h
    · simp only [Except.ok.injEq] at h
      subst h
      exact ⟨rfl, rfl, rfl⟩
  · simp only [Except.ok.injEq] at h
    subst h
    exact ⟨rfl, rfl, rfl⟩

theorem transformPath_grows (env : Env) (s s2 : CompState) (p : CypherPath)
    (hb : Bounded s) (h : transformPath env s p = .ok s2) :
    Grows s s2 (fixedRelCount p.chain) := by
  unfold transformPath at h
  simp only at h
  split at h
  · cases h
  · split at h
    · cases h
    · split at h
      · cases h
      · rename_i s1 vertex hchain
        have hg := transformChain_grows env _ p.chain _ (s1, vertex) (by exact hb) hchain
        obtain ⟨e1, e2, e3⟩ := transformPathEnd_same _ _ _ _ h
        exact grows_congr hg rfl rfl rfl e1 e2 e3

theorem fixedRelCountPaths_cons (p : CypherPath) (c : List CypherPath) :
    fixedRelCountPaths (p :: c) = fixedRelCount p.chain + fixedRelCountPaths c := by
  simp [fixedRelCountPaths]

theorem transformPaths_grows (env : Env) (c : List CypherPath) (s s2 : CompState)
    (hb : Bounded s) (h : transformPaths env s c = .ok s2) :
    Grows s s2 (fixedRelCountPaths c) := by
  induction c generalizing s with
  | nil =>
    simp only [transformPaths, Except.ok.injEq] at h
    subst h
    exact grows_refl s
  | cons p rest ih =>
    simp only [transformPaths] at h
    cases h1 : transformPath env s p with
    | error e => rw [h1] at h; cases h
    | ok s1 =>
      rw [h1] at h
      have hg := transformPath_grows env s s1 p hb h1
      rw [fixedRelCountPaths_cons]
      exact grows_trans hg (ih s1 (grows_bounded hg hb) h)

theorem conjuncts_addQualNeq (q : Option Expr) (eid1 : Expr) (rest : List Expr) :
    conjuncts (addQualNeq q eid1 rest) =
      conjuncts q ++ rest.map (fun eid2 => Expr.OpExpr "<>" eid1 eid2) := by
  induction rest generalizing q with
  | nil => simp [addQualNeq]
  | cons e more ih =>
    simp only [addQualNeq, List.map_cons]
    rw [ih, conjuncts_qualAndExpr_op, List.append_assoc]
    rfl

theorem conjuncts_addQualArrPos (q : Option Expr) (eid1 : Expr) (arrs : List Expr) :
    conjuncts (addQualArrPos q eid1 arrs) =
      conjuncts q ++ arrs.map (fun arr =>
        Expr.NullTest (.FuncExpr "array_position" [arr, eid1] .INT4OID)) := by
  induction arrs generalizing q with
  | nil => simp [addQualArrPos]
  | cons a more ih =>
    simp only [addQualArrPos, List.map_cons]
    rw [ih, conjuncts_qualAndExpr _ _ (fun _ h => by cases h), List.append_assoc]
    rfl

theorem conjuncts_addQualEids (q : Option Expr) (ueids arrs : List Expr) :
    conjuncts (addQualEids q ueids arrs) = conjuncts q ++ uniqueQualsEids ueids arrs := by
  induction ueids generalizing q with
  | nil => simp [addQualEids, uniqueQualsEids]
  | cons e rest ih =>
    simp only [addQualEids, uniqueQualsEids]
    rw [ih, conjuncts_addQualArrPos, conjuncts_addQualNeq]
    simp only [List.append_assoc]

theorem conjuncts_addQualOverlap (q : Option Expr) (arr1 : Expr) (rest : List Expr) :
    conjuncts (addQualOverlap q arr1 rest) =
      conjuncts q ++ rest.map (fun arr2 =>
        Expr.BoolExpr .NOT_EXPR [.FuncExpr "arrayoverlap" [arr1, arr2] .BOOLOID]) := by
  induction rest generalizing q with
  | nil => simp [addQualOverlap]
  | cons a more ih =>
    simp only [addQualOverlap, List.map_cons]
    rw [ih, conjuncts_qualAndExpr _ _ (fun _ h => by cases h), List.append_assoc]
    rfl

theorem conjuncts_addQualArrs (q : Option Expr) (arrs : List Expr) :
    conjuncts (addQualArrs q arrs) = conjuncts q ++ uniqueQualsArrs arrs := by
  induction arrs generalizing q with
  | nil => simp [addQualArrs, uniqueQualsArrs]
  | cons a rest ih =>
    simp only [addQualArrs, uniqueQualsArrs]
    rw [ih, conjuncts_addQualOverlap, List.append_assoc]

/-- The conjuncts `addQualUniqueEdges` appends to the qual. -/
theorem conjuncts_addQualUniqueEdges (q : Option Expr) (ueids arrs : List Expr) :
    conjuncts (addQualUniqueEdges q ueids arrs) =
      conjuncts q ++ uniqueQualsEids ueids arrs ++ uniqueQualsArrs arrs := by
  unfold addQualUniqueEdges
  rw [conjuncts_addQualArrs, conjuncts_addQualEids]

theorem uniqueQualsEids_nil_arrs (ueids : List Var) :
    uniqueQualsEids (ueids.map Expr.Var) [] = neqPairs ueids := by
  induction ueids with
  | nil => rfl
  | cons v rest ih =>
    simp only [List.map_cons, uniqueQualsEids, neqPairs, List.map_nil, List.append_nil,
      List.map_map]
    rw [ih]
    rfl

/-- The conjuncts `transformComponents` appends for the identifiers of a component. -/
theorem conjuncts_addQualUniqueEdges_nil (q : Option Expr) (ueids : List Var) :
    conjuncts (addQualUniqueEdges q (ueids.map Expr.Var) []) = conjuncts q ++ neqPairs ueids := by
  rw [conjuncts_addQualUniqueEdges, uniqueQualsEids_nil_arrs]
  simp [uniqueQualsArrs]

theorem neqPairs_length (ueids : List Var) :
    (neqPairs ueids).length = ueids.length * (ueids.length - 1) / 2 := by
  induction ueids with
  | nil => rfl
  | cons v rest ih =>
    simp only [neqPairs, List.length_append, List.length_map, List.length_cons, ih,
      Nat.add_sub_cancel]
    have h2 : rest.length * (rest.length - 1) % 2 = 0 := by
      cases hn : rest.length with
      | zero => rfl
      | succ m =>
        simp only [Nat.add_sub_cancel]
        rcases Nat.even_or_odd m with ⟨k, hk⟩ | ⟨k, hk⟩
        · subst hk
          have : (k + k + 1) * (k + k) = 2 * ((k + k + 1) * k) := by ring
          rw [this]; exact Nat.mul_mod_right 2 _
        · subst hk
          have : (2 * k + 1 + 1) * (2 * k + 1) = 2 * ((k + 1) * (2 * k + 1)) := by ring
          rw [this]; exact Nat.mul_mod_right 2 _
    have h3 : (rest.length + 1) * rest.length =
        2 * rest.length + rest.length * (rest.length - 1) := by
      cases hn : rest.length with
      | zero => rfl
      | succ m => simp only [Nat.add_sub_cancel]; ring
    rw [h3]
    omega

theorem transformComponentsLoop_runs (env : Env) (components : List (List CypherPath))
    (s s2 : CompState) (h : transformComponentsLoop env s components = .ok s2) :
    ∃ ms, componentRuns env s components = .ok ms ∧ Runs s components ms s2 := by
  induction components generalizing s with
  | nil =>
    simp only [transformComponentsLoop, Except.ok.injEq] at h
    subst h
    exact ⟨[], rfl, Runs.nil s⟩
  | cons c rest ih =>
    simp only [transformComponentsLoop, transformComponent] at h
    cases h1 : transformPaths env { s with ueids := [] } c with
    | error e => rw [h1] at h; cases h
    | ok m =>
      rw [h1] at h
      simp only at h
      obtain ⟨ms, hms, hruns⟩ := ih _ h
      refine ⟨m :: ms, ?_, ?_⟩
      · simp only [componentRuns, h1, hms]
      · refine Runs.cons s m s2 c rest ms ?_ hruns
        exact transformPaths_grows env c _ m (fun v hv => by cases hv) h1

theorem runs_length {s s2 : CompState} {cs : List (List CypherPath)} {ms : List CompState}
    (h : Runs s cs ms s2) : ms.length = cs.length := by
  induction h with
  | nil => rfl
  | cons s m s2 c cs ms _ _ ih => simp [ih]

theorem runs_len_le {s s2 : CompState} {cs : List (List CypherPath)} {ms : List CompState}
    (h : Runs s cs ms s2) : s.pstate.p_rtable.length ≤ s2.pstate.p_rtable.length := by
  induction h with
  | nil => exact Nat.le_refl _
  | cons s m s2 c cs ms hgrow _ ih => exact Nat.le_trans hgrow.len_le ih

/-- The identifiers of a component are new columns: above the range table of the start
state. -/
theorem runs_range {s s2 : CompState} {cs : List (List CypherPath)} {ms : List CompState}
    (h : Runs s cs ms s2) :
    ∀ m ∈ ms, ∀ v ∈ m.ueids, s.pstate.p_rtable.length < v.varno := by
  induction h with
  | nil => intro m hm; cases hm
  | cons s m s2 c cs ms hgrow _ ih =>
    intro m2 hm2 v hv
    rw [List.mem_cons] at hm2
    obtain ⟨newids, hn, _, _, hr⟩ := hgrow.ueids
    rcases hm2 with hm2 | hm2
    · subst hm2
      rw [hn] at hv
      exact (hr v (by simpa using hv)).1
    · exact Nat.lt_of_le_of_lt hgrow.len_le (ih m2 hm2 v hv)

theorem runs_counts {s s2 : CompState} {cs : List (List CypherPath)} {ms : List CompState}
    (h : Runs s cs ms s2) :
    List.Forall₂ (fun c m => m.ueids.length = fixedRelCountPaths c ∧
      m.ueids.Pairwise (fun a b => a.varno < b.varno) ∧
      ∀ v ∈ m.ueids, getColumnVar m.pstate v.varno AG_ELEM_LOCAL_ID = .ok v) cs ms := by
  induction h with
  | nil => exact List.Forall₂.nil
  | cons s m s2 c cs ms hgrow _ ih =>
    obtain ⟨newids, hn, hl, hp, hr⟩ := hgrow.ueids
    simp only [List.nil_append] at hn
    refine List.Forall₂.cons ⟨?_, ?_, ?_⟩ ih
    · rw [hn]; exact hl
    · rw [hn]; exact hp
    · intro v hv
      rw [hn] at hv
      exact (hr v hv).2.2

theorem runs_disjoint {s s2 : CompState} {cs : List (List CypherPath)} {ms : List CompState}
    (h : Runs s cs ms s2) :
    ms.Pairwise (fun m1 m2 => ∀ a ∈ m1.ueids, ∀ b ∈ m2.ueids, a.varno < b.varno) := by
  induction h with
  | nil => exact List.Pairwise.nil
  | cons s m s2 c cs ms hgrow hrest ih =>
    rw [List.pairwise_cons]
    refine ⟨?_, ih⟩
    intro m2 hm2 a ha b hb
    obtain ⟨newids, hn, _, _, hr⟩ := hgrow.ueids
    rw [hn] at ha
    have h1 := (hr a (by simpa using ha)).2.1
    have h2 := runs_range hrest m2 hm2 b hb
    exact Nat.lt_of_le_of_lt h1 h2

theorem isNeqOp_neqPairs (ueids : List Var) : ∀ e ∈ neqPairs ueids, isNeqOp e = true := by
  induction ueids with
  | nil => intro e he; cases he
  | cons v rest ih =>
    intro e he
    simp only [neqPairs, List.mem_append, List.mem_map] at he
    rcases he with ⟨b, _, hb⟩ | he
    · rw [← hb]; simp [isNeqOp]
    · exact ih e he

theorem isNeqOp_eq (e : Expr) (h : IsEqOp e) : isNeqOp e = false := by
  obtain ⟨l, r, rfl⟩ := h
  simp [isNeqOp]

/-- The conjuncts of the qual at the end of the loop: those at its start, then for each
component equality predicates followed by the inequalities of its identifiers. -/
theorem runs_conjuncts {s s2 : CompState} {cs : List (List CypherPath)} {ms : List CompState}
    (h : Runs s cs ms s2) :
    (∃ added : List Expr, conjuncts s2.qual = conjuncts s.qual ++ added ∧
      (∀ e ∈ added, IsEqOp e ∨ ∃ m ∈ ms, e ∈ neqPairs m.ueids) ∧
      added.filter isNeqOp = (ms.map (fun m => neqPairs m.ueids)).flatten) := by
  induction h with
  | nil => exact ⟨[], (by simp), (fun e he => (by cases he)), rfl⟩
  | cons s m s2 c cs ms hgrow _ ih =>
    obtain ⟨eqs, hq, ha⟩ := hgrow.qual
    obtain ⟨added, hadd, hprop, hfilter⟩ := ih
    simp only at hq
    rw [conjuncts_addQualUniqueEdges_nil, hq] at hadd
    refine ⟨eqs ++ neqPairs m.ueids ++ added, ?_, ?_, ?_⟩
    · rw [hadd]; simp only [List.append_assoc]
    · intro e he
      rw [List.mem_append, List.mem_append] at he
      rcases he with (he | he) | he
      · exact Or.inl (ha e he)
      · exact Or.inr ⟨m, List.mem_cons_self _ _, he⟩
      · rcases hprop e he with h1 | ⟨m2, hm2, h2⟩
        · exact Or.inl h1
        · exact Or.inr ⟨m2, List.mem_cons_of_mem _ hm2, h2⟩
    · rw [List.filter_append, List.filter_append, hfilter]
      have h1 : eqs.filter isNeqOp = [] := by
        rw [List.filter_eq_nil_iff]
        intro e he
        rw [isNeqOp_eq e (ha e he)]
        exact Bool.false_ne_true
      have h2 : (neqPairs m.ueids).filter isNeqOp = neqPairs m.ueids := by
        rw [List.filter_eq_self]
        exact isNeqOp_neqPairs m.ueids
      rw [h1, h2]
      simp

theorem transformComponents_runs (env : Env) (pstate : ParseState)
    (components : List (List CypherPath)) (targetList : List TargetEntry)
    (r : Option Expr × ParseState × List TargetEntry)
    (h : transformComponents env pstate components targetList = .ok r) :
    ∃ ms s2, componentRuns env (initCompState pstate targetList) components = .ok ms ∧
      Runs (initCompState pstate targetList) components ms s2 ∧ s2.qual = r.1 := by
  unfold transformComponents at h
  split at h
  · cases h
  · rename_i s2 hloop
    simp only [Except.ok.injEq] at h
    obtain ⟨ms, hms, hruns⟩ := transformComponentsLoop_runs env components _ s2 hloop
    exact ⟨ms, s2, hms, hruns, by rw [← h]⟩

theorem nodup_of_varno_lt (ueids : List Var)
    (h : ueids.Pairwise (fun a b => a.varno < b.varno)) : ueids.Nodup := by
  refine List.Pairwise.imp ?_ h
  intro a b hab heq
  rw [heq] at hab
  exact Nat.lt_irrefl _ hab

theorem mem_neqPairs (ueids : List Var) (e : Expr) (h : e ∈ neqPairs ueids) :
    ∃ a ∈ ueids, ∃ b ∈ ueids, e = Expr.OpExpr "<>" (.Var a) (.Var b) := by
  induction ueids with
  | nil => cases h
  | cons v rest ih =>
    simp only [neqPairs, List.mem_append, List.mem_map] at h
    rcases h with ⟨b, hb, he⟩ | h
    · exact ⟨v, List.mem_cons_self _ _, b, List.mem_cons_of_mem _ hb, he.symm⟩
    · obtain ⟨a, ha, b, hb, he⟩ := ih h
      exact ⟨a, List.mem_cons_of_mem _ ha, b, List.mem_cons_of_mem _ hb, he⟩

theorem mem_uniqueQualsEids (ueids arrs : List Expr) (id arr : Expr) (hid : id ∈ ueids)
    (harr : arr ∈ arrs) :
    Expr.NullTest (.FuncExpr "array_position" [arr, id] .INT4OID) ∈
      uniqueQualsEids ueids arrs := by
  induction ueids with
  | nil => cases hid
  | cons e rest ih =>
    simp only [uniqueQualsEids, List.mem_append, List.mem_map]
    rw [List.mem_cons] at hid
    rcases hid with hid | hid
    · subst hid
      exact Or.inl (Or.inr ⟨arr, harr, rfl⟩)
    · exact Or.inr (ih hid)

theorem mem_uniqueQualsArrs (arrs : List Expr) (a1 a2 : Expr)
    (h : List.Sublist [a1, a2] arrs) :
    Expr.BoolExpr .NOT_EXPR [.FuncExpr "arrayoverlap" [a1, a2] .BOOLOID] ∈
      uniqueQualsArrs arrs := by
  induction arrs with
  | nil => cases h
  | cons x rest ih =>
    simp only [uniqueQualsArrs, List.mem_append, List.mem_map]
    cases h with
    | cons _ h2 => exact Or.inr (ih h2)
    | cons₂ _ h2 =>
      left
      exact ⟨a2, List.singleton_sublist.mp h2, rfl⟩

/-- C6: in the predicate returned by `transformComponents`, the inequality predicates
`id_a <> id_b` are, component by component, those of the pairs of the identifiers handed
to `addQualUniqueEdges` for the component: the identifiers are columns `id` of entries of
the range table, pairwise different and as many as the component has fixed-length
relationships, `n`, and the pairs are `n (n - 1) / 2`. -/
theorem transformComponents_neq_count (env : Env) (pstate : ParseState)
    (components : List (List CypherPath)) (targetList : List TargetEntry)
    (r : Option Expr × ParseState × List TargetEntry)
    (h : transformComponents env pstate components targetList = .ok r) :
    ∃ ms, componentRuns env (initCompState pstate targetList) components = .ok ms ∧
      List.Forall₂ (fun c m => m.ueids.length = fixedRelCountPaths c ∧ m.ueids.Nodup ∧
        (∀ v ∈ m.ueids, getColumnVar m.pstate v.varno AG_ELEM_LOCAL_ID = .ok v) ∧
        (neqPairs m.ueids).length =
          fixedRelCountPaths c * (fixedRelCountPaths c - 1) / 2) components ms ∧
      (conjuncts r.1).filter isNeqOp = (ms.map (fun m => neqPairs m.ueids)).flatten := by
  obtain ⟨ms, s2, hms, hruns, hq⟩ := transformComponents_runs env pstate components targetList r h
  refine ⟨ms, hms, ?_, ?_⟩
  · refine List.Forall₂.imp ?_ (runs_counts hruns)
    intro c m hcm
    refine ⟨hcm.1, nodup_of_varno_lt _ hcm.2.1, hcm.2.2, ?_⟩
    rw [neqPairs_length, hcm.1]
  · obtain ⟨added, hadd, _, hfilter⟩ := runs_conjuncts hruns
    rw [← hq, hadd]
    simpa [initCompState, conjuncts] using hfilter

/-- Witness of C6 on the component `(a)-[]->(b)-[]->(c), (c)-[]->(d)`: three fixed-length
relationships, three inequality predicates. -/
theorem transformComponents_neq_count_witness :
    transformComponents sampleEnv (parseStateFor sampleComponent) [sampleComponent] [] =
      .ok sampleResult ∧
    fixedRelCountPaths sampleComponent = 3 ∧
    ((conjuncts sampleResult.1).filter isNeqOp).length = 3 ∧
    ∃ ms, componentRuns sampleEnv (initCompState (parseStateFor sampleComponent) [])
        [sampleComponent] = .ok ms ∧
      List.Forall₂ (fun c m => m.ueids.length = fixedRelCountPaths c ∧ m.ueids.Nodup ∧
        (∀ v ∈ m.ueids, getColumnVar m.pstate v.varno AG_ELEM_LOCAL_ID = .ok v) ∧
        (neqPairs m.ueids).length =
          fixedRelCountPaths c * (fixedRelCountPaths c - 1) / 2) [sampleComponent] ms ∧
      (conjuncts sampleResult.1).filter isNeqOp =
        (ms.map (fun m => neqPairs m.ueids)).flatten :=
  ⟨rfl, rfl, rfl,
    transformComponents_neq_count sampleEnv (parseStateFor sampleComponent) [sampleComponent] []
      sampleResult rfl⟩

/-- C7: every relationship-uniqueness predicate of the predicate returned by
`transformComponents` relates two identifiers of the list handed to `addQualUniqueEdges`
for one component; the list of a component holds as many identifiers as the component
has fixed-length relationships (it starts from `NIL` for each component), and the lists
of two different components have no identifier in common. -/
theorem transformComponents_uniqueness_scope (env : Env) (pstate : ParseState)
    (components : List (List CypherPath)) (targetList : List TargetEntry)
    (r : Option Expr × ParseState × List TargetEntry)
    (h : transformComponents env pstate components targetList = .ok r) :
    ∃ ms, componentRuns env (initCompState pstate targetList) components = .ok ms ∧
      List.Forall₂ (fun c m => m.ueids.length = fixedRelCountPaths c) components ms ∧
      (∀ e ∈ conjuncts r.1, isNeqOp e = true →
        ∃ m ∈ ms, ∃ a ∈ m.ueids, ∃ b ∈ m.ueids, e = Expr.OpExpr "<>" (.Var a) (.Var b)) ∧
      ms.Pairwise (fun m1 m2 => ∀ a ∈ m1.ueids, ∀ b ∈ m2.ueids, a ≠ b) := by
  obtain ⟨ms, s2, hms, hruns, hq⟩ := transformComponents_runs env pstate components targetList r h
  refine ⟨ms, hms, ?_, ?_, ?_⟩
  · exact List.Forall₂.imp (fun c m hcm => hcm.1) (runs_counts hruns)
  · obtain ⟨added, hadd, hprop, _⟩ := runs_conjuncts hruns
    intro e he hneq
    rw [← hq, hadd] at he
    have he2 : e ∈ added := by simpa [initCompState, conjuncts] using he
    rcases hprop e he2 with h1 | ⟨m, hm, h2⟩
    · rw [isNeqOp_eq e h1] at hneq
      cases hneq
    · exact ⟨m, hm, mem_neqPairs m.ueids e h2⟩
  · refine List.Pairwise.imp ?_ (runs_disjoint hruns)
    intro m1 m2 hlt a ha b hb heq
    have := hlt a ha b hb
    rw [heq] at this
    exact Nat.lt_irrefl _ this

/-- Witness of C7 on the two disconnected paths `(a)-[]->(b)-[]->(c)` and `(x)-[]->(y)`,
each a component: the only inequality predicate relates the two relationships of the
first path. -/
theorem transformComponents_uniqueness_scope_witness :
    transformComponents sampleEnv (parseStateFor twoComponents.flatten) twoComponents [] =
      .ok twoComponentsResult ∧
    ((conjuncts twoComponentsResult.1).filter isNeqOp).length = 1 ∧
    ∃ ms, componentRuns sampleEnv (initCompState (parseStateFor twoComponents.flatten) [])
        twoComponents = .ok ms ∧
      List.Forall₂ (fun c m => m.ueids.length = fixedRelCountPaths c) twoComponents ms ∧
      (∀ e ∈ conjuncts twoComponentsResult.1, isNeqOp e = true →
        ∃ m ∈ ms, ∃ a ∈ m.ueids, ∃ b ∈ m.ueids, e = Expr.OpExpr "<>" (.Var a) (.Var b)) ∧
      ms.Pairwise (fun m1 m2 => ∀ a ∈ m1.ueids, ∀ b ∈ m2.ueids, a ≠ b) :=
  ⟨rfl, rfl,
    transformComponents_uniqueness_scope sampleEnv (parseStateFor twoComponents.flatten)
      twoComponents [] twoComponentsResult rfl⟩

/-- C8, counterexample: the component `(a)-[]->(b)-[*1..2]->(c)-[*1..2]->(d)` holds one
fixed-length and two quantified relationships, and the predicate returned by
`transformComponents` consists of two equality predicates: it contains no
`array_position(arr, id) IS NULL` and no `NOT arrayoverlap(arr1, arr2)`. -/
theorem transformComponents_varlen_counterexample :
    transformComponents sampleEnv (parseStateFor sampleVarlenComponent)
      [sampleVarlenComponent] [] = .ok sampleVarlenResult ∧
    fixedRelCountPaths sampleVarlenComponent = 1 ∧
    ((sampleVarlenComponent.map
      (fun p => ((chainRels p.chain).filter (fun crel => crel.varlen.isSome)).length)).sum = 2) ∧
    conjuncts sampleVarlenResult.1 =
      [ Expr.OpExpr "="
          (.Var { varno := 1, varattno := 3, vartype := .GRAPHIDOID, varlevelsup := 0 })
          (.Var { varno := 2, varattno := 2, vartype := .GRAPHIDOID, varlevelsup := 0 }),
        Expr.OpExpr "="
          (.Var { varno := 2, varattno := 1, vartype := .GRAPHIDOID, varlevelsup := 0 })
          (.Var { varno := 3, varattno := 2, vartype := .GRAPHIDOID, varlevelsup := 0 }) ] ∧
    ¬ (∃ e ∈ conjuncts sampleVarlenResult.1,
        (∃ arg, e = Expr.NullTest arg) ∨ (∃ args, e = Expr.BoolExpr .NOT_EXPR args)) := by
  have hc : conjuncts sampleVarlenResult.1 =
      [ Expr.OpExpr "="
          (.Var { varno := 1, varattno := 3, vartype := .GRAPHIDOID, varlevelsup := 0 })
          (.Var { varno := 2, varattno := 2, vartype := .GRAPHIDOID, varlevelsup := 0 }),
        Expr.OpExpr "="
          (.Var { varno := 2, varattno := 1, vartype := .GRAPHIDOID, varlevelsup := 0 })
          (.Var { varno := 3, varattno := 2, vartype := .GRAPHIDOID, varlevelsup := 0 }) ] := rfl
  refine ⟨rfl, rfl, rfl, hc, ?_⟩
  rw [hc]
  rintro ⟨e, he, h⟩
  simp only [List.mem_cons, List.mem_singleton, List.not_mem_nil, or_false] at he
  rcases he with he | he <;> subst he <;> rcases h with ⟨arg, h⟩ | ⟨args, h⟩ <;> cases h

/-- C8, amended: `addQualUniqueEdges` adds `array_position(arr, id) IS NULL` for every
identifier and every path array it is given and `NOT arrayoverlap(arr1, arr2)` for every
two path arrays it is given; `transformComponents` hands it the identifiers of the
fixed-length relationships and `NIL` for the path arrays, so that every conjunct of the
predicate it returns is an equality or an inequality predicate. -/
theorem transformComponents_no_array_quals (env : Env) (pstate : ParseState)
    (components : List (List CypherPath)) (targetList : List TargetEntry)
    (r : Option Expr × ParseState × List TargetEntry)
    (h : transformComponents env pstate components targetList = .ok r) :
    (∀ e ∈ conjuncts r.1, ∃ opname larg rarg, e = Expr.OpExpr opname larg rarg ∧
      (opname = "=" ∨ opname = "<>")) ∧
    (∀ (q : Option Expr) (ueids ueidarrs : List Expr),
      (∀ id ∈ ueids, ∀ arr ∈ ueidarrs,
        Expr.NullTest (.FuncExpr "array_position" [arr, id] .INT4OID) ∈
          conjuncts (addQualUniqueEdges q ueids ueidarrs)) ∧
      (∀ arr1 arr2, List.Sublist [arr1, arr2] ueidarrs →
        Expr.BoolExpr .NOT_EXPR [.FuncExpr "arrayoverlap" [arr1, arr2] .BOOLOID] ∈
          conjuncts (addQualUniqueEdges q ueids ueidarrs))) := by
  constructor
  · obtain ⟨ms, s2, _, hruns, hq⟩ :=
      transformComponents_runs env pstate components targetList r h
    obtain ⟨added, hadd, hprop, _⟩ := runs_conjuncts hruns
    intro e he
    rw [← hq, hadd] at he
    have he2 : e ∈ added := by simpa [initCompState, conjuncts] using he
    rcases hprop e he2 with ⟨l, rr, h1⟩ | ⟨m, _, h2⟩
    · exact ⟨"=", l, rr, h1, Or.inl rfl⟩
    · obtain ⟨a, _, b, _, hab⟩ := mem_neqPairs m.ueids e h2
      exact ⟨"<>", _, _, hab, Or.inr rfl⟩
  · intro q ueids ueidarrs
    rw [conjuncts_addQualUniqueEdges]
    constructor
    · intro id hid arr harr
      rw [List.mem_append, List.mem_append]
      exact Or.inl (Or.inr (mem_uniqueQualsEids ueids ueidarrs id arr hid harr))
    · intro arr1 arr2 hsub
      rw [List.mem_append]
      exact Or.inr (mem_uniqueQualsArrs ueidarrs arr1 arr2 hsub)

/-- Witness of the amended C8 on the component
`(a)-[]->(b)-[*1..2]->(c)-[*1..2]->(d)`. -/
theorem transformComponents_no_array_quals_witness :
    transformComponents sampleEnv (parseStateFor sampleVarlenComponent)
      [sampleVarlenComponent] [] = .ok sampleVarlenResult ∧
    (∀ e ∈ conjuncts sampleVarlenResult.1, ∃ opname larg rarg,
      e = Expr.OpExpr opname larg rarg ∧ (opname = "=" ∨ opname = "<>")) ∧
    (∀ (q : Option Expr) (ueids ueidarrs : List Expr),
      (∀ id ∈ ueids, ∀ arr ∈ ueidarrs,
        Expr.NullTest (.FuncExpr "array_position" [arr, id] .INT4OID) ∈
          conjuncts (addQualUniqueEdges q ueids ueidarrs)) ∧
      (∀ arr1 arr2, List.Sublist [arr1, arr2] ueidarrs →
        Expr.BoolExpr .NOT_EXPR [.FuncExpr "arrayoverlap" [arr1, arr2] .BOOLOID] ∈
          conjuncts (addQualUniqueEdges q ueids ueidarrs))) :=
  ⟨rfl, transformComponents_no_array_quals sampleEnv (parseStateFor sampleVarlenComponent)
    [sampleVarlenComponent] [] sampleVarlenResult rfl⟩


/-! ## Theorems: duplicate variables of relationships, CREATE -/

theorem findTargetFrom_none_iff (targetList : List TargetEntry) (resname : String) (idx : Nat) :
    findTargetFrom targetList resname idx = none ↔
      ¬ ∃ te ∈ targetList, te.resjunk = false ∧ te.resname = resname := by
  induction targetList generalizing idx with
  | nil => simp [findTargetFrom]
  | cons te rest ih =>
    simp only [findTargetFrom, List.mem_cons, exists_eq_or_imp]
    cases hj : te.resjunk with
    | true => simpa using ih (idx + 1)
    | false =>
      by_cases hn : te.resname = resname
      · simp [hn]
      · simpa [hn] using ih (idx + 1)

theorem findTarget_none_iff (targetList : List TargetEntry) (v : String) :
    findTarget targetList (some v) = none ↔
      ¬ ∃ te ∈ targetList, te.resjunk = false ∧ te.resname = v :=
  findTargetFrom_none_iff targetList v 0

theorem notDup_ok {α : Type} (a : α) : NotDup (Except.ok a : Except ParseError α) :=
  fun _ h => by cases h

theorem notDup_bind {α β : Type} (x : Except ParseError α) (f : α → Except ParseError β)
    (hx : NotDup x) (hf : ∀ a, NotDup (f a)) : NotDup (x >>= f) := by
  cases x with
  | error e =>
    intro v h
    have h2 : (Except.error e : Except ParseError β) = .error (.duplicate_variable v) := h
    injection h2 with h3
    exact hx v (by rw [h3])
  | ok a => exact hf a

theorem notDup_getColumnVarFrom (cols : List (String × Oid)) (colname : String)
    (rtindex attrno : Nat) : NotDup (getColumnVarFrom cols colname rtindex attrno) := by
  induction cols generalizing attrno with
  | nil => intro v h; cases h
  | cons c rest ih =>
    obtain ⟨tmp, typ⟩ := c
    simp only [getColumnVarFrom]
    split
    · exact notDup_ok _
    · exact ih _

theorem notDup_getColumnVar (pstate : ParseState) (rtindex : Nat) (colname : String) :
    NotDup (getColumnVar pstate rtindex colname) := by
  unfold getColumnVar
  split
  · intro v h; cases h
  · exact notDup_getColumnVarFrom _ _ _ _

theorem notDup_columnType (cols : List (String × Oid)) (colname : String) :
    NotDup (columnType cols colname) := by
  induction cols with
  | nil => intro v h; cases h
  | cons c rest ih =>
    obtain ⟨name, typ⟩ := c
    simp only [columnType]
    split
    · exact notDup_ok _
    · exact ih

theorem notDup_edgeUnionCols (relcols : List (String × Oid)) :
    NotDup (edgeUnionCols relcols) := by
  unfold edgeUnionCols
  refine notDup_bind _ _ (notDup_columnType _ _) (fun _ => ?_)
  refine notDup_bind _ _ (notDup_columnType _ _) (fun _ => ?_)
  refine notDup_bind _ _ (notDup_columnType _ _) (fun _ => ?_)
  refine notDup_bind _ _ (notDup_columnType _ _) (fun _ => ?_)
  exact notDup_ok _

theorem notDup_addEdgeRTE (env : Env) (pstate : ParseState) (crel : CypherRel)
    (typname aliasname : String) : NotDup (addEdgeRTE env pstate crel typname aliasname) := by
  unfold addEdgeRTE
  split
  · unfold addEdgeUnion
    split
    · intro v h; cases h
    · exact notDup_bind _ _ (notDup_edgeUnionCols _) (fun _ => notDup_ok _)
  · unfold addRangeTableEntry
    split
    · intro v h; cases h
    · exact notDup_ok _

theorem notDup_addRTEtoJoinlist (pstate : ParseState) (rtindex : Nat) :
    NotDup (addRTEtoJoinlist pstate rtindex) := by
  unfold addRTEtoJoinlist
  split
  · intro v h; cases h
  · split
    · intro v h; cases h
    · exact notDup_ok _

theorem notDup_makeEdgeExpr (pstate : ParseState) (rtindex : Nat) :
    NotDup (makeEdgeExpr pstate rtindex) := by
  unfold makeEdgeExpr
  refine notDup_bind _ _ (notDup_getColumnVar _ _ _) (fun _ => ?_)
  refine notDup_bind _ _ (notDup_getColumnVar _ _ _) (fun _ => ?_)
  refine notDup_bind _ _ (notDup_getColumnVar _ _ _) (fun _ => ?_)
  refine notDup_bind _ _ (notDup_getColumnVar _ _ _) (fun _ => ?_)
  exact notDup_ok _

theorem notDup_getCypherRelType (env : Env) (crel : CypherRel) :
    NotDup (getCypherRelType env crel) := by
  unfold getCypherRelType
  split
  · exact notDup_ok _
  · exact notDup_ok _
  · intro v h; cases h

theorem notDup_isZeroLengthVLR (crel : CypherRel) : NotDup (isZeroLengthVLR crel) := by
  unfold isZeroLengthVLR
  split
  · exact notDup_ok _
  · split
    · intro v h; cases h
    · exact notDup_ok _

theorem notDup_transformMatchSR (env : Env) (pstate : ParseState) (crel : CypherRel)
    (targetList : List TargetEntry) : NotDup (transformMatchSR env pstate crel targetList) := by
  unfold transformMatchSR
  refine notDup_bind _ _ (notDup_getCypherRelType _ _) (fun _ => ?_)
  simp only
  refine notDup_bind _ _ (notDup_addEdgeRTE _ _ _ _ _) (fun _ => ?_)
  refine notDup_bind _ _ (notDup_addRTEtoJoinlist _ _) (fun _ => ?_)
  split
  · exact notDup_bind _ _ (notDup_makeEdgeExpr _ _) (fun _ => notDup_ok _)
  · exact notDup_ok _

theorem notDup_transformMatchVLR (env : Env) (pstate : ParseState) (crel : CypherRel)
    (targetList : List TargetEntry) : NotDup (transformMatchVLR env pstate crel targetList) := by
  unfold transformMatchVLR
  refine notDup_bind _ _ (notDup_isZeroLengthVLR _) (fun _ => ?_)
  refine notDup_bind _ _ (notDup_getCypherRelType _ _) (fun _ => ?_)
  simp only
  split
  · intro v h; cases h
  · refine notDup_bind _ _ (notDup_addRTEtoJoinlist _ _) (fun _ => ?_)
    split
    · exact notDup_bind _ _ (notDup_getColumnVar _ _ _) (fun _ => notDup_ok _)
    · exact notDup_ok _

/-- C9: `transformMatchRel` raises the error `duplicate variable` for every relationship
whose variable name is the name of a non-junk entry of the target list, whatever the
expression of the entry, or resolves to a visible column; for a relationship without
variable it never raises that error. -/
theorem transformMatchRel_duplicate_variable (env : Env) (pstate : ParseState)
    (crel : CypherRel) (targetList : List TargetEntry) :
    (∀ v, crel.varname = some v →
      ((∃ te ∈ targetList, te.resjunk = false ∧ te.resname = v) ∨
        (env.colNameToVar v).isSome = true) →
      transformMatchRel env pstate crel targetList = .error (.duplicate_variable v)) ∧
    (crel.varname = none →
      ∀ v, transformMatchRel env pstate crel targetList ≠ .error (.duplicate_variable v)) := by
  constructor
  · intro v hv hdup
    unfold transformMatchRel
    rw [hv]
    cases hft : findTarget targetList (some v) with
    | some x => simp
    | none =>
      have hno := (findTarget_none_iff targetList v).mp hft
      rcases hdup with hdup | hdup
      · exact absurd hdup hno
      · obtain ⟨col, hcol⟩ := Option.isSome_iff_exists.mp hdup
        simp [hcol]
  · intro hv
    unfold transformMatchRel
    rw [hv]
    simp only [findTarget, Option.bind]
    split
    · exact notDup_transformMatchSR env pstate crel targetList
    · exact notDup_transformMatchVLR env pstate crel targetList

/-- Witness of C9: the relationship `-[a:knows]->` after a clause that exported the
vertex `a`. -/
theorem transformMatchRel_duplicate_variable_witness :
    transformMatchRel sampleEnv emptyParseState sampleNamedRel sampleTargetList =
      .error (.duplicate_variable "a") :=
  (transformMatchRel_duplicate_variable sampleEnv emptyParseState sampleNamedRel
    sampleTargetList).1 "a" rfl (Or.inl ⟨_, List.mem_cons_self _ _, rfl, rfl⟩)

/-- C10: provided its property map, if any, compiles, `transformCreateRel` succeeds if and
only if the relationship is directed, names exactly one type, is not quantified and its
variable name is not the name of an entry of the target list that `findTarget` sees (a
non-junk entry); a relationship without type makes it fail; on success the `GraphEdge`
keeps the direction, has the single type as label, and keeps the variable name. -/
theorem transformCreateRel_succeeds_iff (env : Env) (pstate : ParseState) (crel : CypherRel)
    (targetList : List TargetEntry)
    (hprop : ∀ ps pm, crel.prop_map = some pm → ∃ r, env.transformPropMap ps pm = .ok r) :
    ((∃ r, transformCreateRel env pstate crel targetList = .ok r) ↔
      ((crel.direction = .LEFT ∨ crel.direction = .RIGHT) ∧ crel.types.length = 1 ∧
        crel.varlen = none ∧
        ∀ v, crel.varname = some v →
          ¬ ∃ te ∈ targetList, te.resjunk = false ∧ te.resname = v)) ∧
    (crel.types = [] → ∃ e, transformCreateRel env pstate crel targetList = .error e) ∧
    (∀ r, transformCreateRel env pstate crel targetList = .ok r →
      ((crel.direction = .LEFT ∧ r.1.direction = .GRAPH_EDGE_DIR_LEFT) ∨
        (crel.direction = .RIGHT ∧ r.1.direction = .GRAPH_EDGE_DIR_RIGHT)) ∧
      crel.types = [r.1.label] ∧ r.1.varname = crel.varname) := by
  have hdir : crel.direction = .NONE ∨ crel.direction = .LEFT ∨ crel.direction = .RIGHT := by
    cases crel.direction <;> simp
  -- the target list lookup, in terms of the entries
  have hfind : findTarget targetList crel.varname = none ↔
      ∀ v, crel.varname = some v →
        ¬ ∃ te ∈ targetList, te.resjunk = false ∧ te.resname = v := by
    cases hv : crel.varname with
    | none => simp [findTarget]
    | some w =>
      rw [findTarget_none_iff]
      constructor
      · intro h v hvw
        cases hvw
        exact h
      · intro h
        exact h w rfl
  -- what a successful run looks like
  have hok : ∀ r, transformCreateRel env pstate crel targetList = .ok r →
      crel.direction ≠ .NONE ∧ crel.types = [r.1.label] ∧ crel.varlen = none ∧
      findTarget targetList crel.varname = none ∧ r.1.varname = crel.varname ∧
      r.1.direction = (if crel.direction = .LEFT then GraphEdgeDir.GRAPH_EDGE_DIR_LEFT
        else GraphEdgeDir.GRAPH_EDGE_DIR_RIGHT) := by
    intro r h
    unfold transformCreateRel at h
    split at h
    · cases h
    · rename_i hd
      split at h
      · rename_i typname htypes
        split at h
        · cases h
        · rename_i hvl
          split at h
          · cases h
          · rename_i hft
            simp only at h
            have hvarlen : crel.varlen = none := by
              cases hvv : crel.varlen with
              | none => rfl
              | some x => rw [hvv] at hvl; simp at hvl
            split at h
            · split at h
              · cases h
              · simp only [Except.ok.injEq] at h
                subst h
                exact ⟨hd, htypes, hvarlen, hft, rfl, rfl⟩
            · simp only [Except.ok.injEq] at h
              subst h
              exact ⟨hd, htypes, hvarlen, hft, rfl, rfl⟩
      · cases h
  refine ⟨⟨?_, ?_⟩, ?_, ?_⟩
  · rintro ⟨r, h⟩
    obtain ⟨h1, h2, h3, h4, _, _⟩ := hok r h
    refine ⟨?_, by rw [h2]; rfl, h3, hfind.mp h4⟩
    rcases hdir with hd | hd
    · exact absurd hd h1
    · exact hd
  · rintro ⟨hd, hlen, hvl, hno⟩
    have hd2 : crel.direction ≠ .NONE := by
      rcases hd with hd | hd <;> rw [hd] <;> simp
    obtain ⟨typname, htypes⟩ : ∃ t, crel.types = [t] := List.length_eq_one.mp hlen
    have hft := hfind.mpr hno
    unfold transformCreateRel
    simp only [hd2, if_false, htypes, hvl, Option.isSome_none, Bool.false_eq_true, hft]
    cases hpm : crel.prop_map with
    | none => exact ⟨_, rfl⟩
    | some pm =>
      simp only
      obtain ⟨pr, hpr⟩ := hprop
        (match crel.varname with
          | some varname =>
            (({ pstate with p_next_resno := pstate.p_next_resno + 1 } : ParseState),
              targetList ++
                [makeTargetEntry (.Const .EDGEOID true) pstate.p_next_resno varname false])
          | none => (pstate, targetList)).1 pm hpm
      rw [hpr]
      exact ⟨_, rfl⟩
  · intro htypes
    unfold transformCreateRel
    split
    · exact ⟨_, rfl⟩
    · simp only [htypes]
      exact ⟨_, rfl⟩
  · intro r h
    obtain ⟨h1, h2, _, _, h5, h6⟩ := hok r h
    refine ⟨?_, h2, h5⟩
    rcases hdir with hd | hd | hd
    · exact absurd hd h1
    · exact Or.inl ⟨hd, by rw [h6, hd]; rfl⟩
    · exact Or.inr ⟨hd, by rw [h6, hd]; rfl⟩

/-- Witness of C10: creating `-[r:knows]->` after a clause that exported the vertex
`a`. -/
theorem transformCreateRel_succeeds_iff_witness :
    (∀ (ps : ParseState) (pm : RawNode), sampleCreateRel.prop_map = some pm →
      ∃ r, sampleEnv.transformPropMap ps pm = .ok r) ∧
    ((∃ r, transformCreateRel sampleEnv emptyParseState sampleCreateRel sampleTargetList =
        .ok r) ↔
      ((sampleCreateRel.direction = .LEFT ∨ sampleCreateRel.direction = .RIGHT) ∧
        sampleCreateRel.types.length = 1 ∧ sampleCreateRel.varlen = none ∧
        ∀ v, sampleCreateRel.varname = some v →
          ¬ ∃ te ∈ sampleTargetList, te.resjunk = false ∧ te.resname = v)) ∧
    (sampleCreateRel.types = [] →
      ∃ e, transformCreateRel sampleEnv emptyParseState sampleCreateRel sampleTargetList =
        .error e) ∧
    (∀ r, transformCreateRel sampleEnv emptyParseState sampleCreateRel sampleTargetList =
        .ok r →
      ((sampleCreateRel.direction = .LEFT ∧ r.1.direction = .GRAPH_EDGE_DIR_LEFT) ∨
        (sampleCreateRel.direction = .RIGHT ∧ r.1.direction = .GRAPH_EDGE_DIR_RIGHT)) ∧
      sampleCreateRel.types = [r.1.label] ∧ r.1.varname = sampleCreateRel.varname) :=
  ⟨fun _ _ h => (by cases h),
    transformCreateRel_succeeds_iff sampleEnv emptyParseState sampleCreateRel sampleTargetList
      (fun _ _ h => (by cases h))⟩

/-! ## Theorems: resolving future vertices -/

theorem makeVertexExpr_type (pstate : ParseState) (rtindex : Nat) (vertex : Expr)
    (h : makeVertexExpr pstate rtindex = .ok vertex) : exprType vertex = .VERTEXOID := by
  unfold makeVertexExpr at h
  obtain ⟨id, _, h⟩ := (bind_eq_ok _ _ _).mp h
  obtain ⟨pm, _, h⟩ := (bind_eq_ok _ _ _).mp h
  simp only [pure, Except.pure, Except.ok.injEq] at h
  subst h
  rfl

/-- The function `makeVertexRTE` adds one subquery entry, named after the variable, with
the vertex as its only column; the label is a relation of the graph. -/
theorem makeVertexRTE_spec (env : Env) (pstate : ParseState) (varname labname : String)
    (r : Nat × ParseState) (h : makeVertexRTE env pstate varname labname = .ok r) :
    (env.catalog labname).isSome = true ∧
    r = addRangeTableEntryForSubquery pstate [(varname, .VERTEXOID)] varname := by
  unfold makeVertexRTE at h
  obtain ⟨r1, h1, h⟩ := (bind_eq_ok _ _ _).mp h
  obtain ⟨ps1, h2, h⟩ := (bind_eq_ok _ _ _).mp h
  obtain ⟨vertex, h3, h⟩ := (bind_eq_ok _ _ _).mp h
  simp only [pure, Except.pure, Except.ok.injEq] at h
  subst h
  constructor
  · unfold addRangeTableEntry at h1
    cases hc : env.catalog labname with
    | none => rw [hc] at h1; cases h1
    | some cols => rfl
  · have ht := makeVertexExpr_type _ _ _ h3
    simp [queryCols, makeTargetEntry, ht]

theorem getRTE_append_new (pstate : ParseState) (rte : RangeTblEntry) (ps2 : ParseState)
    (h : ps2.p_rtable = pstate.p_rtable ++ [rte]) :
    getRTE ps2 (pstate.p_rtable.length + 1) = some rte := by
  unfold getRTE
  simp [h]

theorem getRTE_append_old (pstate : ParseState) (rtes : List RangeTblEntry) (ps2 : ParseState)
    (h : ps2.p_rtable = pstate.p_rtable ++ rtes) (rtindex : Nat) (rte : RangeTblEntry)
    (hr : getRTE pstate rtindex = some rte) : getRTE ps2 rtindex = some rte := by
  unfold getRTE at hr ⊢
  by_cases h0 : rtindex = 0
  · simp [h0] at hr
  · simp only [h0, if_false] at hr ⊢
    rw [h]
    have hlt : rtindex - 1 < pstate.p_rtable.length := by
      by_contra hge
      rw [List.getElem?_eq_none (by omega)] at hr
      cases hr
    rw [List.getElem?_append_left hlt]
    exact hr

theorem getColumnVar_vertex_scan (pstate : ParseState) (name : String) :
    getColumnVar (addRangeTableEntryForSubquery pstate [(name, .VERTEXOID)] name).2
      (addRangeTableEntryForSubquery pstate [(name, .VERTEXOID)] name).1 name =
      .ok (resolvedVertexVar pstate) := by
  have hr := getRTE_append_new pstate
    { rtekind := .RTE_SUBQUERY, aliasname := name, cols := [(name, .VERTEXOID)] }
    (addRangeTableEntryForSubquery pstate [(name, .VERTEXOID)] name).2 rfl
  unfold getColumnVar
  simp only [addRangeTableEntryForSubquery] at hr ⊢
  rw [hr]
  simp [getColumnVarFrom, resolvedVertexVar]

/-- The steps of `resolveFutureVertex`. -/
theorem resolveFutureVertex_steps (env : Env) (pstate : ParseState) (idx : Nat)
    (ignore_nullable : Bool) (ps2 : ParseState)
    (h : resolveFutureVertex env pstate idx ignore_nullable = .ok ps2) :
    ∃ fv name fv_var fv_id id mid,
      pstate.p_future_vertices[idx]? = some fv ∧
      make_var pstate fv.varno fv.varattno = .ok (name, fv_var) ∧
      getExprField (.Var fv_var) AG_ELEM_ID = .ok fv_id ∧
      getExprField (.Var (resolvedVertexVar pstate)) AG_ELEM_ID = .ok id ∧
      (env.catalog fv.labname).isSome = true ∧
      joinResolvedVertex (addRangeTableEntryForSubquery pstate [(name, .VERTEXOID)] name).2
        fv.nullable (pstate.p_rtable.length + 1) (make_op "=" fv_id id) ignore_nullable =
        .ok mid ∧
      ps2 = { mid with
        p_future_vertices := mid.p_future_vertices.set idx
          { fv with expr := some (.Var (resolvedVertexVar pstate)) } } := by
  unfold resolveFutureVertex at h
  cases hfv : pstate.p_future_vertices[idx]? with
  | none => rw [hfv] at h; cases h
  | some fv =>
    rw [hfv] at h
    simp only at h
    obtain ⟨fvv, h1, h⟩ := (bind_eq_ok _ _ _).mp h
    obtain ⟨fv_id, h2, h⟩ := (bind_eq_ok _ _ _).mp h
    obtain ⟨r, h3, h⟩ := (bind_eq_ok _ _ _).mp h
    obtain ⟨vertex, h4, h⟩ := (bind_eq_ok _ _ _).mp h
    obtain ⟨id, h5, h⟩ := (bind_eq_ok _ _ _).mp h
    obtain ⟨mid, h6, hfin⟩ := (bind_eq_ok _ _ _).mp h
    simp only [pure, Except.pure, Except.ok.injEq] at hfin
    obtain ⟨hcat, hr⟩ := makeVertexRTE_spec _ _ _ _ _ h3
    subst hr
    rw [getColumnVar_vertex_scan] at h4
    simp only [Except.ok.injEq] at h4
    subst h4
    exact ⟨fv, fvv.1, fvv.2, fv_id, id, mid, rfl, h1, h2, h5, hcat, h6, hfin.symm⟩

theorem getExprField_id (expr : Expr) (x : Expr)
    (h : getExprField expr AG_ELEM_ID = .ok x) : x = .FieldSelect expr 1 .GRAPHIDOID := by
  unfold getExprField at h
  cases ht : exprType expr <;> rw [ht] at h <;>
    simp [rowTypeAttrs, findAttr, AG_ELEM_ID] at h <;> exact h.symm

theorem addRTEtoJoinlist_spec (pstate : ParseState) (rtindex : Nat) (ps2 : ParseState)
    (h : addRTEtoJoinlist pstate rtindex = .ok ps2) :
    ps2 = { pstate with p_joinlist := pstate.p_joinlist ++ [rtindex],
                        p_namespace := pstate.p_namespace ++ [rtindex] } := by
  unfold addRTEtoJoinlist at h
  split at h
  · cases h
  · split at h
    · cases h
    · simp only [Except.ok.injEq] at h
      exact h.symm

/-- The join entry and the `JoinExpr` that `incrementalJoinRTEs` adds. -/
theorem incrementalJoinRTEs_spec (pstate : ParseState) (jointype : JoinType)
    (l_rtindex r_rtindex : Nat) (qual : Option Expr) (aliasname : String)
    (r : Nat × ParseState)
    (h : incrementalJoinRTEs pstate jointype l_rtindex r_rtindex qual aliasname = .ok r) :
    r.1 = pstate.p_rtable.length + 1 ∧
    (∃ rte, r.2.p_rtable = pstate.p_rtable ++ [rte] ∧ rte.rtekind = .RTE_JOIN) ∧
    r.2.p_joinexprs.getLast? = some (some
      { jointype := jointype, larg := l_rtindex, rarg := r_rtindex, quals := qual,
        aliasname := aliasname, rtindex := pstate.p_rtable.length + 1 }) ∧
    r.2.p_joinlist = pstate.p_joinlist.erase l_rtindex ++ [pstate.p_rtable.length + 1] ∧
    r.2.p_resolved_qual = pstate.p_resolved_qual ∧
    r.2.p_future_vertices = pstate.p_future_vertices := by
  unfold incrementalJoinRTEs at h
  split at h
  · cases h
  · split at h
    · obtain ⟨res, _, hfin⟩ := (bind_eq_ok _ _ _).mp h
      simp only [pure, Except.pure, Except.ok.injEq] at hfin
      subst hfin
      refine ⟨rfl, ⟨_, rfl, rfl⟩, ?_, rfl, rfl, rfl⟩
      simp
    · cases h

/-- Claim C12: a successful `resolveFutureVertex` adds the scan of the vertex (a subquery
entry named after the column of the future vertex, the label being a relation of the
graph) and relates it to the future vertex by the predicate
`id(future vertex column) = id(scanned vertex)`. Without the ignore-nullable flag the
predicate is the qual of a `JoinExpr` of the last item of the join list with the scan, a
left join when the future vertex is nullable and an inner join when it is not, which
replaces that item in the join list and gets a join entry of the range table; with the
flag the scan is appended to the join list as a plain item and the predicate is ANDed
into `p_resolved_qual`, whatever the nullable flag is. In both cases the resolved
expression of the future vertex becomes the variable of the scanned vertex. -/
theorem resolveFutureVertex_join (env : Env) (pstate : ParseState) (idx : Nat)
    (ignore_nullable : Bool) (ps2 : ParseState)
    (h : resolveFutureVertex env pstate idx ignore_nullable = .ok ps2) :
    ∃ fv name fv_var,
      pstate.p_future_vertices[idx]? = some fv ∧
      make_var pstate fv.varno fv.varattno = .ok (name, fv_var) ∧
      (env.catalog fv.labname).isSome = true ∧
      getRTE ps2 (pstate.p_rtable.length + 1) =
        some { rtekind := .RTE_SUBQUERY, aliasname := name, cols := [(name, .VERTEXOID)] } ∧
      (ignore_nullable = false →
        ∃ l_rtindex, pstate.p_joinlist.getLast? = some l_rtindex ∧
          ps2.p_rtable.length = pstate.p_rtable.length + 2 ∧
          (∃ rte, getRTE ps2 (pstate.p_rtable.length + 2) = some rte ∧
            rte.rtekind = .RTE_JOIN) ∧
          ps2.p_joinexprs.getLast? = some (some
            { jointype := if fv.nullable then .JOIN_LEFT else .JOIN_INNER,
              larg := l_rtindex, rarg := pstate.p_rtable.length + 1,
              quals := some (.OpExpr "=" (.FieldSelect (.Var fv_var) 1 .GRAPHIDOID)
                (.FieldSelect (.Var (resolvedVertexVar pstate)) 1 .GRAPHIDOID)),
              aliasname := CYPHER_SUBQUERY_ALIAS,
              rtindex := pstate.p_rtable.length + 2 }) ∧
          ps2.p_joinlist = pstate.p_joinlist.erase l_rtindex ++ [pstate.p_rtable.length + 2] ∧
          ps2.p_resolved_qual = pstate.p_resolved_qual) ∧
      (ignore_nullable = true →
        ps2.p_rtable.length = pstate.p_rtable.length + 1 ∧
        ps2.p_joinlist = pstate.p_joinlist ++ [pstate.p_rtable.length + 1] ∧
        ps2.p_joinexprs = pstate.p_joinexprs ∧
        conjuncts ps2.p_resolved_qual = conjuncts pstate.p_resolved_qual ++
          [.OpExpr "=" (.FieldSelect (.Var fv_var) 1 .GRAPHIDOID)
            (.FieldSelect (.Var (resolvedVertexVar pstate)) 1 .GRAPHIDOID)]) ∧
      ps2.p_future_vertices = pstate.p_future_vertices.set idx
        { fv with expr := some (.Var (resolvedVertexVar pstate)) } := by
  obtain ⟨fv, name, fv_var, fv_id, id, mid, hfv, hvar, hfid, hid, hcat, hjoin, hps2⟩ :=
    resolveFutureVertex_steps env pstate idx ignore_nullable ps2 h
  have e1 := getExprField_id _ _ hfid
  have e2 := getExprField_id _ _ hid
  subst e1 e2
  have hscan := getRTE_append_new pstate
    { rtekind := .RTE_SUBQUERY, aliasname := name, cols := [(name, .VERTEXOID)] }
    (addRangeTableEntryForSubquery pstate [(name, .VERTEXOID)] name).2 rfl
  have hlen1 : (addRangeTableEntryForSubquery pstate [(name, .VERTEXOID)] name).2.p_rtable.length
      = pstate.p_rtable.length + 1 := by
    simp [addRangeTableEntryForSubquery]
  refine ⟨fv, name, fv_var, hfv, hvar, hcat, ?_, ?_, ?_, ?_⟩
  · -- the scan entry is still there
    unfold joinResolvedVertex at hjoin
    cases ignore_nullable with
    | true =>
      simp only [if_true] at hjoin
      obtain ⟨ps1, h1, hfin⟩ := (bind_eq_ok _ _ _).mp hjoin
      simp only [pure, Except.pure, Except.ok.injEq] at hfin
      have hs := addRTEtoJoinlist_spec _ _ _ h1
      subst hs hfin hps2
      exact hscan
    | false =>
      simp only [Bool.false_eq_true, if_false] at hjoin
      split at hjoin
      · cases hjoin
      · split at hjoin
        · cases hjoin
        · rename_i l_rtindex hl e r hr
          simp only [Except.ok.injEq] at hjoin
          obtain ⟨_, ⟨rte, hrt, _⟩, _⟩ := incrementalJoinRTEs_spec _ _ _ _ _ _ _ hr
          subst hjoin hps2
          exact getRTE_append_old _ [rte] _ hrt _ _ hscan
  · intro hig
    subst hig
    unfold joinResolvedVertex at hjoin
    simp only [Bool.false_eq_true, if_false] at hjoin
    split at hjoin
    · cases hjoin
    · split at hjoin
      · cases hjoin
      · rename_i l_rtindex hl e r hr
        simp only [Except.ok.injEq] at hjoin
        obtain ⟨_, ⟨rte, hrt, hkind⟩, hje, hjl, hrq, _⟩ :=
          incrementalJoinRTEs_spec _ _ _ _ _ _ _ hr
        subst hjoin hps2
        refine ⟨l_rtindex, hl, ?_, ⟨rte, ?_, hkind⟩, ?_, ?_, ?_⟩
        · simp only [hrt, List.length_append, List.length_singleton, hlen1]
        · have := getRTE_append_new
            (addRangeTableEntryForSubquery pstate [(name, .VERTEXOID)] name).2 rte r.2 hrt
          rw [hlen1] at this
          exact this
        · rw [hlen1] at hje
          exact hje
        · rw [hlen1] at hjl
          exact hjl
        · exact hrq
  · intro hig
    subst hig
    unfold joinResolvedVertex at hjoin
    simp only [if_true] at hjoin
    obtain ⟨ps1, h1, hfin⟩ := (bind_eq_ok _ _ _).mp hjoin
    simp only [pure, Except.pure, Except.ok.injEq] at hfin
    have hs := addRTEtoJoinlist_spec _ _ _ h1
    subst hs hfin hps2
    refine ⟨hlen1, rfl, rfl, ?_⟩
    exact conjuncts_qualAndExpr_op _ _ _ _
  · -- the memo
    have hfvs : mid.p_future_vertices = pstate.p_future_vertices := by
      unfold joinResolvedVertex at hjoin
      cases ignore_nullable with
      | true =>
        simp only [if_true] at hjoin
        obtain ⟨ps1, h1, hfin⟩ := (bind_eq_ok _ _ _).mp hjoin
        simp only [pure, Except.pure, Except.ok.injEq] at hfin
        have hs := addRTEtoJoinlist_spec _ _ _ h1
        subst hs hfin
        rfl
      | false =>
        simp only [Bool.false_eq_true, if_false] at hjoin
        split at hjoin
        · cases hjoin
        · split at hjoin
          · cases hjoin
          · rename_i l_rtindex hl e r hr
            simp only [Except.ok.injEq] at hjoin
            obtain ⟨_, _, _, _, _, hf⟩ := incrementalJoinRTEs_spec _ _ _ _ _ _ _ hr
            subst hjoin
            exact hf
    subst hps2
    simp only [hfvs]

/-- Witness of C12: the future vertex `a` of `MATCH (a)-[]->(b)`, resolved in the next
clause without the ignore-nullable flag, is joined by an inner join. -/
theorem resolveFutureVertex_join_witness :
    resolveFutureVertex sampleEnv sampleScopeState 0 false = .ok resolvedScopeState ∧
    resolvedScopeState.p_joinexprs.getLast? = some (some
      { jointype := .JOIN_INNER, larg := 1, rarg := 2,
        quals := some (.OpExpr "=" (.FieldSelect (.Var (vertexColumn 1 1)) 1 .GRAPHIDOID)
          (.FieldSelect (.Var (vertexColumn 2 1)) 1 .GRAPHIDOID)),
        aliasname := "_", rtindex := 3 }) ∧
    ∃ fv name fv_var,
      sampleScopeState.p_future_vertices[0]? = some fv ∧
      make_var sampleScopeState fv.varno fv.varattno = .ok (name, fv_var) ∧
      (sampleEnv.catalog fv.labname).isSome = true ∧
      getRTE resolvedScopeState (sampleScopeState.p_rtable.length + 1) =
        some { rtekind := .RTE_SUBQUERY, aliasname := name, cols := [(name, .VERTEXOID)] } ∧
      (false = false →
        ∃ l_rtindex, sampleScopeState.p_joinlist.getLast? = some l_rtindex ∧
          resolvedScopeState.p_rtable.length = sampleScopeState.p_rtable.length + 2 ∧
          (∃ rte, getRTE resolvedScopeState (sampleScopeState.p_rtable.length + 2) = some rte ∧
            rte.rtekind = .RTE_JOIN) ∧
          resolvedScopeState.p_joinexprs.getLast? = some (some
            { jointype := if fv.nullable then .JOIN_LEFT else .JOIN_INNER,
              larg := l_rtindex, rarg := sampleScopeState.p_rtable.length + 1,
              quals := some (.OpExpr "=" (.FieldSelect (.Var fv_var) 1 .GRAPHIDOID)
                (.FieldSelect (.Var (resolvedVertexVar sampleScopeState)) 1 .GRAPHIDOID)),
              aliasname := CYPHER_SUBQUERY_ALIAS,
              rtindex := sampleScopeState.p_rtable.length + 2 }) ∧
          resolvedScopeState.p_joinlist =
            sampleScopeState.p_joinlist.erase l_rtindex ++
              [sampleScopeState.p_rtable.length + 2] ∧
          resolvedScopeState.p_resolved_qual = sampleScopeState.p_resolved_qual) ∧
      (false = true →
        resolvedScopeState.p_rtable.length = sampleScopeState.p_rtable.length + 1 ∧
        resolvedScopeState.p_joinlist =
          sampleScopeState.p_joinlist ++ [sampleScopeState.p_rtable.length + 1] ∧
        resolvedScopeState.p_joinexprs = sampleScopeState.p_joinexprs ∧
        conjuncts resolvedScopeState.p_resolved_qual =
          conjuncts sampleScopeState.p_resolved_qual ++
            [.OpExpr "=" (.FieldSelect (.Var fv_var) 1 .GRAPHIDOID)
              (.FieldSelect (.Var (resolvedVertexVar sampleScopeState)) 1 .GRAPHIDOID)]) ∧
      resolvedScopeState.p_future_vertices = sampleScopeState.p_future_vertices.set 0
        { fv with expr := some (.Var (resolvedVertexVar sampleScopeState)) } :=
  ⟨rfl, rfl, resolveFutureVertex_join sampleEnv sampleScopeState 0 false resolvedScopeState rfl⟩

theorem keepsVertex_refl (fv : FutureVertex) : KeepsVertex fv fv :=
  ⟨rfl, rfl, fun _ => rfl⟩

theorem keepsVertex_trans {a b c : FutureVertex} (h1 : KeepsVertex a b)
    (h2 : KeepsVertex b c) : KeepsVertex a c := by
  refine ⟨h2.1.trans h1.1, h2.2.1.trans h1.2.1, ?_⟩
  intro ha
  have hb : b = a := h1.2.2 ha
  subst hb
  exact h2.2.2 ha

theorem forall₂_keeps_refl (l : List FutureVertex) : List.Forall₂ KeepsVertex l l :=
  List.forall₂_same.mpr (fun x _ => keepsVertex_refl x)

theorem forall₂_keeps_trans : ∀ {l1 l2 l3 : List FutureVertex},
    List.Forall₂ KeepsVertex l1 l2 → List.Forall₂ KeepsVertex l2 l3 →
    List.Forall₂ KeepsVertex l1 l3
  | [], _, _, .nil, .nil => .nil
  | _ :: _, _, _, .cons h1 t1, .cons h2 t2 =>
    .cons (keepsVertex_trans h1 h2) (forall₂_keeps_trans t1 t2)

theorem resolves_refl (s : ParseState) : Resolves s s :=
  ⟨⟨[], by simp⟩, forall₂_keeps_refl _⟩

theorem resolves_trans {s1 s2 s3 : ParseState} (h1 : Resolves s1 s2) (h2 : Resolves s2 s3) :
    Resolves s1 s3 := by
  obtain ⟨a, ha⟩ := h1.rtable
  obtain ⟨b, hb⟩ := h2.rtable
  exact ⟨⟨a ++ b, by rw [hb, ha, List.append_assoc]⟩,
    forall₂_keeps_trans h1.vertices h2.vertices⟩

theorem findFutureVertexPos_keeps : ∀ {l l2 : List FutureVertex},
    List.Forall₂ KeepsVertex l l2 → ∀ (k a n i : Nat) (fv : FutureVertex),
    findFutureVertexPos l k a n = some (i, fv) →
    ∃ fv2, findFutureVertexPos l2 k a n = some (i, fv2) ∧ KeepsVertex fv fv2
  | [], _, .nil => by
    intro k a n i fv h
    simp [findFutureVertexPos] at h
  | x :: rest, y :: rest2, .cons hxy t => by
    intro k a n i fv h
    simp only [findFutureVertexPos] at h ⊢
    rw [hxy.1, hxy.2.1]
    by_cases hc : x.varno = k ∧ x.varattno = a
    · rw [if_pos hc] at h ⊢
      simp only [Option.some.injEq, Prod.mk.injEq] at h
      obtain ⟨hi, hf⟩ := h
      subst hi hf
      exact ⟨y, rfl, hxy⟩
    · rw [if_neg hc] at h ⊢
      exact findFutureVertexPos_keeps t k a (n + 1) i fv h

theorem findFutureVertexPos_keeps_back : ∀ {l l2 : List FutureVertex},
    List.Forall₂ KeepsVertex l l2 → ∀ (k a n i : Nat) (fv2 : FutureVertex),
    findFutureVertexPos l2 k a n = some (i, fv2) →
    ∃ fv, findFutureVertexPos l k a n = some (i, fv) ∧ KeepsVertex fv fv2
  | [], _, .nil => by
    intro k a n i fv h
    simp [findFutureVertexPos] at h
  | x :: rest, y :: rest2, .cons hxy t => by
    intro k a n i fv2 h
    simp only [findFutureVertexPos] at h ⊢
    rw [hxy.1, hxy.2.1] at h
    by_cases hc : x.varno = k ∧ x.varattno = a
    · rw [if_pos hc] at h ⊢
      simp only [Option.some.injEq, Prod.mk.injEq] at h
      obtain ⟨hi, hf⟩ := h
      subst hi hf
      exact ⟨x, rfl, hxy⟩
    · rw [if_neg hc] at h ⊢
      exact findFutureVertexPos_keeps_back t k a (n + 1) i fv2 h

theorem findFutureVertexIn_eq_pos (l : List FutureVertex) (k a : Nat) :
    ∀ n, findFutureVertexIn l k a = (findFutureVertexPos l k a n).map Prod.snd := by
  induction l with
  | nil => intro n; rfl
  | cons x rest ih =>
    intro n
    simp only [findFutureVertexIn, findFutureVertexPos]
    by_cases hc : x.varno = k ∧ x.varattno = a
    · rw [if_pos hc, if_pos hc]; rfl
    · rw [if_neg hc, if_neg hc]
      exact ih (n + 1)

theorem findFutureVertexPos_get (l : List FutureVertex) (k a : Nat) :
    ∀ (n i : Nat) (fv : FutureVertex), findFutureVertexPos l k a n = some (i, fv) →
      n ≤ i ∧ l[i - n]? = some fv ∧ fv.varno = k ∧ fv.varattno = a := by
  induction l with
  | nil => intro n i fv h; simp [findFutureVertexPos] at h
  | cons x rest ih =>
    intro n i fv h
    simp only [findFutureVertexPos] at h
    by_cases hc : x.varno = k ∧ x.varattno = a
    · rw [if_pos hc] at h
      simp only [Option.some.injEq, Prod.mk.injEq] at h
      obtain ⟨hi, hf⟩ := h
      subst hi hf
      simp [hc.1, hc.2]
    · rw [if_neg hc] at h
      obtain ⟨hle, hget, hk⟩ := ih (n + 1) i fv h
      refine ⟨by omega, ?_, hk⟩
      have : i - n = (i - (n + 1)) + 1 := by omega
      rw [this, List.getElem?_cons_succ]
      exact hget

/-- Resolving the unresolved future vertex at position `idx` keeps every vertex. -/
theorem forall₂_keeps_set (l : List FutureVertex) (idx : Nat) (fv : FutureVertex)
    (e : Expr) (hget : l[idx]? = some fv) (hnone : fv.expr = none) :
    List.Forall₂ KeepsVertex l (l.set idx { fv with expr := some e }) := by
  induction l generalizing idx with
  | nil => simp at hget
  | cons x rest ih =>
    cases idx with
    | zero =>
      simp only [List.getElem?_cons_zero, Option.some.injEq] at hget
      subst hget
      simp only [List.set_cons_zero]
      refine .cons ⟨rfl, rfl, ?_⟩ (forall₂_keeps_refl _)
      intro hs
      rw [hnone] at hs
      cases hs
    | succ j =>
      simp only [List.getElem?_cons_succ] at hget
      simp only [List.set_cons_succ]
      exact .cons (keepsVertex_refl x) (ih j hget)

theorem countP_set_resolved (l : List FutureVertex) (idx : Nat) (fv : FutureVertex)
    (e : Expr) (hget : l[idx]? = some fv) (hnone : fv.expr = none) :
    (l.set idx { fv with expr := some e }).countP (fun fv => fv.expr.isNone) + 1 =
      l.countP (fun fv => fv.expr.isNone) := by
  induction l generalizing idx with
  | nil => simp at hget
  | cons x rest ih =>
    cases idx with
    | zero =>
      simp only [List.getElem?_cons_zero, Option.some.injEq] at hget
      subst hget
      simp [List.countP_cons, hnone]
    | succ j =>
      simp only [List.getElem?_cons_succ] at hget
      simp only [List.set_cons_succ, List.countP_cons]
      have := ih j hget
      omega

theorem memoOf_stable {s s2 : ParseState} (h : Resolves s s2) (v m : Var)
    (hm : memoOf s v = some m) : memoOf s2 v = some m := by
  unfold memoOf at hm ⊢
  rw [findFutureVertexIn_eq_pos _ _ _ 0] at hm ⊢
  cases hf : findFutureVertexPos s.p_future_vertices v.varno v.varattno 0 with
  | none => rw [hf] at hm; simp at hm
  | some p =>
    obtain ⟨i, fv⟩ := p
    obtain ⟨fv2, hf2, hk⟩ := findFutureVertexPos_keeps h.vertices _ _ _ _ _ hf
    rw [hf] at hm
    rw [hf2]
    simp only [Option.map_some'] at hm ⊢
    cases he : fv.expr with
    | none => rw [he] at hm; simp at hm
    | some e =>
      have : fv2 = fv := hk.2.2 (by rw [he]; rfl)
      rw [this]
      exact hm

theorem find_isSome_stable {s s2 : ParseState} (h : Resolves s s2) (k a : Nat) :
    (findFutureVertexIn s2.p_future_vertices k a).isSome =
      (findFutureVertexIn s.p_future_vertices k a).isSome := by
  rw [findFutureVertexIn_eq_pos _ _ _ 0, findFutureVertexIn_eq_pos _ _ _ 0]
  cases hf : findFutureVertexPos s.p_future_vertices k a 0 with
  | some p =>
    obtain ⟨i, fv⟩ := p
    obtain ⟨fv2, hf2, _⟩ := findFutureVertexPos_keeps h.vertices _ _ _ _ _ hf
    rw [hf2]
    rfl
  | none =>
    cases hf2 : findFutureVertexPos s2.p_future_vertices k a 0 with
    | none => rfl
    | some p =>
      obtain ⟨i, fv2⟩ := p
      obtain ⟨fv, hfb, _⟩ := findFutureVertexPos_keeps_back h.vertices _ _ _ _ _ hf2
      rw [hf] at hfb
      cases hfb

theorem runOk_same (s : ParseState) (vars : List Var)
    (h : ∀ v ∈ vars, v.vartype = .VERTEXOID →
      (findFutureVertexIn s.p_future_vertices v.varno v.varattno).isSome = true →
      (memoOf s v).isSome = true) : RunOk s vars s := by
  refine ⟨resolves_refl s, rfl, rfl, h, ?_, ?_⟩
  · intro i fv fv2 h1 h2 hn hs
    rw [h1] at h2
    cases h2
    rw [hn] at hs
    cases hs
  · intro i fv fv2 h1 h2 hn hs
    rw [h1] at h2
    cases h2
    rw [hn] at hs
    cases hs

theorem runOk_nil (s : ParseState) : RunOk s [] s :=
  runOk_same s [] (fun v hv => by cases hv)

theorem runOk_append {s s1 s2 : ParseState} {vars1 vars2 : List Var}
    (h1 : RunOk s vars1 s1) (h2 : RunOk s1 vars2 s2) : RunOk s (vars1 ++ vars2) s2 := by
  refine ⟨resolves_trans h1.res h2.res, ?_, ?_, ?_, ?_, ?_⟩
  · have a := h1.count
    have b := h2.count
    omega
  · have a := h1.scans
    have b := h2.scans
    omega
  · intro v hv ht hf
    rcases List.mem_append.mp hv with hv | hv
    · obtain ⟨m, hm⟩ := Option.isSome_iff_exists.mp (h1.resolved v hv ht hf)
      rw [memoOf_stable h2.res v m hm]
      rfl
    · refine h2.resolved v hv ht ?_
      rw [find_isSome_stable h1.res]
      exact hf
  · intro i fv fv2 hg hg2 hn hs
    have hlen := List.Forall₂.length_eq h1.res.vertices
    have hi : i < s.p_future_vertices.length := by
      by_contra hge
      rw [List.getElem?_eq_none (by omega)] at hg
      cases hg
    have hi1 : i < s1.p_future_vertices.length := by omega
    have hg1 : s1.p_future_vertices[i]? = some (s1.p_future_vertices[i]) :=
      List.getElem?_eq_getElem hi1
    cases he : (s1.p_future_vertices[i]).expr with
    | some e =>
      obtain ⟨v, hv, ht, x, hx⟩ := h1.only i fv _ hg hg1 hn (by rw [he]; rfl)
      exact ⟨v, List.mem_append_left _ hv, ht, x, hx⟩
    | none =>
      obtain ⟨v, hv, ht, x, hx⟩ := h2.only i _ fv2 hg1 hg2 he hs
      obtain ⟨y, hy, _⟩ := findFutureVertexPos_keeps_back h1.res.vertices _ _ _ _ _ hx
      exact ⟨v, List.mem_append_right _ hv, ht, y, hy⟩
  · intro i fv fv2 hg hg2 hn hs
    have hlen := List.Forall₂.length_eq h1.res.vertices
    have hi : i < s.p_future_vertices.length := by
      by_contra hge
      rw [List.getElem?_eq_none (by omega)] at hg
      cases hg
    have hi1 : i < s1.p_future_vertices.length := by omega
    have hg1 : s1.p_future_vertices[i]? = some (s1.p_future_vertices[i]) :=
      List.getElem?_eq_getElem hi1
    obtain ⟨rtes1, hrt1⟩ := h1.res.rtable
    obtain ⟨rtes2, hrt2⟩ := h2.res.rtable
    cases he : (s1.p_future_vertices[i]).expr with
    | some e =>
      obtain ⟨m, name, hm, hlt, ha, ht, hl, hrte⟩ :=
        h1.scan i fv _ hg hg1 hn (by rw [he]; rfl)
      have hk := List.Forall₂.get h2.res.vertices hi1
        (by rw [← List.Forall₂.length_eq h2.res.vertices]; exact hi1)
      have hsame : s2.p_future_vertices[i]? = some (s1.p_future_vertices[i]) := by
        rw [List.getElem?_eq_getElem
          (by rw [← List.Forall₂.length_eq h2.res.vertices]; exact hi1)]
        congr 1
        exact hk.2.2 (by simp only [List.get_eq_getElem]; rw [he]; rfl)
      rw [hsame] at hg2
      cases hg2
      exact ⟨m, name, hm, hlt, ha, ht, hl, getRTE_append_old _ rtes2 _ hrt2 _ _ hrte⟩
    | none =>
      obtain ⟨m, name, hm, hlt, ha, ht, hl, hrte⟩ := h2.scan i _ fv2 hg1 hg2 he hs
      refine ⟨m, name, hm, ?_, ha, ht, hl, hrte⟩
      rw [hrt1, List.length_append] at hlt
      omega

/-- Without the ignore-nullable flag a successful `resolveFutureVertex` appends the scan
and the join entry to the range table and memoizes the variable of the scan. -/
theorem resolveFutureVertex_effect (env : Env) (pstate : ParseState) (idx : Nat)
    (ps2 : ParseState) (h : resolveFutureVertex env pstate idx false = .ok ps2) :
    ∃ fv name jrte, pstate.p_future_vertices[idx]? = some fv ∧
      ps2.p_rtable = pstate.p_rtable ++
        [{ rtekind := .RTE_SUBQUERY, aliasname := name, cols := [(name, .VERTEXOID)] }, jrte] ∧
      jrte.rtekind = .RTE_JOIN ∧
      ps2.p_future_vertices = pstate.p_future_vertices.set idx
        { fv with expr := some (.Var (resolvedVertexVar pstate)) } := by
  obtain ⟨fv, name, fv_var, fv_id, id, mid, hfv, _, _, _, _, hjoin, hps2⟩ :=
    resolveFutureVertex_steps env pstate idx false ps2 h
  unfold joinResolvedVertex at hjoin
  simp only [Bool.false_eq_true, if_false] at hjoin
  split at hjoin
  · cases hjoin
  · split at hjoin
    · cases hjoin
    · rename_i l_rtindex hl e r hr
      simp only [Except.ok.injEq] at hjoin
      obtain ⟨_, ⟨rte, hrt, hkind⟩, _, _, _, hf⟩ := incrementalJoinRTEs_spec _ _ _ _ _ _ _ hr
      subst hjoin hps2
      refine ⟨fv, name, rte, hfv, ?_, hkind, ?_⟩
      · simp only [hrt, addRangeTableEntryForSubquery, List.append_assoc, List.singleton_append]
      · simp only [hf, addRangeTableEntryForSubquery]

theorem memoOf_of_pos (s : ParseState) (v : Var) (i : Nat) (fv : FutureVertex) (m : Var)
    (hf : findFutureVertexPos s.p_future_vertices v.varno v.varattno 0 = some (i, fv))
    (he : fv.expr = some (.Var m)) : memoOf s v = some m := by
  unfold memoOf
  rw [findFutureVertexIn_eq_pos _ _ _ 0, hf]
  simp [he]

theorem memoOf_none_of_pos (s : ParseState) (v : Var)
    (hf : findFutureVertexPos s.p_future_vertices v.varno v.varattno 0 = none) :
    memoOf s v = none := by
  unfold memoOf
  rw [findFutureVertexIn_eq_pos _ _ _ 0, hf]
  rfl

theorem findPos_none_stable {s s2 : ParseState} (h : Resolves s s2) (k a : Nat)
    (hf : findFutureVertexPos s.p_future_vertices k a 0 = none) :
    findFutureVertexPos s2.p_future_vertices k a 0 = none := by
  cases hf2 : findFutureVertexPos s2.p_future_vertices k a 0 with
  | none => rfl
  | some p =>
    obtain ⟨i, fv2⟩ := p
    obtain ⟨fv, hfb, _⟩ := findFutureVertexPos_keeps_back h.vertices _ _ _ _ _ hf2
    rw [hf] at hfb
    cases hfb

theorem copyResolvedVar_zero (d : Nat) (fv : FutureVertex) (e : Expr)
    (h : copyResolvedVar 0 d fv = .ok e) :
    ∃ m, fv.expr = some (.Var m) ∧ e = .Var { m with varlevelsup := d } := by
  unfold copyResolvedVar at h
  split at h
  · rename_i m hm
    simp only [Except.ok.injEq] at h
    refine ⟨m, hm, ?_⟩
    rw [← h]
    simp [FVR_PRESERVE_VAR_REF]
  · cases h

/-- The case `IsA(node, Var)` of the mutator with flags 0. -/
theorem resolveVar_run (env : Env) (d : Nat) (s : ParseState) (var : Var) (e2 : Expr)
    (s2 : ParseState) (h : resolveVar env 0 d s var = .ok (e2, s2)) :
    RunOk s (if var.varlevelsup = d then [var] else []) s2 ∧
    ∀ s3, Resolves s2 s3 → e2 = substVar (memoOf s3) d var := by
  unfold resolveVar at h
  by_cases hl : var.varlevelsup = d
  · simp only [hl, ne_eq, not_true_eq_false, if_false, if_true] at h ⊢
    by_cases ht : var.vartype = .VERTEXOID
    · simp only [ht, not_true_eq_false, if_false] at h
      cases hf : findFutureVertexPos s.p_future_vertices var.varno var.varattno 0 with
      | none =>
        rw [hf] at h
        simp only [Except.ok.injEq, Prod.mk.injEq] at h
        obtain ⟨he, hs⟩ := h
        subst he hs
        constructor
        · refine runOk_same s _ ?_
          intro v _ _ hsome
          rw [List.mem_singleton] at *
          subst_vars
          rw [findFutureVertexIn_eq_pos _ _ _ 0, hf] at hsome
          cases hsome
        · intro s3 h3
          simp only [substVar, hl, ht, and_self, if_true]
          rw [memoOf_none_of_pos s3 var (findPos_none_stable h3 _ _ hf)]
      | some p =>
        obtain ⟨idx, fv⟩ := p
        rw [hf] at h
        simp only at h
        obtain ⟨_, hget, _, _⟩ := findFutureVertexPos_get _ _ _ _ _ _ hf
        simp only [Nat.sub_zero] at hget
        cases hexpr : fv.expr with
        | none =>
          simp only [hexpr, Option.isNone_none, if_true, FVR_DONT_RESOLVE,
            FVR_IGNORE_NULLABLE, Nat.zero_and, ne_eq, not_true_eq_false, if_false,
            decide_False] at h
          cases hres : resolveFutureVertex env s idx false with
          | error e => rw [hres] at h; cases h
          | ok ps =>
            rw [hres] at h
            simp only at h
            obtain ⟨fv0, name, jrte, hfv0, hrt, hkind, hfvs⟩ :=
              resolveFutureVertex_effect env s idx ps hres
            rw [hget] at hfv0
            cases hfv0
            have hnew : ps.p_future_vertices[idx]? =
                some { fv with expr := some (.Var (resolvedVertexVar s)) } := by
              rw [hfvs]
              have hi : idx < s.p_future_vertices.length := by
                by_contra hge
                rw [List.getElem?_eq_none (by omega)] at hget
                cases hget
              simp [List.getElem?_set, hi]
            rw [hnew] at h
            simp only [copyResolvedVar, FVR_PRESERVE_VAR_REF, Nat.zero_and, ne_eq,
              not_true_eq_false, if_false, Except.ok.injEq, Prod.mk.injEq] at h
            obtain ⟨he, hs⟩ := h
            subst he hs
            have hkeep : List.Forall₂ KeepsVertex s.p_future_vertices ps.p_future_vertices := by
              rw [hfvs]
              exact forall₂_keeps_set _ _ _ _ hget hexpr
            have hres1 : Resolves s ps := ⟨⟨_, hrt⟩, hkeep⟩
            have hmemo : memoOf ps var = some (resolvedVertexVar s) := by
              obtain ⟨fv2, hf2, _⟩ := findFutureVertexPos_keeps hkeep _ _ _ _ _ hf
              obtain ⟨_, hget2, _, _⟩ := findFutureVertexPos_get _ _ _ _ _ _ hf2
              simp only [Nat.sub_zero] at hget2
              rw [hnew] at hget2
              cases hget2
              exact memoOf_of_pos ps var idx _ _ hf2 rfl
            constructor
            · refine ⟨hres1, ?_, ?_, ?_, ?_, ?_⟩
              · have hc := countP_set_resolved s.p_future_vertices idx fv
                  (.Var (resolvedVertexVar s)) hget hexpr
                unfold unresolvedCount
                rw [hfvs, hrt]
                simp only [List.length_append, List.length_cons, List.length_nil]
                omega
              · have hc := countP_set_resolved s.p_future_vertices idx fv
                  (.Var (resolvedVertexVar s)) hget hexpr
                unfold unresolvedCount subqueryCount
                rw [hfvs, hrt]
                simp only [List.countP_append, List.countP_cons, List.countP_nil, hkind]
                simp
                omega
              · intro v hv _ _
                rw [List.mem_singleton] at hv
                subst hv
                rw [hmemo]
                rfl
              · intro i fvi fvi2 hgi hgi2 _ hs2
                by_cases hii : i = idx
                · subst hii
                  exact ⟨var, List.mem_singleton.mpr rfl, ht, fv, hf⟩
                · rw [hfvs, List.getElem?_set_ne (Ne.symm hii)] at hgi2
                  rw [hgi] at hgi2
                  cases hgi2
                  rename_i hn
                  rw [hn] at hs2
                  cases hs2
              · intro i fvi fvi2 hgi hgi2 hn hs2
                by_cases hii : i = idx
                · subst hii
                  rw [hnew] at hgi2
                  cases hgi2
                  refine ⟨resolvedVertexVar s, name, rfl, ?_, rfl, rfl, rfl, ?_⟩
                  · simp [resolvedVertexVar]
                  · have hold : getRTE
                        { s with p_rtable := s.p_rtable ++
                          [{ rtekind := .RTE_SUBQUERY, aliasname := name,
                             cols := [(name, .VERTEXOID)] }] }
                        (s.p_rtable.length + 1) = some
                          { rtekind := .RTE_SUBQUERY, aliasname := name,
                            cols := [(name, .VERTEXOID)] } :=
                      getRTE_append_new s _ _ rfl
                    exact getRTE_append_old _ [jrte] ps (by simp [hrt]) _ _ hold
                · rw [hfvs, List.getElem?_set_ne (Ne.symm hii)] at hgi2
                  rw [hgi] at hgi2
                  cases hgi2
                  rw [hn] at hs2
                  cases hs2
            · intro s3 h3
              simp only [substVar, hl, ht, and_self, if_true]
              rw [memoOf_stable h3 var _ hmemo]
        | some x =>
          simp only [hexpr, Option.isNone_some, Bool.false_eq_true, if_false] at h
          cases hcopy : copyResolvedVar 0 d fv with
          | error e => rw [hcopy] at h; cases h
          | ok newvar =>
            rw [hcopy] at h
            simp only [Except.ok.injEq, Prod.mk.injEq] at h
            obtain ⟨he, hs⟩ := h
            subst he hs
            obtain ⟨m, hm, hnv⟩ := copyResolvedVar_zero d fv _ hcopy
            have hmemo : memoOf s var = some m := memoOf_of_pos s var idx fv m hf hm
            constructor
            · refine runOk_same s _ ?_
              intro v hv _ _
              rw [List.mem_singleton] at hv
              subst hv
              rw [hmemo]
              rfl
            · intro s3 h3
              simp only [substVar, hl, ht, and_self, if_true]
              rw [memoOf_stable h3 var _ hmemo, hnv]
    · simp only [ht, not_false_eq_true, if_true, Except.ok.injEq, Prod.mk.injEq] at h
      obtain ⟨he, hs⟩ := h
      subst he hs
      constructor
      · refine runOk_same s _ ?_
        intro v hv hvt _
        rw [List.mem_singleton] at hv
        subst hv
        exact absurd hvt ht
      · intro s3 _
        simp [substVar, ht]
  · simp only [hl, ne_eq, not_false_eq_true, if_true, if_false, Except.ok.injEq,
      Prod.mk.injEq] at h ⊢
    obtain ⟨he, hs⟩ := h
    subst he hs
    exact ⟨runOk_nil s, fun s3 _ => by simp [substVar, hl]⟩

mutual
/-- The mutator with flags 0 on an expression. -/
theorem mutator_run (env : Env) : ∀ (e : Expr) (d : Nat) (s : ParseState) (e2 : Expr)
    (s2 : ParseState), resolve_future_vertex_mutator env 0 d s e = .ok (e2, s2) →
    RunOk s (reachedVars d e) s2 ∧
      ∀ s3, Resolves s2 s3 → e2 = substFutureRefs (memoOf s3) d e
  | .Var var, d, s, e2, s2, h => by
    simp only [resolve_future_vertex_mutator] at h
    simp only [reachedVars, substFutureRefs]
    exact resolveVar_run env d s var e2 s2 h
  | .Const consttype constisnull, d, s, e2, s2, h => by
    simp only [resolve_future_vertex_mutator, Except.ok.injEq, Prod.mk.injEq] at h
    obtain ⟨he, hs⟩ := h
    subst he hs
    simp only [reachedVars, substFutureRefs]
    exact ⟨runOk_nil s, fun _ _ => trivial⟩
  | .OpExpr opname larg rarg, d, s, e2, s2, h => by
    simp only [resolve_future_vertex_mutator] at h
    cases h1 : resolve_future_vertex_mutator env 0 d s larg with
    | error e => rw [h1] at h; cases h
    | ok l =>
      rw [h1] at h
      simp only at h
      cases h2 : resolve_future_vertex_mutator env 0 d l.2 rarg with
      | error e => rw [h2] at h; cases h
      | ok r =>
        rw [h2] at h
        simp only [Except.ok.injEq, Prod.mk.injEq] at h
        obtain ⟨he, hs⟩ := h
        subst he hs
        obtain ⟨ra, sa⟩ := mutator_run env larg d s l.1 l.2 h1
        obtain ⟨rb, sb⟩ := mutator_run env rarg d l.2 r.1 r.2 h2
        simp only [reachedVars, substFutureRefs]
        refine ⟨runOk_append ra rb, ?_⟩
        intro s3 h3
        rw [← sa s3 (resolves_trans rb.res h3), ← sb s3 h3]
  | .NullTest arg, d, s, e2, s2, h => by
    simp only [resolve_future_vertex_mutator] at h
    cases h1 : resolve_future_vertex_mutator env 0 d s arg with
    | error e => rw [h1] at h; cases h
    | ok a =>
      rw [h1] at h
      simp only [Except.ok.injEq, Prod.mk.injEq] at h
      obtain ⟨he, hs⟩ := h
      subst he hs
      obtain ⟨ra, sa⟩ := mutator_run env arg d s a.1 a.2 h1
      simp only [reachedVars, substFutureRefs]
      exact ⟨ra, fun s3 h3 => by rw [← sa s3 h3]⟩
  | .RowExpr args row_typeid, d, s, e2, s2, h => by
    simp only [resolve_future_vertex_mutator] at h
    cases h1 : resolve_future_vertex_list env 0 d s args with
    | error e => rw [h1] at h; cases h
    | ok a =>
      rw [h1] at h
      simp only [Except.ok.injEq, Prod.mk.injEq] at h
      obtain ⟨he, hs⟩ := h
      subst he hs
      obtain ⟨ra, sa⟩ := list_run env args d s a.1 a.2 h1
      simp only [reachedVars, substFutureRefs]
      exact ⟨ra, fun s3 h3 => by rw [← sa s3 h3]⟩
  | .ArrayExpr array_typeid element_typeid elements, d, s, e2, s2, h => by
    simp only [resolve_future_vertex_mutator] at h
    cases h1 : resolve_future_vertex_list env 0 d s elements with
    | error e => rw [h1] at h; cases h
    | ok a =>
      rw [h1] at h
      simp only [Except.ok.injEq, Prod.mk.injEq] at h
      obtain ⟨he, hs⟩ := h
      subst he hs
      obtain ⟨ra, sa⟩ := list_run env elements d s a.1 a.2 h1
      simp only [reachedVars, substFutureRefs]
      exact ⟨ra, fun s3 h3 => by rw [← sa s3 h3]⟩
  | .BoolExpr boolop args, d, s, e2, s2, h => by
    simp only [resolve_future_vertex_mutator] at h
    cases h1 : resolve_future_vertex_list env 0 d s args with
    | error e => rw [h1] at h; cases h
    | ok a =>
      rw [h1] at h
      simp only [Except.ok.injEq, Prod.mk.injEq] at h
      obtain ⟨he, hs⟩ := h
      subst he hs
      obtain ⟨ra, sa⟩ := list_run env args d s a.1 a.2 h1
      simp only [reachedVars, substFutureRefs]
      exact ⟨ra, fun s3 h3 => by rw [← sa s3 h3]⟩
  | .FuncExpr funcname args funcresulttype, d, s, e2, s2, h => by
    simp only [resolve_future_vertex_mutator] at h
    cases h1 : resolve_future_vertex_list env 0 d s args with
    | error e => rw [h1] at h; cases h
    | ok a =>
      rw [h1] at h
      simp only [Except.ok.injEq, Prod.mk.injEq] at h
      obtain ⟨he, hs⟩ := h
      subst he hs
      obtain ⟨ra, sa⟩ := list_run env args d s a.1 a.2 h1
      simp only [reachedVars, substFutureRefs]
      exact ⟨ra, fun s3 h3 => by rw [← sa s3 h3]⟩
  | .FieldSelect arg fieldnum resulttype, d, s, e2, s2, h => by
    simp only [resolve_future_vertex_mutator] at h
    simp only [reachedVars, substFutureRefs]
    cases hid : isVertexIdSelect d arg fieldnum with
    | true =>
      simp only [hid, if_true, Except.ok.injEq, Prod.mk.injEq] at h ⊢
      obtain ⟨he, hs⟩ := h
      subst he hs
      exact ⟨runOk_nil s, fun _ _ => rfl⟩
    | false =>
      simp only [hid, Bool.false_eq_true, if_false] at h ⊢
      cases h1 : resolve_future_vertex_mutator env 0 d s arg with
      | error e => rw [h1] at h; cases h
      | ok a =>
        rw [h1] at h
        simp only [Except.ok.injEq, Prod.mk.injEq] at h
        obtain ⟨he, hs⟩ := h
        subst he hs
        obtain ⟨ra, sa⟩ := mutator_run env arg d s a.1 a.2 h1
        exact ⟨ra, fun s3 h3 => by rw [← sa s3 h3]⟩
  | .SubLink testexpr subselect resulttype, d, s, e2, s2, h => by
    simp only [resolve_future_vertex_mutator] at h
    cases h1 : resolve_future_vertex_opt env 0 d s testexpr with
    | error e => rw [h1] at h; cases h
    | ok t =>
      rw [h1] at h
      simp only at h
      cases h2 : resolve_future_vertex_list env 0 (d + 1) t.2 subselect with
      | error e => rw [h2] at h; cases h
      | ok q =>
        rw [h2] at h
        simp only [Except.ok.injEq, Prod.mk.injEq] at h
        obtain ⟨he, hs⟩ := h
        subst he hs
        obtain ⟨ra, sa⟩ := opt_run env testexpr d s t.1 t.2 h1
        obtain ⟨rb, sb⟩ := list_run env subselect (d + 1) t.2 q.1 q.2 h2
        simp only [reachedVars, substFutureRefs]
        refine ⟨runOk_append ra rb, ?_⟩
        intro s3 h3
        rw [← sa s3 (resolves_trans rb.res h3), ← sb s3 h3]
  | .Aggref agglevelsup aggdirectargs args aggtype, d, s, e2, s2, h => by
    simp only [resolve_future_vertex_mutator] at h
    simp only [reachedVars, substFutureRefs]
    by_cases hlv : agglevelsup = d
    · simp only [hlv, if_true] at h ⊢
      cases h1 : resolve_future_vertex_list env 0 d s aggdirectargs with
      | error e => rw [h1] at h; cases h
      | ok a =>
        rw [h1] at h
        simp only at h
        cases h2 : resolve_future_vertex_aggargs env 0 d a.2 args with
        | error e => rw [h2] at h; cases h
        | ok b =>
          rw [h2] at h
          simp only [Except.ok.injEq, Prod.mk.injEq] at h
          obtain ⟨he, hs⟩ := h
          subst he hs
          obtain ⟨ra, sa⟩ := list_run env aggdirectargs d s a.1 a.2 h1
          obtain ⟨rb, sb⟩ := aggargs_run env args d a.2 b.1 b.2 h2
          refine ⟨runOk_append ra rb, ?_⟩
          intro s3 h3
          rw [← sa s3 (resolves_trans rb.res h3), ← sb s3 h3]
    · simp only [hlv, if_false] at h ⊢
      by_cases hgt : agglevelsup > d
      · simp only [hgt, if_true, Except.ok.injEq, Prod.mk.injEq] at h ⊢
        obtain ⟨he, hs⟩ := h
        subst he hs
        exact ⟨runOk_nil s, fun _ _ => rfl⟩
      · simp only [hgt, if_false] at h ⊢
        cases h1 : resolve_future_vertex_list env 0 d s aggdirectargs with
        | error e => rw [h1] at h; cases h
        | ok a =>
          rw [h1] at h
          simp only at h
          cases h2 : resolve_future_vertex_list env 0 d a.2 args with
          | error e => rw [h2] at h; cases h
          | ok b =>
            rw [h2] at h
            simp only [Except.ok.injEq, Prod.mk.injEq] at h
            obtain ⟨he, hs⟩ := h
            subst he hs
            obtain ⟨ra, sa⟩ := list_run env aggdirectargs d s a.1 a.2 h1
            obtain ⟨rb, sb⟩ := list_run env args d a.2 b.1 b.2 h2
            refine ⟨runOk_append ra rb, ?_⟩
            intro s3 h3
            rw [← sa s3 (resolves_trans rb.res h3), ← sb s3 h3]
/-- The mutator with flags 0 on a list of expressions. -/
theorem list_run (env : Env) : ∀ (es : List Expr) (d : Nat) (s : ParseState)
    (es2 : List Expr) (s2 : ParseState),
    resolve_future_vertex_list env 0 d s es = .ok (es2, s2) →
    RunOk s (reachedVarsList d es) s2 ∧
      ∀ s3, Resolves s2 s3 → es2 = substFutureRefsList (memoOf s3) d es
  | [], d, s, es2, s2, h => by
    simp only [resolve_future_vertex_list, Except.ok.injEq, Prod.mk.injEq] at h
    obtain ⟨he, hs⟩ := h
    subst he hs
    simp only [reachedVarsList, substFutureRefsList]
    exact ⟨runOk_nil s, fun _ _ => trivial⟩
  | e :: rest, d, s, es2, s2, h => by
    simp only [resolve_future_vertex_list] at h
    cases h1 : resolve_future_vertex_mutator env 0 d s e with
    | error e => rw [h1] at h; cases h
    | ok a =>
      rw [h1] at h
      simp only at h
      cases h2 : resolve_future_vertex_list env 0 d a.2 rest with
      | error e => rw [h2] at h; cases h
      | ok b =>
        rw [h2] at h
        simp only [Except.ok.injEq, Prod.mk.injEq] at h
        obtain ⟨he, hs⟩ := h
        subst he hs
        obtain ⟨ra, sa⟩ := mutator_run env e d s a.1 a.2 h1
        obtain ⟨rb, sb⟩ := list_run env rest d a.2 b.1 b.2 h2
        simp only [reachedVarsList, substFutureRefsList]
        refine ⟨runOk_append ra rb, ?_⟩
        intro s3 h3
        rw [← sa s3 (resolves_trans rb.res h3), ← sb s3 h3]
/-- The mutator with flags 0 on the arguments of an aggregate of the current level. -/
theorem aggargs_run (env : Env) : ∀ (es : List Expr) (d : Nat) (s : ParseState)
    (es2 : List Expr) (s2 : ParseState),
    resolve_future_vertex_aggargs env 0 d s es = .ok (es2, s2) →
    RunOk s (reachedVarsAggargs d es) s2 ∧
      ∀ s3, Resolves s2 s3 → es2 = substFutureRefsAggargs (memoOf s3) d es
  | [], d, s, es2, s2, h => by
    simp only [resolve_future_vertex_aggargs, Except.ok.injEq, Prod.mk.injEq] at h
    obtain ⟨he, hs⟩ := h
    subst he hs
    simp only [reachedVarsAggargs, substFutureRefsAggargs]
    exact ⟨runOk_nil s, fun _ _ => trivial⟩
  | e :: rest, d, s, es2, s2, h => by
    simp only [resolve_future_vertex_aggargs] at h
    simp only [reachedVarsAggargs, substFutureRefsAggargs]
    cases hv : isVar e with
    | true =>
      simp only [hv, if_true] at h ⊢
      cases h2 : resolve_future_vertex_aggargs env 0 d s rest with
      | error e => rw [h2] at h; cases h
      | ok b =>
        rw [h2] at h
        simp only [Except.ok.injEq, Prod.mk.injEq] at h
        obtain ⟨he, hs⟩ := h
        subst he hs
        obtain ⟨rb, sb⟩ := aggargs_run env rest d s b.1 b.2 h2
        exact ⟨rb, fun s3 h3 => by rw [← sb s3 h3]⟩
    | false =>
      simp only [hv, Bool.false_eq_true, if_false] at h ⊢
      cases h1 : resolve_future_vertex_mutator env 0 d s e with
      | error e => rw [h1] at h; cases h
      | ok a =>
        rw [h1] at h
        simp only at h
        cases h2 : resolve_future_vertex_aggargs env 0 d a.2 rest with
        | error e => rw [h2] at h; cases h
        | ok b =>
          rw [h2] at h
          simp only [Except.ok.injEq, Prod.mk.injEq] at h
          obtain ⟨he, hs⟩ := h
          subst he hs
          obtain ⟨ra, sa⟩ := mutator_run env e d s a.1 a.2 h1
          obtain ⟨rb, sb⟩ := aggargs_run env rest d a.2 b.1 b.2 h2
          refine ⟨runOk_append ra rb, ?_⟩
          intro s3 h3
          rw [← sa s3 (resolves_trans rb.res h3), ← sb s3 h3]
/-- The mutator with flags 0 on an expression that may be `NULL`. -/
theorem opt_run (env : Env) : ∀ (e : Option Expr) (d : Nat) (s : ParseState)
    (e2 : Option Expr) (s2 : ParseState),
    resolve_future_vertex_opt env 0 d s e = .ok (e2, s2) →
    RunOk s (reachedVarsOpt d e) s2 ∧
      ∀ s3, Resolves s2 s3 → e2 = substFutureRefsOpt (memoOf s3) d e
  | none, d, s, e2, s2, h => by
    simp only [resolve_future_vertex_opt, Except.ok.injEq, Prod.mk.injEq] at h
    obtain ⟨he, hs⟩ := h
    subst he hs
    simp only [reachedVarsOpt, substFutureRefsOpt]
    exact ⟨runOk_nil s, fun _ _ => trivial⟩
  | some e, d, s, e2, s2, h => by
    simp only [resolve_future_vertex_opt] at h
    cases h1 : resolve_future_vertex_mutator env 0 d s e with
    | error e => rw [h1] at h; cases h
    | ok a =>
      rw [h1] at h
      simp only [Except.ok.injEq, Prod.mk.injEq] at h
      obtain ⟨he, hs⟩ := h
      subst he hs
      obtain ⟨ra, sa⟩ := mutator_run env e d s a.1 a.2 h1
      simp only [reachedVarsOpt, substFutureRefsOpt]
      exact ⟨ra, fun s3 h3 => by rw [← sa s3 h3]⟩
end

/-- A sequence of calls of `resolve_future_vertex` with flags 0. -/
theorem all_run (env : Env) : ∀ (nodes : List Expr) (s : ParseState) (es2 : List Expr)
    (s2 : ParseState), resolve_future_vertex_all env s nodes 0 = .ok (es2, s2) →
    RunOk s ((nodes.map (reachedVars 0)).flatten) s2 ∧
      ∀ s3, Resolves s2 s3 → es2 = nodes.map (substFutureRefs (memoOf s3) 0) := by
  intro nodes
  induction nodes with
  | nil =>
    intro s es2 s2 h
    simp only [resolve_future_vertex_all, Except.ok.injEq, Prod.mk.injEq] at h
    obtain ⟨he, hs⟩ := h
    subst he hs
    exact ⟨runOk_nil s, fun _ _ => rfl⟩
  | cons e rest ih =>
    intro s es2 s2 h
    simp only [resolve_future_vertex_all, resolve_future_vertex] at h
    cases h1 : resolve_future_vertex_mutator env 0 0 s e with
    | error e => rw [h1] at h; cases h
    | ok a =>
      rw [h1] at h
      simp only at h
      cases h2 : resolve_future_vertex_all env a.2 rest 0 with
      | error e => rw [h2] at h; cases h
      | ok b =>
        rw [h2] at h
        simp only [Except.ok.injEq, Prod.mk.injEq] at h
        obtain ⟨he, hs⟩ := h
        subst he hs
        obtain ⟨ra, sa⟩ := mutator_run env e 0 s a.1 a.2 h1
        obtain ⟨rb, sb⟩ := ih a.2 b.1 b.2 h2
        simp only [List.map_cons, List.flatten_cons]
        refine ⟨runOk_append ra rb, ?_⟩
        intro s3 h3
        rw [← sa s3 (resolves_trans rb.res h3), ← sb s3 h3]

theorem countP_keeps_le : ∀ {l l2 : List FutureVertex}, List.Forall₂ KeepsVertex l l2 →
    l2.countP (fun fv => fv.expr.isNone) ≤ l.countP (fun fv => fv.expr.isNone)
  | [], _, .nil => Nat.le_refl _
  | x :: rest, y :: rest2, .cons hxy t => by
    have ih := countP_keeps_le t
    simp only [List.countP_cons]
    cases hx : x.expr with
    | none =>
      cases hy : y.expr <;> simp <;> omega
    | some e =>
      have : y = x := hxy.2.2 (by rw [hx]; rfl)
      subst this
      simp [hx]
      exact ih

theorem countP_keeps_lt : ∀ {l l2 : List FutureVertex}, List.Forall₂ KeepsVertex l l2 →
    ∀ (i : Nat) (fv fv2 : FutureVertex), l[i]? = some fv → l2[i]? = some fv2 →
    fv.expr = none → fv2.expr.isSome = true →
    l2.countP (fun fv => fv.expr.isNone) < l.countP (fun fv => fv.expr.isNone)
  | [], _, .nil => by
    intro i fv fv2 h
    simp at h
  | x :: rest, y :: rest2, .cons hxy t => by
    intro i fv fv2 h1 h2 hn hs
    have hle := countP_keeps_le t
    simp only [List.countP_cons]
    cases i with
    | zero =>
      simp only [List.getElem?_cons_zero, Option.some.injEq] at h1 h2
      subst h1 h2
      obtain ⟨e, he⟩ := Option.isSome_iff_exists.mp hs
      simp [hn, he]
      omega
    | succ j =>
      simp only [List.getElem?_cons_succ] at h1 h2
      have ih := countP_keeps_lt t j fv fv2 h1 h2 hn hs
      cases hx : x.expr with
      | none =>
        cases hy : y.expr <;> simp <;> omega
      | some e =>
        have : y = x := hxy.2.2 (by rw [hx]; rfl)
        subst this
        simp [hx]
        exact ih

theorem countP_keeps_eq : ∀ {l l2 : List FutureVertex}, List.Forall₂ KeepsVertex l l2 →
    (∀ (j : Nat) (fvj fvj2 : FutureVertex), l[j]? = some fvj → l2[j]? = some fvj2 →
      fvj.expr = none → fvj2.expr.isSome = true → False) →
    l.countP (fun fv => fv.expr.isNone) = l2.countP (fun fv => fv.expr.isNone)
  | [], _, .nil => fun _ => rfl
  | x :: rest, y :: rest2, .cons hxy t => by
    intro hno
    have ih := countP_keeps_eq t (fun j a b ha hb => hno (j + 1) a b
      (by simpa using ha) (by simpa using hb))
    simp only [List.countP_cons]
    cases hx : x.expr with
    | none =>
      cases hy : y.expr with
      | none => simp; exact ih
      | some e => exact absurd (hno 0 x y (by simp) (by simp) hx (by rw [hy]; rfl)) id
    | some e =>
      have : y = x := hxy.2.2 (by rw [hx]; rfl)
      subst this
      simp [hx]
      exact ih

theorem countP_keeps_one : ∀ {l l2 : List FutureVertex}, List.Forall₂ KeepsVertex l l2 →
    ∀ (i : Nat) (fv fv2 : FutureVertex), l[i]? = some fv → l2[i]? = some fv2 →
    fv.expr = none → fv2.expr.isSome = true →
    (∀ (j : Nat) (fvj fvj2 : FutureVertex), l[j]? = some fvj → l2[j]? = some fvj2 →
      fvj.expr = none → fvj2.expr.isSome = true → j = i) →
    l.countP (fun fv => fv.expr.isNone) = l2.countP (fun fv => fv.expr.isNone) + 1
  | [], _, .nil => by
    intro i fv fv2 h
    simp at h
  | x :: rest, y :: rest2, .cons hxy t => by
    intro i fv fv2 h1 h2 hn hs honly
    simp only [List.countP_cons]
    cases i with
    | zero =>
      simp only [List.getElem?_cons_zero, Option.some.injEq] at h1 h2
      subst h1 h2
      obtain ⟨e, he⟩ := Option.isSome_iff_exists.mp hs
      have ih := countP_keeps_eq t (fun j a b ha hb hna hsb => by
        have := honly (j + 1) a b (by simpa using ha) (by simpa using hb) hna hsb
        omega)
      simp [hn, he]
      exact ih
    | succ j =>
      simp only [List.getElem?_cons_succ] at h1 h2
      have ih := countP_keeps_one t j fv fv2 h1 h2 hn hs (fun k a b ha hb hna hsb => by
        have := honly (k + 1) a b (by simpa using ha) (by simpa using hb) hna hsb
        omega)
      cases hx : x.expr with
      | none =>
        cases hy : y.expr with
        | none => simp; omega
        | some e =>
          have := honly 0 x y (by simp) (by simp) hx (by rw [hy]; rfl)
          omega
      | some e =>
        have : y = x := hxy.2.2 (by rw [hx]; rfl)
        subst this
        simp [hx]
        exact ih

theorem memoOf_congr (s : ParseState) (v w : Var) (h1 : v.varno = w.varno)
    (h2 : v.varattno = w.varattno) : memoOf s v = memoOf s w := by
  unfold memoOf
  rw [h1, h2]

/-- Claim C11, counterexample: the expressions `id(a)` and `count(a)` hold two references
of the current level to the unresolved future vertex `a`; `resolve_future_vertex` with
flags 0 returns them unchanged and leaves the parse state as it is, so that no scan is
added and no reference is replaced. -/
theorem resolve_future_vertex_skipped_counterexample :
    findFutureVertexIn sampleScopeState.p_future_vertices 1 1 =
      some { varno := 1, varattno := 1, labname := "ag_vertex", nullable := false,
             expr := none } ∧
    levelVarsList 0 sampleIdExprs = [vertexColumn 1 1, vertexColumn 1 1] ∧
    resolve_future_vertex_all sampleEnv sampleScopeState sampleIdExprs 0 =
      .ok (sampleIdExprs, sampleScopeState) :=
  ⟨rfl, rfl, rfl⟩

/-- Claim C11, amended: let a sequence of expressions be processed by
`resolve_future_vertex` with flags 0 in one parse state, and let it hold at least one
reached reference to an unresolved future vertex (a vertex variable of the current level
that is not the argument of a selection of the identifier field, not a plain argument of
an aggregate of the current level and not inside an aggregate of an upper level). Then
the future vertex is resolved at the end, its memoized variable being the only column of
a vertex scan added to the range table on the way; the expressions returned are the
given ones with every reached reference to a future vertex replaced by a copy of the
memoized variable of that vertex; every resolution on the way accounts for exactly one
scan and one join entry, whatever the number of references; and when no other unresolved
future vertex is referenced exactly one scan is added. -/
theorem resolve_future_vertex_once (env : Env) (s : ParseState) (nodes es2 : List Expr)
    (s2 : ParseState) (varno varattno : Nat) (fv : FutureVertex)
    (h : resolve_future_vertex_all env s nodes 0 = .ok (es2, s2))
    (hfv : findFutureVertexIn s.p_future_vertices varno varattno = some fv)
    (hnone : fv.expr = none)
    (hk : 1 ≤ (reachedRefs nodes varno varattno).length) :
    ∃ (m : Var) (name : String),
      (∀ v : Var, v.varno = varno → v.varattno = varattno → memoOf s2 v = some m) ∧
      s.p_rtable.length < m.varno ∧ m.varattno = 1 ∧ m.vartype = .VERTEXOID ∧
      m.varlevelsup = 0 ∧
      getRTE s2 m.varno =
        some { rtekind := .RTE_SUBQUERY, aliasname := name, cols := [(name, .VERTEXOID)] } ∧
      es2 = nodes.map (substFutureRefs (memoOf s2) 0) ∧
      (∀ (d : Nat) (v : Var), v.varlevelsup = d → v.vartype = .VERTEXOID → v.varno = varno →
        v.varattno = varattno → substVar (memoOf s2) d v = .Var { m with varlevelsup := d }) ∧
      s2.p_rtable.length + 2 * unresolvedCount s2 = s.p_rtable.length + 2 * unresolvedCount s ∧
      subqueryCount s2 + unresolvedCount s2 = subqueryCount s + unresolvedCount s ∧
      unresolvedCount s2 < unresolvedCount s ∧
      ((∀ v ∈ (nodes.map (reachedVars 0)).flatten, v.vartype = .VERTEXOID →
          ∀ fv2, findFutureVertexIn s.p_future_vertices v.varno v.varattno = some fv2 →
          fv2.expr = none → v.varno = varno ∧ v.varattno = varattno) →
        s2.p_rtable.length = s.p_rtable.length + 2 ∧
        subqueryCount s2 = subqueryCount s + 1) := by
  obtain ⟨run, hsub⟩ := all_run env nodes s es2 s2 h
  -- a reached reference
  obtain ⟨v0, hv0⟩ := List.exists_mem_of_length_pos (Nat.lt_of_lt_of_le Nat.zero_lt_one hk)
  unfold reachedRefs at hv0
  rw [List.mem_filter] at hv0
  obtain ⟨hv0mem, hv0key⟩ := hv0
  simp only [decide_eq_true_eq] at hv0key
  obtain ⟨hv0t, hv0n, hv0a⟩ := hv0key
  -- the position of the future vertex
  have hpos := findFutureVertexIn_eq_pos s.p_future_vertices varno varattno 0
  rw [hfv] at hpos
  cases hp : findFutureVertexPos s.p_future_vertices varno varattno 0 with
  | none => rw [hp] at hpos; cases hpos
  | some p =>
    obtain ⟨i, fv1⟩ := p
    rw [hp] at hpos
    simp only [Option.map_some', Option.some.injEq] at hpos
    subst hpos
    obtain ⟨_, hget, _, _⟩ := findFutureVertexPos_get _ _ _ _ _ _ hp
    simp only [Nat.sub_zero] at hget
    obtain ⟨fv2, hp2, _⟩ := findFutureVertexPos_keeps run.res.vertices _ _ _ _ _ hp
    obtain ⟨_, hget2, _, _⟩ := findFutureVertexPos_get _ _ _ _ _ _ hp2
    simp only [Nat.sub_zero] at hget2
    -- the memo
    have hres := run.resolved v0 hv0mem hv0t (by rw [hv0n, hv0a, hfv]; rfl)
    obtain ⟨m, hm⟩ := Option.isSome_iff_exists.mp hres
    have hmemo : ∀ v : Var, v.varno = varno → v.varattno = varattno → memoOf s2 v = some m := by
      intro v hvn hva
      rw [memoOf_congr s2 v v0 (by rw [hvn, hv0n]) (by rw [hva, hv0a])]
      exact hm
    have hfv2 : fv2.expr = some (.Var m) := by
      have hm2 := hm
      unfold memoOf at hm2
      rw [findFutureVertexIn_eq_pos _ _ _ 0, hv0n, hv0a, hp2] at hm2
      simp only [Option.map_some'] at hm2
      cases he : fv2.expr with
      | none => rw [he] at hm2; cases hm2
      | some x =>
        rw [he] at hm2
        cases x <;> simp at hm2
        rw [hm2]
    obtain ⟨m2, name, hm2, hlt, ha, ht, hl, hrte⟩ :=
      run.scan i fv fv2 hget hget2 hnone (by rw [hfv2]; rfl)
    rw [hfv2] at hm2
    simp only [Option.some.injEq, Expr.Var.injEq] at hm2
    subst hm2
    refine ⟨m, name, hmemo, hlt, ha, ht, hl, hrte, hsub s2 (resolves_refl s2), ?_, run.count,
      run.scans, ?_, ?_⟩
    · intro d v hvl hvt hvn hva
      simp only [substVar, hvl, hvt, and_self, if_true]
      rw [hmemo v hvn hva]
    · unfold unresolvedCount
      exact countP_keeps_lt run.res.vertices i fv fv2 hget hget2 hnone (by rw [hfv2]; rfl)
    · intro hall
      have hone : unresolvedCount s = unresolvedCount s2 + 1 := by
        unfold unresolvedCount
        refine countP_keeps_one run.res.vertices i fv fv2 hget hget2 hnone
          (by rw [hfv2]; rfl) ?_
        intro j fvj fvj2 hgj hgj2 hnj hsj
        obtain ⟨v, hv, hvt, x, hx⟩ := run.only j fvj fvj2 hgj hgj2 hnj hsj
        obtain ⟨_, hgx, _, _⟩ := findFutureVertexPos_get _ _ _ _ _ _ hx
        simp only [Nat.sub_zero] at hgx
        rw [hgj] at hgx
        cases hgx
        have hin : findFutureVertexIn s.p_future_vertices v.varno v.varattno = some fvj := by
          rw [findFutureVertexIn_eq_pos _ _ _ 0, hx]
          rfl
        obtain ⟨hvn, hva⟩ := hall v hv hvt fvj hin hnj
        rw [hvn, hva, hp] at hx
        simp only [Option.some.injEq, Prod.mk.injEq] at hx
        exact hx.1.symm
      have hc := run.count
      have hsc := run.scans
      constructor <;> omega

/-- Witness of C11 (amended): the expressions `a.properties`, `a`, `id(a)` hold two reached
references to the unresolved future vertex `a` (the argument of `id` is skipped); the run
resolves `a` once and both references become copies of the memoized variable. -/
theorem resolve_future_vertex_once_witness :
    resolve_future_vertex_all sampleEnv sampleScopeState samplePropExprs 0 =
      .ok (samplePropResult.1, samplePropResult.2) ∧
    findFutureVertexIn sampleScopeState.p_future_vertices 1 1 =
      some { varno := 1, varattno := 1, labname := "ag_vertex", nullable := false,
             expr := none } ∧
    (reachedRefs samplePropExprs 1 1).length = 2 ∧
    ∃ (m : Var) (name : String),
      (∀ v : Var, v.varno = 1 → v.varattno = 1 → memoOf samplePropResult.2 v = some m) ∧
      sampleScopeState.p_rtable.length < m.varno ∧ m.varattno = 1 ∧ m.vartype = .VERTEXOID ∧
      m.varlevelsup = 0 ∧
      getRTE samplePropResult.2 m.varno =
        some { rtekind := .RTE_SUBQUERY, aliasname := name, cols := [(name, .VERTEXOID)] } ∧
      samplePropResult.1 = samplePropExprs.map (substFutureRefs (memoOf samplePropResult.2) 0) ∧
      (∀ (d : Nat) (v : Var), v.varlevelsup = d → v.vartype = .VERTEXOID → v.varno = 1 →
        v.varattno = 1 →
        substVar (memoOf samplePropResult.2) d v = .Var { m with varlevelsup := d }) ∧
      samplePropResult.2.p_rtable.length + 2 * unresolvedCount samplePropResult.2 =
        sampleScopeState.p_rtable.length + 2 * unresolvedCount sampleScopeState ∧
      subqueryCount samplePropResult.2 + unresolvedCount samplePropResult.2 =
        subqueryCount sampleScopeState + unresolvedCount sampleScopeState ∧
      unresolvedCount samplePropResult.2 < unresolvedCount sampleScopeState ∧
      ((∀ v ∈ (samplePropExprs.map (reachedVars 0)).flatten, v.vartype = .VERTEXOID →
          ∀ fv2, findFutureVertexIn sampleScopeState.p_future_vertices v.varno v.varattno =
            some fv2 →
          fv2.expr = none → v.varno = 1 ∧ v.varattno = 1) →
        samplePropResult.2.p_rtable.length = sampleScopeState.p_rtable.length + 2 ∧
        subqueryCount samplePropResult.2 = subqueryCount sampleScopeState + 1) :=
  ⟨rfl, rfl, rfl,
   resolve_future_vertex_once sampleEnv sampleScopeState samplePropExprs samplePropResult.1
     samplePropResult.2 1 1
     { varno := 1, varattno := 1, labname := "ag_vertex", nullable := false, expr := none }
     rfl rfl rfl (by decide)⟩

/-! ## Theorems: node materialization policy -/

/-- The label and property-constraint flag `transformMatchNode` works with are those of
the node itself when it is anonymous and those of its unified record otherwise. -/
theorem matchNodeLabel_spec (env : Env) (pstate : ParseState) (cnode : CypherNode)
    (labname : String) (prop_constr : Bool)
    (h : matchNodeLabel env pstate cnode = .ok (labname, prop_constr)) :
    (cnode.varname = none →
      labname = cnode.label.getD env.AG_VERTEX ∧ prop_constr = cnode.prop_map.isSome) ∧
    (∀ v, cnode.varname = some v → ∃ ni, findNodeInfo pstate.p_node_info_list v = some ni ∧
      labname = ni.labname.getD env.AG_VERTEX ∧ prop_constr = ni.prop_constr) := by
  unfold matchNodeLabel at h
  cases hv : cnode.varname with
  | none =>
    simp only [hv, Except.ok.injEq, Prod.mk.injEq] at h
    exact ⟨fun _ => ⟨h.1.symm, h.2.symm⟩, fun v hv2 => by cases hv2⟩
  | some v =>
    simp only [hv] at h
    refine ⟨fun hv2 => (by cases hv2), ?_⟩
    intro w hw
    cases hw
    cases hni : findNodeInfo pstate.p_node_info_list v with
    | none => rw [hni] at h; cases h
    | some ni =>
      rw [hni] at h
      simp only [Except.ok.injEq, Prod.mk.injEq] at h
      exact ⟨ni, rfl, h.1.symm, h.2.symm⟩

/-- For a node whose variable is not bound, `transformMatchNode` is the scan when the
label is not the wildcard, a property constraint exists or the caller forces it, and the
placeholder or future vertex otherwise. -/
theorem transformMatchNode_unbound (env : Env) (pstate : ParseState) (cnode : CypherNode)
    (force : Bool) (targetList : List TargetEntry) (labname : String) (prop_constr : Bool)
    (htl : findTarget targetList cnode.varname = none)
    (hcol : ∀ v, cnode.varname = some v → env.colNameToVar v = none)
    (hlab : matchNodeLabel env pstate cnode = .ok (labname, prop_constr)) :
    transformMatchNode env pstate cnode force targetList =
      if labname ≠ env.AG_VERTEX ∨ prop_constr = true ∨ force = true then
        transformMatchNodeScan env pstate cnode targetList labname prop_constr
      else
        match cnode.varname with
        | none => .ok (.null, pstate, targetList)
        | some varname =>
          .ok (transformMatchNodeFuture pstate targetList varname labname) := by
  unfold transformMatchNode
  rw [htl]
  have hb : cnode.varname.bind
      (fun varname => (env.colNameToVar varname).map (fun col => (varname, col))) = none := by
    cases hv : cnode.varname with
    | none => rfl
    | some v => simp [Option.bind, hcol v hv]
  simp only [hb, hlab]

/-- The scan case adds one relation entry, the scan of the label, at the end of the
range table and returns it. -/
theorem transformMatchNodeScan_spec (env : Env) (pstate : ParseState) (cnode : CypherNode)
    (targetList : List TargetEntry) (labname : String) (prop_constr : Bool)
    (r : VertexRef × ParseState × List TargetEntry)
    (h : transformMatchNodeScan env pstate cnode targetList labname prop_constr = .ok r) :
    ∃ cols, env.catalog labname = some cols ∧
      r.1 = .rte (pstate.p_rtable.length + 1) ∧
      r.2.1.p_rtable = pstate.p_rtable ++
        [{ rtekind := .RTE_RELATION, aliasname := (makeAliasOptUnique pstate cnode.varname).1,
           cols := cols, relname := some labname }] := by
  unfold transformMatchNodeScan at h
  simp only at h
  obtain ⟨r1, h1, h⟩ := (bind_eq_ok _ _ _).mp h
  obtain ⟨ps1, h2, h⟩ := (bind_eq_ok _ _ _).mp h
  have hrt := addRTEtoJoinlist_rtable _ _ _ h2
  unfold addRangeTableEntry at h1
  cases hc : env.catalog labname with
  | none => rw [hc] at h1; cases h1
  | some cols =>
    rw [hc] at h1
    simp only [Except.ok.injEq] at h1
    subst h1
    simp only [makeAliasOptUnique_rtable] at hrt
    refine ⟨cols, rfl, ?_⟩
    split at h
    · obtain ⟨vertex, _, h⟩ := (bind_eq_ok _ _ _).mp h
      simp only [pure, Except.pure, Except.ok.injEq] at h
      subst h
      simp only [addElemQual_rtable, makeAliasOptUnique_rtable]
      exact ⟨trivial, hrt⟩
    · simp only [pure, Except.pure, Except.ok.injEq] at h
      subst h
      simp only [makeAliasOptUnique_rtable]
      exact ⟨trivial, hrt⟩

/-- After `collectNodeInfo`, a node all of whose occurrences carry neither label nor
property map is handled with the wildcard label and without property constraint. -/
theorem matchNodeLabel_of_pattern (env : Env) (pstate : ParseState)
    (pattern : List CypherPath) (cnode : CypherNode)
    (hrun : collectNodeInfo [] pattern = .ok pstate.p_node_info_list)
    (hmem : cnode ∈ patternNodes pattern)
    (hlabel : cnode.label = none) (hprop : cnode.prop_map = none)
    (hothers : ∀ v, cnode.varname = some v → ∀ n ∈ patternNodes pattern,
      n.varname = some v → n.label = none ∧ n.prop_map = none) :
    matchNodeLabel env pstate cnode = .ok (env.AG_VERTEX, false) := by
  unfold matchNodeLabel
  cases hv : cnode.varname with
  | none => simp [hlabel, hprop]
  | some v =>
    simp only
    rw [collectNodeInfo_eq] at hrun
    rcases addNodeInfoList_run (patternNodes pattern) with ⟨l1, hl1, hinv⟩ | ⟨w, hw, _⟩
    · rw [hrun] at hl1
      have hll : pstate.p_node_info_list = l1 := by injection hl1
      obtain ⟨ni, hni⟩ := hinv.found v ⟨cnode, hmem, hv⟩
      have hfor := hinv.sound v ni hni
      rw [hll, hni]
      have hlab : ni.labname = none := by
        cases hl : ni.labname with
        | none => rfl
        | some L =>
          obtain ⟨n, hn, hnv, hnl⟩ := (hfor.label_iff L).mp hl
          rw [(hothers v hv n hn hnv).1] at hnl
          cases hnl
      have hpc : ni.prop_constr = false := by
        cases hp : ni.prop_constr with
        | false => rfl
        | true =>
          obtain ⟨n, hn, hnv, hnp⟩ := hfor.prop_iff.mp hp
          rw [(hothers v hv n hn hnv).2] at hnp
          cases hnp
      simp [hlab, hpc]
    · rw [hrun] at hw
      cases hw

/-- Without force, an unbound node with the wildcard label and no property constraint
gets no range-table entry: it is the null placeholder or a new future vertex. -/
theorem transformMatchNode_not_forced (env : Env) (pstate : ParseState) (cnode : CypherNode)
    (targetList : List TargetEntry)
    (htl : findTarget targetList cnode.varname = none)
    (hcol : ∀ v, cnode.varname = some v → env.colNameToVar v = none)
    (hlab : matchNodeLabel env pstate cnode = .ok (env.AG_VERTEX, false)) :
    ∃ r, transformMatchNode env pstate cnode false targetList = .ok r ∧
      r.2.1.p_rtable = pstate.p_rtable ∧
      (cnode.varname = none → r = (.null, pstate, targetList)) ∧
      (∀ v, cnode.varname = some v →
        r.1 = .te targetList.length ∧
        r.2.2 = targetList ++ [makeTargetEntry futureVertexRow pstate.p_next_resno v false] ∧
        r.2.1.p_future_vertices = pstate.p_future_vertices ++
          [{ varno := InvalidAttrNumber, varattno := pstate.p_next_resno,
             labname := env.AG_VERTEX, nullable := pstate.p_is_optional_match,
             expr := none }]) := by
  rw [transformMatchNode_unbound env pstate cnode false targetList _ _ htl hcol hlab]
  simp only [ne_eq, not_true_eq_false, Bool.false_eq_true, or_self, if_false]
  cases hv : cnode.varname with
  | none => exact ⟨_, rfl, rfl, fun _ => rfl, fun v hv2 => by cases hv2⟩
  | some v =>
    refine ⟨_, rfl, rfl, fun hv2 => (by cases hv2), ?_⟩
    intro w hw
    cases hw
    refine ⟨?_, rfl, rfl⟩
    simp [transformMatchNodeFuture]

/-- The single node of a one-element chain is transformed with force. -/
theorem transformChain_single (env : Env) (out : Bool) (s : CompState) (cnode : CypherNode)
    (res : CompState × VertexRef)
    (h : transformChain env out s [.node cnode] = .ok res) :
    transformMatchNode env s.pstate cnode true s.targetList =
      .ok (res.2, res.1.pstate, res.1.targetList) := by
  simp only [transformChain] at h
  obtain ⟨nd, h1, h⟩ := (bind_eq_ok _ _ _).mp h
  simp only [pure, Except.pure, Except.ok.injEq] at h
  subst h
  exact h1

theorem isZeroLengthVLR_eq (crel : CypherRel) (zero : Bool)
    (h : isZeroLengthVLR crel = .ok zero) : zero = hasZeroMin crel := by
  unfold isZeroLengthVLR at h
  unfold hasZeroMin
  cases hvl : crel.varlen with
  | none =>
    simp only [hvl, Except.ok.injEq] at h
    exact h.symm
  | some indices =>
    simp only [hvl] at h
    cases hl : indices.lidx with
    | none => rw [hl] at h; cases h
    | some ival =>
      simp only [hl, Except.ok.injEq] at h
      simp only [hl]
      exact h.symm

/-- The first node of a longer chain is transformed with force exactly when its
relationship is quantified with the lower bound 0 or the path is named; the walk then
goes on with the rest of the chain. -/
theorem transformChain_first (env : Env) (out : Bool) (s : CompState) (cnode : CypherNode)
    (crel : CypherRel) (rest : List ChainElem) (res : CompState × VertexRef)
    (h : transformChain env out s (.node cnode :: .rel crel :: rest) = .ok res) :
    ∃ n s2 e, transformMatchNode env s.pstate cnode (hasZeroMin crel || out) s.targetList =
        .ok n ∧
      s2.pstate.p_rtable.length = n.2.1.p_rtable.length + 1 ∧
      transformChainRest env out s2 crel e rest = .ok res := by
  simp only [transformChain] at h
  obtain ⟨zero, h0, h⟩ := (bind_eq_ok _ _ _).mp h
  obtain ⟨nd, h1, h⟩ := (bind_eq_ok _ _ _).mp h
  obtain ⟨ps, h2, h⟩ := (bind_eq_ok _ _ _).mp h
  obtain ⟨e, h3, h⟩ := (bind_eq_ok _ _ _).mp h
  obtain ⟨q, h4, h⟩ := (bind_eq_ok _ _ _).mp h
  obtain ⟨s2, h5, h⟩ := (bind_eq_ok _ _ _).mp h
  rw [isZeroLengthVLR_eq crel zero h0] at h1
  refine ⟨nd, s2, e.1, h1, ?_, h⟩
  have hl2 := setInitialVidForVLR_rtable _ _ _ _ _ _ h2
  have hl3 := (transformMatchRel_len _ _ _ _ _ h3).2
  unfold transformEdgeTail at h5
  obtain ⟨ueids, _, h5⟩ := (bind_eq_ok _ _ _).mp h5
  obtain ⟨pv, _, h5⟩ := (bind_eq_ok _ _ _).mp h5
  simp only [pure, Except.pure, Except.ok.injEq] at h5
  subst h5
  simp only
  rw [hl3, hl2]

/-- Every later node of a chain is transformed with force exactly when the path is
named; the walk then goes on with the rest of the chain, if any. -/
theorem transformChainRest_node (env : Env) (out : Bool) (s : CompState)
    (prev_crel : CypherRel) (prev_edge : Nat) (cnode : CypherNode) (rest : List ChainElem)
    (res : CompState × VertexRef)
    (h : transformChainRest env out s prev_crel prev_edge (.node cnode :: rest) = .ok res) :
    ∃ n, transformMatchNode env s.pstate cnode out s.targetList = .ok n ∧
      ((rest = [] ∧ res.1.pstate = n.2.1) ∨
        ∃ crel rest2 s2 e, rest = .rel crel :: rest2 ∧
          s2.pstate.p_rtable.length = n.2.1.p_rtable.length + 1 ∧
          transformChainRest env out s2 crel e rest2 = .ok res) := by
  match rest with
  | [] =>
    simp only [transformChainRest] at h
    obtain ⟨nd, h1, h⟩ := (bind_eq_ok _ _ _).mp h
    obtain ⟨q, h2, h⟩ := (bind_eq_ok _ _ _).mp h
    simp only [pure, Except.pure, Except.ok.injEq] at h
    subst h
    exact ⟨nd, h1, Or.inl ⟨rfl, rfl⟩⟩
  | .node _ :: _ => simp [transformChainRest] at h
  | .rel crel :: rest2 =>
    simp only [transformChainRest] at h
    obtain ⟨nd, h1, h⟩ := (bind_eq_ok _ _ _).mp h
    obtain ⟨q, h2, h⟩ := (bind_eq_ok _ _ _).mp h
    obtain ⟨ps, h3, h⟩ := (bind_eq_ok _ _ _).mp h
    obtain ⟨e, h4, h⟩ := (bind_eq_ok _ _ _).mp h
    obtain ⟨qual, h5, h⟩ := (bind_eq_ok _ _ _).mp h
    obtain ⟨s2, h6, h⟩ := (bind_eq_ok _ _ _).mp h
    refine ⟨nd, h1, Or.inr ⟨crel, rest2, s2, e.1, rfl, ?_, h⟩⟩
    have hl3 := setInitialVidForVLR_rtable _ _ _ _ _ _ h3
    have hl4 := (transformMatchRel_len _ _ _ _ _ h4).2
    unfold transformEdgeTail at h6
    obtain ⟨ueids, _, h6⟩ := (bind_eq_ok _ _ _).mp h6
    obtain ⟨pv, _, h6⟩ := (bind_eq_ok _ _ _).mp h6
    simp only [pure, Except.pure, Except.ok.injEq] at h6
    subst h6
    simp only
    rw [hl4, hl3]

theorem isPlainNode_iff (cnode : CypherNode) :
    isPlainNode cnode = true ↔
      cnode.varname = none ∧ cnode.label = none ∧ cnode.prop_map = none := by
  unfold isPlainNode
  cases cnode.varname <;> cases cnode.label <;> cases cnode.prop_map <;> simp

/-- A purely structural node gets a range-table entry exactly when it is forced. -/
theorem transformMatchNode_plain_len (env : Env) (pstate : ParseState) (cnode : CypherNode)
    (force : Bool) (targetList : List TargetEntry)
    (r : VertexRef × ParseState × List TargetEntry) (hplain : isPlainNode cnode = true)
    (h : transformMatchNode env pstate cnode force targetList = .ok r) :
    r.2.1.p_rtable.length = pstate.p_rtable.length + (if force = true then 1 else 0) := by
  obtain ⟨hv, hl, hp⟩ := (isPlainNode_iff cnode).mp hplain
  have htl : findTarget targetList cnode.varname = none := by rw [hv]; rfl
  have hcol : ∀ v, cnode.varname = some v → env.colNameToVar v = none := by
    intro v hv2
    rw [hv] at hv2
    cases hv2
  have hlab : matchNodeLabel env pstate cnode = .ok (env.AG_VERTEX, false) := by
    unfold matchNodeLabel
    simp [hv, hl, hp]
  rw [transformMatchNode_unbound env pstate cnode force targetList _ _ htl hcol hlab] at h
  cases force with
  | true =>
    simp only [ne_eq, not_true_eq_false, Bool.false_eq_true, or_true, if_true] at h
    simp only [if_true]
    exact transformMatchNodeScan_len _ _ _ _ _ _ _ h
  | false =>
    simp only [ne_eq, not_true_eq_false, Bool.false_eq_true, or_self, if_false, hv,
      Except.ok.injEq] at h
    subst h
    simp

/-- The range-table entries added by the walk over the rest of a chain of purely
structural nodes: one for each relationship, and one for each node when the path is
named. -/
theorem transformChainRest_plain_count (env : Env) (out : Bool) :
    ∀ (n : Nat) (chain : List ChainElem), chain.length ≤ n →
      ∀ (s : CompState) (prev_crel : CypherRel) (prev_edge : Nat) (res : CompState × VertexRef),
      (∀ c ∈ chainNodes chain, isPlainNode c = true) →
      transformChainRest env out s prev_crel prev_edge chain = .ok res →
      res.1.pstate.p_rtable.length = s.pstate.p_rtable.length + (chainRels chain).length
        + (if out = true then (chainNodes chain).length else 0) := by
  intro n
  induction n with
  | zero =>
    intro chain hlen s prev_crel prev_edge res _ h
    match chain, hlen with
    | [], _ => simp [transformChainRest] at h
  | succ n ih =>
    intro chain hlen s prev_crel prev_edge res hplain h
    match chain, hlen with
    | [], _ => simp [transformChainRest] at h
    | .rel _ :: _, _ => simp [transformChainRest] at h
    | .node cnode :: rest, hlen =>
      obtain ⟨nd, h1, hrest⟩ := transformChainRest_node env out s prev_crel prev_edge cnode
        rest res h
      have hp1 : isPlainNode cnode = true := hplain cnode (by simp [chainNodes])
      have hl1 := transformMatchNode_plain_len env _ _ _ _ _ hp1 h1
      rcases hrest with ⟨hnil, hres⟩ | ⟨crel, rest2, s2, e, hr, hl2, hgo⟩
      · subst hnil
        rw [hres, hl1]
        cases out <;> simp [chainRels, chainNodes]
      · subst hr
        have hp2 : ∀ c ∈ chainNodes rest2, isPlainNode c = true := by
          intro c hc
          exact hplain c (by simp [chainNodes, hc])
        have := ih rest2 (by simp only [List.length_cons] at hlen; omega) s2 crel e res hp2 hgo
        rw [this, hl2, hl1]
        cases out <;> simp [chainRels, chainNodes] <;> omega

/-- The range-table entries added by the walk over a chain of purely structural nodes:
one for each relationship and one for each forced node. -/
theorem transformChain_plain_count (env : Env) (out : Bool) (s : CompState)
    (chain : List ChainElem) (res : CompState × VertexRef)
    (hplain : ∀ c ∈ chainNodes chain, isPlainNode c = true)
    (h : transformChain env out s chain = .ok res) :
    res.1.pstate.p_rtable.length = s.pstate.p_rtable.length + (chainRels chain).length
      + forcedNodeCount out chain := by
  match chain with
  | [] => simp [transformChain] at h
  | .rel _ :: _ => simp [transformChain] at h
  | .node _ :: .node _ :: _ => simp [transformChain] at h
  | [.node cnode] =>
    have h1 := transformChain_single env out s cnode res h
    have hp1 : isPlainNode cnode = true := hplain cnode (by simp [chainNodes])
    have hl1 := transformMatchNode_plain_len env _ _ _ _ _ hp1 h1
    simp only at hl1
    rw [hl1]
    simp [chainRels, forcedNodeCount]
  | .node cnode :: .rel crel :: rest =>
    obtain ⟨nd, s2, e, h1, hl2, hgo⟩ := transformChain_first env out s cnode crel rest res h
    have hp1 : isPlainNode cnode = true := hplain cnode (by simp [chainNodes])
    have hl1 := transformMatchNode_plain_len env _ _ _ _ _ hp1 h1
    have hp2 : ∀ c ∈ chainNodes rest, isPlainNode c = true := by
      intro c hc
      exact hplain c (by simp [chainNodes, hc])
    have := transformChainRest_plain_count env out rest.length rest (Nat.le_refl _) s2 crel e
      res hp2 hgo
    rw [this, hl2, hl1]
    cases out <;> cases hz : hasZeroMin crel <;> simp [chainRels, forcedNodeCount, hz] <;>
      omega

/-- The chain of a path is walked with `out` set exactly when the path is named. -/
theorem transformPath_out (env : Env) (s : CompState) (p : CypherPath) (res : CompState)
    (h : transformPath env s p = .ok res) :
    ∃ r0, transformChain env p.pathname.isSome
      { s with pstate := { s.pstate with p_last_edge := none }, pvs := [], pes := [] }
      p.chain = .ok r0 := by
  unfold transformPath at h
  simp only at h
  split at h
  · cases h
  · split at h
    · cases h
    · split at h
      · cases h
      · rename_i s2 vertex heq
        exact ⟨_, heq⟩

/-- Claim C17: for a node whose variable is not bound (no entry of the target list and no
visible column carries it), a successful `transformMatchNode` adds a vertex scan (one
relation entry for the label, which it returns) if and only if the unified label is not
the wildcard label, the unified record (the node itself when it is anonymous) has a
property constraint, or the caller forces it; otherwise the range table is unchanged, an
anonymous node yields the null placeholder and a named node a new future vertex.
`transformComponents` forces the single node of a one-element chain, the first node of a
longer chain when its relationship is quantified with the lower bound 0 or the path is
named, and every later node when the path is named; on a chain of purely structural
nodes the walk therefore adds one entry per relationship and one per forced node. -/
theorem transformMatchNode_materialization_policy (env : Env) (pstate : ParseState)
    (cnode : CypherNode) (force : Bool) (targetList : List TargetEntry)
    (labname : String) (prop_constr : Bool)
    (r : VertexRef × ParseState × List TargetEntry)
    (htl : findTarget targetList cnode.varname = none)
    (hcol : ∀ v, cnode.varname = some v → env.colNameToVar v = none)
    (hlab : matchNodeLabel env pstate cnode = .ok (labname, prop_constr))
    (h : transformMatchNode env pstate cnode force targetList = .ok r) :
    (cnode.varname = none →
      labname = cnode.label.getD env.AG_VERTEX ∧ prop_constr = cnode.prop_map.isSome) ∧
    (∀ v, cnode.varname = some v → ∃ ni, findNodeInfo pstate.p_node_info_list v = some ni ∧
      labname = ni.labname.getD env.AG_VERTEX ∧ prop_constr = ni.prop_constr) ∧
    (r.2.1.p_rtable.length = pstate.p_rtable.length + 1 ↔
      (labname ≠ env.AG_VERTEX ∨ prop_constr = true ∨ force = true)) ∧
    ((labname ≠ env.AG_VERTEX ∨ prop_constr = true ∨ force = true) →
      ∃ cols, env.catalog labname = some cols ∧
        r.1 = .rte (pstate.p_rtable.length + 1) ∧
        r.2.1.p_rtable = pstate.p_rtable ++
          [{ rtekind := .RTE_RELATION,
             aliasname := (makeAliasOptUnique pstate cnode.varname).1,
             cols := cols, relname := some labname }]) ∧
    (¬ (labname ≠ env.AG_VERTEX ∨ prop_constr = true ∨ force = true) →
      r.2.1.p_rtable = pstate.p_rtable ∧
      (cnode.varname = none → r = (.null, pstate, targetList)) ∧
      (∀ v, cnode.varname = some v →
        r.1 = .te targetList.length ∧
        r.2.2 = targetList ++ [makeTargetEntry futureVertexRow pstate.p_next_resno v false] ∧
        r.2.1.p_future_vertices = pstate.p_future_vertices ++
          [{ varno := InvalidAttrNumber, varattno := pstate.p_next_resno,
             labname := labname, nullable := pstate.p_is_optional_match,
             expr := none }])) ∧
    (∀ (s : CompState) (p : CypherPath) (res : CompState), transformPath env s p = .ok res →
      ∃ r0, transformChain env p.pathname.isSome
        { s with pstate := { s.pstate with p_last_edge := none }, pvs := [], pes := [] }
        p.chain = .ok r0) ∧
    (∀ (out : Bool) (s : CompState) (c : CypherNode) (res : CompState × VertexRef),
      transformChain env out s [.node c] = .ok res →
      transformMatchNode env s.pstate c true s.targetList =
        .ok (res.2, res.1.pstate, res.1.targetList)) ∧
    (∀ (out : Bool) (s : CompState) (c : CypherNode) (crel : CypherRel)
      (rest : List ChainElem) (res : CompState × VertexRef),
      transformChain env out s (.node c :: .rel crel :: rest) = .ok res →
      ∃ n s2 e, transformMatchNode env s.pstate c (hasZeroMin crel || out) s.targetList =
          .ok n ∧
        s2.pstate.p_rtable.length = n.2.1.p_rtable.length + 1 ∧
        transformChainRest env out s2 crel e rest = .ok res) ∧
    (∀ (out : Bool) (s : CompState) (prev_crel : CypherRel) (prev_edge : Nat)
      (c : CypherNode) (rest : List ChainElem) (res : CompState × VertexRef),
      transformChainRest env out s prev_crel prev_edge (.node c :: rest) = .ok res →
      ∃ n, transformMatchNode env s.pstate c out s.targetList = .ok n ∧
        ((rest = [] ∧ res.1.pstate = n.2.1) ∨
          ∃ crel rest2 s2 e, rest = .rel crel :: rest2 ∧
            s2.pstate.p_rtable.length = n.2.1.p_rtable.length + 1 ∧
            transformChainRest env out s2 crel e rest2 = .ok res)) ∧
    (∀ (out : Bool) (s : CompState) (chain : List ChainElem) (res : CompState × VertexRef),
      (∀ c ∈ chainNodes chain, isPlainNode c = true) →
      transformChain env out s chain = .ok res →
      res.1.pstate.p_rtable.length = s.pstate.p_rtable.length + (chainRels chain).length
        + forcedNodeCount out chain) := by
  have hspec := matchNodeLabel_spec env pstate cnode labname prop_constr hlab
  rw [transformMatchNode_unbound env pstate cnode force targetList _ _ htl hcol hlab] at h
  refine ⟨hspec.1, hspec.2, ?_, ?_, ?_, transformPath_out env, transformChain_single env,
    transformChain_first env, transformChainRest_node env, transformChain_plain_count env⟩
  · by_cases hc : labname ≠ env.AG_VERTEX ∨ prop_constr = true ∨ force = true
    · rw [if_pos hc] at h
      exact ⟨fun _ => hc, fun _ => transformMatchNodeScan_len _ _ _ _ _ _ _ h⟩
    · rw [if_neg hc] at h
      refine ⟨fun hlen => ?_, fun hc2 => absurd hc2 hc⟩
      exfalso
      cases hv : cnode.varname with
      | none =>
        simp only [hv, Except.ok.injEq] at h
        subst h
        simp at hlen
      | some v =>
        simp only [hv, Except.ok.injEq] at h
        subst h
        simp [transformMatchNodeFuture, addFutureVertex] at hlen
  · intro hc
    rw [if_pos hc] at h
    exact transformMatchNodeScan_spec _ _ _ _ _ _ _ h
  · intro hc
    rw [if_neg hc] at h
    cases hv : cnode.varname with
    | none =>
      simp only [hv, Except.ok.injEq] at h
      subst h
      exact ⟨rfl, fun _ => rfl, fun v hv2 => by cases hv2⟩
    | some v =>
      simp only [hv, Except.ok.injEq] at h
      subst h
      refine ⟨rfl, fun hv2 => (by cases hv2), ?_⟩
      intro w hw
      cases hw
      refine ⟨?_, rfl, rfl⟩
      simp [transformMatchNodeFuture]

/-- Witness of C17: the node `(a)` of `(a)-[]->(b)`, not forced, becomes a future vertex
and the range table stays empty. -/
theorem transformMatchNode_materialization_policy_witness :
    findTarget [] sampleNodeA.varname = none ∧
    (∀ v, sampleNodeA.varname = some v → sampleEnv.colNameToVar v = none) ∧
    matchNodeLabel sampleEnv (parseStateFor [sampleUnnamedPath]) sampleNodeA =
      .ok ("ag_vertex", false) ∧
    transformMatchNode sampleEnv (parseStateFor [sampleUnnamedPath]) sampleNodeA false [] =
      .ok (transformMatchNodeFuture (parseStateFor [sampleUnnamedPath]) [] "a" "ag_vertex") ∧
    ((transformMatchNodeFuture (parseStateFor [sampleUnnamedPath]) [] "a"
        "ag_vertex").2.1.p_rtable.length = 0 + 1 ↔
      ("ag_vertex" ≠ "ag_vertex" ∨ false = true ∨ false = true)) :=
  ⟨rfl, fun _ _ => rfl, rfl, rfl,
    (transformMatchNode_materialization_policy sampleEnv (parseStateFor [sampleUnnamedPath])
      sampleNodeA false [] "ag_vertex" false _ rfl (fun _ _ => rfl) rfl rfl).2.2.1⟩

/-- Claim C16, counterexample: in the named path `p = (a)-[]->(b)` and in the path
`(a)-[*0..1]->(b)` the node `(a)` is next to a relationship, carries neither label nor
property map and its variable occurs nowhere else; compiling either pattern creates the
scan `a` of the wildcard vertex label as the first range-table entry, and in the named
path no future vertex at all. -/
theorem transformComponents_node_scan_counterexample :
    (sampleNamedPath.chain = [.node sampleNodeA, plainRel, plainNode (some "b")] ∧
      sampleZeroPath.chain =
        [.node sampleNodeA, varlenRel 0 (some 1), plainNode (some "b")]) ∧
    (sampleNodeA.label = none ∧ sampleNodeA.prop_map = none) ∧
    ((patternNodes [sampleNamedPath]).filter (fun n => decide (n.varname = some "a")) =
        [sampleNodeA] ∧
      (patternNodes [sampleZeroPath]).filter (fun n => decide (n.varname = some "a")) =
        [sampleNodeA]) ∧
    transformComponents sampleEnv (parseStateFor [sampleNamedPath]) [[sampleNamedPath]] [] =
      .ok namedPathResult ∧
    namedPathResult.2.1.p_rtable.map (fun rte => (rte.rtekind, rte.aliasname, rte.relname)) =
      [(.RTE_RELATION, "a", some "ag_vertex"), (.RTE_RELATION, "<0000000000>", some "ag_edge"),
       (.RTE_RELATION, "b", some "ag_vertex")] ∧
    namedPathResult.2.1.p_future_vertices = [] ∧
    transformComponents sampleEnv (parseStateFor [sampleZeroPath]) [[sampleZeroPath]] [] =
      .ok zeroPathResult ∧
    zeroPathResult.2.1.p_rtable.map (fun rte => (rte.rtekind, rte.aliasname, rte.relname)) =
      [(.RTE_RELATION, "a", some "ag_vertex"), (.RTE_SUBQUERY, "<0000000000>", none)] ∧
    zeroPathResult.2.1.p_future_vertices.map (fun fv => fv.varattno) = [2] :=
  ⟨⟨rfl, rfl⟩, ⟨rfl, rfl⟩, ⟨rfl, rfl⟩, rfl, rfl, rfl, rfl, rfl, rfl⟩

/-- Claim C16, amended: a node that carries neither label nor property map, whose
variable (if it has one) is carried by no other labelled or constrained occurrence of the
pattern and is bound neither in the target list nor as a visible column, gets no
range-table entry when `transformMatchNode` is called without force: the call succeeds,
leaves the range table as it is and returns the null placeholder (anonymous node) or a
new unresolved future vertex (named node). In a path without a name the walk calls
`transformMatchNode` without force for the first node of a chain of several elements,
unless its relationship is quantified with the lower bound 0, and for every later
node. -/
theorem transformMatchNode_no_scan (env : Env) (pstate : ParseState)
    (pattern : List CypherPath) (cnode : CypherNode) (targetList : List TargetEntry)
    (hrun : collectNodeInfo [] pattern = .ok pstate.p_node_info_list)
    (hmem : cnode ∈ patternNodes pattern)
    (hlabel : cnode.label = none) (hprop : cnode.prop_map = none)
    (hothers : ∀ v, cnode.varname = some v → ∀ n ∈ patternNodes pattern,
      n.varname = some v → n.label = none ∧ n.prop_map = none)
    (htl : findTarget targetList cnode.varname = none)
    (hcol : ∀ v, cnode.varname = some v → env.colNameToVar v = none) :
    (∃ r, transformMatchNode env pstate cnode false targetList = .ok r ∧
      r.2.1.p_rtable = pstate.p_rtable ∧
      (cnode.varname = none → r = (.null, pstate, targetList)) ∧
      (∀ v, cnode.varname = some v →
        r.1 = .te targetList.length ∧
        r.2.2 = targetList ++ [makeTargetEntry futureVertexRow pstate.p_next_resno v false] ∧
        r.2.1.p_future_vertices = pstate.p_future_vertices ++
          [{ varno := InvalidAttrNumber, varattno := pstate.p_next_resno,
             labname := env.AG_VERTEX, nullable := pstate.p_is_optional_match,
             expr := none }])) ∧
    (∀ (s : CompState) (p : CypherPath) (res : CompState), p.pathname = none →
      transformPath env s p = .ok res →
      ∃ r0, transformChain env false
        { s with pstate := { s.pstate with p_last_edge := none }, pvs := [], pes := [] }
        p.chain = .ok r0) ∧
    (∀ (s : CompState) (c : CypherNode) (crel : CypherRel) (rest : List ChainElem)
      (res : CompState × VertexRef), hasZeroMin crel = false →
      transformChain env false s (.node c :: .rel crel :: rest) = .ok res →
      ∃ n, transformMatchNode env s.pstate c false s.targetList = .ok n) ∧
    (∀ (s : CompState) (prev_crel : CypherRel) (prev_edge : Nat) (c : CypherNode)
      (rest : List ChainElem) (res : CompState × VertexRef),
      transformChainRest env false s prev_crel prev_edge (.node c :: rest) = .ok res →
      ∃ n, transformMatchNode env s.pstate c false s.targetList = .ok n) := by
  refine ⟨transformMatchNode_not_forced env pstate cnode targetList htl hcol
    (matchNodeLabel_of_pattern env pstate pattern cnode hrun hmem hlabel hprop hothers),
    ?_, ?_, ?_⟩
  · intro s p res hp h
    have := transformPath_out env s p res h
    rw [hp] at this
    exact this
  · intro s c crel rest res hz h
    obtain ⟨n, _, _, hn, _, _⟩ := transformChain_first env false s c crel rest res h
    rw [hz] at hn
    exact ⟨n, hn⟩
  · intro s prev_crel prev_edge c rest res h
    obtain ⟨n, hn, _⟩ := transformChainRest_node env false s prev_crel prev_edge c rest res h
    exact ⟨n, hn⟩

/-- Witness of the amended C16: the node `(a)` of the pattern `(a)-[]->(b)`. -/
theorem transformMatchNode_no_scan_witness :
    collectNodeInfo [] [sampleUnnamedPath] =
      .ok (parseStateFor [sampleUnnamedPath]).p_node_info_list ∧
    sampleNodeA ∈ patternNodes [sampleUnnamedPath] ∧
    findTarget [] sampleNodeA.varname = none ∧
    ∃ r, transformMatchNode sampleEnv (parseStateFor [sampleUnnamedPath]) sampleNodeA false
        [] = .ok r ∧
      r.2.1.p_rtable = (parseStateFor [sampleUnnamedPath]).p_rtable ∧
      (sampleNodeA.varname = none → r = (.null, parseStateFor [sampleUnnamedPath], [])) ∧
      (∀ v, sampleNodeA.varname = some v →
        r.1 = .te ([] : List TargetEntry).length ∧
        r.2.2 = [] ++ [makeTargetEntry futureVertexRow
          (parseStateFor [sampleUnnamedPath]).p_next_resno v false] ∧
        r.2.1.p_future_vertices = (parseStateFor [sampleUnnamedPath]).p_future_vertices ++
          [{ varno := InvalidAttrNumber,
             varattno := (parseStateFor [sampleUnnamedPath]).p_next_resno,
             labname := sampleEnv.AG_VERTEX,
             nullable := (parseStateFor [sampleUnnamedPath]).p_is_optional_match,
             expr := none }]) :=
  ⟨rfl, List.mem_cons_self _ _, rfl,
    (transformMatchNode_no_scan sampleEnv (parseStateFor [sampleUnnamedPath])
      [sampleUnnamedPath] sampleNodeA [] rfl (List.mem_cons_self _ _) rfl rfl
      (fun v hv n hn hnv => by
        simp only [patternNodes, sampleUnnamedPath, chainNodes, plainNode, plainRel,
          List.append_nil, List.mem_cons, List.mem_singleton, List.not_mem_nil, or_false]
          at hn
        rcases hn with hn | hn <;> subst hn <;> exact ⟨rfl, rfl⟩)
      rfl (fun _ _ => rfl)).1⟩

/-! ## Theorems: endpoint columns of a relationship -/

theorem getEdgeColname_cases (crel : CypherRel) (prev : Bool) :
    getEdgeColname crel prev =
      match crel.direction, prev with
      | .RIGHT, false => "start"
      | .RIGHT, true => "end"
      | .LEFT, false => "end"
      | .LEFT, true => "start"
      | .NONE, false => "_start"
      | .NONE, true => "_end" := by
  cases hd : crel.direction <;> cases prev <;> simp [getEdgeColname, hd] <;> rfl

theorem getEdgeColname_ne (crel : CypherRel) :
    getEdgeColname crel false ≠ getEdgeColname crel true := by
  rw [getEdgeColname_cases, getEdgeColname_cases]
  cases crel.direction <;> decide

theorem getEdgeColname_mirror (crel : CypherRel) (p : Bool) :
    getEdgeColname { crel with direction := .LEFT } p =
      getEdgeColname { crel with direction := .RIGHT } (!p) := by
  rw [getEdgeColname_cases, getEdgeColname_cases]
  cases p <;> rfl

theorem isFutureVertexExpr_te (targetList : List TargetEntry) (idx : Nat) (te : TargetEntry)
    (hte : targetList[idx]? = some te) :
    isFutureVertexExpr targetList (.te idx) = isFutureVertexRow te.expr := by
  simp [isFutureVertexExpr, hte]

/-- What a successful `addQualNodeIn` does for a fixed-length relationship. -/
theorem addQualNodeIn_equates (pstate : ParseState) (targetList : List TargetEntry)
    (qual : Option Expr) (vertex : VertexRef) (crel : CypherRel) (edge : Nat) (prev : Bool)
    (r : Option Expr × List TargetEntry) (hfixed : crel.varlen = none)
    (h : addQualNodeIn pstate targetList qual vertex crel edge prev = .ok r) :
    EquatesEndpoint pstate targetList qual vertex crel edge prev r := by
  unfold EquatesEndpoint
  have hvl : crel.varlen.isSome = false := by rw [hfixed]; rfl
  cases vertex with
  | null =>
    simp only [addQualNodeIn, Except.ok.injEq] at h
    exact h.symm
  | rte rtindex =>
    simp only [addQualNodeIn, hvl, Bool.false_eq_true, false_and, if_false] at h
    obtain ⟨id, hid, h⟩ := (bind_eq_ok _ _ _).mp h
    obtain ⟨vid, hvid, h⟩ := (bind_eq_ok _ _ _).mp h
    simp only [pure, Except.pure, Except.ok.injEq] at h
    subst h
    exact ⟨id, vid, hid, hvid, rfl, conjuncts_qualAndExpr_op _ _ _ _⟩
  | te idx =>
    simp only [addQualNodeIn, hvl, Bool.false_eq_true, false_and, if_false] at h
    cases hte : targetList[idx]? with
    | none =>
      have hf : isFutureVertexExpr targetList (.te idx) = false := by
        simp [isFutureVertexExpr, hte]
      simp only [hf, Bool.false_eq_true, if_false, hte] at h
      cases h
    | some te =>
      have hf := isFutureVertexExpr_te targetList idx te hte
      cases hrow : isFutureVertexRow te.expr with
      | true =>
        rw [hrow] at hf
        simp only [hf, if_true] at h
        obtain ⟨tl, htl, h⟩ := (bind_eq_ok _ _ _).mp h
        simp only [pure, Except.pure, Except.ok.injEq] at h
        subst h
        unfold setFutureVertexExprId at htl
        obtain ⟨vid, hvid, htl⟩ := (bind_eq_ok _ _ _).mp htl
        simp only [hte, pure, Except.pure, Except.ok.injEq] at htl
        subst htl
        refine ⟨te, vid, hte, hvid, ?_⟩
        rw [if_pos hrow]
        refine ⟨rfl, rfl, ?_⟩
        generalize te.expr = e at hrow
        unfold isFutureVertexRow at hrow
        split at hrow
        · rename_i first typ second rest cisnull ctype
          exact ⟨_, _, _, _, rfl, rfl⟩
        · cases hrow
      | false =>
        rw [hrow] at hf
        simp only [hf, Bool.false_eq_true, if_false, hte] at h
        obtain ⟨id, hid, h⟩ := (bind_eq_ok _ _ _).mp h
        obtain ⟨vid, hvid, h⟩ := (bind_eq_ok _ _ _).mp h
        simp only [pure, Except.pure, Except.ok.injEq] at h
        subst h
        refine ⟨te, vid, hte, hvid, ?_⟩
        rw [if_neg (by rw [hrow]; exact Bool.false_ne_true)]
        exact ⟨id, hid, rfl, conjuncts_qualAndExpr_op _ _ _ _⟩

/-- The end of an iteration leaves the qual, the target list and the range table as they
are. -/
theorem transformEdgeTail_same (out : Bool) (s s2 : CompState) (vertex : VertexRef)
    (crel : CypherRel) (edge : Nat) (h : transformEdgeTail out s vertex crel edge = .ok s2) :
    s2.qual = s.qual ∧ s2.targetList = s.targetList ∧
      s2.pstate.p_rtable = s.pstate.p_rtable := by
  unfold transformEdgeTail at h
  obtain ⟨ueids, _, h⟩ := (bind_eq_ok _ _ _).mp h
  obtain ⟨pv, _, h⟩ := (bind_eq_ok _ _ _).mp h
  simp only [pure, Except.pure, Except.ok.injEq] at h
  subst h
  exact ⟨rfl, rfl, rfl⟩

theorem addQualRelPath_spec (pstate : ParseState) (qual : Option Expr)
    (prev_crel : CypherRel) (prev_edge : Nat) (crel : CypherRel) (edge : Nat)
    (q2 : Option Expr)
    (h : addQualRelPath pstate qual prev_crel prev_edge crel edge = .ok q2) :
    ∃ prev_vid vid,
      getColumnVar pstate prev_edge (getEdgeColname prev_crel true) = .ok prev_vid ∧
      getColumnVar pstate edge (getEdgeColname crel false) = .ok vid ∧
      conjuncts q2 = conjuncts qual ++ [.OpExpr "=" (.Var prev_vid) (.Var vid)] := by
  unfold addQualRelPath at h
  obtain ⟨prev_vid, h1, h⟩ := (bind_eq_ok _ _ _).mp h
  obtain ⟨vid, h2, h⟩ := (bind_eq_ok _ _ _).mp h
  simp only [pure, Except.pure, Except.ok.injEq] at h
  subst h
  exact ⟨prev_vid, vid, h1, h2, conjuncts_qualAndExpr_op _ _ _ _⟩

/-- The walk over the rest of a chain only appends to the conjuncts of the qual. -/
theorem transformChainRest_qual_prefix (env : Env) (out : Bool) :
    ∀ (n : Nat) (chain : List ChainElem), chain.length ≤ n →
      ∀ (s : CompState) (prev_crel : CypherRel) (prev_edge : Nat) (r : CompState × VertexRef),
      transformChainRest env out s prev_crel prev_edge chain = .ok r →
      ∃ more, conjuncts r.1.qual = conjuncts s.qual ++ more := by
  intro n
  induction n with
  | zero =>
    intro chain hlen s prev_crel prev_edge r h
    match chain, hlen with
    | [], _ => simp [transformChainRest] at h
  | succ n ih =>
    intro chain hlen s prev_crel prev_edge r h
    match chain, hlen with
    | [], _ => simp [transformChainRest] at h
    | .rel _ :: _, _ => simp [transformChainRest] at h
    | [.node cnode], _ =>
      simp only [transformChainRest] at h
      obtain ⟨nd, h1, h⟩ := (bind_eq_ok _ _ _).mp h
      obtain ⟨q, h2, h⟩ := (bind_eq_ok _ _ _).mp h
      simp only [pure, Except.pure, Except.ok.injEq] at h
      subst h
      obtain ⟨eqs, hq, _⟩ := addQualNodeIn_conjuncts _ _ _ _ _ _ _ _ h2
      exact ⟨eqs, hq⟩
    | .node _ :: .node _ :: _, _ => simp [transformChainRest] at h
    | .node cnode :: .rel crel :: rest, hlen =>
      simp only [transformChainRest] at h
      obtain ⟨nd, h1, h⟩ := (bind_eq_ok _ _ _).mp h
      obtain ⟨q, h2, h⟩ := (bind_eq_ok _ _ _).mp h
      obtain ⟨ps, h3, h⟩ := (bind_eq_ok _ _ _).mp h
      obtain ⟨e, h4, h⟩ := (bind_eq_ok _ _ _).mp h
      obtain ⟨qual, h5, h⟩ := (bind_eq_ok _ _ _).mp h
      obtain ⟨s2, h6, h⟩ := (bind_eq_ok _ _ _).mp h
      obtain ⟨eqs1, hq1, _⟩ := addQualNodeIn_conjuncts _ _ _ _ _ _ _ _ h2
      obtain ⟨eqs2, hq2, _⟩ := addQualRelPath_conjuncts _ _ _ _ _ _ _ h5
      have ht : s2.qual = qual := (transformEdgeTail_same _ _ _ _ _ _ h6).1
      obtain ⟨more, hm⟩ := ih rest (by simp only [List.length_cons] at hlen; omega) s2 crel
        e.1 r h
      refine ⟨eqs1 ++ eqs2 ++ more, ?_⟩
      rw [hm, ht, hq2, hq1]
      simp only [List.append_assoc]

/-- A relationship after a relationship: the node between them is transformed and handed
to `addQualNodeIn` with the previous relationship and `prev = true`, then the near column
of the relationship is equated with the far column of the previous one. -/
theorem transformChainRest_rel_step (env : Env) (out : Bool) (s : CompState)
    (prev_crel : CypherRel) (prev_edge : Nat) (b : CypherNode) (e : CypherRel)
    (rest : List ChainElem) (res : CompState × VertexRef)
    (h : transformChainRest env out s prev_crel prev_edge (.node b :: .rel e :: rest) =
      .ok res) :
    ∃ n q ps er qual prev_vid vid s2,
      transformMatchNode env s.pstate b out s.targetList = .ok n ∧
      addQualNodeIn n.2.1 n.2.2 s.qual n.1 prev_crel prev_edge true = .ok q ∧
      setInitialVidForVLR n.2.1 q.2 e n.1 (some (prev_crel, prev_edge)) = .ok ps ∧
      transformMatchRel env ps e q.2 = .ok er ∧
      er.1 = er.2.1.p_rtable.length ∧
      addQualRelPath er.2.1 q.1 prev_crel prev_edge e er.1 = .ok qual ∧
      getColumnVar er.2.1 prev_edge (getEdgeColname prev_crel true) = .ok prev_vid ∧
      getColumnVar er.2.1 er.1 (getEdgeColname e false) = .ok vid ∧
      conjuncts qual = conjuncts q.1 ++ [.OpExpr "=" (.Var prev_vid) (.Var vid)] ∧
      s2.qual = qual ∧
      transformChainRest env out s2 e er.1 rest = .ok res ∧
      ∃ more, conjuncts res.1.qual = conjuncts qual ++ more := by
  simp only [transformChainRest] at h
  obtain ⟨nd, h1, h⟩ := (bind_eq_ok _ _ _).mp h
  obtain ⟨q, h2, h⟩ := (bind_eq_ok _ _ _).mp h
  obtain ⟨ps, h3, h⟩ := (bind_eq_ok _ _ _).mp h
  obtain ⟨er, h4, h⟩ := (bind_eq_ok _ _ _).mp h
  obtain ⟨qual, h5, h⟩ := (bind_eq_ok _ _ _).mp h
  obtain ⟨s2, h6, h⟩ := (bind_eq_ok _ _ _).mp h
  obtain ⟨prev_vid, vid, hp, hv, hc⟩ := addQualRelPath_spec _ _ _ _ _ _ _ h5
  have ht : s2.qual = qual := (transformEdgeTail_same _ _ _ _ _ _ h6).1
  obtain ⟨more, hm⟩ := transformChainRest_qual_prefix env out rest.length rest (Nat.le_refl _)
    s2 e er.1 res h
  rw [ht] at hm
  exact ⟨nd, q, ps, er, qual, prev_vid, vid, s2, h1, h2, h3, h4,
    (transformMatchRel_len _ _ _ _ _ h4).1, h5, hp, hv, hc, ht, h, more, hm⟩

/-- The node after a fixed-length relationship is transformed and handed to
`addQualNodeIn` with that relationship and `prev = true`. -/
theorem transformChainRest_node_step (env : Env) (out : Bool) (s : CompState)
    (e : CypherRel) (edge : Nat) (b : CypherNode) (rest : List ChainElem)
    (res : CompState × VertexRef) (hfixed : e.varlen = none)
    (h : transformChainRest env out s e edge (.node b :: rest) = .ok res) :
    ∃ n q,
      transformMatchNode env s.pstate b out s.targetList = .ok n ∧
      addQualNodeIn n.2.1 n.2.2 s.qual n.1 e edge true = .ok q ∧
      EquatesEndpoint n.2.1 n.2.2 s.qual n.1 e edge true q ∧
      (rest = [] →
        res = ({ s with pstate := n.2.1, targetList := q.2, qual := q.1 }, n.1)) ∧
      ∃ more, conjuncts res.1.qual = conjuncts q.1 ++ more := by
  match rest with
  | [] =>
    simp only [transformChainRest] at h
    obtain ⟨nd, h1, h⟩ := (bind_eq_ok _ _ _).mp h
    obtain ⟨q, h2, h⟩ := (bind_eq_ok _ _ _).mp h
    simp only [pure, Except.pure, Except.ok.injEq] at h
    subst h
    exact ⟨nd, q, h1, h2, addQualNodeIn_equates _ _ _ _ _ _ _ _ hfixed h2, fun _ => rfl,
      [], by simp⟩
  | .node _ :: _ => simp [transformChainRest] at h
  | .rel crel :: rest2 =>
    obtain ⟨nd, q, ps, er, qual, prev_vid, vid, s2, h1, h2, _, _, _, _, _, _, hc, _, _,
      more, hm⟩ := transformChainRest_rel_step env out s e edge b crel rest2 res h
    refine ⟨nd, q, h1, h2, addQualNodeIn_equates _ _ _ _ _ _ _ _ hfixed h2,
      fun hr => (by cases hr), [.OpExpr "=" (.Var prev_vid) (.Var vid)] ++ more, ?_⟩
    rw [hm, hc, List.append_assoc]

/-- The first relationship of a path, when it is fixed-length: the node before it is
transformed and handed to `addQualNodeIn` with the relationship and `prev = false`. -/
theorem transformChain_first_step (env : Env) (out : Bool) (s : CompState) (a : CypherNode)
    (e : CypherRel) (rest : List ChainElem) (res : CompState × VertexRef)
    (hfixed : e.varlen = none)
    (h : transformChain env out s (.node a :: .rel e :: rest) = .ok res) :
    ∃ n ps er q s2,
      transformMatchNode env s.pstate a (hasZeroMin e || out) s.targetList = .ok n ∧
      setInitialVidForVLR n.2.1 n.2.2 e n.1 none = .ok ps ∧
      transformMatchRel env ps e n.2.2 = .ok er ∧
      er.1 = er.2.1.p_rtable.length ∧
      addQualNodeIn er.2.1 er.2.2 s.qual n.1 e er.1 false = .ok q ∧
      EquatesEndpoint er.2.1 er.2.2 s.qual n.1 e er.1 false q ∧
      s2.qual = q.1 ∧ s2.targetList = q.2 ∧
      transformChainRest env out s2 e er.1 rest = .ok res ∧
      ∃ more, conjuncts res.1.qual = conjuncts q.1 ++ more := by
  simp only [transformChain] at h
  obtain ⟨zero, h0, h⟩ := (bind_eq_ok _ _ _).mp h
  obtain ⟨nd, h1, h⟩ := (bind_eq_ok _ _ _).mp h
  obtain ⟨ps, h2, h⟩ := (bind_eq_ok _ _ _).mp h
  obtain ⟨er, h3, h⟩ := (bind_eq_ok _ _ _).mp h
  obtain ⟨q, h4, h⟩ := (bind_eq_ok _ _ _).mp h
  obtain ⟨s2, h5, h⟩ := (bind_eq_ok _ _ _).mp h
  rw [isZeroLengthVLR_eq e zero h0] at h1
  have ht := transformEdgeTail_same _ _ _ _ _ _ h5
  have hq : s2.qual = q.1 := ht.1
  have htl : s2.targetList = q.2 := ht.2.1
  obtain ⟨more, hm⟩ := transformChainRest_qual_prefix env out rest.length rest (Nat.le_refl _)
    s2 e er.1 res h
  rw [hq] at hm
  exact ⟨nd, ps, er, q, s2, h1, h2, h3, (transformMatchRel_len _ _ _ _ _ h3).1, h4,
    addQualNodeIn_equates _ _ _ _ _ _ _ _ hfixed h4, hq, htl, h, more, hm⟩

/-- The chain of a path is walked from the state on entry of the path, and the qual the
walk returns is the qual of the path. -/
theorem transformPath_chain_qual (env : Env) (s : CompState) (p : CypherPath)
    (res : CompState) (h : transformPath env s p = .ok res) :
    ∃ r0, transformChain env p.pathname.isSome
      { s with pstate := { s.pstate with p_last_edge := none }, pvs := [], pes := [] }
      p.chain = .ok r0 ∧ res.qual = r0.1.qual := by
  unfold transformPath at h
  simp only at h
  split at h
  · cases h
  · split at h
    · cases h
    · split at h
      · cases h
      · rename_i s2 vertex heq
        exact ⟨_, heq, (transformPathEnd_same _ _ _ _ h).2.2⟩

/-- Claim C18: for an unquantified relationship `crel` scanned by `edge`, a successful
`addQualNodeIn` equates the identifier of the node before the relationship
(`prev = false`) with the column `start` of the edge when the relationship points right,
`end` when it points left and `_start` when it is undirected, and the identifier of the
node after it (`prev = true`) with `end`, `start` and `_end` respectively: for a
range-table vertex or a materialized target entry the predicate `id = column` is appended
to the qual, for a future vertex the column becomes the identifier of its row. The two
columns of a relationship differ, and `getEdgeColname(left, p)` is
`getEdgeColname(right, not p)`. The walk of `transformComponents` over a chain makes
these calls for the nodes of the relationship: the node before the first relationship of
a path is handed to `addQualNodeIn` with that relationship, its scan and `prev = false`;
the node after a relationship is handed to it with that relationship, its scan and
`prev = true`; and for a relationship after another relationship the near column
(`prev = false`) of its scan is equated with the far column (`prev = true`) of the
previous scan, with which the identifier of the node between them has been equated. The
predicates of a step stay conjuncts of the qual the walk returns, which is the qual of
the path in `transformComponents`. -/
theorem addQualNodeIn_endpoint_columns (pstate : ParseState) (targetList : List TargetEntry)
    (qual : Option Expr) (vertex : VertexRef) (crel : CypherRel) (edge : Nat) (prev : Bool)
    (r : Option Expr × List TargetEntry) (hfixed : crel.varlen = none)
    (h : addQualNodeIn pstate targetList qual vertex crel edge prev = .ok r) :
    (crel.direction = .RIGHT →
      getEdgeColname crel false = "start" ∧ getEdgeColname crel true = "end") ∧
    (crel.direction = .LEFT →
      getEdgeColname crel false = "end" ∧ getEdgeColname crel true = "start") ∧
    (crel.direction = .NONE →
      getEdgeColname crel false = "_start" ∧ getEdgeColname crel true = "_end") ∧
    (match vertex with
      | .null => r = (qual, targetList)
      | .rte rtindex =>
        ∃ id vid, getColumnVar pstate rtindex AG_ELEM_LOCAL_ID = .ok id ∧
          getColumnVar pstate edge (getEdgeColname crel prev) = .ok vid ∧
          r.2 = targetList ∧
          conjuncts r.1 = conjuncts qual ++ [.OpExpr "=" (.Var id) (.Var vid)]
      | .te idx =>
        ∃ te vid, targetList[idx]? = some te ∧
          getColumnVar pstate edge (getEdgeColname crel prev) = .ok vid ∧
          if isFutureVertexRow te.expr then
            r.1 = qual ∧
            r.2 = targetList.set idx { te with expr := setRowId te.expr (.Var vid) } ∧
            ∃ first second rest typ, te.expr = .RowExpr (first :: second :: rest) typ ∧
              setRowId te.expr (.Var vid) = .RowExpr [.Var vid, second] typ
          else
            ∃ id, getExprField te.expr AG_ELEM_ID = .ok id ∧ r.2 = targetList ∧
              conjuncts r.1 = conjuncts qual ++ [.OpExpr "=" id (.Var vid)]) ∧
    getEdgeColname crel false ≠ getEdgeColname crel true ∧
    (∀ p, getEdgeColname { crel with direction := .LEFT } p =
      getEdgeColname { crel with direction := .RIGHT } (!p)) ∧
    (∀ (env : Env) (out : Bool) (s : CompState) (a : CypherNode) (e : CypherRel)
      (rest : List ChainElem) (res : CompState × VertexRef),
      e.varlen = none →
      transformChain env out s (.node a :: .rel e :: rest) = .ok res →
      ∃ n ps er q s2,
        transformMatchNode env s.pstate a (hasZeroMin e || out) s.targetList = .ok n ∧
        setInitialVidForVLR n.2.1 n.2.2 e n.1 none = .ok ps ∧
        transformMatchRel env ps e n.2.2 = .ok er ∧
        er.1 = er.2.1.p_rtable.length ∧
        addQualNodeIn er.2.1 er.2.2 s.qual n.1 e er.1 false = .ok q ∧
        EquatesEndpoint er.2.1 er.2.2 s.qual n.1 e er.1 false q ∧
        s2.qual = q.1 ∧ s2.targetList = q.2 ∧
        transformChainRest env out s2 e er.1 rest = .ok res ∧
        ∃ more, conjuncts res.1.qual = conjuncts q.1 ++ more) ∧
    (∀ (env : Env) (out : Bool) (s : CompState) (e : CypherRel) (eidx : Nat)
      (b : CypherNode) (rest : List ChainElem) (res : CompState × VertexRef),
      e.varlen = none →
      transformChainRest env out s e eidx (.node b :: rest) = .ok res →
      ∃ n q,
        transformMatchNode env s.pstate b out s.targetList = .ok n ∧
        addQualNodeIn n.2.1 n.2.2 s.qual n.1 e eidx true = .ok q ∧
        EquatesEndpoint n.2.1 n.2.2 s.qual n.1 e eidx true q ∧
        (rest = [] →
          res = ({ s with pstate := n.2.1, targetList := q.2, qual := q.1 }, n.1)) ∧
        ∃ more, conjuncts res.1.qual = conjuncts q.1 ++ more) ∧
    (∀ (env : Env) (out : Bool) (s : CompState) (prev_crel : CypherRel) (prev_edge : Nat)
      (b : CypherNode) (e : CypherRel) (rest : List ChainElem) (res : CompState × VertexRef),
      transformChainRest env out s prev_crel prev_edge (.node b :: .rel e :: rest) =
        .ok res →
      ∃ n q ps er qual2 prev_vid vid s2,
        transformMatchNode env s.pstate b out s.targetList = .ok n ∧
        addQualNodeIn n.2.1 n.2.2 s.qual n.1 prev_crel prev_edge true = .ok q ∧
        setInitialVidForVLR n.2.1 q.2 e n.1 (some (prev_crel, prev_edge)) = .ok ps ∧
        transformMatchRel env ps e q.2 = .ok er ∧
        er.1 = er.2.1.p_rtable.length ∧
        addQualRelPath er.2.1 q.1 prev_crel prev_edge e er.1 = .ok qual2 ∧
        getColumnVar er.2.1 prev_edge (getEdgeColname prev_crel true) = .ok prev_vid ∧
        getColumnVar er.2.1 er.1 (getEdgeColname e false) = .ok vid ∧
        conjuncts qual2 = conjuncts q.1 ++ [.OpExpr "=" (.Var prev_vid) (.Var vid)] ∧
        s2.qual = qual2 ∧
        transformChainRest env out s2 e er.1 rest = .ok res ∧
        ∃ more, conjuncts res.1.qual = conjuncts qual2 ++ more) ∧
    (∀ (env : Env) (s : CompState) (p : CypherPath) (res : CompState),
      transformPath env s p = .ok res →
      ∃ r0, transformChain env p.pathname.isSome
        { s with pstate := { s.pstate with p_last_edge := none }, pvs := [], pes := [] }
        p.chain = .ok r0 ∧ res.qual = r0.1.qual) := by
  refine ⟨?_, ?_, ?_, ?_, getEdgeColname_ne crel, getEdgeColname_mirror crel, ?_, ?_, ?_,
    ?_⟩
  · intro hd
    rw [getEdgeColname_cases, getEdgeColname_cases, hd]
    exact ⟨rfl, rfl⟩
  · intro hd
    rw [getEdgeColname_cases, getEdgeColname_cases, hd]
    exact ⟨rfl, rfl⟩
  · intro hd
    rw [getEdgeColname_cases, getEdgeColname_cases, hd]
    exact ⟨rfl, rfl⟩
  · have hall := addQualNodeIn_equates pstate targetList qual vertex crel edge prev r hfixed h
    unfold EquatesEndpoint at hall
    cases vertex <;> exact hall
  · intro env out s a e rest res he hrun
    exact transformChain_first_step env out s a e rest res he hrun
  · intro env out s e eidx b rest res he hrun
    exact transformChainRest_node_step env out s e eidx b rest res he hrun
  · intro env out s prev_crel prev_edge b e rest res hrun
    exact transformChainRest_rel_step env out s prev_crel prev_edge b e rest res hrun
  · intro env s p res hrun
    exact transformPath_chain_qual env s p res hrun

/-- Witness of C18: the future vertex `a` before the relationship `-[e:knows]->` gets the
column `start` of the relationship as its identifier. In the chains
`(a)-[e:knows]->(b)`, `(a)<-[e:knows]-(b)` and `(a)-[e:knows]-(b)` the walk hands `a` to
`addQualNodeIn` with `prev = false` and leaves `a` with the column `start` (2), `end` (3)
and `_start` (7) of the scan 1 of `e` as its identifier and `b` with `end` (3),
`start` (2) and `_end` (8); in `(a:person)-[e:knows]->(b:person)-[f:knows]->(c:person)`
it returns the conjuncts `a.id = e.start`, `b.id = e.end`, `e.end = f.start`,
`c.id = f.end`. -/
theorem addQualNodeIn_endpoint_columns_witness :
    sampleNamedRel.varlen = none ∧
    addQualNodeIn sampleEdgeState sampleFutureTargetList none (.te 0) sampleNamedRel 1 false =
      .ok (none,
        [makeTargetEntry
          (.RowExpr [.Var { varno := 1, varattno := 2, vartype := .GRAPHIDOID, varlevelsup := 0 },
            .Const .JSONBOID true] .VERTEXOID) 1 "a" false]) ∧
    getEdgeColname sampleNamedRel false = "start" ∧
    getEdgeColname sampleNamedRel true = "end" ∧
    (sampleEndpointRel .RIGHT).varlen = none ∧
    transformChain sampleEnv false (sampleEndpointStart .RIGHT)
      (.node (endpointNode "a") :: .rel (sampleEndpointRel .RIGHT) ::
        [.node (endpointNode "b")]) = .ok (sampleEndpointResult .RIGHT) ∧
    (∃ n ps er q s2,
      transformMatchNode sampleEnv (sampleEndpointStart .RIGHT).pstate (endpointNode "a")
        (hasZeroMin (sampleEndpointRel .RIGHT) || false)
        (sampleEndpointStart .RIGHT).targetList = .ok n ∧
      setInitialVidForVLR n.2.1 n.2.2 (sampleEndpointRel .RIGHT) n.1 none = .ok ps ∧
      transformMatchRel sampleEnv ps (sampleEndpointRel .RIGHT) n.2.2 = .ok er ∧
      er.1 = er.2.1.p_rtable.length ∧
      addQualNodeIn er.2.1 er.2.2 (sampleEndpointStart .RIGHT).qual n.1
        (sampleEndpointRel .RIGHT) er.1 false = .ok q ∧
      EquatesEndpoint er.2.1 er.2.2 (sampleEndpointStart .RIGHT).qual n.1
        (sampleEndpointRel .RIGHT) er.1 false q ∧
      s2.qual = q.1 ∧ s2.targetList = q.2 ∧
      transformChainRest sampleEnv false s2 (sampleEndpointRel .RIGHT) er.1
        [.node (endpointNode "b")] = .ok (sampleEndpointResult .RIGHT) ∧
      ∃ more, conjuncts (sampleEndpointResult .RIGHT).1.qual = conjuncts q.1 ++ more) ∧
    targetExpr (sampleEndpointResult .RIGHT).1.targetList "a" = some (futureVertexWithId 1 2) ∧
    targetExpr (sampleEndpointResult .RIGHT).1.targetList "b" = some (futureVertexWithId 1 3) ∧
    targetExpr (sampleEndpointResult .LEFT).1.targetList "a" = some (futureVertexWithId 1 3) ∧
    targetExpr (sampleEndpointResult .LEFT).1.targetList "b" = some (futureVertexWithId 1 2) ∧
    targetExpr (sampleEndpointResult .NONE).1.targetList "a" = some (futureVertexWithId 1 7) ∧
    targetExpr (sampleEndpointResult .NONE).1.targetList "b" = some (futureVertexWithId 1 8) ∧
    conjuncts sampleLabelledResult.1.qual =
      [.OpExpr "=" (edgeIdColumn 1 1) (edgeIdColumn 2 2),
       .OpExpr "=" (edgeIdColumn 3 1) (edgeIdColumn 2 3),
       .OpExpr "=" (edgeIdColumn 2 3) (edgeIdColumn 4 2),
       .OpExpr "=" (edgeIdColumn 5 1) (edgeIdColumn 4 3)] := by
  have hall := addQualNodeIn_endpoint_columns sampleEdgeState sampleFutureTargetList none
    (.te 0) sampleNamedRel 1 false _ rfl rfl
  exact ⟨rfl, rfl, (hall.1 rfl).1, (hall.1 rfl).2, rfl, rfl,
    hall.2.2.2.2.2.2.1 sampleEnv false (sampleEndpointStart .RIGHT) (endpointNode "a")
      (sampleEndpointRel .RIGHT) [.node (endpointNode "b")] (sampleEndpointResult .RIGHT)
      rfl rfl,
    rfl, rfl, rfl, rfl, rfl, rfl, rfl⟩

/-! ## Theorems: a node variable at two positions -/

/-- Claim C19, the code at the failing inputs. In `(a)-[]->(b)-[]->(a)` the variable `a`
stays a future vertex; its second occurrence overwrites the identifier of its row (the
column `start` of the first relationship) with the column `end` of the second
relationship, and the predicate returned by `transformComponents` consists of
`e1.end = e2.start` and `e1.id <> e2.id` only: it holds for the two relationship rows
`1 -> 2`, `2 -> 3`, whose endpoints at the two occurrences of `a` differ. In
`(a)-[]->(b), (b)-[]->(c)` the identifier of `b` is overwritten likewise and the predicate
is `e1.id <> e2.id` only: it holds for two relationship rows that do not meet. -/
theorem transformComponents_shared_variable_unlinked :
    transformComponents sampleEnv (parseStateFor sampleCyclePattern)
      (makeComponents id sampleCyclePattern) [] = .ok cycleResult ∧
    conjuncts cycleResult.1 =
      [.OpExpr "=" (.Var (idColumn 1 3)) (.Var (idColumn 2 2)),
       .OpExpr "<>" (.Var (idColumn 1 1)) (.Var (idColumn 2 1))] ∧
    cycleResult.2.2.map (fun te => (te.resname, te.expr)) =
      [("a", .RowExpr [.Var (idColumn 2 3), .Const .JSONBOID true] .VERTEXOID),
       ("b", .RowExpr [.Var (idColumn 1 3), .Const .JSONBOID true] .VERTEXOID)] ∧
    satisfiedBy openPathAssignment cycleResult.1 = true ∧
    openPathAssignment (idColumn 1 2) ≠ openPathAssignment (idColumn 2 3) ∧
    transformComponents sampleEnv (parseStateFor sampleSharedPattern)
      (makeComponents id sampleSharedPattern) [] = .ok sharedResult ∧
    conjuncts sharedResult.1 =
      [.OpExpr "<>" (.Var (idColumn 1 1)) (.Var (idColumn 2 1))] ∧
    sharedResult.2.2.map (fun te => (te.resname, te.expr)) =
      [("a", .RowExpr [.Var (idColumn 1 2), .Const .JSONBOID true] .VERTEXOID),
       ("b", .RowExpr [.Var (idColumn 2 2), .Const .JSONBOID true] .VERTEXOID),
       ("c", .RowExpr [.Var (idColumn 2 3), .Const .JSONBOID true] .VERTEXOID)] ∧
    satisfiedBy apartAssignment sharedResult.1 = true ∧
    apartAssignment (idColumn 1 3) ≠ apartAssignment (idColumn 2 2) :=
  ⟨rfl, rfl, rfl, rfl, by decide, rfl, rfl, rfl, rfl, by decide⟩

/-! ## Theorems: future vertices across clauses -/

/-- Claim C20, the code at the failing input: the clause `WITH b, a` after
`MATCH (a)-[]->(b)` exports the two future vertices in swapped order, and is wrapped as
the subquery 1 of the next clause. `adjustFutureVertices` rebinds both future vertices to
the output column 2: the vertex `b`, whose former column (1, 2) is exported as column 1,
is first rebound to (1, 1), then matched again by the second target entry, a reference
to (1, 1), and rebound to column 2, which exports the former column (1, 1) of `a`. No
future vertex is left for the output column 1. -/
theorem adjustFutureVertices_swapped_columns :
    transformClauseImpl emptyParseState swappedClause CYPHER_SUBQUERY_ALIAS =
      .ok (1,
        { emptyParseState with
          p_rtable := [{ rtekind := .RTE_SUBQUERY, aliasname := "_",
                         cols := [("b", .VERTEXOID), ("a", .VERTEXOID)] }]
          p_future_vertices :=
            [{ varno := 1, varattno := 2, labname := "ag_vertex", nullable := false,
               expr := none },
             { varno := 1, varattno := 2, labname := "ag_vertex", nullable := false,
               expr := none }] }) ∧
    (swappedClause.targetList.map (fun te => (te.resno, te.resname, te.expr)) =
      [(1, "b", .Var (vertexColumn 1 2)), (2, "a", .Var (vertexColumn 1 1))]) ∧
    (adjustFutureVerticesLoop swappedClause.p_future_vertices swappedClause.targetList 1).map
        (fun fv => (fv.varno, fv.varattno)) = [(1, 2), (1, 2)] ∧
    adjustFutureVertexIn swappedClause.targetList 1
        { varno := 1, varattno := 2, labname := "ag_vertex", nullable := false, expr := none }
        false =
      ({ varno := 1, varattno := 2, labname := "ag_vertex", nullable := false, expr := none },
        true) ∧
    findFutureVertexIn
      (adjustFutureVerticesLoop swappedClause.p_future_vertices swappedClause.targetList 1)
      1 1 = none :=
  ⟨rfl, rfl, rfl, rfl, rfl⟩

/-! ## Theorems: the statement generated for a quantified relationship -/

theorem evalSelect_leaf (db : Db) (outer : List Col) (ctes : List (String × Rel))
    (d : List RawNode) (t : List ResTarget) (f : List FromItem) (w : Option RawNode)
    (wc : Option WithClause) (a : Bool) (l r : Option SelectStmt) :
    evalSelect db outer ctes (.mk d t f w [] wc .SETOP_NONE a l r) =
      projectRows db outer d t (sourceRows db outer ctes (.mk d t f w [] wc .SETOP_NONE a l r)) := by
  rfl

theorem evalCte_recursive (db : Db) (outer : List Col) (ctes : List (String × Rel))
    (ctename : String) (cols : List String) (d : List RawNode) (t : List ResTarget)
    (f : List FromItem) (w : Option RawNode) (v : List (List (Option RawNode)))
    (wc : Option WithClause) (a : Bool) (l r : SelectStmt) (maxdepth : Int)
    (hcols : cols ≠ []) :
    evalCte db outer ctes true
      (.mk ctename cols (.mk d t f w v wc .SETOP_UNION a (some l) (some r)) maxdepth) =
      (ctename,
        { cols := cols,
          rows := recursiveUnion
            (fun level =>
              evalSelect db outer ((ctename, { cols := cols, rows := level }) :: ctes) r)
            (levelCount db maxdepth) (evalSelect db outer ctes l) }) := by
  simp only [evalCte, if_neg hcols]

theorem firstPerKey_mem (ps : List (List Value × List Value)) :
    ∀ (seen : List (List Value)) (r : List Value), r ∈ firstPerKey seen ps →
      ∃ k, (k, r) ∈ ps := by
  induction ps with
  | nil => intro seen r h; simp [firstPerKey] at h
  | cons p rest ih =>
    intro seen r h
    obtain ⟨key, row⟩ := p
    unfold firstPerKey at h
    by_cases hk : key ∈ seen
    · rw [if_pos hk] at h
      obtain ⟨k, hk2⟩ := ih seen r h
      exact ⟨k, List.mem_cons_of_mem _ hk2⟩
    · rw [if_neg hk] at h
      rcases List.mem_cons.mp h with h1 | h1
      · exact ⟨key, by rw [h1]; exact List.mem_cons_self _ _⟩
      · obtain ⟨k, hk2⟩ := ih (key :: seen) r h1
        exact ⟨k, List.mem_cons_of_mem _ hk2⟩

theorem mem_projectRows (db : Db) (outer : List Col) (d : List RawNode) (t : List ResTarget)
    (src : List (List Col)) (horder : ∀ rows p, p ∈ db.order rows → p ∈ rows)
    (out : List Value) (h : out ∈ projectRows db outer d t src) :
    ∃ row ∈ src, out = t.map (fun x => evalRaw db (row ++ outer) x.val) := by
  unfold projectRows at h
  cases d with
  | nil =>
    simp only [List.map_map, List.mem_map, Function.comp] at h
    obtain ⟨row, hrow, hout⟩ := h
    exact ⟨row, hrow, hout.symm⟩
  | cons x rest =>
    simp only at h
    obtain ⟨k, hk⟩ := firstPerKey_mem _ _ _ h
    have := horder _ _ hk
    simp only [List.map_map, List.mem_map, Function.comp, Prod.mk.injEq] at this
    obtain ⟨row, hrow, _, hout⟩ := this
    exact ⟨row, hrow, hout.symm⟩

theorem recursiveUnion_levels (P : Nat → List Value → Prop)
    (step : List (List Value) → List (List Value))
    (hstep : ∀ k w, (∀ r ∈ w, P k r) → ∀ r ∈ step w, P (k + 1) r) :
    ∀ (n k : Nat) (w : List (List Value)), (∀ r ∈ w, P k r) →
      ∀ r ∈ recursiveUnion step n w, ∃ j, k ≤ j ∧ j < k + n ∧ P j r := by
  intro n
  induction n with
  | zero => intro k w _ r h; simp [recursiveUnion] at h
  | succ n ih =>
    intro k w hw r h
    unfold recursiveUnion at h
    rcases List.mem_append.mp h with h1 | h1
    · exact ⟨k, Nat.le_refl k, by omega, hw r h1⟩
    · obtain ⟨j, hj1, hj2, hj3⟩ := ih (k + 1) (step w) (hstep k w hw) r h1
      exact ⟨j, by omega, by omega, hj3⟩

theorem crossRows_single (a : List (List Col)) : crossRows a [[]] = a := by
  induction a with
  | nil => rfl
  | cons x rest ih =>
    unfold crossRows at ih ⊢
    simp only [List.map_cons, List.map_nil, List.append_nil, List.flatten_cons,
      List.singleton_append, List.cons.injEq, true_and] at ih ⊢
    exact ih

theorem lookupCol_edgeRow (q : String) (e : EdgeRow) (rest : List Col) :
    lookupCol (edgeRowCols q e ++ rest) ["tableoid"] = .other e.tableoid ∧
    lookupCol (edgeRowCols q e ++ rest) ["ctid"] = .other e.ctid ∧
    lookupCol (edgeRowCols q e ++ rest) [AG_ELEM_LOCAL_ID] = .int e.id ∧
    lookupCol (edgeRowCols q e ++ rest) [AG_ELEM_PROP_MAP] = .other e.properties ∧
    lookupCol (edgeRowCols q e ++ rest) [AG_START_ID] = .int e.start ∧
    lookupCol (edgeRowCols q e ++ rest) [AG_END_ID] = .int e.end_id := by
  simp [lookupCol, edgeRowCols, AG_ELEM_LOCAL_ID, AG_ELEM_PROP_MAP, AG_START_ID, AG_END_ID,
    List.find?]

theorem evalFrom_rangeVar_edges (db : Db) (outer : List Col) (ctes : List (String × Rel))
    (s relname : String) (inh : InhOption) (al : Option String) :
    evalFrom db outer ctes (.RangeVar (some s) relname inh al) =
      (db.edges (some s) relname).map (edgeRowCols (al.getD relname)) := by
  simp [evalFrom]

theorem evalFrom_edgeUnion (env : Env) (db : Db) (outer : List Col)
    (ctes : List (String × Rel)) (typname aliasname : String) :
    ∀ row ∈ evalFrom db outer ctes ((genEdgeUnionVLR env typname).setAlias aliasname),
      ∃ e, row = edgeRowCols aliasname e := by
  intro row h
  simp only [genEdgeUnionVLR, FromItem.setAlias, evalFrom, evalSelect, evalSelectOpt,
    Option.getD_some, if_true, selectNames, selectNamesOpt, sourceRows, projectRows,
    evalFromList, evalWith, whereHolds, List.filter_true, crossRows_single,
    Option.isNone_some, Bool.false_eq_true, if_false, List.map_map, List.map_append,
    List.mem_append, List.mem_map, Function.comp, makeSimpleResTarget, makeResTarget,
    List.map_cons, List.map_nil, evalRaw, Option.getD_none, figureColname,
    List.getLast?_singleton] at h
  rcases h with ⟨e, _, h⟩ | ⟨e, _, h⟩
  · obtain ⟨h1, h2, h3, h4, h5, h6⟩ := lookupCol_edgeRow typname e outer
    rw [h1, h2, h3, h4, h5, h6] at h
    exact ⟨e, h.symm⟩
  · obtain ⟨h1, h2, h3, h4, h5, h6⟩ := lookupCol_edgeRow typname e outer
    rw [h1, h2, h3, h4, h5, h6] at h
    exact ⟨{ e with start := e.end_id, end_id := e.start }, h.symm⟩

theorem mem_projectRows_all (db : Db) (outer : List Col) (t : List ResTarget)
    (src : List (List Col)) (out : List Value) (h : out ∈ projectRows db outer [] t src) :
    ∃ row ∈ src, out = t.map (fun x => evalRaw db (row ++ outer) x.val) := by
  unfold projectRows at h
  simp only [List.map_map, List.mem_map, Function.comp] at h
  obtain ⟨row, hrow, hout⟩ := h
  exact ⟨row, hrow, hout.symm⟩

theorem lookupCol_levelRow (pstate : ParseState) (q : String) (n : Nat) (r : List Value)
    (rest : List Col) (h : LevelRow pstate.p_last_edge.isSome n r) :
    ∃ xs : List Int, xs.length = n ∧ xs.Nodup ∧
      lookupCol (qualify q (vlrAliasColnames pstate) r ++ rest) [VLR_COLNAME_LEVEL] = .int n ∧
      lookupCol (qualify q (vlrAliasColnames pstate) r ++ rest) [VLR_COLNAME_PATH] = .arr xs := by
  obtain ⟨e, s, xs, hlen, hnd, hr⟩ := h
  refine ⟨xs, hlen, hnd, ?_⟩
  subst hr
  cases hso : pstate.p_last_edge.isSome <;>
    simp [lookupCol, qualify, vlrAliasColnames, VLR_COLNAME_LEVEL, VLR_COLNAME_PATH,
      VLR_COLNAME_END, VLR_COLNAME_START, List.find?, hso]

theorem lookupCol_id_after_levelRow (pstate : ParseState) (q q2 : String) (r : List Value)
    (e : EdgeRow) (rest : List Col) :
    lookupCol (qualify q (vlrAliasColnames pstate) r ++ (edgeRowCols q2 e ++ rest))
      [AG_ELEM_LOCAL_ID] = .int e.id := by
  have hnone : (qualify q (vlrAliasColnames pstate) r).find?
      (fun col => col.name == AG_ELEM_LOCAL_ID) = none := by
    rw [List.find?_eq_none]
    intro col hcol
    unfold qualify at hcol
    simp only [List.mem_map] at hcol
    obtain ⟨p, hp, hcol⟩ := hcol
    have hp1 := (List.of_mem_zip hp).1
    subst hcol
    simp only [vlrAliasColnames] at hp1
    cases hso : pstate.p_last_edge.isSome <;>
      simp [VLR_COLNAME_LEVEL, VLR_COLNAME_PATH, VLR_COLNAME_END, VLR_COLNAME_START, hso]
        at hp1 <;>
      simp only [AG_ELEM_LOCAL_ID, beq_iff_eq] <;> intro hid <;> rw [hid] at hp1 <;>
      simp at hp1
  have := (lookupCol_edgeRow q2 e rest).2.2.1
  unfold lookupCol at this ⊢
  simp only [List.find?_append, hnone, Option.none_or] at this ⊢
  exact this

theorem evalFrom_edge_item (env : Env) (db : Db) (outer : List Col)
    (ctes : List (String × Rel)) (crel : CypherRel) (typname : String)
    (al : Option String) :
    ∀ row ∈ evalFrom db outer ctes
        (if crel.direction = .NONE then
          (genEdgeUnionVLR env typname).setAlias CYPHER_VLR_EDGE_ALIAS
        else FromItem.RangeVar (some env.graph_path) typname .INH_YES al),
      ∃ q e, row = edgeRowCols q e := by
  intro row h
  by_cases hd : crel.direction = .NONE
  · rw [if_pos hd] at h
    obtain ⟨e, he⟩ := evalFrom_edgeUnion env db outer ctes typname _ row h
    exact ⟨_, e, he⟩
  · rw [if_neg hd, evalFrom_rangeVar_edges] at h
    simp only [List.mem_map] at h
    obtain ⟨e, _, he⟩ := h
    exact ⟨_, e, he.symm⟩

theorem makeArray_single (i : Int) : makeArray [.int i] = .arr [i] := by
  rfl

theorem genSelectLeftVLR_level_one (env : Env) (pstate : ParseState) (crel : CypherRel)
    (db : Db) (outer : List Col) (ctes : List (String × Rel)) (larg : SelectStmt)
    (hz : isZeroLengthVLR crel = .ok false)
    (h : genSelectLeftVLR env pstate crel = .ok larg) :
    ∀ r ∈ evalSelect db outer ctes larg, LevelRow pstate.p_last_edge.isSome 1 r := by
  unfold genSelectLeftVLR at h
  simp only [hz] at h
  cases ht : getCypherRelType env crel with
  | error e => simp [ht] at h
  | ok typname =>
    simp only [ht, Except.ok.injEq] at h
    subst h
    intro r hr
    rw [evalSelect_leaf] at hr
    obtain ⟨row, hrow, hout⟩ := mem_projectRows_all _ _ _ _ _ hr
    simp only [sourceRows, evalFromList, crossRows_single, List.mem_filter] at hrow
    obtain ⟨q, e, he⟩ := evalFrom_edge_item env db outer _ crel typname none row hrow.1
    subst he
    have hid := (lookupCol_edgeRow q e outer).2.2.1
    cases hso : pstate.p_last_edge.isSome <;>
      simp only [hso, if_true, if_false, Bool.false_eq_true, List.append_nil, List.cons_append,
        List.nil_append, List.map_cons, List.map_nil, makeResTarget, makeSimpleResTarget,
        makeIntConst, evalRaw, evalRawList, hid, makeArray_single] at hout <;>
      unfold LevelRow
    · exact ⟨lookupCol (edgeRowCols q e ++ outer) [AG_END_ID], .null, [e.id], rfl,
        List.nodup_singleton _, hout⟩
    · exact ⟨lookupCol (edgeRowCols q e ++ outer) [AG_END_ID],
        lookupCol (edgeRowCols q e ++ outer) [AG_START_ID], [e.id], rfl,
        List.nodup_singleton _, hout⟩

theorem mem_crossRows (a b : List (List Col)) (row : List Col) :
    row ∈ crossRows a b ↔ ∃ x ∈ a, ∃ y ∈ b, row = x ++ y := by
  unfold crossRows
  simp only [List.mem_flatten, List.mem_map]
  constructor
  · rintro ⟨l, ⟨x, hx, rfl⟩, hrow⟩
    simp only [List.mem_map] at hrow
    obtain ⟨y, hy, rfl⟩ := hrow
    exact ⟨x, hx, y, hy, rfl⟩
  · rintro ⟨x, hx, y, hy, rfl⟩
    exact ⟨_, ⟨x, hx, rfl⟩, List.mem_map.mpr ⟨y, hy, rfl⟩⟩

theorem and3_eq_true (a b : Value) (h : and3 a b = .bool true) :
    a = .bool true ∧ b = .bool true := by
  unfold and3 at h
  by_cases h1 : a = .bool false ∨ b = .bool false
  · rw [if_pos h1] at h
    cases h
  · rw [if_neg h1] at h
    by_cases h2 : a = .bool true ∧ b = .bool true
    · exact h2
    · rw [if_neg h2] at h
      cases h

theorem arrayPosition_null (xs : List Int) (i : Int) (h : arrayPosition xs i = .null) :
    i ∉ xs := by
  unfold arrayPosition at h
  intro hmem
  rw [if_pos hmem] at h
  cases h

theorem evalFrom_vlr (db : Db) (outer : List Col) (ctes : List (String × Rel)) (rel : Rel) :
    evalFrom db outer ((CYPHER_VLR_WITH_ALIAS, rel) :: ctes)
        (.RangeVar none CYPHER_VLR_WITH_ALIAS .INH_DEFAULT none) =
      rel.rows.map (qualify CYPHER_VLR_WITH_ALIAS rel.cols) := by
  simp [evalFrom, findRel, List.find?]

theorem genSelectRightVLR_level_succ (env : Env) (pstate : ParseState) (crel : CypherRel)
    (db : Db) (outer : List Col) (ctes : List (String × Rel)) (rarg : SelectStmt)
    (horder : ∀ rows p, p ∈ db.order rows → p ∈ rows)
    (h : genSelectRightVLR env pstate crel = .ok rarg) (k : Nat) (w : List (List Value))
    (hw : ∀ r ∈ w, LevelRow pstate.p_last_edge.isSome k r) :
    ∀ r ∈ evalSelect db outer
        ((CYPHER_VLR_WITH_ALIAS, { cols := vlrAliasColnames pstate, rows := w }) :: ctes) rarg,
      LevelRow pstate.p_last_edge.isSome (k + 1) r := by
  unfold genSelectRightVLR at h
  cases ht : getCypherRelType env crel with
  | error e => simp [ht] at h
  | ok typname =>
    simp only [ht, Except.ok.injEq] at h
    subst h
    intro r hr
    rw [evalSelect_leaf] at hr
    obtain ⟨row, hrow, hout⟩ := mem_projectRows _ _ _ _ _ horder _ hr
    simp only [sourceRows, evalFromList, crossRows_single, List.mem_filter, evalWith,
      mem_crossRows, evalFrom_vlr, List.mem_map] at hrow
    obtain ⟨⟨x, ⟨v, hv, hx⟩, y, hy, hxy⟩, hwhere⟩ := hrow
    obtain ⟨q, e, he⟩ := evalFrom_edge_item env db outer _ crel typname _ y hy
    subst he hx hxy
    obtain ⟨xs, hlen, hnd, hlevel, hpath⟩ :=
      lookupCol_levelRow pstate CYPHER_VLR_WITH_ALIAS k v (edgeRowCols q e ++ outer) (hw v hv)
    have hid := lookupCol_id_after_levelRow pstate CYPHER_VLR_WITH_ALIAS q v e outer
    simp only [List.append_assoc] at hwhere hout
    -- the hop is not in the path yet
    have hnot : e.id ∉ xs := by
      simp only [whereHolds, decide_eq_true_eq, evalRaw, List.cons_append, List.nil_append,
        evalRawList, applyBool, List.foldr_cons] at hwhere
      have h2 := (and3_eq_true _ _ (and3_eq_true _ _ hwhere).2).1
      simp only [hpath, hid, Value.bool.injEq, decide_eq_true_eq] at h2
      simp only [applyFunc] at h2
      exact arrayPosition_null xs e.id (by simpa using h2)
    have happ : applyFunc db "array_append" [Value.arr xs, Value.int e.id] =
        .arr (xs ++ [e.id]) := by
      simp [applyFunc]
    have hplus : applyOp db "+" (.int k) (.int 1) = .int ((k + 1 : Nat)) := by
      simp [applyOp]
    have hnd2 : (xs ++ [e.id]).Nodup := by
      rw [List.nodup_append]
      exact ⟨hnd, List.nodup_singleton _, by simpa using hnot⟩
    have hlen2 : (xs ++ [e.id]).length = k + 1 := by
      simp [hlen]
    cases hso : pstate.p_last_edge.isSome <;>
      simp only [hso, if_true, if_false, Bool.false_eq_true, List.append_nil, List.cons_append,
        List.nil_append, List.map_cons, List.map_nil, makeResTarget, makeIntConst, evalRaw,
        evalRawList, hlevel, hpath, hid, happ, hplus] at hout <;>
      unfold LevelRow
    · exact ⟨_, .null, xs ++ [e.id], hlen2, hnd2, hout⟩
    · exact ⟨_, _, xs ++ [e.id], hlen2, hnd2, hout⟩

theorem wrap32_id (x : Int) (h0 : 0 ≤ x) (h1 : x < 2 ^ 31) : wrap32 x = x := by
  unfold wrap32
  norm_num at h1 ⊢
  omega

theorem isZeroLengthVLR_bounds (crel : CypherRel) (lo : Int) (uidx : Option Int)
    (hvarlen : crel.varlen = some { lidx := some lo, uidx := uidx }) :
    isZeroLengthVLR crel = .ok (decide (lo = 0)) := by
  unfold isZeroLengthVLR
  rw [hvarlen]

theorem transformMatchVLRStmt_shape (env : Env) (pstate : ParseState) (crel : CypherRel)
    (stmt : SelectStmt) (hstmt : transformMatchVLRStmt env pstate crel = .ok stmt) :
    ∃ (larg rarg : SelectStmt) (indices : A_Indices) (lo : Int),
      genSelectLeftVLR env pstate crel = .ok larg ∧
      genSelectRightVLR env pstate crel = .ok rarg ∧
      crel.varlen = some indices ∧ indices.lidx = some lo ∧
      stmt = .mk []
        ([if crel.direction = .NONE then
            makeSimpleResTarget VLR_COLNAME_END (some EDGE_UNION_END_ID)
          else makeSimpleResTarget VLR_COLNAME_END (some AG_END_ID)]
          ++ (if pstate.p_last_edge.isSome then
              [if crel.direction = .NONE then
                makeSimpleResTarget VLR_COLNAME_START (some EDGE_UNION_START_ID)
              else makeSimpleResTarget VLR_COLNAME_START (some AG_START_ID)]
            else [])
          ++ (if crel.varname.isSome then [makeSimpleResTarget VLR_COLNAME_PATH none] else []))
        [.RangeVar none CYPHER_VLR_WITH_ALIAS .INH_DEFAULT none]
        (if lo > 1 then
          some (RawNode.A_Expr ">=" (.ColumnRef [VLR_COLNAME_LEVEL]) (.A_Const lo))
        else none)
        []
        (some (.mk [.mk CYPHER_VLR_WITH_ALIAS (vlrAliasColnames pstate)
          (.mk [] [] [] none [] none .SETOP_UNION true (some larg) (some rarg))
          (vlrMaxDepth indices)] true))
        .SETOP_NONE false none none := by
  unfold transformMatchVLRStmt at hstmt
  cases hc : transformMatchVLRCte env pstate crel with
  | error e => simp [hc] at hstmt
  | ok cte =>
    simp only [hc] at hstmt
    unfold transformMatchVLRCte at hc
    cases hl : genSelectLeftVLR env pstate crel with
    | error e => simp [hl] at hc
    | ok larg =>
      simp only [hl] at hc
      cases hr : genSelectRightVLR env pstate crel with
      | error e => simp [hr] at hc
      | ok rarg =>
        simp only [hr] at hc
        cases hv : crel.varlen with
        | none => simp [hv] at hc
        | some indices =>
          simp only [hv, Except.ok.injEq] at hc
          unfold genSelectWithVLR at hstmt
          simp only [hv] at hstmt
          cases hlidx : indices.lidx with
          | none => simp [hlidx] at hstmt
          | some lo =>
            simp only [hlidx, Except.ok.injEq] at hstmt
            subst hc
            exact ⟨larg, rarg, indices, lo, rfl, rfl, rfl, hlidx, hstmt.symm⟩

theorem vlrAliasColnames_ne_nil (pstate : ParseState) : vlrAliasColnames pstate ≠ [] := by
  simp [vlrAliasColnames]

theorem sourceRows_vlr (db : Db) (outer : List Col) (ctes : List (String × Rel))
    (tl : List ResTarget) (wh : Option RawNode) (cols : List String) (hcols : cols ≠ [])
    (larg rarg : SelectStmt) (maxdepth : Int) :
    sourceRows db outer ctes
      (.mk [] tl [.RangeVar none CYPHER_VLR_WITH_ALIAS .INH_DEFAULT none] wh []
        (some (.mk [.mk CYPHER_VLR_WITH_ALIAS cols
          (.mk [] [] [] none [] none .SETOP_UNION true (some larg) (some rarg)) maxdepth] true))
        .SETOP_NONE false none none) =
    ((recursiveUnion
        (fun level =>
          evalSelect db outer ((CYPHER_VLR_WITH_ALIAS, { cols := cols, rows := level }) :: ctes)
            rarg)
        (levelCount db maxdepth) (evalSelect db outer ctes larg)).map
      (qualify CYPHER_VLR_WITH_ALIAS cols)).filter
      (fun row => whereHolds db (row ++ outer) wh) := by
  simp only [sourceRows, evalWith, evalCtes, evalCte_recursive _ _ _ _ _ _ _ _ _ _ _ _ _ _ _ hcols,
    evalFromList, crossRows_single, evalFrom_vlr]

/-- Claim C13: under the recursive reading of the statement generated for a quantified
relationship with the bounds `lo ≤ hi`, `1 ≤ lo`, every row the wrapping projection reads
from the recursive source has a path array whose length is its level, between `lo` and
`hi`, and without a duplicate identifier; every output row is the projection of such a
row, and when the relationship has a variable its last column is that array. -/
theorem transformMatchVLR_path_length_bounds (env : Env) (pstate : ParseState)
    (crel : CypherRel) (db : Db) (outer : List Col) (ctes : List (String × Rel))
    (lo hi : Int) (stmt : SelectStmt)
    (hvarlen : crel.varlen = some { lidx := some lo, uidx := some hi })
    (hlo : 1 ≤ lo) (hhi : lo ≤ hi) (h32 : hi < 2 ^ 31)
    (horder : ∀ rows p, p ∈ db.order rows → p ∈ rows)
    (hstmt : transformMatchVLRStmt env pstate crel = .ok stmt) :
    (∀ row ∈ sourceRows db outer ctes stmt, ∃ (n : Nat) (xs : List Int),
      lookupCol (row ++ outer) [VLR_COLNAME_LEVEL] = .int n ∧
      lookupCol (row ++ outer) [VLR_COLNAME_PATH] = .arr xs ∧
      xs.length = n ∧ lo ≤ n ∧ (n : Int) ≤ hi ∧ xs.Nodup) ∧
    (∀ out ∈ evalSelect db outer ctes stmt,
      ∃ row ∈ sourceRows db outer ctes stmt, out = projectRow db outer stmt row) ∧
    (crel.varname.isSome = true → ∀ out ∈ evalSelect db outer ctes stmt,
      ∃ xs : List Int, out.getLast? = some (.arr xs) ∧ lo ≤ xs.length ∧
        (xs.length : Int) ≤ hi ∧ xs.Nodup) := by
  obtain ⟨larg, rarg, indices, lo2, hl, hr, hv, hlidx, hs⟩ :=
    transformMatchVLRStmt_shape env pstate crel stmt hstmt
  rw [hvarlen] at hv
  simp only [Option.some.injEq] at hv
  subst hv
  simp only [Option.some.injEq] at hlidx
  subst hlidx
  have hz : isZeroLengthVLR crel = .ok false := by
    rw [isZeroLengthVLR_bounds crel lo (some hi) hvarlen]
    simp only [Except.ok.injEq, decide_eq_false_iff_not]
    omega
  have hdepth : levelCount db (vlrMaxDepth { lidx := some lo, uidx := some hi }) = hi.toNat := by
    have hne : (some lo : Option Int) ≠ some 0 := by
      simp only [ne_eq, Option.some.injEq]
      omega
    unfold vlrMaxDepth levelCount
    simp only [hne, ne_eq, not_false_eq_true, or_true, if_true]
    rw [wrap32_id (hi - 1 + 1) (by omega) (by omega)]
    rw [if_pos (by omega)]
    congr 1
    omega
  have hsrc : ∀ row ∈ sourceRows db outer ctes stmt, ∃ (n : Nat) (xs : List Int),
      lookupCol (row ++ outer) [VLR_COLNAME_LEVEL] = .int n ∧
      lookupCol (row ++ outer) [VLR_COLNAME_PATH] = .arr xs ∧
      xs.length = n ∧ lo ≤ n ∧ (n : Int) ≤ hi ∧ xs.Nodup := by
    intro row hrow
    rw [hs, sourceRows_vlr _ _ _ _ _ _ (vlrAliasColnames_ne_nil pstate), hdepth] at hrow
    simp only [List.mem_filter, List.mem_map] at hrow
    obtain ⟨⟨r, hr2, hrow2⟩, hwhere⟩ := hrow
    obtain ⟨j, hj1, hj2, hj3⟩ := recursiveUnion_levels (LevelRow pstate.p_last_edge.isSome) _
      (fun k w hw => genSelectRightVLR_level_succ env pstate crel db outer ctes rarg horder hr
        k w hw)
      hi.toNat 1 _ (genSelectLeftVLR_level_one env pstate crel db outer ctes larg hz hl) r hr2
    obtain ⟨xs, hlen, hnd, hlevel, hpath⟩ :=
      lookupCol_levelRow pstate CYPHER_VLR_WITH_ALIAS j r outer hj3
    subst hrow2
    refine ⟨j, xs, hlevel, hpath, hlen, ?_, by omega, hnd⟩
    by_cases hgt : lo > 1
    · rw [if_pos hgt] at hwhere
      simp only [whereHolds, evalRaw, hlevel, decide_eq_true_eq] at hwhere
      simp [applyOp] at hwhere
      exact hwhere
    · omega
  have hproj : ∀ out ∈ evalSelect db outer ctes stmt,
      ∃ row ∈ sourceRows db outer ctes stmt, out = projectRow db outer stmt row := by
    intro out hout
    subst hs
    rw [evalSelect_leaf] at hout
    exact mem_projectRows_all _ _ _ _ _ hout
  refine ⟨hsrc, hproj, ?_⟩
  intro hname out hout
  obtain ⟨row, hrow, hout2⟩ := hproj out hout
  obtain ⟨n, xs, _, hpath, hlen, h1, h2, hnd⟩ := hsrc row hrow
  refine ⟨xs, ?_, by rw [hlen]; exact h1, by rw [hlen]; exact h2, hnd⟩
  rw [hout2, hs]
  simp only [projectRow, SelectStmt.targetList, hname, if_true, List.map_append, List.map_cons,
    List.map_nil, List.getLast?_concat, makeSimpleResTarget, makeResTarget, evalRaw, hpath]

/-- Witness of C13: the relationship `-[r:knows*1..3]->` over the four relationships of
`sampleDb`, from the vertex 1. -/
theorem transformMatchVLR_path_length_bounds_witness :
    (sampleVLR 1 3).varlen = some { lidx := some 1, uidx := some 3 } ∧
    transformMatchVLRStmt sampleEnv sampleVLRState (sampleVLR 1 3) = .ok sampleVLRStmt ∧
    evalSelect sampleDb [] [] sampleVLRStmt =
      [[.int 2, .int 1, .arr [101]], [.int 3, .int 1, .arr [104]],
       [.int 3, .int 1, .arr [101, 102]], [.int 1, .int 1, .arr [104, 103]],
       [.int 1, .int 1, .arr [101, 102, 103]], [.int 2, .int 1, .arr [104, 103, 101]]] ∧
    (∀ row ∈ sourceRows sampleDb [] [] sampleVLRStmt, ∃ (n : Nat) (xs : List Int),
      lookupCol (row ++ []) [VLR_COLNAME_LEVEL] = .int n ∧
      lookupCol (row ++ []) [VLR_COLNAME_PATH] = .arr xs ∧
      xs.length = n ∧ (1 : Int) ≤ n ∧ (n : Int) ≤ 3 ∧ xs.Nodup) ∧
    (∀ out ∈ evalSelect sampleDb [] [] sampleVLRStmt,
      ∃ row ∈ sourceRows sampleDb [] [] sampleVLRStmt,
        out = projectRow sampleDb [] sampleVLRStmt row) ∧
    ((sampleVLR 1 3).varname.isSome = true → ∀ out ∈ evalSelect sampleDb [] [] sampleVLRStmt,
      ∃ xs : List Int, out.getLast? = some (.arr xs) ∧ (1 : Int) ≤ xs.length ∧
        (xs.length : Int) ≤ 3 ∧ xs.Nodup) :=
  ⟨rfl, rfl, by decide,
   transformMatchVLR_path_length_bounds sampleEnv sampleVLRState (sampleVLR 1 3) sampleDb [] []
     1 3 sampleVLRStmt rfl (by decide) (by decide) (by decide) (fun _ _ h => h) rfl⟩

/-! ## Theorems: the zero-length quantified relationship -/

theorem transformMatchVLRCte_shape (env : Env) (pstate : ParseState) (crel : CypherRel)
    (cte : CommonTableExpr) (h : transformMatchVLRCte env pstate crel = .ok cte) :
    ∃ (larg rarg : SelectStmt) (indices : A_Indices),
      genSelectLeftVLR env pstate crel = .ok larg ∧
      genSelectRightVLR env pstate crel = .ok rarg ∧
      crel.varlen = some indices ∧
      cte = .mk CYPHER_VLR_WITH_ALIAS (vlrAliasColnames pstate)
        (.mk [] [] [] none [] none .SETOP_UNION true (some larg) (some rarg))
        (vlrMaxDepth indices) := by
  unfold transformMatchVLRCte at h
  cases hl : genSelectLeftVLR env pstate crel with
  | error e => simp [hl] at h
  | ok larg =>
    simp only [hl] at h
    cases hr : genSelectRightVLR env pstate crel with
    | error e => simp [hr] at h
    | ok rarg =>
      simp only [hr] at h
      cases hv : crel.varlen with
      | none => simp [hv] at h
      | some indices =>
        simp only [hv, Except.ok.injEq] at h
        exact ⟨larg, rarg, indices, rfl, rfl, rfl, h.symm⟩

theorem genSelectLeftVLR_zero (env : Env) (pstate : ParseState) (crel : CypherRel)
    (hz : isZeroLengthVLR crel = .ok true) :
    genSelectLeftVLR env pstate crel =
      .ok (.mk [] [] [] none
        [[pstate.p_vlr_initial_vid, some (makeIntConst 0)]
          ++ (if pstate.p_last_edge.isSome then [pstate.p_vlr_initial_vid] else [])
          ++ [some (.TypeCast (.A_ArrayExpr []) "_graphid")]]
        none .SETOP_NONE false none none) := by
  unfold genSelectLeftVLR
  simp only [hz]

/-- Claim C14: for a quantified relationship with the lower bound 0, the left branch of
the recursive source built by `transformMatchVLR` is the statement `genSelectLeftVLR`
returns: a single `VALUES` row, without FROM clause, target list or WHERE clause, whose
entries follow the declared column list of the source (`end`, `level`, `start` when the
relationship has a previous relationship, `path`): the end and the start are the same
initial-vertex identifier expression, the level is 0 and the path is an empty array
cast to `_graphid`. -/
theorem genSelectLeftVLR_zero_length_values (env : Env) (pstate : ParseState)
    (crel : CypherRel) (uidx : Option Int) (cte : CommonTableExpr)
    (hvarlen : crel.varlen = some { lidx := some 0, uidx := uidx })
    (hcte : transformMatchVLRCte env pstate crel = .ok cte) :
    ∃ larg : SelectStmt,
      genSelectLeftVLR env pstate crel = .ok larg ∧
      cte.ctequery.larg = some larg ∧
      cte.ctequery.op = .SETOP_UNION ∧
      cte.aliascolnames =
        [VLR_COLNAME_END, VLR_COLNAME_LEVEL]
          ++ (if pstate.p_last_edge.isSome then [VLR_COLNAME_START] else [])
          ++ [VLR_COLNAME_PATH] ∧
      larg.valuesLists =
        [cte.aliascolnames.map (zeroLengthColumnSpec pstate.p_vlr_initial_vid)] ∧
      larg.fromClause = [] ∧ larg.targetList = [] ∧ larg.whereClause = none ∧
      larg.withClause = none ∧ larg.op = .SETOP_NONE := by
  obtain ⟨larg, rarg, indices, hl, hr, hv, hc⟩ := transformMatchVLRCte_shape env pstate crel cte hcte
  have hz : isZeroLengthVLR crel = .ok true := by
    rw [isZeroLengthVLR_bounds crel 0 uidx hvarlen]
    rfl
  rw [genSelectLeftVLR_zero env pstate crel hz] at hl
  simp only [Except.ok.injEq] at hl
  subst hl hc
  refine ⟨_, genSelectLeftVLR_zero env pstate crel hz, rfl, rfl, rfl, ?_, rfl, rfl, rfl, rfl, rfl⟩
  cases hso : pstate.p_last_edge.isSome <;>
    simp [SelectStmt.valuesLists, CommonTableExpr.aliascolnames, vlrAliasColnames,
      zeroLengthColumnSpec, hso, VLR_COLNAME_END, VLR_COLNAME_LEVEL, VLR_COLNAME_START,
      VLR_COLNAME_PATH, makeIntConst]

/-- Witness of C14: the relationship `-[r:knows*0..0]->` in `sampleVLRState`. -/
theorem genSelectLeftVLR_zero_length_values_witness :
    (sampleVLR 0 0).varlen = some { lidx := some 0, uidx := some 0 } ∧
    transformMatchVLRCte sampleEnv sampleVLRState (sampleVLR 0 0) = .ok sampleZeroCte ∧
    ∃ larg : SelectStmt,
      genSelectLeftVLR sampleEnv sampleVLRState (sampleVLR 0 0) = .ok larg ∧
      sampleZeroCte.ctequery.larg = some larg ∧
      sampleZeroCte.ctequery.op = .SETOP_UNION ∧
      sampleZeroCte.aliascolnames =
        [VLR_COLNAME_END, VLR_COLNAME_LEVEL]
          ++ (if sampleVLRState.p_last_edge.isSome then [VLR_COLNAME_START] else [])
          ++ [VLR_COLNAME_PATH] ∧
      larg.valuesLists =
        [sampleZeroCte.aliascolnames.map
          (zeroLengthColumnSpec sampleVLRState.p_vlr_initial_vid)] ∧
      larg.fromClause = [] ∧ larg.targetList = [] ∧ larg.whereClause = none ∧
      larg.withClause = none ∧ larg.op = .SETOP_NONE :=
  ⟨rfl, rfl,
   genSelectLeftVLR_zero_length_values sampleEnv sampleVLRState (sampleVLR 0 0) (some 0)
     sampleZeroCte rfl rfl⟩

theorem recursiveUnion_one (step : List (List Value) → List (List Value))
    (w : List (List Value)) : recursiveUnion step 1 w = w := by
  simp [recursiveUnion]

/-- Claim C15, counterexample: the recursive source generated for `-[r:knows*0..0]->` has
a recursive branch whose FROM clause holds, next to the source itself, the relation
`knows` of the relationship label. -/
theorem transformMatchVLR_zero_length_scan_counterexample :
    (sampleVLR 0 0).varlen = some { lidx := some 0, uidx := some 0 } ∧
    transformMatchVLRCte sampleEnv sampleVLRState (sampleVLR 0 0) = .ok sampleZeroCte ∧
    sampleZeroStmt.withClause = some (.mk [sampleZeroCte] true) ∧
    sampleZeroCte.ctequery.rarg.map SelectStmt.fromClause =
      some [.RangeVar none "_vlr" .INH_DEFAULT none,
            .RangeVar (some "g") "knows" .INH_YES (some "_e")] :=
  ⟨rfl, rfl, rfl, rfl⟩

/-- Claim C15, amended: for a quantified relationship with the bounds 0 and 0, the base
branch of the sub-plan built by `transformMatchVLR` reads no relation (a `VALUES` row
without FROM clause); the recursive branch does name the relation of the relationship
label in its FROM clause, but `maxdepth` is 1, so that under the recursive reading of
the sub-plan the recursive branch is never read: the sub-plan returns the one row of the
base branch (the identifier of the initial vertex for the end and the start, an empty
array for the path), whatever the relationship relation holds. -/
theorem transformMatchVLR_zero_length_no_scan (env : Env) (pstate : ParseState)
    (crel : CypherRel) (db : Db) (outer : List Col) (ctes : List (String × Rel))
    (stmt : SelectStmt)
    (hvarlen : crel.varlen = some { lidx := some 0, uidx := some 0 })
    (hstmt : transformMatchVLRStmt env pstate crel = .ok stmt) :
    ∃ (cte : CommonTableExpr) (larg rarg : SelectStmt) (typname : String),
      stmt.withClause = some (.mk [cte] true) ∧
      stmt.fromClause = [.RangeVar none CYPHER_VLR_WITH_ALIAS .INH_DEFAULT none] ∧
      cte.ctename = CYPHER_VLR_WITH_ALIAS ∧
      cte.ctequery.larg = some larg ∧ cte.ctequery.rarg = some rarg ∧
      larg.fromClause = [] ∧ larg.valuesLists.length = 1 ∧
      getCypherRelType env crel = .ok typname ∧
      rarg.fromClause =
        [.RangeVar none CYPHER_VLR_WITH_ALIAS .INH_DEFAULT none,
         if crel.direction = .NONE then
           (genEdgeUnionVLR env typname).setAlias CYPHER_VLR_EDGE_ALIAS
         else .RangeVar (some env.graph_path) typname .INH_YES (some CYPHER_VLR_EDGE_ALIAS)] ∧
      cte.maxdepth = 1 ∧
      evalSelect db outer ctes stmt =
        [[evalValuesEntry db outer pstate.p_vlr_initial_vid]
          ++ (if pstate.p_last_edge.isSome then
              [evalValuesEntry db outer pstate.p_vlr_initial_vid]
            else [])
          ++ (if crel.varname.isSome then [.arr []] else [])] := by
  obtain ⟨larg, rarg, indices, lo, hl, hr, hv, hlidx, hs⟩ :=
    transformMatchVLRStmt_shape env pstate crel stmt hstmt
  rw [hvarlen] at hv
  simp only [Option.some.injEq] at hv
  subst hv
  simp only [Option.some.injEq] at hlidx
  subst hlidx
  have hz : isZeroLengthVLR crel = .ok true := by
    rw [isZeroLengthVLR_bounds crel 0 (some 0) hvarlen]
    rfl
  have hl2 := genSelectLeftVLR_zero env pstate crel hz
  rw [hl] at hl2
  simp only [Except.ok.injEq] at hl2
  have hdepth : vlrMaxDepth { lidx := some 0, uidx := some 0 } = 1 := by
    decide
  unfold genSelectRightVLR at hr
  cases ht : getCypherRelType env crel with
  | error e => simp [ht] at hr
  | ok typname =>
    simp only [ht, Except.ok.injEq] at hr
    refine ⟨.mk CYPHER_VLR_WITH_ALIAS (vlrAliasColnames pstate)
        (.mk [] [] [] none [] none .SETOP_UNION true (some larg) (some rarg))
        (vlrMaxDepth { lidx := some 0, uidx := some 0 }),
      larg, rarg, typname, by rw [hs]; rfl, by rw [hs]; rfl, rfl, rfl, rfl,
      by rw [hl2]; rfl, by rw [hl2]; rfl, rfl, by rw [← hr]; rfl, hdepth, ?_⟩
    have hbase : evalSelect db outer ctes larg =
        [[evalValuesEntry db outer pstate.p_vlr_initial_vid, .int 0]
          ++ (if pstate.p_last_edge.isSome then
              [evalValuesEntry db outer pstate.p_vlr_initial_vid]
            else [])
          ++ [.arr []]] := by
      rw [hl2]
      cases hso : pstate.p_last_edge.isSome <;>
        simp [evalSelect, evalValuesEntry, makeIntConst, evalRaw, evalRawList, makeArray, hso]
    have hsrc := sourceRows_vlr db outer ctes
      ([if crel.direction = .NONE then
            makeSimpleResTarget VLR_COLNAME_END (some EDGE_UNION_END_ID)
          else makeSimpleResTarget VLR_COLNAME_END (some AG_END_ID)]
          ++ (if pstate.p_last_edge.isSome then
              [if crel.direction = .NONE then
                makeSimpleResTarget VLR_COLNAME_START (some EDGE_UNION_START_ID)
              else makeSimpleResTarget VLR_COLNAME_START (some AG_START_ID)]
            else [])
          ++ (if crel.varname.isSome then [makeSimpleResTarget VLR_COLNAME_PATH none] else []))
      (if (0 : Int) > 1 then
          some (RawNode.A_Expr ">=" (.ColumnRef [VLR_COLNAME_LEVEL]) (.A_Const 0))
        else none)
      (vlrAliasColnames pstate) (vlrAliasColnames_ne_nil pstate) larg rarg
      (vlrMaxDepth { lidx := some 0, uidx := some 0 })
    rw [hs, evalSelect_leaf, hsrc, hdepth]
    have hlc : levelCount db 1 = 1 := by
      simp [levelCount]
    rw [hlc, recursiveUnion_one, hbase]
    cases hso : pstate.p_last_edge.isSome <;> cases hname : crel.varname.isSome <;>
      by_cases hd : crel.direction = .NONE <;>
      simp [projectRows, whereHolds, qualify, vlrAliasColnames, hso, hname, hd,
        makeSimpleResTarget, makeResTarget, evalRaw, lookupCol, List.find?,
        VLR_COLNAME_END, VLR_COLNAME_LEVEL, VLR_COLNAME_START, VLR_COLNAME_PATH]

/-- Witness of C15 (amended): the relationship `-[r:knows*0..0]->` in `sampleVLRState`,
over the relationships of `sampleDb`: the sub-plan returns the one row of the vertex 1. -/
theorem transformMatchVLR_zero_length_no_scan_witness :
    (sampleVLR 0 0).varlen = some { lidx := some 0, uidx := some 0 } ∧
    transformMatchVLRStmt sampleEnv sampleVLRState (sampleVLR 0 0) = .ok sampleZeroStmt ∧
    evalSelect sampleDb [] [] sampleZeroStmt = [[.int 1, .int 1, .arr []]] ∧
    ∃ (cte : CommonTableExpr) (larg rarg : SelectStmt) (typname : String),
      sampleZeroStmt.withClause = some (.mk [cte] true) ∧
      sampleZeroStmt.fromClause = [.RangeVar none CYPHER_VLR_WITH_ALIAS .INH_DEFAULT none] ∧
      cte.ctename = CYPHER_VLR_WITH_ALIAS ∧
      cte.ctequery.larg = some larg ∧ cte.ctequery.rarg = some rarg ∧
      larg.fromClause = [] ∧ larg.valuesLists.length = 1 ∧
      getCypherRelType sampleEnv (sampleVLR 0 0) = .ok typname ∧
      rarg.fromClause =
        [.RangeVar none CYPHER_VLR_WITH_ALIAS .INH_DEFAULT none,
         if (sampleVLR 0 0).direction = .NONE then
           (genEdgeUnionVLR sampleEnv typname).setAlias CYPHER_VLR_EDGE_ALIAS
         else
           .RangeVar (some sampleEnv.graph_path) typname .INH_YES (some CYPHER_VLR_EDGE_ALIAS)] ∧
      cte.maxdepth = 1 ∧
      evalSelect sampleDb [] [] sampleZeroStmt =
        [[evalValuesEntry sampleDb [] sampleVLRState.p_vlr_initial_vid]
          ++ (if sampleVLRState.p_last_edge.isSome then
              [evalValuesEntry sampleDb [] sampleVLRState.p_vlr_initial_vid]
            else [])
          ++ (if (sampleVLR 0 0).varname.isSome then [.arr []] else [])] :=
  ⟨rfl, rfl, by decide,
   transformMatchVLR_zero_length_no_scan sampleEnv sampleVLRState (sampleVLR 0 0) sampleDb [] []
     sampleZeroStmt rfl rfl⟩

/-! ## Theorems: the rows of the recursive branch -/

/-- Claim C22, failing input: the recursive branch built by `genSelectRightVLR` always
carries `DISTINCT ON ("end")`. For `-[r:knows*2..2]->` from the vertex 1 over `diamondDb`,
where the sequences 201, 203 and 202, 204 both lead to the vertex 4, the sub-plan returns
the first sequence only; the same recursive source without the `DISTINCT ON` clause has a
row for each of the two sequences. -/
theorem genSelectRightVLR_collapses_paths :
    (∀ (env : Env) (pstate : ParseState) (crel : CypherRel),
      match genSelectRightVLR env pstate crel with
      | .ok rarg => rarg.distinctClause = [.ColumnRef [VLR_COLNAME_END]]
      | .error _ => True) ∧
    transformMatchVLRStmt sampleEnv sampleVLRState (sampleVLR 2 2) =
      .ok (sampleStmt (sampleVLR 2 2)) ∧
    evalSelect diamondDb [] [] (sampleStmt (sampleVLR 2 2)) = [[.int 4, .int 1, .arr [201, 203]]] ∧
    (evalCte diamondDb [] [] true (sampleCte (sampleVLR 2 2))).2.rows =
      [[.int 2, .int 1, .int 1, .arr [201]], [.int 3, .int 1, .int 1, .arr [202]],
       [.int 4, .int 2, .int 1, .arr [201, 203]]] ∧
    (evalCte diamondDb [] [] true (sampleCteAllRows (sampleVLR 2 2))).2.rows =
      [[.int 2, .int 1, .int 1, .arr [201]], [.int 3, .int 1, .int 1, .arr [202]],
       [.int 4, .int 2, .int 1, .arr [201, 203]], [.int 4, .int 2, .int 1, .arr [202, 204]]] := by
  refine ⟨?_, rfl, by decide, by decide, by decide⟩
  intro env pstate crel
  unfold genSelectRightVLR
  cases getCypherRelType env crel with
  | error e => trivial
  | ok typname => rfl

/-! ## Theorems: the columns of the sub-plan of a quantified relationship -/

/-- Claim C21, failing inputs: the wrapping projection built by `genSelectWithVLR` outputs
the start column only when the relationship has a previous relationship in its path, and
so does the declared column list of the recursive source: for the first relationship of a
path the column `getEdgeColname` names for the near end (for the far end when the
direction is left) is not among its output columns. For `(a)-[*1..2]->(b)`, where
the relationship is the first of its path and `a` a future vertex, `addQualNodeIn` looks
the column `start` up on the sub-plan and `transformComponents` fails with
`column "start" not found (internal error)`; for `(a:person)<-[*1..2]-(b)` the lookup of
the far end of the relationship fails in the same way, and the recursive branch joins on
`_vlr.start`, which is not among the declared columns `end`, `level`, `path`. -/
theorem genSelectWithVLR_start_column_missing :
    (∀ (pstate : ParseState) (crel : CypherRel) (w : WithClause),
      match genSelectWithVLR pstate crel w with
      | .ok stmt =>
        targetNames stmt =
          [if crel.direction = .NONE then EDGE_UNION_END_ID else AG_END_ID]
          ++ (if pstate.p_last_edge.isSome then
              [if crel.direction = .NONE then EDGE_UNION_START_ID else AG_START_ID]
            else [])
          ++ (if crel.varname.isSome then [VLR_COLNAME_PATH] else [])
      | .error _ => True) ∧
    (∀ (pstate : ParseState) (crel : CypherRel) (w : WithClause),
      match genSelectWithVLR { pstate with p_last_edge := none } crel w with
      | .ok stmt =>
        getEdgeColname crel (decide (crel.direction = .LEFT)) ∉ targetNames stmt
      | .error _ => True) ∧
    transformComponents sampleEnv (parseStateFor [sampleFirstVLRPath]) [[sampleFirstVLRPath]] [] =
      .error (.column_not_found "start") ∧
    transformComponents sampleEnv (parseStateFor [sampleLeftVLRPath]) [[sampleLeftVLRPath]] [] =
      .error (.column_not_found "start") ∧
    getEdgeColname sampleLeftVLR true = "start" ∧
    (transformMatchVLRStmt sampleEnv sampleLeftVLRState sampleLeftVLR).map targetNames =
      .ok ["end"] ∧
    (transformMatchVLRCte sampleEnv sampleLeftVLRState sampleLeftVLR).map
        CommonTableExpr.aliascolnames = .ok ["end", "level", "path"] ∧
    (transformMatchVLRCte sampleEnv sampleLeftVLRState sampleLeftVLR).map
        (fun cte => cte.ctequery.rarg.map SelectStmt.whereClause) =
      .ok (some (some (.BoolExpr .AND_EXPR
        [.A_Expr "=" (.ColumnRef ["_vlr", "start"]) (.ColumnRef ["_e", "end"]),
         .NullTest (.FuncCall "array_position" [.ColumnRef ["path"], .ColumnRef ["id"]])]))) := by
  refine ⟨?_, ?_, rfl, rfl, rfl, rfl, rfl, rfl⟩
  · intro pstate crel w
    unfold genSelectWithVLR
    cases hv : crel.varlen with
    | none => trivial
    | some indices =>
      cases hl : indices.lidx with
      | none => simp only [hl]
      | some ival =>
        simp only [hl, targetNames, SelectStmt.targetList]
        by_cases hd : crel.direction = .NONE <;>
          cases hso : pstate.p_last_edge.isSome <;> cases hn : crel.varname.isSome <;>
          simp [hd, makeSimpleResTarget, makeResTarget, figureColname, VLR_COLNAME_PATH,
            EDGE_UNION_END_ID, EDGE_UNION_START_ID, AG_END_ID, AG_START_ID]
  · intro pstate crel w
    unfold genSelectWithVLR
    cases hv : crel.varlen with
    | none => trivial
    | some indices =>
      cases hl : indices.lidx with
      | none => simp only [hl]
      | some ival =>
        simp only [hl, targetNames, SelectStmt.targetList, getEdgeColname]
        cases hd : crel.direction <;> cases hn : crel.varname.isSome <;>
          simp [makeSimpleResTarget, makeResTarget, figureColname, VLR_COLNAME_PATH,
            EDGE_UNION_END_ID, EDGE_UNION_START_ID, AG_END_ID, AG_START_ID]

/-! ## Theorems: the lower bound of a quantified relationship -/

theorem genSelectLeftVLR_level_zero (env : Env) (pstate : ParseState) (crel : CypherRel)
    (db : Db) (outer : List Col) (ctes : List (String × Rel)) (larg : SelectStmt)
    (hz : isZeroLengthVLR crel = .ok true)
    (h : genSelectLeftVLR env pstate crel = .ok larg) :
    ∀ r ∈ evalSelect db outer ctes larg, LevelRow pstate.p_last_edge.isSome 0 r := by
  rw [genSelectLeftVLR_zero env pstate crel hz] at h
  simp only [Except.ok.injEq] at h
  subst h
  intro r hr
  unfold LevelRow
  cases hso : pstate.p_last_edge.isSome <;>
    simp only [evalSelect, hso, if_true, if_false, Bool.false_eq_true, List.append_nil,
      List.cons_append, List.nil_append, List.map_cons, List.map_nil, List.mem_singleton,
      makeIntConst, evalRaw, evalRawList] at hr
  · exact ⟨evalValuesEntry db outer pstate.p_vlr_initial_vid, .null, [], rfl, List.nodup_nil, hr⟩
  · exact ⟨evalValuesEntry db outer pstate.p_vlr_initial_vid,
      evalValuesEntry db outer pstate.p_vlr_initial_vid, [], rfl, List.nodup_nil, hr⟩

theorem genSelectLeftVLR_level_base (env : Env) (pstate : ParseState) (crel : CypherRel)
    (db : Db) (outer : List Col) (ctes : List (String × Rel)) (larg : SelectStmt)
    (lo : Int) (uidx : Option Int)
    (hvarlen : crel.varlen = some { lidx := some lo, uidx := uidx })
    (h : genSelectLeftVLR env pstate crel = .ok larg) :
    ∀ r ∈ evalSelect db outer ctes larg,
      LevelRow pstate.p_last_edge.isSome (baseLevelSpec lo).toNat r := by
  have hzero := isZeroLengthVLR_bounds crel lo uidx hvarlen
  unfold baseLevelSpec
  by_cases hz : lo = 0
  · rw [if_pos hz]
    simp only [hz, decide_True] at hzero
    exact genSelectLeftVLR_level_zero env pstate crel db outer ctes larg hzero h
  · rw [if_neg hz]
    simp only [hz, decide_False] at hzero
    exact genSelectLeftVLR_level_one env pstate crel db outer ctes larg hzero h

/-- Claim C24: for a quantified relationship with the lower bound `lo ≥ 0`, the wrapping
projection built by `genSelectWithVLR` has the filter `level >= lo` exactly when
`lo > 1`; under the recursive reading of the statement, every row the projection reads
from the recursive source, with or without the filter, has a level of at least `lo` (the
base branch emits the level 0 when `lo = 0` and 1 otherwise, the recursive branch adds 1),
and every output row is the projection of such a row. -/
theorem genSelectWithVLR_level_at_least_min (env : Env) (pstate : ParseState)
    (crel : CypherRel) (db : Db) (outer : List Col) (ctes : List (String × Rel))
    (lo : Int) (uidx : Option Int) (stmt : SelectStmt)
    (hvarlen : crel.varlen = some { lidx := some lo, uidx := uidx })
    (hlo : 0 ≤ lo)
    (horder : ∀ rows p, p ∈ db.order rows → p ∈ rows)
    (hstmt : transformMatchVLRStmt env pstate crel = .ok stmt) :
    (stmt.whereClause =
      if lo > 1 then some (.A_Expr ">=" (.ColumnRef [VLR_COLNAME_LEVEL]) (.A_Const lo))
      else none) ∧
    (∀ row ∈ sourceRows db outer ctes stmt, ∃ n : Nat,
      lookupCol (row ++ outer) [VLR_COLNAME_LEVEL] = .int n ∧ lo ≤ n ∧
      baseLevelSpec lo ≤ n) ∧
    (∀ out ∈ evalSelect db outer ctes stmt,
      ∃ row ∈ sourceRows db outer ctes stmt, out = projectRow db outer stmt row) := by
  obtain ⟨larg, rarg, indices, lo2, hl, hr, hv, hlidx, hs⟩ :=
    transformMatchVLRStmt_shape env pstate crel stmt hstmt
  rw [hvarlen] at hv
  simp only [Option.some.injEq] at hv
  subst hv
  simp only [Option.some.injEq] at hlidx
  subst hlidx
  have hbase : baseLevelSpec lo = 0 ∨ baseLevelSpec lo = 1 := by
    unfold baseLevelSpec
    by_cases hz : lo = 0
    · exact Or.inl (if_pos hz)
    · exact Or.inr (if_neg hz)
  have hbase2 : lo ≤ 1 → lo ≤ baseLevelSpec lo := by
    intro h1
    unfold baseLevelSpec
    by_cases hz : lo = 0
    · rw [if_pos hz]; omega
    · rw [if_neg hz]; omega
  refine ⟨by rw [hs]; rfl, ?_, ?_⟩
  · intro row hrow
    rw [hs, sourceRows_vlr _ _ _ _ _ _ (vlrAliasColnames_ne_nil pstate)] at hrow
    simp only [List.mem_filter, List.mem_map] at hrow
    obtain ⟨⟨r, hr2, hrow2⟩, hwhere⟩ := hrow
    obtain ⟨j, hj1, _, hj3⟩ := recursiveUnion_levels (LevelRow pstate.p_last_edge.isSome) _
      (fun k w hw => genSelectRightVLR_level_succ env pstate crel db outer ctes rarg horder hr
        k w hw)
      _ (baseLevelSpec lo).toNat _
      (genSelectLeftVLR_level_base env pstate crel db outer ctes larg lo uidx hvarlen hl) r hr2
    obtain ⟨xs, _, _, hlevel, _⟩ :=
      lookupCol_levelRow pstate CYPHER_VLR_WITH_ALIAS j r outer hj3
    subst hrow2
    have hjb : baseLevelSpec lo ≤ j := by omega
    refine ⟨j, hlevel, ?_, hjb⟩
    by_cases hgt : lo > 1
    · rw [if_pos hgt] at hwhere
      simp only [whereHolds, evalRaw, hlevel, decide_eq_true_eq] at hwhere
      simp [applyOp] at hwhere
      exact hwhere
    · have := hbase2 (by omega)
      omega
  · intro out hout
    subst hs
    rw [evalSelect_leaf] at hout
    exact mem_projectRows_all _ _ _ _ _ hout

/-- Witness of C24: the relationship `-[r:knows*2..3]->` over `sampleDb`: the projection
has the filter `level >= 2` and returns the paths of two and three relationships. -/
theorem genSelectWithVLR_level_at_least_min_witness :
    (sampleVLR 2 3).varlen = some { lidx := some 2, uidx := some 3 } ∧
    transformMatchVLRStmt sampleEnv sampleVLRState (sampleVLR 2 3) =
      .ok (sampleStmt (sampleVLR 2 3)) ∧
    evalSelect sampleDb [] [] (sampleStmt (sampleVLR 2 3)) =
      [[.int 3, .int 1, .arr [101, 102]], [.int 1, .int 1, .arr [104, 103]],
       [.int 1, .int 1, .arr [101, 102, 103]], [.int 2, .int 1, .arr [104, 103, 101]]] ∧
    ((sampleStmt (sampleVLR 2 3)).whereClause =
      if (2 : Int) > 1 then some (.A_Expr ">=" (.ColumnRef [VLR_COLNAME_LEVEL]) (.A_Const 2))
      else none) ∧
    (∀ row ∈ sourceRows sampleDb [] [] (sampleStmt (sampleVLR 2 3)), ∃ n : Nat,
      lookupCol (row ++ []) [VLR_COLNAME_LEVEL] = .int n ∧ (2 : Int) ≤ n ∧
      baseLevelSpec 2 ≤ n) ∧
    (∀ out ∈ evalSelect sampleDb [] [] (sampleStmt (sampleVLR 2 3)),
      ∃ row ∈ sourceRows sampleDb [] [] (sampleStmt (sampleVLR 2 3)),
        out = projectRow sampleDb [] (sampleStmt (sampleVLR 2 3)) row) :=
  ⟨rfl, rfl, by decide,
   genSelectWithVLR_level_at_least_min sampleEnv sampleVLRState (sampleVLR 2 3) sampleDb [] []
     2 (some 3) (sampleStmt (sampleVLR 2 3)) rfl (by decide) (fun _ _ h => h) rfl⟩

/-! ## Theorems: the depth bound of the recursive source -/

theorem vlrMaxDepth_bounded (lo hi : Int) (h2 : 1 ≤ hi) (h3 : hi < 2 ^ 31 - 1) :
    vlrMaxDepth { lidx := some lo, uidx := some hi } = hi - baseLevelSpec lo + 1 := by
  unfold vlrMaxDepth baseLevelSpec
  by_cases hz : lo = 0
  · subst hz
    simp only [ne_eq, not_true_eq_false, or_self, if_false, if_true, reduceCtorEq]
    rw [wrap32_id _ (by omega) (by omega)]
  · have hne : (some lo : Option Int) ≠ some 0 := by
      simp only [ne_eq, Option.some.injEq]
      exact hz
    simp only [hne, ne_eq, not_false_eq_true, or_true, if_true, hz, if_false]
    rw [wrap32_id _ (by omega) (by omega)]

theorem genSelectLeftVLR_levelColumn (env : Env) (pstate : ParseState) (crel : CypherRel)
    (lo : Int) (uidx : Option Int) (larg : SelectStmt)
    (hvarlen : crel.varlen = some { lidx := some lo, uidx := uidx })
    (hl : genSelectLeftVLR env pstate crel = .ok larg) :
    levelColumn larg = some (.A_Const (baseLevelSpec lo)) := by
  unfold genSelectLeftVLR at hl
  rw [isZeroLengthVLR_bounds crel lo uidx hvarlen] at hl
  unfold baseLevelSpec
  by_cases hz : lo = 0
  · simp only [hz, decide_True, Except.ok.injEq] at hl
    subst hl
    simp [levelColumn, SelectStmt.valuesLists, makeIntConst, hz]
  · simp only [hz, decide_False] at hl
    cases ht : getCypherRelType env crel with
    | error e => simp [ht] at hl
    | ok typname =>
      simp only [ht, Except.ok.injEq] at hl
      subst hl
      simp [levelColumn, SelectStmt.valuesLists, SelectStmt.targetList, makeIntConst,
        makeResTarget, makeSimpleResTarget, hz]

theorem genSelectRightVLR_levelColumn (env : Env) (pstate : ParseState) (crel : CypherRel)
    (rarg : SelectStmt) (hr : genSelectRightVLR env pstate crel = .ok rarg) :
    levelColumn rarg = some (.A_Expr "+" (.ColumnRef [VLR_COLNAME_LEVEL]) (.A_Const 1)) := by
  unfold genSelectRightVLR at hr
  cases ht : getCypherRelType env crel with
  | error e => simp [ht] at hr
  | ok typname =>
    simp only [ht, Except.ok.injEq] at hr
    subst hr
    simp [levelColumn, SelectStmt.valuesLists, SelectStmt.targetList, makeIntConst,
      makeResTarget]

/-- Claim C23: for a quantified relationship with the bounds `lo` and `hi`,
`0 ≤ lo ≤ hi`, `1 ≤ hi`, `hi` below the largest 32-bit signed integer,
`transformMatchVLR` sets `maxdepth = hi - base + 1`, where `base` is the level the base
branch emits (0 when `lo = 0`, 1 otherwise) and the recursive branch emits `level + 1`;
hence `base + maxdepth - 1 = hi` and the levels `base + i`, `i < maxdepth`, are exactly
the levels from `base` to `hi`. Without upper bound `maxdepth` is 0, the default. -/
theorem transformMatchVLR_maxdepth (env : Env) (pstate : ParseState) (crel : CypherRel)
    (cte : CommonTableExpr) (hcte : transformMatchVLRCte env pstate crel = .ok cte) :
    (∀ lo hi : Int, crel.varlen = some { lidx := some lo, uidx := some hi } →
      0 ≤ lo → lo ≤ hi → 1 ≤ hi → hi < 2 ^ 31 - 1 →
      cte.maxdepth = hi - baseLevelSpec lo + 1 ∧
      baseLevelSpec lo + cte.maxdepth - 1 = hi ∧
      (∀ n : Int, (∃ i : Nat, (i : Int) < cte.maxdepth ∧ n = baseLevelSpec lo + i) ↔
        (baseLevelSpec lo ≤ n ∧ n ≤ hi)) ∧
      (∃ larg rarg : SelectStmt, cte.ctequery.larg = some larg ∧
        cte.ctequery.rarg = some rarg ∧
        levelColumn larg = some (.A_Const (baseLevelSpec lo)) ∧
        levelColumn rarg =
          some (.A_Expr "+" (.ColumnRef [VLR_COLNAME_LEVEL]) (.A_Const 1)))) ∧
    (∀ lidx : Option Int, crel.varlen = some { lidx := lidx, uidx := none } →
      cte.maxdepth = 0) := by
  obtain ⟨larg, rarg, indices, hl, hr, hv, hc⟩ :=
    transformMatchVLRCte_shape env pstate crel cte hcte
  subst hc
  constructor
  · intro lo hi hvarlen h0 h1 h2 h3
    rw [hvarlen] at hv
    simp only [Option.some.injEq] at hv
    subst hv
    have hmax := vlrMaxDepth_bounded lo hi h2 h3
    have hbase : baseLevelSpec lo = 0 ∨ baseLevelSpec lo = 1 := by
      unfold baseLevelSpec
      by_cases hz : lo = 0
      · exact Or.inl (if_pos hz)
      · exact Or.inr (if_neg hz)
    simp only [CommonTableExpr.maxdepth, CommonTableExpr.ctequery, SelectStmt.larg,
      SelectStmt.rarg, hmax]
    refine ⟨trivial, by omega, ?_, larg, rarg, rfl, rfl,
      genSelectLeftVLR_levelColumn env pstate crel lo (some hi) larg hvarlen hl,
      genSelectRightVLR_levelColumn env pstate crel rarg hr⟩
    intro n
    constructor
    · rintro ⟨i, hi1, hi2⟩
      omega
    · rintro ⟨hn1, hn2⟩
      refine ⟨(n - baseLevelSpec lo).toNat, ?_, ?_⟩ <;> omega
  · intro lidx hvarlen
    rw [hvarlen] at hv
    simp only [Option.some.injEq] at hv
    subst hv
    rfl

/-- Witness of C23: the relationships `-[r:knows*1..3]->` (maxdepth 3), `-[r:knows*0..3]->`
(maxdepth 4) and `-[r:knows*1..]->` (maxdepth 0) in `sampleVLRState`. -/
theorem transformMatchVLR_maxdepth_witness :
    transformMatchVLRCte sampleEnv sampleVLRState (sampleVLR 1 3) = .ok (sampleCte (sampleVLR 1 3)) ∧
    (sampleCte (sampleVLR 1 3)).maxdepth = 3 ∧
    (sampleCte (sampleVLR 0 3)).maxdepth = 4 ∧
    (sampleCte (sampleVLR 1 3)).maxdepth = 3 - baseLevelSpec 1 + 1 ∧
    (sampleCte (sampleVLR 0 3)).maxdepth = 3 - baseLevelSpec 0 + 1 ∧
    (sampleCte (sampleOpenVLR 1)).maxdepth = 0 :=
  ⟨rfl, by decide, by decide,
   ((transformMatchVLR_maxdepth sampleEnv sampleVLRState (sampleVLR 1 3)
      (sampleCte (sampleVLR 1 3)) rfl).1 1 3 rfl (by decide) (by decide) (by decide)
      (by decide)).1,
   ((transformMatchVLR_maxdepth sampleEnv sampleVLRState (sampleVLR 0 3)
      (sampleCte (sampleVLR 0 3)) rfl).1 0 3 rfl (by decide) (by decide) (by decide)
      (by decide)).1,
   (transformMatchVLR_maxdepth sampleEnv sampleVLRState (sampleOpenVLR 1)
      (sampleCte (sampleOpenVLR 1)) rfl).2 (some 1) rfl⟩

theorem vlrMaxDepth_pos_iff (lidx : Option Int) (hi : Int) (h0 : 0 ≤ hi) (h1 : hi < 2 ^ 31) :
    1 ≤ vlrMaxDepth { lidx := lidx, uidx := some hi } ↔
      ¬ (hi = 0 ∧ lidx ≠ some 0) ∧ ¬ (hi = 2 ^ 31 - 1 ∧ lidx = some 0) := by
  unfold vlrMaxDepth wrap32
  by_cases hz : lidx = some 0
  · subst hz
    simp only [ne_eq, not_true_eq_false, and_false, not_false_eq_true, and_true, true_and,
      reduceCtorEq, or_self, if_false]
    norm_num at h1 ⊢
    omega
  · have hb : lidx = none ∨ lidx ≠ some 0 := Or.inr hz
    simp only [hb, if_true, ne_eq, hz, not_false_eq_true, and_true, and_false, and_self]
    norm_num at h1 ⊢
    omega

/-- Claim C25, failing inputs: for `-[r:knows*1..0]->` (upper bound 0, lower bound 1)
`transformMatchVLR` sets `maxdepth = 0 - 1 + 1 = 0`, the value an unbounded quantifier
leaves, and the whole statement is the one generated for `-[r:knows*1..]->`; read by an
executor that cuts an unbounded recursion after two levels it returns paths although no
length lies between 1 and 0. The same value 0 results without lower bound, and for
`-[r:knows*0..2147483647]->` the sum `max - 0 + 1` leaves the 32-bit range. -/
theorem transformMatchVLR_maxdepth_not_positive :
    transformMatchVLRCte sampleEnv sampleVLRState (sampleVLR 1 0) =
      .ok (sampleCte (sampleVLR 1 0)) ∧
    (sampleCte (sampleVLR 1 0)).maxdepth = 0 ∧
    (sampleCte (sampleOpenVLR 1)).maxdepth = 0 ∧
    transformMatchVLRStmt sampleEnv sampleVLRState (sampleVLR 1 0) =
      transformMatchVLRStmt sampleEnv sampleVLRState (sampleOpenVLR 1) ∧
    evalSelect sampleCutDb [] [] (sampleStmt (sampleVLR 1 0)) =
      [[.int 2, .int 1, .arr [101]], [.int 3, .int 1, .arr [104]],
       [.int 3, .int 1, .arr [101, 102]], [.int 1, .int 1, .arr [104, 103]]] ∧
    vlrMaxDepth { lidx := none, uidx := some 0 } = 0 ∧
    transformMatchVLRCte sampleEnv sampleVLRState (sampleVLR 0 2147483647) =
      .ok (sampleCte (sampleVLR 0 2147483647)) ∧
    (sampleCte (sampleVLR 0 2147483647)).maxdepth = -2147483648 :=
  ⟨rfl, by decide, by decide, rfl, by decide, by decide, rfl, by decide⟩

/-! ## Theorems: field selections on a future vertex -/

/-- Claim C26, counterexample: the selection `id(a)` of the identifier field of the
unresolved future vertex `a` is returned unchanged by `resolve_future_vertex` with flags
0, the parse state is left as it is and `a` stays unresolved. -/
theorem resolve_future_vertex_id_field_counterexample :
    findFutureVertexIn sampleScopeState.p_future_vertices 1 1 =
      some { varno := 1, varattno := 1, labname := "ag_vertex", nullable := false,
             expr := none } ∧
    (vertexColumn 1 1).vartype = .VERTEXOID ∧ (vertexColumn 1 1).varlevelsup = 0 ∧
    resolve_future_vertex sampleEnv sampleScopeState sampleIdSelect 0 =
      .ok (sampleIdSelect, sampleScopeState) ∧
    memoOf sampleScopeState (vertexColumn 1 1) = none :=
  ⟨rfl, rfl, rfl, rfl, rfl⟩

/-- Claim C26, amended: for a field selection applied directly to a vertex-typed variable
of the current level that refers to an unresolved future vertex, `resolve_future_vertex`
with flags 0 returns the selection of the identifier field (field 1) unchanged and leaves
the parse state as it is; for every other field, when it returns, the vertex is resolved:
its memoized variable is the only column of a vertex scan added to the range table, the
variable of the selection is replaced by it, the range table has grown by the scan and
its join entry, and one future vertex less is unresolved. -/
theorem resolve_future_vertex_field_selection (env : Env) (s : ParseState) (var : Var)
    (fieldnum : Nat) (resulttype : Oid) (fv : FutureVertex)
    (hlevel : var.varlevelsup = 0) (htype : var.vartype = .VERTEXOID)
    (hfv : findFutureVertexIn s.p_future_vertices var.varno var.varattno = some fv)
    (hnone : fv.expr = none) :
    (fieldnum = 1 →
      resolve_future_vertex env s (.FieldSelect (.Var var) fieldnum resulttype) 0 =
        .ok (.FieldSelect (.Var var) fieldnum resulttype, s)) ∧
    (fieldnum ≠ 1 → ∀ (e2 : Expr) (s2 : ParseState),
      resolve_future_vertex env s (.FieldSelect (.Var var) fieldnum resulttype) 0 =
        .ok (e2, s2) →
      ∃ (m : Var) (name : String),
        memoOf s2 var = some m ∧
        e2 = .FieldSelect (.Var m) fieldnum resulttype ∧
        s.p_rtable.length < m.varno ∧ m.varattno = 1 ∧ m.vartype = .VERTEXOID ∧
        m.varlevelsup = 0 ∧
        getRTE s2 m.varno =
          some { rtekind := .RTE_SUBQUERY, aliasname := name, cols := [(name, .VERTEXOID)] } ∧
        s2.p_rtable.length = s.p_rtable.length + 2 ∧
        subqueryCount s2 = subqueryCount s + 1 ∧
        unresolvedCount s = unresolvedCount s2 + 1) := by
  constructor
  · intro hf
    subst hf
    unfold resolve_future_vertex
    simp [resolve_future_vertex_mutator, isVertexIdSelect, hlevel, htype]
  · intro hf e2 s2 h
    unfold resolve_future_vertex at h
    obtain ⟨run, hsub⟩ := mutator_run env _ 0 s e2 s2 h
    have hid : isVertexIdSelect 0 (.Var var) fieldnum = false := by
      simp [isVertexIdSelect, hf]
    simp only [reachedVars, hid, Bool.false_eq_true, if_false, hlevel, if_true] at run
    have he2 := hsub s2 (resolves_refl s2)
    simp only [substFutureRefs, hid, Bool.false_eq_true, if_false, substVar, hlevel, htype,
      and_self, if_true] at he2
    -- the position of the future vertex
    have hpos := findFutureVertexIn_eq_pos s.p_future_vertices var.varno var.varattno 0
    rw [hfv] at hpos
    cases hp : findFutureVertexPos s.p_future_vertices var.varno var.varattno 0 with
    | none => rw [hp] at hpos; cases hpos
    | some p =>
      obtain ⟨i, fv1⟩ := p
      rw [hp] at hpos
      simp only [Option.map_some', Option.some.injEq] at hpos
      subst hpos
      obtain ⟨_, hget, _, _⟩ := findFutureVertexPos_get _ _ _ _ _ _ hp
      simp only [Nat.sub_zero] at hget
      obtain ⟨fv2, hp2, _⟩ := findFutureVertexPos_keeps run.res.vertices _ _ _ _ _ hp
      obtain ⟨_, hget2, _, _⟩ := findFutureVertexPos_get _ _ _ _ _ _ hp2
      simp only [Nat.sub_zero] at hget2
      have hres := run.resolved var (List.mem_singleton.mpr rfl) htype (by rw [hfv]; rfl)
      obtain ⟨m, hm⟩ := Option.isSome_iff_exists.mp hres
      have hfv2 : fv2.expr = some (.Var m) := by
        have hm2 := hm
        unfold memoOf at hm2
        rw [findFutureVertexIn_eq_pos _ _ _ 0, hp2] at hm2
        simp only [Option.map_some'] at hm2
        cases he : fv2.expr with
        | none => rw [he] at hm2; cases hm2
        | some x =>
          rw [he] at hm2
          cases x <;> simp at hm2
          rw [hm2]
      obtain ⟨m2, name, hm2, hlt, ha, ht, hl, hrte⟩ :=
        run.scan i fv fv2 hget hget2 hnone (by rw [hfv2]; rfl)
      rw [hfv2] at hm2
      simp only [Option.some.injEq, Expr.Var.injEq] at hm2
      subst hm2
      have hone : unresolvedCount s = unresolvedCount s2 + 1 := by
        unfold unresolvedCount
        refine countP_keeps_one run.res.vertices i fv fv2 hget hget2 hnone
          (by rw [hfv2]; rfl) ?_
        intro j fvj fvj2 hgj hgj2 hnj hsj
        obtain ⟨v, hv, _, x, hx⟩ := run.only j fvj fvj2 hgj hgj2 hnj hsj
        rw [List.mem_singleton.mp hv, hp] at hx
        simp only [Option.some.injEq, Prod.mk.injEq] at hx
        exact hx.1.symm
      have hc := run.count
      have hsc := run.scans
      simp only [hm] at he2
      refine ⟨m, name, hm, ?_, hlt, ha, ht, hl, hrte, by omega, by omega, hone⟩
      rw [he2]
      have : ({ m with varlevelsup := 0 } : Var) = m := by
        cases m
        simp only [Var.mk.injEq, true_and] at hl ⊢
        exact hl.symm
      rw [this]

/-- Witness of C26 (amended): the selection `a.properties` of the unresolved future
vertex `a` in `sampleScopeState`. -/
theorem resolve_future_vertex_field_selection_witness :
    resolve_future_vertex sampleEnv sampleScopeState samplePropSelect 0 =
      .ok samplePropSelectResult ∧
    ∃ (m : Var) (name : String),
      memoOf samplePropSelectResult.2 (vertexColumn 1 1) = some m ∧
      samplePropSelectResult.1 = .FieldSelect (.Var m) 2 .JSONBOID ∧
      sampleScopeState.p_rtable.length < m.varno ∧ m.varattno = 1 ∧ m.vartype = .VERTEXOID ∧
      m.varlevelsup = 0 ∧
      getRTE samplePropSelectResult.2 m.varno =
        some { rtekind := .RTE_SUBQUERY, aliasname := name, cols := [(name, .VERTEXOID)] } ∧
      samplePropSelectResult.2.p_rtable.length = sampleScopeState.p_rtable.length + 2 ∧
      subqueryCount samplePropSelectResult.2 = subqueryCount sampleScopeState + 1 ∧
      unresolvedCount sampleScopeState = unresolvedCount samplePropSelectResult.2 + 1 :=
  ⟨rfl,
   (resolve_future_vertex_field_selection sampleEnv sampleScopeState (vertexColumn 1 1) 2
      .JSONBOID
      { varno := 1, varattno := 1, labname := "ag_vertex", nullable := false, expr := none }
      rfl rfl rfl rfl).2 (by decide) samplePropSelectResult.1 samplePropSelectResult.2 rfl⟩


/-! ## Theorems: property constraints (`addElemQual`, `transformElemQuals`) -/

theorem make_var_spec (pstate : ParseState) (rtindex varattno : Nat) (name : String)
    (var : Var) (h : make_var pstate rtindex varattno = .ok (name, var)) :
    var.varno = rtindex ∧ var.varattno = varattno ∧ var.varlevelsup = 0 := by
  unfold make_var at h
  cases hr : getRTE pstate rtindex with
  | none => simp only [hr] at h; cases h
  | some rte =>
    simp only [hr] at h
    split at h
    · cases h
    · cases hc : rte.cols[varattno - 1]? with
      | none => simp only [hc] at h; cases h
      | some col =>
        simp only [hc, Except.ok.injEq, Prod.mk.injEq] at h
        obtain ⟨_, hv⟩ := h
        subst hv
        exact ⟨rfl, rfl, rfl⟩

theorem make_var_stable {a b : ParseState} (h : Extends a b) (rtindex varattno : Nat)
    (r : String × Var) (hr : make_var a rtindex varattno = .ok r) :
    make_var b rtindex varattno = .ok r := by
  unfold make_var at hr ⊢
  cases hg : getRTE a rtindex with
  | none => simp only [hg] at hr; cases hr
  | some rte =>
    simp only [hg] at hr
    simp only [getRTE_stable h rtindex rte hg]
    exact hr

theorem getExprField_prop_map (var : Var) (e : Expr)
    (h : getExprField (.Var var) AG_ELEM_PROP_MAP = .ok e) :
    ∃ fieldnum, e = .FieldSelect (.Var var) fieldnum .JSONBOID ∧
      ((var.vartype = .VERTEXOID ∧ fieldnum = 2) ∨ (var.vartype = .EDGEOID ∧ fieldnum = 4)) := by
  unfold getExprField at h
  simp only [exprType] at h
  cases ht : var.vartype with
  | VERTEXOID =>
    simp only [ht, rowTypeAttrs] at h
    have hf : findAttr [("id", Oid.GRAPHIDOID), ("properties", Oid.JSONBOID)]
        AG_ELEM_PROP_MAP 0 = some (1, Oid.JSONBOID) := by decide
    simp only [hf, Except.ok.injEq] at h
    exact ⟨2, h.symm, Or.inl ⟨rfl, rfl⟩⟩
  | EDGEOID =>
    simp only [ht, rowTypeAttrs] at h
    have hf : findAttr [("id", Oid.GRAPHIDOID), ("start", Oid.GRAPHIDOID),
        ("end", Oid.GRAPHIDOID), ("properties", Oid.JSONBOID)]
        AG_ELEM_PROP_MAP 0 = some (3, Oid.JSONBOID) := by decide
    simp only [hf, Except.ok.injEq] at h
    exact ⟨4, h.symm, Or.inr ⟨rfl, rfl⟩⟩
  | _ => simp only [ht, rowTypeAttrs] at h; cases h

theorem getExprField_prop_map_ok (var : Var)
    (h : var.vartype = .VERTEXOID ∨ var.vartype = .EDGEOID) :
    ∃ e, getExprField (.Var var) AG_ELEM_PROP_MAP = .ok e := by
  unfold getExprField
  simp only [exprType]
  rcases h with h | h
  · simp only [h, rowTypeAttrs]
    have hf : findAttr [("id", Oid.GRAPHIDOID), ("properties", Oid.JSONBOID)]
        AG_ELEM_PROP_MAP 0 = some (1, Oid.JSONBOID) := by decide
    simp only [hf]
    exact ⟨_, rfl⟩
  · simp only [h, rowTypeAttrs]
    have hf : findAttr [("id", Oid.GRAPHIDOID), ("start", Oid.GRAPHIDOID),
        ("end", Oid.GRAPHIDOID), ("properties", Oid.JSONBOID)]
        AG_ELEM_PROP_MAP 0 = some (3, Oid.JSONBOID) := by decide
    simp only [hf]
    exact ⟨_, rfl⟩

/-- The loop of `transformElemQuals`, when it returns: one containment predicate per
pending property constraint, in the order of the list, added to the qual one after the
other by `qualAndExpr`. -/
theorem transformElemQualsLoop_sound (env : Env) (elem_quals : List ElemQual) :
    ∀ (pstate : ParseState) (qual q : Option Expr) (s : ParseState),
      transformElemQualsLoop env pstate qual elem_quals = .ok (q, s) →
      ∃ preds, q = preds.foldl (fun acc e => qualAndExpr acc (some e)) qual ∧
        List.Forall₂ (IsContainmentOf env) elem_quals preds := by
  induction elem_quals with
  | nil =>
    intro pstate qual q s h
    simp only [transformElemQualsLoop, Except.ok.injEq, Prod.mk.injEq] at h
    exact ⟨[], h.1.symm, List.Forall₂.nil⟩
  | cons elem rest ih =>
    intro pstate qual q s h
    unfold transformElemQualsLoop at h
    cases hv : make_var pstate elem.varno elem.varattno with
    | error e => simp only [hv] at h; cases h
    | ok nv =>
      obtain ⟨name, var⟩ := nv
      simp only [hv] at h
      cases hf : getExprField (.Var var) AG_ELEM_PROP_MAP with
      | error e => simp only [hf] at h; cases h
      | ok prop_map =>
        simp only [hf] at h
        cases hp : env.transformPropMap pstate elem.prop_constr with
        | error e => simp only [hp] at h; cases h
        | ok cs =>
          obtain ⟨constr, s1⟩ := cs
          simp only [hp] at h
          obtain ⟨preds, hq, hall⟩ := ih s1 _ q s h
          obtain ⟨fieldnum, hfs, htyp⟩ := getExprField_prop_map var prop_map hf
          obtain ⟨h1, h2, h3⟩ := make_var_spec pstate _ _ name var hv
          refine ⟨make_op "@>" prop_map constr :: preds, ?_, ?_⟩
          · rw [List.foldl_cons]
            exact hq
          · refine List.Forall₂.cons ?_ hall
            refine ⟨var, fieldnum, constr, ?_, h1, h2, h3, htyp, pstate, s1, hp⟩
            rw [hfs]
            rfl

/-- The loop of `transformElemQuals` returns when the expression compiler compiles the
pending constraints and only appends to the range table, and every pending constraint
names a vertex or edge column of the range table. -/
theorem transformElemQualsLoop_total (env : Env)
    (hrt : ∀ s pm e s2, env.transformPropMap s pm = .ok (e, s2) → Extends s s2)
    (elem_quals : List ElemQual)
    (hpm : ∀ s, ∀ elem ∈ elem_quals, ∃ e s2, env.transformPropMap s elem.prop_constr = .ok (e, s2)) :
    ∀ (pstate : ParseState) (qual : Option Expr),
      (∀ elem ∈ elem_quals, ∃ name var, make_var pstate elem.varno elem.varattno = .ok (name, var) ∧
        (var.vartype = .VERTEXOID ∨ var.vartype = .EDGEOID)) →
      ∃ r, transformElemQualsLoop env pstate qual elem_quals = .ok r := by
  induction elem_quals with
  | nil =>
    intro pstate qual _
    exact ⟨_, rfl⟩
  | cons elem rest ih =>
    intro pstate qual hcol
    obtain ⟨name, var, hv, htyp⟩ := hcol elem (List.mem_cons_self _ _)
    obtain ⟨prop_map, hf⟩ := getExprField_prop_map_ok var htyp
    obtain ⟨constr, s1, hp⟩ := hpm pstate elem (List.mem_cons_self _ _)
    have hext := hrt _ _ _ _ hp
    have hrest := ih (fun s el hel => hpm s el (List.mem_cons_of_mem _ hel)) s1
      (qualAndExpr qual (some (make_op "@>" prop_map constr)))
      (fun el hel => by
        obtain ⟨n2, v2, hv2, ht2⟩ := hcol el (List.mem_cons_of_mem _ hel)
        exact ⟨n2, v2, make_var_stable hext _ _ _ hv2, ht2⟩)
    obtain ⟨r, hr⟩ := hrest
    refine ⟨r, ?_⟩
    unfold transformElemQualsLoop
    simp only [hv, hf, hp]
    exact hr

theorem isContainmentOf_not_and (env : Env) (elem : ElemQual) (e : Expr)
    (h : IsContainmentOf env elem e) : ∀ args, e ≠ .BoolExpr .AND_EXPR args := by
  obtain ⟨var, fieldnum, constr, he, _⟩ := h
  intro args hc
  rw [he] at hc
  cases hc

/-- The top-level conjuncts of a qual to which predicates are added one after the other
by `qualAndExpr`: those of the qual, followed by the predicates. -/
theorem conjuncts_foldl_qualAndExpr (preds : List Expr) :
    ∀ (qual : Option Expr), (∀ e ∈ preds, ∀ args, e ≠ .BoolExpr .AND_EXPR args) →
      conjuncts (preds.foldl (fun acc e => qualAndExpr acc (some e)) qual) =
        conjuncts qual ++ preds := by
  induction preds with
  | nil =>
    intro qual _
    simp
  | cons e rest ih =>
    intro qual hne
    rw [List.foldl_cons, ih _ (fun x hx => hne x (List.mem_cons_of_mem _ hx)),
      conjuncts_qualAndExpr qual e (hne e (List.mem_cons_self _ _))]
    simp

theorem forall₂_containment_not_and (env : Env) (elem_quals : List ElemQual)
    (preds : List Expr) (h : List.Forall₂ (IsContainmentOf env) elem_quals preds) :
    ∀ e ∈ preds, ∀ args, e ≠ .BoolExpr .AND_EXPR args := by
  induction h with
  | nil =>
    intro e he
    cases he
  | cons hab _ ih =>
    intro e he
    rcases List.mem_cons.mp he with heq | hmem
    · subst heq
      exact isContainmentOf_not_and env _ _ hab
    · exact ih e hmem

/-- What `transformElemQuals` returns: the pending list is empty, and the top-level
conjuncts of the qual are those of the qual given, followed by one containment predicate
per pending property constraint, in the order of the list. -/
theorem transformElemQuals_sound (env : Env) (pstate : ParseState) (qual q : Option Expr)
    (s : ParseState) (h : transformElemQuals env pstate qual = .ok (q, s)) :
    s.p_elem_quals = [] ∧
    ∃ preds, q = preds.foldl (fun acc e => qualAndExpr acc (some e)) qual ∧
      conjuncts q = conjuncts qual ++ preds ∧
      List.Forall₂ (IsContainmentOf env) pstate.p_elem_quals preds := by
  unfold transformElemQuals at h
  cases hl : transformElemQualsLoop env pstate qual pstate.p_elem_quals with
  | error e => simp only [hl] at h; cases h
  | ok r =>
    obtain ⟨q1, s1⟩ := r
    simp only [hl, Except.ok.injEq, Prod.mk.injEq] at h
    obtain ⟨hq, hs⟩ := h
    subst hq
    subst hs
    obtain ⟨preds, hq, hall⟩ := transformElemQualsLoop_sound env _ pstate qual q1 s1 hl
    refine ⟨rfl, preds, hq, ?_, hall⟩
    rw [hq]
    exact conjuncts_foldl_qualAndExpr preds qual
      (forall₂_containment_not_and env _ preds hall)

/-! ### What the pattern compiler registers -/

theorem registered_of_eq {a b : ParseState}
    (h1 : b.p_node_info_list = a.p_node_info_list) (h2 : b.p_elem_quals = a.p_elem_quals) :
    Registered a b [] :=
  ⟨h1, [], by simp [h2], rfl, fun _ h => by cases h⟩

theorem registered_trans {a b c : ParseState} {p1 p2 : List RawNode}
    (h1 : Registered a b p1) (h2 : Registered b c p2) : Registered a c (p1 ++ p2) := by
  obtain ⟨n1, a1, e1, m1, v1⟩ := h1
  obtain ⟨n2, a2, e2, m2, v2⟩ := h2
  refine ⟨n2.trans n1, a1 ++ a2, ?_, ?_, ?_⟩
  · rw [e2, e1, List.append_assoc]
  · rw [List.map_append, m1, m2]
  · intro el hel
    rcases List.mem_append.mp hel with h | h
    · exact v1 el h
    · exact v2 el h

theorem registered_step {a b c : ParseState} {p : List RawNode}
    (h1 : Registered a b []) (h2 : Registered b c p) : Registered a c p := by
  have h := registered_trans h1 h2
  simpa using h

theorem registered_then {a b c : ParseState} {p : List RawNode}
    (h1 : Registered a b p) (h2 : Registered b c []) : Registered a c p := by
  have h := registered_trans h1 h2
  simpa using h

theorem registered_addElemQual (pstate : ParseState) (varattno : Nat) (pc : Option RawNode) :
    Registered pstate (addElemQual pstate varattno pc) pc.toList := by
  cases pc with
  | none => exact registered_of_eq rfl rfl
  | some c =>
    refine ⟨rfl, [{ varno := InvalidAttrNumber, varattno := varattno, prop_constr := c }],
      rfl, rfl, ?_⟩
    intro el hel
    rw [List.mem_singleton] at hel
    rw [hel]

theorem makeAliasOptUnique_registered (pstate : ParseState) (aliasname : Option String) :
    Registered pstate (makeAliasOptUnique pstate aliasname).2 [] := by
  cases aliasname <;> exact registered_of_eq rfl rfl

theorem addRangeTableEntry_registered (env : Env) (pstate : ParseState)
    (relname aliasname : String) (r : Nat × ParseState)
    (h : addRangeTableEntry env pstate relname aliasname = .ok r) :
    Registered pstate r.2 [] := by
  unfold addRangeTableEntry at h
  cases hc : env.catalog relname with
  | none => rw [hc] at h; cases h
  | some cols =>
    rw [hc] at h
    simp only [Except.ok.injEq] at h
    subst h
    exact registered_of_eq rfl rfl

theorem addRangeTableEntryForSubquery_registered (pstate : ParseState)
    (cols : List (String × Oid)) (aliasname : String) :
    Registered pstate (addRangeTableEntryForSubquery pstate cols aliasname).2 [] :=
  registered_of_eq rfl rfl

theorem addEdgeUnion_registered (env : Env) (pstate : ParseState)
    (edge_label aliasname : String) (r : Nat × ParseState)
    (h : addEdgeUnion env pstate edge_label aliasname = .ok r) :
    Registered pstate r.2 [] := by
  unfold addEdgeUnion at h
  cases hc : env.catalog edge_label with
  | none => rw [hc] at h; cases h
  | some relcols =>
    rw [hc] at h
    obtain ⟨cols, _, h2⟩ := (bind_eq_ok _ _ _).mp h
    simp only [pure, Except.pure, Except.ok.injEq] at h2
    subst h2
    exact registered_of_eq rfl rfl

theorem addRTEtoJoinlist_registered (pstate : ParseState) (rtindex : Nat) (ps2 : ParseState)
    (h : addRTEtoJoinlist pstate rtindex = .ok ps2) : Registered pstate ps2 [] := by
  unfold addRTEtoJoinlist at h
  split at h
  · cases h
  · split at h
    · cases h
    · simp only [Except.ok.injEq] at h
      subst h
      exact registered_of_eq rfl rfl

theorem setInitialVidForVLR_registered (pstate : ParseState) (targetList : List TargetEntry)
    (crel : CypherRel) (vertex : VertexRef) (prev : Option (CypherRel × Nat))
    (ps2 : ParseState)
    (h : setInitialVidForVLR pstate targetList crel vertex prev = .ok ps2) :
    Registered pstate ps2 [] := by
  unfold setInitialVidForVLR at h
  split at h
  · simp only [Except.ok.injEq] at h
    subst h; exact registered_of_eq rfl rfl
  · split at h
    · split at h
      · simp only [Except.ok.injEq] at h
        subst h; exact registered_of_eq rfl rfl
      · split at h
        · cases h
        · simp only [Except.ok.injEq] at h
          subst h; exact registered_of_eq rfl rfl
    · split at h
      · split at h
        · cases h
        · simp only [Except.ok.injEq] at h
          subst h; exact registered_of_eq rfl rfl
      · split at h
        · cases h
        · simp only [Except.ok.injEq] at h
          subst h; exact registered_of_eq rfl rfl
      · cases h

theorem transformMatchNodeFound_registered (pstate : ParseState) (cnode : CypherNode)
    (targetList : List TargetEntry) (idx : Nat) (te : TargetEntry)
    (r : VertexRef × ParseState × List TargetEntry)
    (h : transformMatchNodeFound pstate cnode targetList idx te = .ok r) :
    Registered pstate r.2.1 cnode.prop_map.toList := by
  unfold transformMatchNodeFound at h
  split at h
  · cases h
  · simp only at h
    split at h <;>
    · simp only [Except.ok.injEq] at h
      subst h
      exact registered_addElemQual _ _ _

theorem transformMatchNodeCol_registered (env : Env) (pstate : ParseState) (cnode : CypherNode)
    (targetList : List TargetEntry) (varname : String) (col : Var)
    (r : VertexRef × ParseState × List TargetEntry)
    (h : transformMatchNodeCol env pstate cnode targetList varname col = .ok r) :
    Registered pstate r.2.1 cnode.prop_map.toList := by
  unfold transformMatchNodeCol at h
  split at h
  · cases h
  · simp only [Except.ok.injEq] at h
    subst h
    simp only
    have hreg : Registered pstate
        (addElemQual { pstate with p_next_resno := pstate.p_next_resno + 1 }
          (makeTargetEntry (.Var col) pstate.p_next_resno varname false).resno cnode.prop_map)
        cnode.prop_map.toList :=
      registered_step (registered_of_eq rfl rfl) (registered_addElemQual _ _ _)
    split
    · exact registered_then hreg (registered_of_eq rfl rfl)
    · exact hreg

theorem transformMatchNodeScan_registered (env : Env) (pstate : ParseState) (cnode : CypherNode)
    (targetList : List TargetEntry) (labname : String) (prop_constr : Bool)
    (r : VertexRef × ParseState × List TargetEntry)
    (hflag : cnode.varname = none → prop_constr = cnode.prop_map.isSome)
    (h : transformMatchNodeScan env pstate cnode targetList labname prop_constr = .ok r) :
    Registered pstate r.2.1 cnode.prop_map.toList := by
  unfold transformMatchNodeScan at h
  simp only at h
  obtain ⟨r1, h1, h⟩ := (bind_eq_ok _ _ _).mp h
  obtain ⟨ps1, h2, h⟩ := (bind_eq_ok _ _ _).mp h
  have hpre : Registered pstate ps1 [] :=
    registered_step (makeAliasOptUnique_registered pstate cnode.varname)
      (registered_step (addRangeTableEntry_registered _ _ _ _ _ h1)
        (addRTEtoJoinlist_registered _ _ _ h2))
  split at h
  · obtain ⟨vertex, _, h⟩ := (bind_eq_ok _ _ _).mp h
    simp only [pure, Except.pure, Except.ok.injEq] at h
    subst h
    simp only
    exact registered_step hpre
      (registered_step (registered_of_eq rfl rfl) (registered_addElemQual _ _ _))
  · rename_i hno
    simp only [pure, Except.pure, Except.ok.injEq] at h
    subst h
    simp only
    have hnone : cnode.prop_map = none := by
      have hv : cnode.varname = none := by
        cases hvn : cnode.varname with
        | none => rfl
        | some v => exact absurd (Or.inl (by simp [hvn])) hno
      have hp : prop_constr = false := by
        cases hpc : prop_constr with
        | false => rfl
        | true => exact absurd (Or.inr hpc) hno
      have := hflag hv
      rw [hp] at this
      cases hpm : cnode.prop_map with
      | none => rfl
      | some c => rw [hpm] at this; cases this
    rw [hnone]
    exact hpre

/-- The property flag `transformMatchNode` works with: that of the node itself when it is
anonymous; for a named node whose flag is not set the node has no property map, given
that the node information holds the flags. -/
theorem matchNodeLabel_flag (env : Env) (pstate : ParseState) (cnode : CypherNode)
    (labname : String) (prop_constr : Bool)
    (hflag : ∀ v, cnode.varname = some v → cnode.prop_map.isSome = true →
      ∀ ni, findNodeInfo pstate.p_node_info_list v = some ni → ni.prop_constr = true)
    (h : matchNodeLabel env pstate cnode = .ok (labname, prop_constr)) :
    (cnode.varname = none → prop_constr = cnode.prop_map.isSome) ∧
    (prop_constr = false → cnode.prop_map = none) := by
  unfold matchNodeLabel at h
  cases hvn : cnode.varname with
  | none =>
    simp only [hvn, Except.ok.injEq, Prod.mk.injEq] at h
    refine ⟨fun _ => h.2.symm, fun hp => ?_⟩
    rw [hp] at h
    cases hpm : cnode.prop_map with
    | none => rfl
    | some c =>
      have h2 := h.2
      rw [hpm] at h2
      cases h2
  | some v =>
    simp only [hvn] at h
    cases hf : findNodeInfo pstate.p_node_info_list v with
    | none => simp only [hf] at h; cases h
    | some ni =>
      simp only [hf, Except.ok.injEq, Prod.mk.injEq] at h
      refine ⟨fun hc => (by cases hc), fun hp => ?_⟩
      cases hpm : cnode.prop_map with
      | none => rfl
      | some c =>
        have ht := hflag v hvn (by rw [hpm]; rfl) ni hf
        rw [h.2, hp] at ht
        cases ht

theorem transformMatchNode_registered (env : Env) (pstate : ParseState) (cnode : CypherNode)
    (force : Bool) (targetList : List TargetEntry)
    (r : VertexRef × ParseState × List TargetEntry)
    (hflag : ∀ v, cnode.varname = some v → cnode.prop_map.isSome = true →
      ∀ ni, findNodeInfo pstate.p_node_info_list v = some ni → ni.prop_constr = true)
    (h : transformMatchNode env pstate cnode force targetList = .ok r) :
    Registered pstate r.2.1 cnode.prop_map.toList := by
  unfold transformMatchNode at h
  split at h
  · exact transformMatchNodeFound_registered _ _ _ _ _ _ h
  · split at h
    · exact transformMatchNodeCol_registered _ _ _ _ _ _ _ h
    · cases hlab : matchNodeLabel env pstate cnode with
      | error e => simp only [hlab] at h; cases h
      | ok lp =>
        obtain ⟨labname, prop_constr⟩ := lp
        simp only [hlab] at h
        obtain ⟨hanon, hnone⟩ := matchNodeLabel_flag env pstate cnode labname prop_constr
          hflag hlab
        split at h
        · exact transformMatchNodeScan_registered _ _ _ _ _ _ _ hanon h
        · rename_i hno
          have hp : prop_constr = false := by
            cases hpc : prop_constr with
            | false => rfl
            | true => exact absurd (Or.inr (Or.inl hpc)) hno
          rw [hnone hp]
          split at h <;>
          · simp only [Except.ok.injEq] at h
            subst h
            exact registered_of_eq rfl rfl

theorem transformMatchSR_registered (env : Env) (pstate : ParseState) (crel : CypherRel)
    (targetList : List TargetEntry) (r : Nat × ParseState × List TargetEntry)
    (h : transformMatchSR env pstate crel targetList = .ok r) :
    Registered pstate r.2.1 crel.prop_map.toList := by
  unfold transformMatchSR at h
  obtain ⟨typname, _, h⟩ := (bind_eq_ok _ _ _).mp h
  simp only at h
  obtain ⟨r1, h1, h⟩ := (bind_eq_ok _ _ _).mp h
  obtain ⟨ps1, h2, h⟩ := (bind_eq_ok _ _ _).mp h
  have hrte : Registered (makeAliasOptUnique pstate crel.varname).2 r1.2 [] := by
    unfold addEdgeRTE at h1
    split at h1
    · exact addEdgeUnion_registered _ _ _ _ _ h1
    · exact addRangeTableEntry_registered _ _ _ _ _ h1
  have hpre : Registered pstate ps1 [] :=
    registered_step (makeAliasOptUnique_registered pstate crel.varname)
      (registered_step hrte (addRTEtoJoinlist_registered _ _ _ h2))
  split at h
  · obtain ⟨edge, _, h⟩ := (bind_eq_ok _ _ _).mp h
    simp only [pure, Except.pure, Except.ok.injEq] at h
    subst h
    simp only
    exact registered_step hpre
      (registered_step (registered_of_eq rfl rfl) (registered_addElemQual _ _ _))
  · rename_i hno
    simp only [pure, Except.pure, Except.ok.injEq] at h
    subst h
    simp only
    have hnone : crel.prop_map = none := by
      cases hpm : crel.prop_map with
      | none => rfl
      | some c => exact absurd (Or.inr (by simp [hpm])) hno
    rw [hnone]
    exact hpre

theorem transformMatchVLR_registered (env : Env) (pstate : ParseState) (crel : CypherRel)
    (targetList : List TargetEntry) (r : Nat × ParseState × List TargetEntry)
    (h : transformMatchVLR env pstate crel targetList = .ok r) :
    Registered pstate r.2.1 [] := by
  unfold transformMatchVLR at h
  obtain ⟨zero, _, h⟩ := (bind_eq_ok _ _ _).mp h
  obtain ⟨typname, _, h⟩ := (bind_eq_ok _ _ _).mp h
  simp only at h
  split at h
  · cases h
  · obtain ⟨ps1, h2, h⟩ := (bind_eq_ok _ _ _).mp h
    have hpre : Registered pstate ps1 [] :=
      registered_step (makeAliasOptUnique_registered pstate crel.varname)
        (registered_step (addRangeTableEntryForSubquery_registered _ _ _)
          (addRTEtoJoinlist_registered _ _ _ h2))
    split at h
    · obtain ⟨var, _, h⟩ := (bind_eq_ok _ _ _).mp h
      simp only [pure, Except.pure, Except.ok.injEq] at h
      subst h
      exact registered_then hpre (registered_of_eq rfl rfl)
    · simp only [pure, Except.pure, Except.ok.injEq] at h
      subst h
      exact hpre

theorem transformMatchRel_registered (env : Env) (pstate : ParseState) (crel : CypherRel)
    (targetList : List TargetEntry) (r : Nat × ParseState × List TargetEntry)
    (h : transformMatchRel env pstate crel targetList = .ok r) :
    Registered pstate r.2.1 (if crel.varlen.isNone then crel.prop_map.toList else []) := by
  unfold transformMatchRel at h
  split at h
  · cases h
  · split at h
    · cases h
    · split at h
      · rename_i hfix
        rw [if_pos hfix]
        exact transformMatchSR_registered _ _ _ _ _ h
      · rename_i hfix
        rw [if_neg hfix]
        exact transformMatchVLR_registered _ _ _ _ _ h

theorem transformEdgeTail_registered (out : Bool) (s s2 : CompState) (vertex : VertexRef)
    (crel : CypherRel) (edge : Nat) (h : transformEdgeTail out s vertex crel edge = .ok s2) :
    Registered s.pstate s2.pstate [] := by
  unfold transformEdgeTail at h
  obtain ⟨ueids, _, h⟩ := (bind_eq_ok _ _ _).mp h
  obtain ⟨pv, _, h⟩ := (bind_eq_ok _ _ _).mp h
  simp only [pure, Except.pure, Except.ok.injEq] at h
  subst h
  exact registered_of_eq rfl rfl

theorem propFlagsSet_mono (l : List NodeInfo) (nodes nodes2 : List CypherNode)
    (hsub : ∀ n ∈ nodes2, n ∈ nodes) (h : PropFlagsSet l nodes) : PropFlagsSet l nodes2 :=
  fun cnode hmem => h cnode (hsub cnode hmem)

theorem registered_flags {a b : ParseState} {p : List RawNode} (h : Registered a b p)
    (nodes : List CypherNode) (hf : PropFlagsSet a.p_node_info_list nodes) :
    PropFlagsSet b.p_node_info_list nodes := by
  rw [h.1]
  exact hf

theorem transformChainRest_registered (env : Env) (out : Bool) :
    ∀ (n : Nat) (chain : List ChainElem), chain.length ≤ n →
      ∀ (s : CompState) (prev_crel : CypherRel) (prev_edge : Nat) (r : CompState × VertexRef),
      PropFlagsSet s.pstate.p_node_info_list (chainNodes chain) →
      transformChainRest env out s prev_crel prev_edge chain = .ok r →
      Registered s.pstate r.1.pstate (chainPropMaps chain) := by
  intro n
  induction n with
  | zero =>
    intro chain hlen s prev_crel prev_edge r _ h
    match chain, hlen with
    | [], _ => simp [transformChainRest] at h
  | succ n ih =>
    intro chain hlen s prev_crel prev_edge r hfl h
    match chain, hlen with
    | [], _ => simp [transformChainRest] at h
    | .rel _ :: _, _ => simp [transformChainRest] at h
    | [.node cnode], _ =>
      simp only [transformChainRest] at h
      obtain ⟨nd, h1, h⟩ := (bind_eq_ok _ _ _).mp h
      obtain ⟨q, h2, h⟩ := (bind_eq_ok _ _ _).mp h
      simp only [pure, Except.pure, Except.ok.injEq] at h
      subst h
      have hn := transformMatchNode_registered _ _ _ _ _ _
        (hfl cnode (by simp [chainNodes])) h1
      simpa [chainPropMaps] using hn
    | .node _ :: .node _ :: _, _ => simp [transformChainRest] at h
    | .node cnode :: .rel crel :: rest, hlen =>
      simp only [transformChainRest] at h
      obtain ⟨nd, h1, h⟩ := (bind_eq_ok _ _ _).mp h
      obtain ⟨q, h2, h⟩ := (bind_eq_ok _ _ _).mp h
      obtain ⟨ps, h3, h⟩ := (bind_eq_ok _ _ _).mp h
      obtain ⟨e, h4, h⟩ := (bind_eq_ok _ _ _).mp h
      obtain ⟨qual, h5, h⟩ := (bind_eq_ok _ _ _).mp h
      obtain ⟨s2, h6, h⟩ := (bind_eq_ok _ _ _).mp h
      have hn := transformMatchNode_registered _ _ _ _ _ _
        (hfl cnode (by simp [chainNodes])) h1
      have hv := setInitialVidForVLR_registered _ _ _ _ _ _ h3
      have he := transformMatchRel_registered _ _ _ _ _ h4
      have ht := transformEdgeTail_registered _ _ _ _ _ _ h6
      have hstep : Registered s.pstate s2.pstate
          (cnode.prop_map.toList ++ (if crel.varlen.isNone then crel.prop_map.toList else [])) :=
        registered_trans hn (registered_step hv (registered_then he ht))
      have hfl2 : PropFlagsSet s2.pstate.p_node_info_list (chainNodes rest) :=
        registered_flags hstep _
          (propFlagsSet_mono _ _ _ (fun x hx => by simp [chainNodes, hx]) hfl)
      have hrest := ih rest (by simp only [List.length_cons] at hlen; omega) s2 crel e.1 r
        hfl2 h
      have hall := registered_trans hstep hrest
      simpa [chainPropMaps, List.append_assoc] using hall

theorem transformChain_registered (env : Env) (out : Bool) (chain : List ChainElem)
    (s : CompState) (r : CompState × VertexRef)
    (hfl : PropFlagsSet s.pstate.p_node_info_list (chainNodes chain))
    (h : transformChain env out s chain = .ok r) :
    Registered s.pstate r.1.pstate (chainPropMaps chain) := by
  match chain with
  | [] => simp [transformChain] at h
  | .rel _ :: _ => simp [transformChain] at h
  | [.node cnode] =>
    simp only [transformChain] at h
    obtain ⟨nd, h1, h⟩ := (bind_eq_ok _ _ _).mp h
    simp only [pure, Except.pure, Except.ok.injEq] at h
    subst h
    have hn := transformMatchNode_registered _ _ _ _ _ _
      (hfl cnode (by simp [chainNodes])) h1
    simpa [chainPropMaps] using hn
  | .node _ :: .node _ :: _ => simp [transformChain] at h
  | .node cnode :: .rel crel :: rest =>
    simp only [transformChain] at h
    obtain ⟨zero, _, h⟩ := (bind_eq_ok _ _ _).mp h
    obtain ⟨nd, h1, h⟩ := (bind_eq_ok _ _ _).mp h
    obtain ⟨ps, h3, h⟩ := (bind_eq_ok _ _ _).mp h
    obtain ⟨e, h4, h⟩ := (bind_eq_ok _ _ _).mp h
    obtain ⟨q, h2, h⟩ := (bind_eq_ok _ _ _).mp h
    obtain ⟨s2, h6, h⟩ := (bind_eq_ok _ _ _).mp h
    have hn := transformMatchNode_registered _ _ _ _ _ _
      (hfl cnode (by simp [chainNodes])) h1
    have hv := setInitialVidForVLR_registered _ _ _ _ _ _ h3
    have he := transformMatchRel_registered _ _ _ _ _ h4
    have ht := transformEdgeTail_registered _ _ _ _ _ _ h6
    have hstep : Registered s.pstate s2.pstate
        (cnode.prop_map.toList ++ (if crel.varlen.isNone then crel.prop_map.toList else [])) :=
      registered_trans hn (registered_step hv (registered_then he ht))
    have hfl2 : PropFlagsSet s2.pstate.p_node_info_list (chainNodes rest) :=
      registered_flags hstep _
        (propFlagsSet_mono _ _ _ (fun x hx => by simp [chainNodes, hx]) hfl)
    have hrest := transformChainRest_registered env out rest.length rest (Nat.le_refl _) s2
      crel e.1 r hfl2 h
    have hall := registered_trans hstep hrest
    simpa [chainPropMaps, List.append_assoc] using hall

theorem transformPathEnd_registered (s s2 : CompState) (vertex : VertexRef)
    (pathname : Option String) (h : transformPathEnd s vertex pathname = .ok s2) :
    Registered s.pstate s2.pstate [] := by
  unfold transformPathEnd at h
  split at h
  · split at h
    · cases h
    · simp only [Except.ok.injEq] at h
      subst h
      exact registered_of_eq rfl rfl
  · simp only [Except.ok.injEq] at h
    subst h
    exact registered_of_eq rfl rfl

theorem transformPath_registered (env : Env) (s s2 : CompState) (p : CypherPath)
    (hfl : PropFlagsSet s.pstate.p_node_info_list (chainNodes p.chain))
    (h : transformPath env s p = .ok s2) :
    Registered s.pstate s2.pstate (chainPropMaps p.chain) := by
  unfold transformPath at h
  simp only at h
  split at h
  · cases h
  · split at h
    · cases h
    · split at h
      · cases h
      · rename_i s1 vertex hchain
        have hg := transformChain_registered env _ p.chain _ (s1, vertex) (by exact hfl) hchain
        have hend := transformPathEnd_registered _ _ _ _ h
        exact registered_step (registered_of_eq rfl rfl) (registered_then hg hend)

theorem transformPaths_registered (env : Env) (c : List CypherPath) (s s2 : CompState)
    (hfl : ∀ p ∈ c, PropFlagsSet s.pstate.p_node_info_list (chainNodes p.chain))
    (h : transformPaths env s c = .ok s2) :
    Registered s.pstate s2.pstate (pathsPropMaps c) := by
  induction c generalizing s with
  | nil =>
    simp only [transformPaths, Except.ok.injEq] at h
    subst h
    exact registered_of_eq rfl rfl
  | cons p rest ih =>
    simp only [transformPaths] at h
    cases h1 : transformPath env s p with
    | error e => rw [h1] at h; cases h
    | ok s1 =>
      rw [h1] at h
      have hg := transformPath_registered env s s1 p (hfl p (List.mem_cons_self _ _)) h1
      have hrest := ih s1
        (fun q hq => registered_flags hg _ (hfl q (List.mem_cons_of_mem _ hq))) h
      exact registered_trans hg hrest

theorem transformComponent_registered (env : Env) (c : List CypherPath) (s s2 : CompState)
    (hfl : ∀ p ∈ c, PropFlagsSet s.pstate.p_node_info_list (chainNodes p.chain))
    (h : transformComponent env s c = .ok s2) :
    Registered s.pstate s2.pstate (pathsPropMaps c) := by
  unfold transformComponent at h
  cases h1 : transformPaths env { s with ueids := [] } c with
  | error e => rw [h1] at h; cases h
  | ok s1 =>
    rw [h1] at h
    simp only [Except.ok.injEq] at h
    subst h
    exact transformPaths_registered env c { s with ueids := [] } s1 hfl h1

theorem transformComponentsLoop_registered (env : Env) (components : List (List CypherPath))
    (s s2 : CompState)
    (hfl : ∀ c ∈ components, ∀ p ∈ c,
      PropFlagsSet s.pstate.p_node_info_list (chainNodes p.chain))
    (h : transformComponentsLoop env s components = .ok s2) :
    Registered s.pstate s2.pstate (componentsPropMaps components) := by
  induction components generalizing s with
  | nil =>
    simp only [transformComponentsLoop, Except.ok.injEq] at h
    subst h
    exact registered_of_eq rfl rfl
  | cons c rest ih =>
    simp only [transformComponentsLoop] at h
    cases h1 : transformComponent env s c with
    | error e => rw [h1] at h; cases h
    | ok s1 =>
      rw [h1] at h
      have hg := transformComponent_registered env c s s1 (hfl c (List.mem_cons_self _ _)) h1
      have hrest := ih s1
        (fun d hd q hq => registered_flags hg _ (hfl d (List.mem_cons_of_mem _ hd) q hq)) h
      exact registered_trans hg hrest

/-- The pending property constraints after `transformComponents`: those on entry,
followed by one per property map of a node or fixed-length relationship, in the order of
the components, paths and chains. -/
theorem transformComponents_registered (env : Env) (pstate : ParseState)
    (components : List (List CypherPath)) (targetList : List TargetEntry)
    (r : Option Expr × ParseState × List TargetEntry)
    (hfl : ∀ c ∈ components, ∀ p ∈ c,
      PropFlagsSet pstate.p_node_info_list (chainNodes p.chain))
    (h : transformComponents env pstate components targetList = .ok r) :
    Registered pstate r.2.1 (componentsPropMaps components) := by
  unfold transformComponents at h
  split at h
  · cases h
  · rename_i s hloop
    simp only [Except.ok.injEq] at h
    subst h
    exact transformComponentsLoop_registered env components _ s hfl hloop

/-! ### The property flags of `collectNodeInfo`, and the count -/

theorem collectNodeInfo_propFlagsSet (pattern : List CypherPath) (l : List NodeInfo)
    (h : collectNodeInfo [] pattern = .ok l) : PropFlagsSet l (patternNodes pattern) := by
  rw [collectNodeInfo_eq] at h
  rcases addNodeInfoList_run (patternNodes pattern) with ⟨l2, hl2, hinv⟩ | ⟨v, hv, _⟩
  · rw [hl2] at h
    simp only [Except.ok.injEq] at h
    subst h
    intro cnode hmem v hvn hpm ni hfind
    exact (hinv.sound v ni hfind).prop_iff.mpr ⟨cnode, hmem, hvn, hpm⟩
  · rw [hv] at h
    cases h

theorem chainNodes_mem_patternNodes (pattern : List CypherPath) (p : CypherPath)
    (hp : p ∈ pattern) : ∀ n ∈ chainNodes p.chain, n ∈ patternNodes pattern := by
  induction pattern with
  | nil => cases hp
  | cons q rest ih =>
    intro n hn
    simp only [patternNodes, List.mem_append]
    rcases List.mem_cons.mp hp with heq | hmem
    · subst heq
      exact Or.inl hn
    · exact Or.inr (ih hmem n hn)

theorem chainPropMaps_length (chain : List ChainElem) :
    (chainPropMaps chain).length = chain.countP carriesPropMap := by
  induction chain with
  | nil => rfl
  | cons x rest ih =>
    cases x with
    | node cnode =>
      obtain ⟨varname, label, prop_map⟩ := cnode
      simp only [chainPropMaps, List.length_append, ih, List.countP_cons, carriesPropMap]
      cases prop_map <;> simp [Nat.add_comm]
    | rel crel =>
      obtain ⟨direction, varname, types, varlen, prop_map⟩ := crel
      simp only [chainPropMaps, List.length_append, ih, List.countP_cons, carriesPropMap]
      cases varlen <;> cases prop_map <;> simp [Nat.add_comm]

theorem propMapOccurrences_cons (p : CypherPath) (rest : List CypherPath) :
    propMapOccurrences (p :: rest) =
      p.chain.countP carriesPropMap + propMapOccurrences rest := by
  simp [propMapOccurrences]

theorem propMapOccurrences_append (a b : List CypherPath) :
    propMapOccurrences (a ++ b) = propMapOccurrences a + propMapOccurrences b := by
  simp [propMapOccurrences]

theorem pathsPropMaps_length (c : List CypherPath) :
    (pathsPropMaps c).length = propMapOccurrences c := by
  induction c with
  | nil => rfl
  | cons p rest ih =>
    rw [propMapOccurrences_cons, pathsPropMaps, List.length_append, ih, chainPropMaps_length]

theorem componentsPropMaps_length (components : List (List CypherPath)) :
    (componentsPropMaps components).length = propMapOccurrences components.flatten := by
  induction components with
  | nil => rfl
  | cons c rest ih =>
    rw [componentsPropMaps, List.length_append, ih, pathsPropMaps_length, List.flatten_cons,
      propMapOccurrences_append]

theorem propMapOccurrences_perm (a b : List CypherPath) (h : a.Perm b) :
    propMapOccurrences a = propMapOccurrences b :=
  (h.map _).sum_eq

/-- The components of `makeComponents` hold the paths of the pattern, each once. -/
theorem makeComponents_flatten_perm (pattern : List CypherPath) :
    (makeComponents id pattern).flatten.Perm pattern := by
  classical
  exact (makeComponents_partitionInv id pattern).perm

theorem forall₂_length_eq {α β : Type} (R : α → β → Prop) (xs : List α) (ys : List β)
    (h : List.Forall₂ R xs ys) : ys.length = xs.length := by
  induction h with
  | nil => rfl
  | cons _ _ ih => simp [ih]

theorem adjustElemQuals_length (elem_quals : List ElemQual) (rtindex : Nat) :
    (adjustElemQuals elem_quals rtindex).length = elem_quals.length := by
  simp [adjustElemQuals]

/-- Claim C27: `transformElemQuals` returns the conjunction of the qual it is given and
exactly one containment predicate `properties(column) @> constraint` per pending
`ElemQual`, in the order of the list, each on the column `(varno, varattno)` recorded in
its `ElemQual`, and leaves the pending list empty; it returns whenever the expression
compiler compiles the constraints and the recorded columns are vertex or edge columns of
the range table. `addElemQual` registers nothing for an absent property map and one
`ElemQual` for a present one, so that `transformComponents` on the components of a
pattern, with the node information of `collectNodeInfo`, registers the property maps of
the nodes and fixed-length relationships of the pattern, one `ElemQual` each, and the
number of containment predicates built from them in the enclosing query is the number of
node and fixed-length relationship occurrences of the pattern that carry a property
map. -/
theorem transformElemQuals_one_predicate_per_property_map :
    (∀ (env : Env) (pstate : ParseState) (qual q : Option Expr) (s : ParseState),
      transformElemQuals env pstate qual = .ok (q, s) →
        s.p_elem_quals = [] ∧
        ∃ preds, q = preds.foldl (fun acc e => qualAndExpr acc (some e)) qual ∧
          conjuncts q = conjuncts qual ++ preds ∧
          preds.length = pstate.p_elem_quals.length ∧
          List.Forall₂ (IsContainmentOf env) pstate.p_elem_quals preds) ∧
    (∀ (env : Env) (pstate : ParseState) (qual : Option Expr),
      (∀ s pm e s2, env.transformPropMap s pm = .ok (e, s2) → Extends s s2) →
      (∀ s, ∀ elem ∈ pstate.p_elem_quals,
        ∃ e s2, env.transformPropMap s elem.prop_constr = .ok (e, s2)) →
      (∀ elem ∈ pstate.p_elem_quals,
        ∃ name var, make_var pstate elem.varno elem.varattno = .ok (name, var) ∧
          (var.vartype = .VERTEXOID ∨ var.vartype = .EDGEOID)) →
      ∃ q s, transformElemQuals env pstate qual = .ok (q, s)) ∧
    (∀ (pstate : ParseState) (varattno : Nat), addElemQual pstate varattno none = pstate) ∧
    (∀ (pstate : ParseState) (varattno : Nat) (pc : RawNode),
      (addElemQual pstate varattno (some pc)).p_elem_quals =
        pstate.p_elem_quals ++
          [{ varno := InvalidAttrNumber, varattno := varattno, prop_constr := pc }]) ∧
    (∀ (env : Env) (pstate : ParseState) (pattern : List CypherPath)
      (targetList : List TargetEntry) (r : Option Expr × ParseState × List TargetEntry),
      collectNodeInfo [] pattern = .ok pstate.p_node_info_list →
      transformComponents env pstate (makeComponents id pattern) targetList = .ok r →
        Registered pstate r.2.1 (componentsPropMaps (makeComponents id pattern)) ∧
        (componentsPropMaps (makeComponents id pattern)).length = propMapOccurrences pattern ∧
        ∀ (outer : ParseState) (rtindex : Nat) (wqual q : Option Expr) (s : ParseState),
          pstate.p_elem_quals = [] →
          outer.p_elem_quals = adjustElemQuals r.2.1.p_elem_quals rtindex →
          transformElemQuals env outer wqual = .ok (q, s) →
          ∃ preds, conjuncts q = conjuncts wqual ++ preds ∧
            preds.length = propMapOccurrences pattern ∧
            outer.p_elem_quals.map (fun elem => elem.prop_constr) =
              componentsPropMaps (makeComponents id pattern) ∧
            (∀ elem ∈ outer.p_elem_quals, elem.varno = rtindex) ∧
            List.Forall₂ (IsContainmentOf env) outer.p_elem_quals preds) := by
  refine ⟨?_, ?_, fun _ _ => rfl, fun _ _ _ => rfl, ?_⟩
  · intro env pstate qual q s h
    obtain ⟨hs, preds, hq, hc, hall⟩ := transformElemQuals_sound env pstate qual q s h
    exact ⟨hs, preds, hq, hc, forall₂_length_eq _ _ _ hall, hall⟩
  · intro env pstate qual hrt hpm hcol
    obtain ⟨r, hr⟩ := transformElemQualsLoop_total env hrt pstate.p_elem_quals hpm pstate qual
      hcol
    refine ⟨r.1, { r.2 with p_elem_quals := [] }, ?_⟩
    unfold transformElemQuals
    rw [hr]
  · intro env pstate pattern targetList r hni hrun
    have hperm := makeComponents_flatten_perm pattern
    have hflags : ∀ c ∈ makeComponents id pattern, ∀ p ∈ c,
        PropFlagsSet pstate.p_node_info_list (chainNodes p.chain) := by
      intro c hc p hp
      have hmem : p ∈ pattern :=
        hperm.mem_iff.mp (List.mem_flatten.mpr ⟨c, hc, hp⟩)
      exact propFlagsSet_mono _ _ _ (chainNodes_mem_patternNodes pattern p hmem)
        (collectNodeInfo_propFlagsSet pattern _ hni)
    have hreg := transformComponents_registered env pstate _ targetList r hflags hrun
    have hlen : (componentsPropMaps (makeComponents id pattern)).length =
        propMapOccurrences pattern := by
      rw [componentsPropMaps_length]
      exact propMapOccurrences_perm _ _ hperm
    refine ⟨hreg, hlen, ?_⟩
    intro outer rtindex wqual q s hempty houter h
    obtain ⟨_, preds, _, hc, hall⟩ := transformElemQuals_sound env outer wqual q s h
    obtain ⟨_, added, hadd, hmap, _⟩ := hreg
    rw [hempty, List.nil_append] at hadd
    have hpm : outer.p_elem_quals.map (fun elem => elem.prop_constr) =
        componentsPropMaps (makeComponents id pattern) := by
      rw [houter, hadd, ← hmap]
      simp [adjustElemQuals]
    refine ⟨preds, hc, ?_, hpm, ?_, hall⟩
    · rw [forall₂_length_eq _ _ _ hall, ← hlen, ← hpm, List.length_map]
    · intro elem helem
      rw [houter] at helem
      simp only [adjustElemQuals, List.mem_map] at helem
      obtain ⟨x, _, hx⟩ := helem
      rw [← hx]

/-- The pattern `(a:person {1})-[r:knows {2}]->(b), (b:person)-[*1..2 {3}]->(a {4})` has
three occurrences that carry a checked property map (the one of the quantified
relationship is not among them); its inner pass registers them, and
`transformElemQuals` returns three containment predicates in the enclosing query: on the
properties of the vertex column 1 for the map 1, of the edge column 2 for the map 2, and
of the vertex column 1 for the map 4. -/
theorem transformElemQuals_one_predicate_per_property_map_witness :
    collectNodeInfo [] samplePropPattern =
      .ok (parseStateFor samplePropPattern).p_node_info_list ∧
    transformComponents propEnv (parseStateFor samplePropPattern)
      (makeComponents id samplePropPattern) [] = .ok samplePropInner ∧
    transformElemQuals propEnv samplePropOuterState none = .ok sampleElemQualsResult ∧
    propMapOccurrences samplePropPattern = 3 ∧
    conjuncts sampleElemQualsResult.1 =
      [.OpExpr "@>" (.FieldSelect (.Var (vertexColumn 1 1)) 2 .JSONBOID)
         (.FuncExpr "jsonb_in" [.Const (.other 1) false] .JSONBOID),
       .OpExpr "@>" (.FieldSelect
           (.Var { varno := 1, varattno := 2, vartype := .EDGEOID, varlevelsup := 0 }) 4
           .JSONBOID)
         (.FuncExpr "jsonb_in" [.Const (.other 2) false] .JSONBOID),
       .OpExpr "@>" (.FieldSelect (.Var (vertexColumn 1 1)) 2 .JSONBOID)
         (.FuncExpr "jsonb_in" [.Const (.other 4) false] .JSONBOID)] ∧
    (∃ preds, conjuncts sampleElemQualsResult.1 = conjuncts none ++ preds ∧
      preds.length = propMapOccurrences samplePropPattern ∧
      samplePropOuterState.p_elem_quals.map (fun elem => elem.prop_constr) =
        componentsPropMaps (makeComponents id samplePropPattern) ∧
      (∀ elem ∈ samplePropOuterState.p_elem_quals, elem.varno = 1) ∧
      List.Forall₂ (IsContainmentOf propEnv) samplePropOuterState.p_elem_quals preds) :=
  ⟨rfl, rfl, rfl, rfl, rfl,
    (transformElemQuals_one_predicate_per_property_map.2.2.2.2 propEnv
      (parseStateFor samplePropPattern) samplePropPattern [] samplePropInner rfl rfl).2.2
      samplePropOuterState 1 none sampleElemQualsResult.1 sampleElemQualsResult.2 rfl rfl rfl⟩

/-! ## Theorems: the columns of a join (`makeJoinResCols`) -/

theorem findResCol_none_iff (res_cols : List (String × Var)) (name : String) :
    findResCol res_cols name = none ↔ name ∉ res_cols.map Prod.fst := by
  induction res_cols with
  | nil => simp [findResCol]
  | cons c rest ih =>
    obtain ⟨colname, var⟩ := c
    unfold findResCol
    by_cases h : name = colname
    · simp [h]
    · simp [h, ih]

theorem findResCol_mem (res_cols : List (String × Var)) (name : String) (var : Var)
    (h : findResCol res_cols name = some var) : (name, var) ∈ res_cols := by
  induction res_cols with
  | nil => simp [findResCol] at h
  | cons c rest ih =>
    obtain ⟨colname, v⟩ := c
    unfold findResCol at h
    by_cases hn : name = colname
    · rw [if_pos hn] at h
      simp only [Option.some.injEq] at h
      rw [hn, h]
      exact List.mem_cons_self _ _
    · rw [if_neg hn] at h
      exact List.mem_cons_of_mem _ (ih h)

theorem findResCol_of_mem (res_cols : List (String × Var))
    (hnodup : (res_cols.map Prod.fst).Nodup) (name : String) (var : Var)
    (h : (name, var) ∈ res_cols) : findResCol res_cols name = some var := by
  induction res_cols with
  | nil => cases h
  | cons c rest ih =>
    obtain ⟨colname, v⟩ := c
    simp only [List.map_cons, List.nodup_cons] at hnodup
    unfold findResCol
    rcases List.mem_cons.mp h with h1 | h1
    · simp only [Prod.mk.injEq] at h1
      rw [if_pos h1.1, h1.2]
    · have hne : name ≠ colname := by
        intro heq
        apply hnodup.1
        rw [← heq]
        exact List.mem_map.mpr ⟨(name, var), h1, rfl⟩
      rw [if_neg hne]
      exact ih hnodup.2 h1

theorem findResCol_append (res_cols more : List (String × Var)) (name : String) (var : Var)
    (h : findResCol res_cols name = some var) : findResCol (res_cols ++ more) name = some var := by
  induction res_cols with
  | nil => simp [findResCol] at h
  | cons c rest ih =>
    obtain ⟨colname, v⟩ := c
    simp only [List.cons_append]
    unfold findResCol at h ⊢
    by_cases hn : name = colname
    · rw [if_pos hn] at h ⊢
      exact h
    · rw [if_neg hn] at h ⊢
      exact ih h

/-- A right column is compatible with the columns collected so far: if a column of its
name is among them, both have the same type, vertex or edge. -/
theorem makeJoinResColsLoop_ok_iff (res_cols : List (String × Var)) :
    ∀ (r_cols cols out : List (String × Var)),
      makeJoinResColsLoop res_cols r_cols cols = .ok out ↔
        (∀ r ∈ r_cols, ∀ var, findResCol res_cols r.1 = some var →
          var.vartype = r.2.vartype ∧ (var.vartype = .VERTEXOID ∨ var.vartype = .EDGEOID)) ∧
        out = cols ++ r_cols.filter (fun r => (findResCol res_cols r.1).isNone) := by
  intro r_cols
  induction r_cols with
  | nil =>
    intro cols out
    simp only [makeJoinResColsLoop, Except.ok.injEq, List.not_mem_nil, false_implies,
      implies_true, List.filter_nil, List.append_nil, true_and]
    exact eq_comm
  | cons r rest ih =>
    intro cols out
    obtain ⟨r_colname, r_var⟩ := r
    unfold makeJoinResColsLoop
    cases hf : findResCol res_cols r_colname with
    | none =>
      simp only [ih, List.mem_cons, forall_eq_or_imp, hf, Option.isNone_none,
        List.filter_cons_of_pos, List.append_assoc, List.singleton_append]
      constructor
      · rintro ⟨h1, h2⟩
        exact ⟨⟨fun var hv => (by cases hv), h1⟩, h2⟩
      · rintro ⟨⟨_, h1⟩, h2⟩
        exact ⟨h1, h2⟩
    | some var =>
      simp only [List.mem_cons, forall_eq_or_imp, hf, Option.some.injEq, forall_eq',
        Option.isNone_some, Bool.false_eq_true, not_false_eq_true, List.filter_cons_of_neg]
      by_cases ht : var.vartype ≠ r_var.vartype
      · rw [if_pos ht]
        constructor
        · intro h
          cases h
        · rintro ⟨⟨⟨h1, _⟩, _⟩, _⟩
          exact absurd h1 ht
      · rw [if_neg ht]
        by_cases hk : var.vartype ≠ .VERTEXOID ∧ var.vartype ≠ .EDGEOID
        · rw [if_pos hk]
          constructor
          · intro h
            cases h
          · rintro ⟨⟨⟨_, h1⟩, _⟩, _⟩
            rcases h1 with h1 | h1
            · exact absurd h1 hk.1
            · exact absurd h1 hk.2
        · rw [if_neg hk, ih]
          have ht2 : var.vartype = r_var.vartype := not_not.mp ht
          have hk2 : var.vartype = .VERTEXOID ∨ var.vartype = .EDGEOID := by
            by_cases hv : var.vartype = .VERTEXOID
            · exact Or.inl hv
            · exact Or.inr (not_not.mp (fun he => hk ⟨hv, he⟩))
          constructor
          · rintro ⟨h1, h2⟩
            exact ⟨⟨⟨ht2, hk2⟩, h1⟩, h2⟩
          · rintro ⟨⟨_, h1⟩, h2⟩
            exact ⟨h1, h2⟩

/-- Claim C28: for column lists with unique names on each side, `makeJoinResCols` (called
with empty result lists, as `incrementalJoinRTEs` does) succeeds if and only if no right
column shares its name with a left column of another type or of a type that is neither
vertex nor edge; when it succeeds, the result is the left columns in order followed, in
order, by the right columns whose name does not occur on the left, and a name of the left
side is resolved to the left column. The first failing right column decides the error:
`variable type mismatch` when the types differ, `node or relationship is expected`
otherwise. -/
theorem makeJoinResCols_left_columns_first (l_cols r_cols : List (String × Var))
    (hl : (l_cols.map Prod.fst).Nodup) (hr : (r_cols.map Prod.fst).Nodup) :
    ((∃ res, makeJoinResCols [] l_cols r_cols = .ok res) ↔
      ¬ ∃ l ∈ l_cols, ∃ r ∈ r_cols, r.1 = l.1 ∧
        (l.2.vartype ≠ r.2.vartype ∨
          (l.2.vartype ≠ .VERTEXOID ∧ l.2.vartype ≠ .EDGEOID))) ∧
    (∀ res, makeJoinResCols [] l_cols r_cols = .ok res →
      res = l_cols ++ r_cols.filter (fun r => decide (r.1 ∉ l_cols.map Prod.fst)) ∧
      (∀ l ∈ l_cols, findResCol res l.1 = some l.2) ∧
      (res.map Prod.fst).Nodup) ∧
    (∀ e, makeJoinResCols [] l_cols r_cols = .error e →
      e = .variable_type_mismatch ∨ e = .node_or_relationship_expected) := by
  have hfilter : r_cols.filter (fun r => (findResCol l_cols r.1).isNone) =
      r_cols.filter (fun r => decide (r.1 ∉ l_cols.map Prod.fst)) := by
    apply List.filter_congr
    intro r _
    by_cases hm : r.1 ∈ l_cols.map Prod.fst
    · have : findResCol l_cols r.1 ≠ none := fun h => (findResCol_none_iff _ _).mp h hm
      cases hf : findResCol l_cols r.1 with
      | none => exact absurd hf this
      | some v => simp [hm]
    · rw [(findResCol_none_iff _ _).mpr hm]
      simp [hm]
  have hok : ∀ res, makeJoinResCols [] l_cols r_cols = .ok res ↔
      (∀ r ∈ r_cols, ∀ var, findResCol l_cols r.1 = some var →
        var.vartype = r.2.vartype ∧ (var.vartype = .VERTEXOID ∨ var.vartype = .EDGEOID)) ∧
      res = l_cols ++ r_cols.filter (fun r => decide (r.1 ∉ l_cols.map Prod.fst)) := by
    intro res
    unfold makeJoinResCols
    simp only [List.nil_append, bind, Except.bind, pure, Except.pure]
    cases hloop : makeJoinResColsLoop l_cols r_cols [] with
    | error e =>
      constructor
      · intro h
        cases h
      · rintro ⟨hall, _⟩
        have := (makeJoinResColsLoop_ok_iff l_cols r_cols [] _).mpr ⟨hall, rfl⟩
        rw [hloop] at this
        cases this
    | ok cols =>
      obtain ⟨hall, hcols⟩ := (makeJoinResColsLoop_ok_iff l_cols r_cols [] cols).mp hloop
      rw [List.nil_append, hfilter] at hcols
      simp only [Except.ok.injEq, hcols]
      constructor
      · intro h
        exact ⟨hall, h.symm⟩
      · intro h
        exact h.2.symm
  refine ⟨?_, ?_, ?_⟩
  · constructor
    · rintro ⟨res, hres⟩ ⟨l, hlm, r, hrm, hname, hbad⟩
      have hall := ((hok res).mp hres).1 r hrm l.2
        (by rw [hname]; exact findResCol_of_mem l_cols hl l.1 l.2 hlm)
      rcases hbad with hbad | hbad
      · exact hbad hall.1
      · rcases hall.2 with h | h
        · exact hbad.1 h
        · exact hbad.2 h
    · intro hno
      refine ⟨_, (hok _).mpr ⟨?_, rfl⟩⟩
      intro r hrm var hvar
      have hmem := findResCol_mem l_cols r.1 var hvar
      by_contra hcon
      apply hno
      refine ⟨(r.1, var), hmem, r, hrm, rfl, ?_⟩
      by_cases ht : var.vartype = r.2.vartype
      · right
        constructor
        · intro hv
          exact hcon ⟨ht, Or.inl hv⟩
        · intro he
          exact hcon ⟨ht, Or.inr he⟩
      · exact Or.inl ht
  · intro res hres
    obtain ⟨_, hres2⟩ := (hok res).mp hres
    refine ⟨hres2, ?_, ?_⟩
    · intro l hlm
      rw [hres2]
      exact findResCol_append l_cols _ l.1 l.2 (findResCol_of_mem l_cols hl l.1 l.2 hlm)
    · rw [hres2, List.map_append, List.nodup_append]
      refine ⟨hl, ?_, ?_⟩
      · exact (hr.sublist ((List.filter_sublist _).map Prod.fst))
      · intro a ha hb
        obtain ⟨r, hrf, hra⟩ := List.mem_map.mp hb
        have hnot := (List.mem_filter.mp hrf).2
        simp only [decide_eq_true_eq] at hnot
        rw [hra] at hnot
        exact hnot ha
  · intro e he
    unfold makeJoinResCols at he
    simp only [List.nil_append, bind, Except.bind, pure, Except.pure] at he
    cases hloop : makeJoinResColsLoop l_cols r_cols [] with
    | ok cols => rw [hloop] at he; cases he
    | error e2 =>
      rw [hloop] at he
      simp only [Except.error.injEq] at he
      subst he
      clear hok hfilter hr
      generalize ([] : List (String × Var)) = cols at hloop
      induction r_cols generalizing cols with
      | nil => simp [makeJoinResColsLoop] at hloop
      | cons r rest ih =>
        obtain ⟨r_colname, r_var⟩ := r
        unfold makeJoinResColsLoop at hloop
        cases hf : findResCol l_cols r_colname with
        | none =>
          rw [hf] at hloop
          exact ih _ hloop
        | some var =>
          rw [hf] at hloop
          simp only at hloop
          by_cases ht : var.vartype ≠ r_var.vartype
          · rw [if_pos ht] at hloop
            simp only [Except.error.injEq] at hloop
            exact Or.inl hloop.symm
          · rw [if_neg ht] at hloop
            by_cases hk : var.vartype ≠ .VERTEXOID ∧ var.vartype ≠ .EDGEOID
            · rw [if_pos hk] at hloop
              simp only [Except.error.injEq] at hloop
              exact Or.inr hloop.symm
            · rw [if_neg hk] at hloop
              exact ih _ hloop

/-- Witness of C28: the left columns `a` (a vertex) and `n` (an integer), the right
columns `a` (a vertex) and `b` (a vertex): the join has the columns `a` of the left side,
`n` and `b`. -/
theorem makeJoinResCols_left_columns_first_witness :
    makeJoinResCols []
        [("a", { varno := 1, varattno := 1, vartype := .VERTEXOID, varlevelsup := 0 }),
         ("n", { varno := 1, varattno := 2, vartype := .other 23, varlevelsup := 0 })]
        [("a", { varno := 2, varattno := 1, vartype := .VERTEXOID, varlevelsup := 0 }),
         ("b", { varno := 2, varattno := 2, vartype := .VERTEXOID, varlevelsup := 0 })] =
      .ok [("a", { varno := 1, varattno := 1, vartype := .VERTEXOID, varlevelsup := 0 }),
           ("n", { varno := 1, varattno := 2, vartype := .other 23, varlevelsup := 0 }),
           ("b", { varno := 2, varattno := 2, vartype := .VERTEXOID, varlevelsup := 0 })] ∧
    (["a", "n"] : List String).Nodup ∧ (["a", "b"] : List String).Nodup ∧
    findResCol
        [("a", { varno := 1, varattno := 1, vartype := .VERTEXOID, varlevelsup := 0 }),
         ("n", { varno := 1, varattno := 2, vartype := .other 23, varlevelsup := 0 }),
         ("b", { varno := 2, varattno := 2, vartype := .VERTEXOID, varlevelsup := 0 })] "a" =
      some { varno := 1, varattno := 1, vartype := .VERTEXOID, varlevelsup := 0 } :=
  ⟨rfl, by decide, by decide,
   ((makeJoinResCols_left_columns_first
      [("a", { varno := 1, varattno := 1, vartype := .VERTEXOID, varlevelsup := 0 }),
       ("n", { varno := 1, varattno := 2, vartype := .other 23, varlevelsup := 0 })]
      [("a", { varno := 2, varattno := 1, vartype := .VERTEXOID, varlevelsup := 0 }),
       ("b", { varno := 2, varattno := 2, vartype := .VERTEXOID, varlevelsup := 0 })]
      (by decide) (by decide)).2.1 _ rfl).2.1 _ (List.mem_cons_self _ _)⟩

/-! ## Theorems: a future vertex that is used again in the pattern -/

/-- Claim C29, failing input: in `MATCH (a)-[]->(b), p = (b)-[]->(c)` the first path
leaves `b` as a future vertex; for the named path `transformMatchNode` finds `b` in the
target list and returns that entry, whatever `force` says, and `makePathVertexExpr` puts
its row into the path value: the first vertex of `p` is the placeholder row whose
property payload is the `NULL` constant. -/
theorem transformComponents_path_holds_placeholder :
    makeComponents id sampleReusePattern = [sampleReusePattern] ∧
    (pathValueOf sampleReusePattern "p").map pathVertices =
      some [.RowExpr [.Var { varno := 2, varattno := 2, vartype := .GRAPHIDOID,
                             varlevelsup := 0 },
                      .Const .JSONBOID true] .VERTEXOID,
            .RowExpr [.Var { varno := 3, varattno := 1, vartype := .GRAPHIDOID,
                             varlevelsup := 0 },
                      .Var { varno := 3, varattno := 2, vartype := .JSONBOID,
                             varlevelsup := 0 }] .VERTEXOID] ∧
    ((pathValueOf sampleReusePattern "p").map
      (fun p => (pathVertices p).map isFutureVertexRow)) = some [true, false] :=
  ⟨rfl, rfl, rfl⟩

/-- Claim C30, failing input: in `MATCH (x)-[]->(a), (a)-[*0..1]->(b)` the first path
leaves `a` as a future vertex; at the start of the second path `transformMatchNode`,
called with `force` set for the zero-length relationship, finds `a` in the target list
and returns that entry, `setInitialVidForVLR` sees a future vertex without previous
relationship and sets the initial vertex identifier to `NULL`, and `genSelectLeftVLR`
builds the `VALUES` row of the base branch with that `NULL` as its end. -/
theorem genSelectLeftVLR_zero_length_null_vid :
    makeComponents id sampleZeroReusePattern = [sampleZeroReusePattern] ∧
    isZeroLengthVLR sampleZeroRel = .ok true ∧
    transformMatchNode sampleEnv zeroReuseStart.pstate sampleNodeA (true || false)
      zeroReuseStart.targetList = .ok zeroReuseNode ∧
    zeroReuseNode.1 = .te 1 ∧
    isFutureVertexExpr zeroReuseNode.2.2 zeroReuseNode.1 = true ∧
    setInitialVidForVLR zeroReuseNode.2.1 zeroReuseNode.2.2 sampleZeroRel zeroReuseNode.1 none =
      .ok zeroReuseState ∧
    zeroReuseState.p_vlr_initial_vid = none ∧
    (genSelectLeftVLR sampleEnv zeroReuseState sampleZeroRel).map SelectStmt.valuesLists =
      .ok [[none, some (.A_Const 0), some (.TypeCast (.A_ArrayExpr []) "_graphid")]] :=
  ⟨rfl, rfl, rfl, rfl, rfl, rfl, rfl, rfl⟩

end ParseGraph
